import Mathlib

/-!
# go-rate-limiter: a shallow embedding of `pkg/ratelimiter` and `pkg/storage`

Modelling conventions.

* `time.Time` is the number of nanoseconds since the Go zero time (an `Int`);
  `time.Duration` is an `int64` number of nanoseconds (an `Int`).  The library
  functions `IsZero`, `Add`, `Sub` (saturating), `After`, `Before`, `Truncate`
  and `Duration.Seconds` follow the documentation of package `time`.
* `float64` is modelled twice.  The functions `f64`, `float64`, `fadd`, `fsub`,
  `fmul`, `fdiv` and the definitions under `F64` follow IEEE-754 binary64: a
  value is the rational it denotes, and every operation of the source rounds
  its exact result to the nearest value with a 53-bit significand, ties to
  even, with gradual underflow, one operation at a time (as compiled for
  amd64, where no multiplication is fused with an addition).  Infinities and
  NaN are not modelled: the bucket paths divide only by `window.Seconds()`,
  positive for a validated configuration, and stay far below the largest
  `float64` for `int64` inputs.  A conversion to `int64` truncates; out of
  range it gives `MinInt64`, as on amd64.  The properties of the bucket paths
  that depend on the rounding of the level are stated over these
  definitions.  The definitions without the prefix (`allowTokenBucket`,
  `tokenLevel`, ...) keep the level as an exact rational; they serve the
  properties that do not depend on rounding (bookkeeping, storage, the
  window algorithms) and the idealised arithmetic of the specification.
* `int64` arithmetic on values supplied by the caller (`count + n`,
  `len + n`, `Window * 2`) wraps (`wrap64`); the metrics counters, which start
  at zero and grow by one per call, are plain integers.
* Every operation receives the reading `now` of the clock; all the calls of
  `time.Now()` made during one operation return that reading.
* The stored bytes are the JSON documents written by `json.Marshal`; `Bytes`
  keeps the value that was marshalled, and `corrupt` stands for bytes that
  `json.Unmarshal` rejects.
* Mutexes are not modelled: operations run one after the other.
-/

namespace RateLimiter

/-! ## Machine integers and package `time` -/

/-- The largest `int64`. -/
def maxInt64 : Int := 9223372036854775807

/-- The smallest `int64`. -/
def minInt64 : Int := -9223372036854775808

/-- Two's complement wrap-around of an `int64` result. -/
def wrap64 (x : Int) : Int :=
  (x + 9223372036854775808) % 18446744073709551616 - 9223372036854775808

/-- Go `Time.IsZero`. -/
def Time.IsZero (t : Int) : Bool := decide (t = 0)

/-- Go `Time.Add`. -/
def Time.Add (t : Int) (d : Int) : Int := t + d

/-- Go `Time.Sub`: the difference, saturated to the range of a `Duration`. -/
def Time.Sub (t u : Int) : Int :=
  if maxInt64 < t - u then maxInt64
  else if t - u < minInt64 then minInt64
  else t - u

/-- Go `Time.After`. -/
def Time.After (t u : Int) : Bool := decide (u < t)

/-- Go `Time.Before`. -/
def Time.Before (t u : Int) : Bool := decide (t < u)

/-- Go `Time.Truncate`: round down to a multiple of `d` since the zero time;
`t` itself when `d <= 0`. -/
def Time.Truncate (t : Int) (d : Int) : Int :=
  if d ≤ 0 then t else t - t % d

/-- Go `Duration.Seconds`. -/
def Duration.Seconds (d : Int) : ℚ := (d : ℚ) / 1000000000

/-! ## Package `storage` -/

/-- The errors of `storage/errors.go`. -/
inductive StorageError
  | ErrKeyNotFound
  | ErrStorageClosed
  | ErrInvalidKey
  | ErrInvalidValue
  | ErrConnectionFailed
  | ErrTimeout
  deriving DecidableEq, Repr

/-- Struct `bucketData` of `ratelimiter.go`. -/
structure bucketData where
  Tokens : ℚ
  LastRefill : Int
  deriving DecidableEq, Repr

/-- Struct `windowData` of `ratelimiter.go`. -/
structure windowData where
  Count : Int
  WindowStart : Int
  Requests : List Int
  deriving DecidableEq, Repr

/-- The byte strings held by the storage, up to JSON encoding. -/
inductive Bytes
  | bucketJSON (b : bucketData)
  | windowJSON (w : windowData)
  | corrupt
  deriving DecidableEq, Repr

/-- Go `json.Unmarshal` into a `bucketData`: a document without the fields of
the struct leaves them at their zero values. -/
def unmarshalBucket : Bytes → Option bucketData
  | .bucketJSON b => some b
  | .windowJSON _ => some { Tokens := 0, LastRefill := 0 }
  | .corrupt => none

/-- Go `json.Unmarshal` into a `windowData`. -/
def unmarshalWindow : Bytes → Option windowData
  | .windowJSON w => some w
  | .bucketJSON _ => some { Count := 0, WindowStart := 0, Requests := [] }
  | .corrupt => none

/-- Struct `memoryItem`; a zero `expiresAt` means that the item never expires. -/
structure memoryItem where
  value : Bytes
  expiresAt : Int
  deriving DecidableEq, Repr

/-- Method `memoryItem.isExpired`. -/
def memoryItem.isExpired (item : memoryItem) (now : Int) : Bool :=
  !Time.IsZero item.expiresAt && Time.After now item.expiresAt

/-- Go `delete(m, key)` on a map kept as an association list. -/
def mapDelete (key : String) (m : List (String × memoryItem)) :
    List (String × memoryItem) :=
  m.filter (fun p => !(p.1 == key))

/-- Go `m[key] = item`. -/
def mapInsert (key : String) (item : memoryItem) (m : List (String × memoryItem)) :
    List (String × memoryItem) :=
  (key, item) :: mapDelete key m

/-- Struct `MemoryStorage`. -/
structure MemoryStorage where
  items : List (String × memoryItem)
  closed : Bool
  deriving DecidableEq, Repr

/-- Function `storage.NewMemory`. -/
def NewMemory : MemoryStorage := { items := [], closed := false }

/-- Method `MemoryStorage.Get`. -/
def MemoryStorage.Get (ms : MemoryStorage) (key : String) (now : Int) :
    Except StorageError Bytes × MemoryStorage :=
  if ms.closed then (.error .ErrStorageClosed, ms)
  else
    match ms.items.lookup key with
    | none => (.error .ErrKeyNotFound, ms)
    | some item =>
      if item.isExpired now then
        (.error .ErrKeyNotFound, { ms with items := mapDelete key ms.items })
      else (.ok item.value, ms)

/-- Method `MemoryStorage.Set`. -/
def MemoryStorage.Set (ms : MemoryStorage) (key : String) (value : Bytes)
    (ttl : Int) (now : Int) : Option StorageError × MemoryStorage :=
  if ms.closed then (some .ErrStorageClosed, ms)
  else
    let item : memoryItem :=
      { value := value, expiresAt := if 0 < ttl then Time.Add now ttl else 0 }
    (none, { ms with items := mapInsert key item ms.items })

/-- Method `MemoryStorage.Delete`. -/
def MemoryStorage.Delete (ms : MemoryStorage) (key : String) :
    Option StorageError × MemoryStorage :=
  if ms.closed then (some .ErrStorageClosed, ms)
  else (none, { ms with items := mapDelete key ms.items })

/-- Method `MemoryStorage.Close`. -/
def MemoryStorage.Close (ms : MemoryStorage) : Option StorageError × MemoryStorage :=
  if ms.closed then (none, ms)
  else (none, { items := [], closed := true })

/-- Method `MemoryStorage.Exists`. -/
def MemoryStorage.Exists (ms : MemoryStorage) (key : String) (now : Int) :
    (Bool × Option StorageError) × MemoryStorage :=
  if ms.closed then ((false, some .ErrStorageClosed), ms)
  else
    match ms.items.lookup key with
    | none => ((false, none), ms)
    | some item =>
      if item.isExpired now then
        ((false, none), { ms with items := mapDelete key ms.items })
      else ((true, none), ms)

/-- Method `MemoryStorage.Cleanup`: the loop visits the entries of the map and
deletes, by key, those that have expired, counting them. -/
def MemoryStorage.Cleanup (ms : MemoryStorage) (now : Int) : Nat × MemoryStorage :=
  if ms.closed then (0, ms)
  else
    let r :=
      ms.items.foldl
        (fun (acc : Nat × List (String × memoryItem)) (p : String × memoryItem) =>
          if !Time.IsZero p.2.expiresAt && Time.After now p.2.expiresAt then
            (acc.1 + 1, mapDelete p.1 acc.2)
          else acc)
        (0, ms.items)
    (r.1, { ms with items := r.2 })

/-- Method `MemoryStorage.Size`. -/
def MemoryStorage.Size (ms : MemoryStorage) : Nat :=
  if ms.closed then 0 else ms.items.length

/-! ## Package `ratelimiter`: types -/

/-- Constant `TokenBucket` of Go `type Algorithm int` (iota 0). -/
abbrev TokenBucket : Int := 0

/-- Constant `FixedWindow` (iota 1). -/
abbrev FixedWindow : Int := 1

/-- Constant `SlidingWindow` (iota 2). -/
abbrev SlidingWindow : Int := 2

/-- Constant `LeakyBucket` (iota 3). -/
abbrev LeakyBucket : Int := 3

/-- Struct `Config`. -/
structure Config where
  Algorithm : Int
  Rate : Int
  Window : Int
  BurstSize : Int
  CleanupInterval : Int
  Storage : Option MemoryStorage
  KeyExtractor : Option (String → String)

/-- Struct `Metrics` (counters are not wrapped: they start at zero and grow by
one per call). -/
structure Metrics where
  TotalRequests : Int
  AllowedRequests : Int
  DeniedRequests : Int
  AverageLatency : Int
  ActiveKeys : Int
  LastCleanup : Int
  deriving DecidableEq, Repr

/-- The errors built with `fmt.Errorf` in `ratelimiter.go`. -/
inductive LimiterError
  | rateNotPositive
  | windowNotPositive
  | invalidConfig (cause : LimiterError)
  | limiterClosed
  | deserialize
  | storage (e : StorageError)
  deriving DecidableEq, Repr

/-- Struct `rateLimiter`; `cancelled` records that `cancel()` has been called. -/
structure rateLimiter where
  config : Config
  storage : MemoryStorage
  metrics : Metrics
  closed : Bool
  cancelled : Bool

/-! ## Package `ratelimiter`: construction -/

/-- Function `validateConfig`.  The second component is the value of the
parameter `config` when the function returns: Go passes the struct by value,
so the caller never sees it. -/
def validateConfig (config : Config) : Option LimiterError × Config :=
  if config.Rate ≤ 0 then (some .rateNotPositive, config)
  else if config.Window ≤ 0 then (some .windowNotPositive, config)
  else if config.Algorithm = TokenBucket ∧ config.BurstSize ≤ 0 then
    (none, { config with BurstSize := config.Rate })
  else (none, config)

/-- Function `defaultKeyExtractor`. -/
def defaultKeyExtractor (key : String) : String := key

/-- The zero value of `Metrics`. -/
def Metrics.zero : Metrics :=
  { TotalRequests := 0, AllowedRequests := 0, DeniedRequests := 0,
    AverageLatency := 0, ActiveKeys := 0, LastCleanup := 0 }

/-- Function `New`. -/
def New (config : Config) : Except LimiterError rateLimiter :=
  match (validateConfig config).1 with
  | some err => .error (.invalidConfig err)
  | none =>
    let config : Config :=
      if config.Storage.isNone then { config with Storage := some NewMemory } else config
    let config : Config :=
      if config.KeyExtractor.isNone then
        { config with KeyExtractor := some defaultKeyExtractor }
      else config
    .ok { config := config, storage := config.Storage.getD NewMemory,
          metrics := Metrics.zero, closed := false, cancelled := false }

/-- The call `rl.config.KeyExtractor(key)`; `New` always installs an extractor. -/
def rateLimiter.extractKey (rl : rateLimiter) (key : String) : String :=
  match rl.config.KeyExtractor with
  | some f => f key
  | none => defaultKeyExtractor key

/-! ## Package `ratelimiter`: per-key state -/

/-- Method `getBucketData`: a failed read gives the bucket with a zero
`LastRefill`; bytes that do not deserialize give an error. -/
def rateLimiter.getBucketData (rl : rateLimiter) (key : String) (now : Int) :
    Except LimiterError bucketData × rateLimiter :=
  let r := rl.storage.Get key now
  let rl1 : rateLimiter := { rl with storage := r.2 }
  match r.1 with
  | .error _ => (.ok { Tokens := 0, LastRefill := 0 }, rl1)
  | .ok data =>
    match unmarshalBucket data with
    | none => (.error .deserialize, rl1)
    | some bucket => (.ok bucket, rl1)

/-- Method `setBucketData`: the TTL is `rl.config.Window * 2`. -/
def rateLimiter.setBucketData (rl : rateLimiter) (key : String) (bucket : bucketData)
    (now : Int) : Option LimiterError × rateLimiter :=
  let ttl : Int := wrap64 (rl.config.Window * 2)
  let r := rl.storage.Set key (.bucketJSON bucket) ttl now
  (r.1.map .storage, { rl with storage := r.2 })

/-- Method `getWindowData`: a failed read gives an empty window starting now. -/
def rateLimiter.getWindowData (rl : rateLimiter) (key : String) (now : Int) :
    Except LimiterError windowData × rateLimiter :=
  let r := rl.storage.Get key now
  let rl1 : rateLimiter := { rl with storage := r.2 }
  match r.1 with
  | .error _ => (.ok { Count := 0, WindowStart := now, Requests := [] }, rl1)
  | .ok data =>
    match unmarshalWindow data with
    | none => (.error .deserialize, rl1)
    | some window => (.ok window, rl1)

/-- Method `setWindowData`: the TTL is `rl.config.Window * 2`. -/
def rateLimiter.setWindowData (rl : rateLimiter) (key : String) (window : windowData)
    (now : Int) : Option LimiterError × rateLimiter :=
  let ttl : Int := wrap64 (rl.config.Window * 2)
  let r := rl.storage.Set key (.windowJSON window) ttl now
  (r.1.map .storage, { rl with storage := r.2 })

/-- The statement `rl.metrics.AllowedRequests++`. -/
def rateLimiter.incAllowed (rl : rateLimiter) : rateLimiter :=
  { rl with metrics := { rl.metrics with AllowedRequests := rl.metrics.AllowedRequests + 1 } }

/-- The statement `rl.metrics.DeniedRequests++`. -/
def rateLimiter.incDenied (rl : rateLimiter) : rateLimiter :=
  { rl with metrics := { rl.metrics with DeniedRequests := rl.metrics.DeniedRequests + 1 } }

/-! ## Package `ratelimiter`: the four consume paths -/

/-- Method `allowTokenBucket`. -/
def rateLimiter.allowTokenBucket (rl : rateLimiter) (key : String) (n : Int) (now : Int) :
    Bool × rateLimiter :=
  match rl.getBucketData key now with
  | (.error _, rl1) => (false, rl1)
  | (.ok bucket, rl1) =>
    let bucket : bucketData :=
      if Time.IsZero bucket.LastRefill then
        { Tokens := (rl.config.BurstSize : ℚ), LastRefill := now }
      else
        let timePassed := Duration.Seconds (Time.Sub now bucket.LastRefill)
        let tokensToAdd :=
          timePassed * (rl.config.Rate : ℚ) / Duration.Seconds rl.config.Window
        { Tokens := min (rl.config.BurstSize : ℚ) (bucket.Tokens + tokensToAdd),
          LastRefill := now }
    if (n : ℚ) ≤ bucket.Tokens then
      let bucket : bucketData := { bucket with Tokens := bucket.Tokens - (n : ℚ) }
      (true, (rl1.setBucketData key bucket now).2.incAllowed)
    else
      (false, (rl1.setBucketData key bucket now).2.incDenied)

/-- Method `allowFixedWindow`. -/
def rateLimiter.allowFixedWindow (rl : rateLimiter) (key : String) (n : Int) (now : Int) :
    Bool × rateLimiter :=
  match rl.getWindowData key now with
  | (.error _, rl1) => (false, rl1)
  | (.ok window, rl1) =>
    let windowDuration := rl.config.Window
    let window : windowData :=
      if windowDuration ≤ Time.Sub now window.WindowStart then
        { window with Count := 0, WindowStart := Time.Truncate now windowDuration }
      else window
    if wrap64 (window.Count + n) ≤ rl.config.Rate then
      let window : windowData := { window with Count := wrap64 (window.Count + n) }
      (true, (rl1.setWindowData key window now).2.incAllowed)
    else
      (false, (rl1.setWindowData key window now).2.incDenied)

/-- Method `allowSlidingWindow`. -/
def rateLimiter.allowSlidingWindow (rl : rateLimiter) (key : String) (n : Int) (now : Int) :
    Bool × rateLimiter :=
  match rl.getWindowData key now with
  | (.error _, rl1) => (false, rl1)
  | (.ok window, rl1) =>
    let windowStart := Time.Add now (-rl.config.Window)
    let validRequests := window.Requests.filter (fun reqTime => Time.After reqTime windowStart)
    let window : windowData := { window with Requests := validRequests }
    if wrap64 ((window.Requests.length : Int) + n) ≤ rl.config.Rate then
      let requests := window.Requests ++ List.replicate n.toNat now
      let window : windowData :=
        { window with Requests := requests, Count := (requests.length : Int) }
      (true, (rl1.setWindowData key window now).2.incAllowed)
    else
      let window : windowData := { window with Count := (window.Requests.length : Int) }
      (false, (rl1.setWindowData key window now).2.incDenied)

/-- Method `allowLeakyBucket`. -/
def rateLimiter.allowLeakyBucket (rl : rateLimiter) (key : String) (n : Int) (now : Int) :
    Bool × rateLimiter :=
  match rl.getBucketData key now with
  | (.error _, rl1) => (false, rl1)
  | (.ok bucket, rl1) =>
    let bucket : bucketData :=
      if Time.IsZero bucket.LastRefill then
        { bucket with LastRefill := now }
      else
        let timePassed := Duration.Seconds (Time.Sub now bucket.LastRefill)
        let leakRate := (rl.config.Rate : ℚ) / Duration.Seconds rl.config.Window
        let tokensLeaked := timePassed * leakRate
        { Tokens := max 0 (bucket.Tokens - tokensLeaked), LastRefill := now }
    if bucket.Tokens + (n : ℚ) ≤ (rl.config.BurstSize : ℚ) then
      let bucket : bucketData := { bucket with Tokens := bucket.Tokens + (n : ℚ) }
      (true, (rl1.setBucketData key bucket now).2.incAllowed)
    else
      (false, (rl1.setBucketData key bucket now).2.incDenied)

/-! ## Package `ratelimiter`: the public operations -/

/-- Go conversion `time.Duration(f)` of a float: truncation toward zero. -/
def truncDuration (q : ℚ) : Int := if 0 ≤ q then ⌊q⌋ else ⌈q⌉

/-- Method `updateMetrics`. -/
def rateLimiter.updateMetrics (rl : rateLimiter) (latency : Int) : rateLimiter :=
  let total := rl.metrics.TotalRequests + 1
  let average : Int :=
    if total = 1 then latency
    else
      let alpha : ℚ := 1 / 10
      truncDuration ((rl.metrics.AverageLatency : ℚ) * (1 - alpha) + (latency : ℚ) * alpha)
  { rl with metrics := { rl.metrics with TotalRequests := total, AverageLatency := average } }

/-- Method `AllowN`; the deferred `updateMetrics` runs after the consume path. -/
def rateLimiter.AllowN (rl : rateLimiter) (key : String) (n : Int) (now : Int) :
    Bool × rateLimiter :=
  if rl.closed then (false, rl)
  else
    let start := now
    let extractedKey := rl.extractKey key
    let r : Bool × rateLimiter :=
      if rl.config.Algorithm = TokenBucket then rl.allowTokenBucket extractedKey n now
      else if rl.config.Algorithm = FixedWindow then rl.allowFixedWindow extractedKey n now
      else if rl.config.Algorithm = SlidingWindow then rl.allowSlidingWindow extractedKey n now
      else if rl.config.Algorithm = LeakyBucket then rl.allowLeakyBucket extractedKey n now
      else (false, rl)
    (r.1, r.2.updateMetrics (Time.Sub now start))

/-- Method `Allow`. -/
def rateLimiter.Allow (rl : rateLimiter) (key : String) (now : Int) : Bool × rateLimiter :=
  rl.AllowN key 1 now

/-- Method `Reset`. -/
def rateLimiter.Reset (rl : rateLimiter) (key : String) : Option LimiterError × rateLimiter :=
  if rl.closed then (some .limiterClosed, rl)
  else
    let extractedKey := rl.extractKey key
    let r := rl.storage.Delete extractedKey
    (r.1.map .storage, { rl with storage := r.2 })

/-- Method `Close`. -/
def rateLimiter.Close (rl : rateLimiter) : Option LimiterError × rateLimiter :=
  if rl.closed then (none, rl)
  else
    let r := rl.storage.Close
    (r.1.map .storage, { rl with closed := true, cancelled := true, storage := r.2 })

/-- Method `GetMetrics`. -/
def rateLimiter.GetMetrics (rl : rateLimiter) : Metrics := rl.metrics

/-- Method `performCleanup`: only `LastCleanup` is updated; the body has no
call to the storage. -/
def rateLimiter.performCleanup (rl : rateLimiter) (now : Int) : rateLimiter :=
  { rl with metrics := { rl.metrics with LastCleanup := now } }

/-! ## Package `ratelimiter`: the four inspection paths -/

/-- A value of the Go map `Metadata map[string]interface{}`. -/
inductive MetaValue
  | str (s : String)
  | float (q : ℚ)
  | int (i : Int)
  | time (t : Int)
  deriving DecidableEq, Repr

/-- Struct `Result`; a nil `Metadata` map is the empty list. -/
structure Result where
  Allowed : Bool
  Remaining : Int
  ResetTime : Int
  RetryAfter : Int
  Metadata : List (String × MetaValue)
  deriving DecidableEq, Repr

/-- The composite literal `Result{Allowed: false}`. -/
def Result.denied : Result :=
  { Allowed := false, Remaining := 0, ResetTime := 0, RetryAfter := 0, Metadata := [] }

/-- Method `checkTokenBucket`.  The refreshed level is computed from
`bucket.LastRefill` whether or not it is the zero time. -/
def rateLimiter.checkTokenBucket (rl : rateLimiter) (key : String) (now : Int) :
    Result × rateLimiter :=
  match rl.getBucketData key now with
  | (.error _, rl1) => (Result.denied, rl1)
  | (.ok bucket, rl1) =>
    let timePassed := Duration.Seconds (Time.Sub now bucket.LastRefill)
    let tokensToAdd := timePassed * (rl.config.Rate : ℚ) / Duration.Seconds rl.config.Window
    let currentTokens := min (rl.config.BurstSize : ℚ) (bucket.Tokens + tokensToAdd)
    let retryAfter : Int :=
      if currentTokens < 1 then
        let tokensNeeded := 1 - currentTokens
        let timeNeeded :=
          tokensNeeded / ((rl.config.Rate : ℚ) / Duration.Seconds rl.config.Window)
        truncDuration (timeNeeded * 1000000000)
      else 0
    ({ Allowed := decide (1 ≤ currentTokens),
       Remaining := ⌊currentTokens⌋,
       ResetTime := Time.Add now rl.config.Window,
       RetryAfter := retryAfter,
       Metadata :=
         [("algorithm", MetaValue.str "TokenBucket"),
          ("current_tokens", MetaValue.float currentTokens),
          ("burst_size", MetaValue.int rl.config.BurstSize)] }, rl1)

/-- Method `checkFixedWindow`. -/
def rateLimiter.checkFixedWindow (rl : rateLimiter) (key : String) (now : Int) :
    Result × rateLimiter :=
  match rl.getWindowData key now with
  | (.error _, rl1) => (Result.denied, rl1)
  | (.ok window, rl1) =>
    let windowDuration := rl.config.Window
    let window : windowData :=
      if windowDuration ≤ Time.Sub now window.WindowStart then
        { window with Count := 0, WindowStart := Time.Truncate now windowDuration }
      else window
    let remaining := wrap64 (rl.config.Rate - window.Count)
    let nextReset := Time.Add window.WindowStart windowDuration
    let retryAfter : Int := if remaining ≤ 0 then Time.Sub nextReset now else 0
    ({ Allowed := decide (0 < remaining),
       Remaining := remaining,
       ResetTime := nextReset,
       RetryAfter := retryAfter,
       Metadata :=
         [("algorithm", MetaValue.str "FixedWindow"),
          ("window_start", MetaValue.time window.WindowStart),
          ("current_count", MetaValue.int window.Count)] }, rl1)

/-- The loop of `checkSlidingWindow`: the number of timestamps after
`windowStart` and the earliest of them, starting from `(validCount, oldest)`. -/
def scanRequests (windowStart : Int) : List Int → Int × Int → Int × Int
  | [], acc => acc
  | reqTime :: rest, (validCount, oldest) =>
    if Time.After reqTime windowStart then
      scanRequests windowStart rest
        (validCount + 1, if Time.Before reqTime oldest then reqTime else oldest)
    else scanRequests windowStart rest (validCount, oldest)

/-- Method `checkSlidingWindow`. -/
def rateLimiter.checkSlidingWindow (rl : rateLimiter) (key : String) (now : Int) :
    Result × rateLimiter :=
  match rl.getWindowData key now with
  | (.error _, rl1) => (Result.denied, rl1)
  | (.ok window, rl1) =>
    let windowStart := Time.Add now (-rl.config.Window)
    let scan := scanRequests windowStart window.Requests (0, now)
    let validCount := scan.1
    let oldestValidRequest := scan.2
    let remaining := wrap64 (rl.config.Rate - validCount)
    let retryAfter : Int :=
      if remaining ≤ 0 ∧ 0 < validCount then
        let d := Time.Sub (Time.Add oldestValidRequest rl.config.Window) now
        if d < 0 then 0 else d
      else 0
    ({ Allowed := decide (0 < remaining),
       Remaining := remaining,
       ResetTime := Time.Add now rl.config.Window,
       RetryAfter := retryAfter,
       Metadata :=
         [("algorithm", MetaValue.str "SlidingWindow"),
          ("valid_requests", MetaValue.int validCount),
          ("window_start", MetaValue.time windowStart)] }, rl1)

/-- Method `checkLeakyBucket`. -/
def rateLimiter.checkLeakyBucket (rl : rateLimiter) (key : String) (now : Int) :
    Result × rateLimiter :=
  match rl.getBucketData key now with
  | (.error _, rl1) => (Result.denied, rl1)
  | (.ok bucket, rl1) =>
    let currentLevel : ℚ :=
      if !Time.IsZero bucket.LastRefill then
        let timePassed := Duration.Seconds (Time.Sub now bucket.LastRefill)
        let leakRate := (rl.config.Rate : ℚ) / Duration.Seconds rl.config.Window
        let tokensLeaked := timePassed * leakRate
        max 0 (bucket.Tokens - tokensLeaked)
      else bucket.Tokens
    let availableSpace := (rl.config.BurstSize : ℚ) - currentLevel
    let retryAfter : Int :=
      if availableSpace < 1 then
        let spaceNeeded := 1 - availableSpace
        let leakRate := (rl.config.Rate : ℚ) / Duration.Seconds rl.config.Window
        let timeNeeded := spaceNeeded / leakRate
        truncDuration (timeNeeded * 1000000000)
      else 0
    ({ Allowed := decide (1 ≤ availableSpace),
       Remaining := ⌊availableSpace⌋,
       ResetTime :=
         Time.Add now
           (wrap64
             (truncDuration
               (currentLevel / (rl.config.Rate : ℚ) * Duration.Seconds rl.config.Window)
               * 1000000000)),
       RetryAfter := retryAfter,
       Metadata :=
         [("algorithm", MetaValue.str "LeakyBucket"),
          ("current_level", MetaValue.float currentLevel),
          ("available_space", MetaValue.float availableSpace),
          ("leak_rate",
            MetaValue.float ((rl.config.Rate : ℚ) / Duration.Seconds rl.config.Window))] },
      rl1)

/-- Method `Check`. -/
def rateLimiter.Check (rl : rateLimiter) (key : String) (now : Int) : Result × rateLimiter :=
  if rl.closed then (Result.denied, rl)
  else
    let extractedKey := rl.extractKey key
    if rl.config.Algorithm = TokenBucket then rl.checkTokenBucket extractedKey now
    else if rl.config.Algorithm = FixedWindow then rl.checkFixedWindow extractedKey now
    else if rl.config.Algorithm = SlidingWindow then rl.checkSlidingWindow extractedKey now
    else if rl.config.Algorithm = LeakyBucket then rl.checkLeakyBucket extractedKey now
    else (Result.denied, rl)

/-! ## Runs of calls -/

/-- The verdicts of `Allow(key)` called once at each of the given times, in
order, and the limiter afterwards. -/
def allowAt (rl : rateLimiter) (key : String) : List Int → List Bool × rateLimiter
  | [] => ([], rl)
  | t :: ts =>
    let r := rl.Allow key t
    let rest := allowAt r.2 key ts
    (r.1 :: rest.1, rest.2)

/-- One call of the decision API: `AllowN(key, n)` at time `now`. -/
structure Call where
  key : String
  n : Int
  now : Int

/-- The limiter after a sequence of `AllowN` calls. -/
def runCalls (rl : rateLimiter) : List Call → rateLimiter
  | [] => rl
  | c :: cs => runCalls (rl.AllowN c.key c.n c.now).2 cs

/-! ## Specification-side helpers -/

/-- The refreshed token level of a Token Bucket: the level against which
`allowTokenBucket` compares `n`, computed from the loaded bucket. -/
def tokenLevel (cfg : Config) (b : bucketData) (now : Int) : ℚ :=
  if Time.IsZero b.LastRefill then (cfg.BurstSize : ℚ)
  else
    min (cfg.BurstSize : ℚ)
      (b.Tokens +
        Duration.Seconds (Time.Sub now b.LastRefill) * (cfg.Rate : ℚ) /
          Duration.Seconds cfg.Window)

/-- The decayed occupancy of a Leaky Bucket, computed from the loaded bucket. -/
def leakLevel (cfg : Config) (b : bucketData) (now : Int) : ℚ :=
  if Time.IsZero b.LastRefill then b.Tokens
  else
    max 0
      (b.Tokens -
        Duration.Seconds (Time.Sub now b.LastRefill) *
          ((cfg.Rate : ℚ) / Duration.Seconds cfg.Window))

/-- The expiry written by `MemoryStorage.Set` for a state persisted at `now`. -/
def expiryAt (cfg : Config) (now : Int) : Int :=
  if 0 < wrap64 (cfg.Window * 2) then Time.Add now (wrap64 (cfg.Window * 2)) else 0

/-- The bucket stored under a key, when the entry holds one. -/
def storedBucket (rl : rateLimiter) (key : String) : Option bucketData :=
  match rl.storage.items.lookup key with
  | some item =>
    (match item.value with
     | .bucketJSON b => some b
     | _ => none)
  | none => none

/-- The window stored under a key, when the entry holds one. -/
def storedWindow (rl : rateLimiter) (key : String) : Option windowData :=
  match rl.storage.items.lookup key with
  | some item =>
    (match item.value with
     | .windowJSON w => some w
     | _ => none)
  | none => none

/-- The window against which `allowFixedWindow` counts: the loaded window,
rolled over when `now - windowStart >= window`. -/
def rolledWindow (cfg : Config) (w : windowData) (now : Int) : windowData :=
  if cfg.Window ≤ Time.Sub now w.WindowStart then
    { w with Count := 0, WindowStart := Time.Truncate now cfg.Window }
  else w

/-- The timestamps that `allowSlidingWindow` keeps: those after `now - window`. -/
def prunedRequests (cfg : Config) (w : windowData) (now : Int) : List Int :=
  w.Requests.filter (fun reqTime => Time.After reqTime (Time.Add now (-cfg.Window)))

/-- The limiter `rl` continues `rl0` (same configuration), is open on an open
storage, and holds `value`, persisted at time `setAt`, under the extracted key. -/
def Stored (rl0 rl : rateLimiter) (key : String) (value : Bytes) (setAt : Int) : Prop :=
  rl.config = rl0.config ∧ rl.closed = false ∧ rl.storage.closed = false ∧
    rl.storage.items.lookup (rl0.extractKey key) =
      some (memoryItem.mk value (expiryAt rl0.config setAt))

/-- The limiter that `New` returns for a valid configuration without storage
and without key extractor. -/
def limiterOf (cfg : Config) : rateLimiter :=
  { config := { cfg with Storage := some NewMemory, KeyExtractor := some defaultKeyExtractor },
    storage := NewMemory, metrics := Metrics.zero, closed := false, cancelled := false }

/-- The configuration of `TestTokenBucket`: 10 per minute, burst of 5. -/
def tokenBucketConfig : Config :=
  { Algorithm := TokenBucket, Rate := 10, Window := 60000000000, BurstSize := 5,
    CleanupInterval := 0, Storage := none, KeyExtractor := none }

/-- A Token Bucket configuration that leaves `BurstSize` unset: 3 per second. -/
def burstUnsetConfig : Config :=
  { Algorithm := TokenBucket, Rate := 3, Window := 1000000000, BurstSize := 0,
    CleanupInterval := 0, Storage := none, KeyExtractor := none }

/-- A configuration whose `Algorithm` is none of the four constants. -/
def unknownAlgorithmConfig : Config :=
  { Algorithm := 4, Rate := 10, Window := 1000000000, BurstSize := 5,
    CleanupInterval := 0, Storage := none, KeyExtractor := none }

/-- A Token Bucket configuration on a storage that already holds bytes that are
not JSON under the key `k`. -/
def corruptStorageConfig : Config :=
  { Algorithm := TokenBucket, Rate := 10, Window := 1000000000, BurstSize := 5,
    CleanupInterval := 0,
    Storage := some { items := [("k", { value := Bytes.corrupt, expiresAt := 0 })],
                      closed := false },
    KeyExtractor := none }

/-- The configuration of `TestFixedWindow`: 5 per second. -/
def fixedWindowConfig : Config :=
  { Algorithm := FixedWindow, Rate := 5, Window := 1000000000, BurstSize := 0,
    CleanupInterval := 0, Storage := none, KeyExtractor := none }

/-- The configuration of `TestSlidingWindow`: 3 per second. -/
def slidingWindowConfig : Config :=
  { Algorithm := SlidingWindow, Rate := 3, Window := 1000000000, BurstSize := 0,
    CleanupInterval := 0, Storage := none, KeyExtractor := none }

/-- The configuration of `TestLeakyBucket`: leak rate 10 per second, capacity 5. -/
def leakyBucketConfig : Config :=
  { Algorithm := LeakyBucket, Rate := 10, Window := 1000000000, BurstSize := 5,
    CleanupInterval := 0, Storage := none, KeyExtractor := none }

/-- The limiter of `TestTokenBucket` after its five admitted calls, all made at
the instant 5 s: the bucket of `test-user` is empty. -/
def exhaustedLimiter : rateLimiter :=
  { config :=
      { tokenBucketConfig with
        Storage := some NewMemory, KeyExtractor := some defaultKeyExtractor },
    storage :=
      { items :=
          [("test-user",
            { value := Bytes.bucketJSON { Tokens := 0, LastRefill := 5000000000 },
              expiresAt := 125000000000 })],
        closed := false },
    metrics := Metrics.zero, closed := false, cancelled := false }

/-- A limiter of the configuration of `TestTokenBucket` on which only the key
`other-user` has been used. -/
def otherKeyLimiter : rateLimiter :=
  { config :=
      { tokenBucketConfig with
        Storage := some NewMemory, KeyExtractor := some defaultKeyExtractor },
    storage :=
      { items :=
          [("other-user",
            { value := Bytes.bucketJSON { Tokens := 2, LastRefill := 4000000000 },
              expiresAt := 124000000000 })],
        closed := false },
    metrics := Metrics.zero, closed := false, cancelled := false }

/-- Three `AllowN` calls on the key of the tests: 3, 4 and 2 units, 0.2 s apart. -/
def sampleCalls : List Call :=
  [{ key := "test-user", n := 3, now := 5000000000 },
   { key := "test-user", n := 4, now := 5200000000 },
   { key := "test-user", n := 2, now := 5400000000 }]

/-- A Sliding Window limiter (3 per second) whose stored list for `test-user`
holds one timestamp, 7 s, later than the clock reading 5 s used below. -/
def futureStampLimiter : rateLimiter :=
  { config :=
      { slidingWindowConfig with
        Storage := some NewMemory, KeyExtractor := some defaultKeyExtractor },
    storage :=
      { items :=
          [("test-user",
            { value :=
                Bytes.windowJSON
                  { Count := 1, WindowStart := 7000000000, Requests := [7000000000] },
              expiresAt := 9000000000 })],
        closed := false },
    metrics := Metrics.zero, closed := false, cancelled := false }

/-- The level that `checkTokenBucket` reports: the refill formula applied to
the loaded bucket, whether or not its `LastRefill` is the zero time. -/
def checkLevel (cfg : Config) (b : bucketData) (now : Int) : ℚ :=
  min (cfg.BurstSize : ℚ)
    (b.Tokens +
      Duration.Seconds (Time.Sub now b.LastRefill) * (cfg.Rate : ℚ) /
        Duration.Seconds cfg.Window)

/-- A Token Bucket configuration with a slow refill and a large burst: 1 per
hour, burst of 3000000. -/
def slowRefillConfig : Config :=
  { Algorithm := TokenBucket, Rate := 1, Window := 3600000000000, BurstSize := 3000000,
    CleanupInterval := 0, Storage := none, KeyExtractor := none }

/-- A clock reading in the year 2026: nanoseconds since the Go zero time. -/
def clock2026 : Int := 63900000000000000000

/-- A Token Bucket configuration whose refill time is not a whole number of
nanoseconds: 3 per second, burst of 1. -/
def thirdsConfig : Config :=
  { Algorithm := TokenBucket, Rate := 3, Window := 1000000000, BurstSize := 1,
    CleanupInterval := 0, Storage := none, KeyExtractor := none }

/-- The counter update that follows a verdict: `AllowedRequests++` on
admission, `DeniedRequests++` on denial. -/
def rateLimiter.countVerdict (rl : rateLimiter) (verdict : Bool) : rateLimiter :=
  if verdict then rl.incAllowed else rl.incDenied

/-- The shape shared by `allowTokenBucket` and `allowLeakyBucket`: load the
bucket, return false on a load error, otherwise persist the bucket computed by
`next` and count its verdict. -/
def consumeBucket (rl : rateLimiter) (key : String) (now : Int)
    (next : bucketData → Bool × bucketData) : Bool × rateLimiter :=
  match rl.getBucketData key now with
  | (.error _, rl1) => (false, rl1)
  | (.ok bucket, rl1) =>
    ((next bucket).1, ((rl1.setBucketData key (next bucket).2 now).2).countVerdict (next bucket).1)

/-- The shape shared by `allowFixedWindow` and `allowSlidingWindow`. -/
def consumeWindow (rl : rateLimiter) (key : String) (now : Int)
    (next : windowData → Bool × windowData) : Bool × rateLimiter :=
  match rl.getWindowData key now with
  | (.error _, rl1) => (false, rl1)
  | (.ok window, rl1) =>
    ((next window).1, ((rl1.setWindowData key (next window).2 now).2).countVerdict (next window).1)

/-- The shape shared by `checkTokenBucket` and `checkLeakyBucket`: load the
bucket and report on it, without writing. -/
def peekBucket (rl : rateLimiter) (key : String) (now : Int)
    (report : bucketData → Result) : Result × rateLimiter :=
  match rl.getBucketData key now with
  | (.error _, rl1) => (Result.denied, rl1)
  | (.ok bucket, rl1) => (report bucket, rl1)

/-- The shape shared by `checkFixedWindow` and `checkSlidingWindow`. -/
def peekWindow (rl : rateLimiter) (key : String) (now : Int)
    (report : windowData → Result) : Result × rateLimiter :=
  match rl.getWindowData key now with
  | (.error _, rl1) => (Result.denied, rl1)
  | (.ok window, rl1) => (report window, rl1)

/-- The verdict and the bucket persisted by `allowTokenBucket` for a loaded
bucket. -/
def tokenBucketNext (cfg : Config) (n now : Int) (b : bucketData) : Bool × bucketData :=
  (decide ((n : ℚ) ≤ tokenLevel cfg b now),
    { Tokens :=
        if (n : ℚ) ≤ tokenLevel cfg b now then tokenLevel cfg b now - (n : ℚ)
        else tokenLevel cfg b now,
      LastRefill := now })

/-- The verdict and the bucket persisted by `allowLeakyBucket` for a loaded
bucket. -/
def leakyBucketNext (cfg : Config) (n now : Int) (b : bucketData) : Bool × bucketData :=
  (decide (leakLevel cfg b now + (n : ℚ) ≤ (cfg.BurstSize : ℚ)),
    { Tokens :=
        if leakLevel cfg b now + (n : ℚ) ≤ (cfg.BurstSize : ℚ) then
          leakLevel cfg b now + (n : ℚ)
        else leakLevel cfg b now,
      LastRefill := now })

/-- The verdict and the window persisted by `allowFixedWindow` for a loaded
window. -/
def fixedWindowNext (cfg : Config) (n now : Int) (w : windowData) : Bool × windowData :=
  (decide (wrap64 ((rolledWindow cfg w now).Count + n) ≤ cfg.Rate),
    if wrap64 ((rolledWindow cfg w now).Count + n) ≤ cfg.Rate then
      { rolledWindow cfg w now with Count := wrap64 ((rolledWindow cfg w now).Count + n) }
    else rolledWindow cfg w now)

/-- The verdict and the window persisted by `allowSlidingWindow` for a loaded
window. -/
def slidingWindowNext (cfg : Config) (n now : Int) (w : windowData) : Bool × windowData :=
  (decide (wrap64 (((prunedRequests cfg w now).length : Int) + n) ≤ cfg.Rate),
    if wrap64 (((prunedRequests cfg w now).length : Int) + n) ≤ cfg.Rate then
      { Count := ((prunedRequests cfg w now ++ List.replicate n.toNat now).length : Int),
        WindowStart := w.WindowStart,
        Requests := prunedRequests cfg w now ++ List.replicate n.toNat now }
    else
      { Count := ((prunedRequests cfg w now).length : Int),
        WindowStart := w.WindowStart,
        Requests := prunedRequests cfg w now })

/-- The result reported by `checkTokenBucket` for a loaded bucket. -/
def tokenBucketReport (cfg : Config) (now : Int) (b : bucketData) : Result :=
  { Allowed := decide (1 ≤ checkLevel cfg b now),
    Remaining := ⌊checkLevel cfg b now⌋,
    ResetTime := Time.Add now cfg.Window,
    RetryAfter :=
      if checkLevel cfg b now < 1 then
        truncDuration
          ((1 - checkLevel cfg b now) / ((cfg.Rate : ℚ) / Duration.Seconds cfg.Window) *
            1000000000)
      else 0,
    Metadata :=
      [("algorithm", MetaValue.str "TokenBucket"),
       ("current_tokens", MetaValue.float (checkLevel cfg b now)),
       ("burst_size", MetaValue.int cfg.BurstSize)] }

/-- The result reported by `checkFixedWindow` for a loaded window. -/
def fixedWindowReport (cfg : Config) (now : Int) (w : windowData) : Result :=
  { Allowed := decide (0 < wrap64 (cfg.Rate - (rolledWindow cfg w now).Count)),
    Remaining := wrap64 (cfg.Rate - (rolledWindow cfg w now).Count),
    ResetTime := Time.Add (rolledWindow cfg w now).WindowStart cfg.Window,
    RetryAfter :=
      if wrap64 (cfg.Rate - (rolledWindow cfg w now).Count) ≤ 0 then
        Time.Sub (Time.Add (rolledWindow cfg w now).WindowStart cfg.Window) now
      else 0,
    Metadata :=
      [("algorithm", MetaValue.str "FixedWindow"),
       ("window_start", MetaValue.time (rolledWindow cfg w now).WindowStart),
       ("current_count", MetaValue.int (rolledWindow cfg w now).Count)] }

/-- The result reported by `checkSlidingWindow` for a loaded window. -/
def slidingWindowReport (cfg : Config) (now : Int) (w : windowData) : Result :=
  { Allowed :=
      decide (0 < wrap64 (cfg.Rate -
        (scanRequests (Time.Add now (-cfg.Window)) w.Requests (0, now)).1)),
    Remaining :=
      wrap64 (cfg.Rate - (scanRequests (Time.Add now (-cfg.Window)) w.Requests (0, now)).1),
    ResetTime := Time.Add now cfg.Window,
    RetryAfter :=
      if wrap64 (cfg.Rate -
            (scanRequests (Time.Add now (-cfg.Window)) w.Requests (0, now)).1) ≤ 0 ∧
          0 < (scanRequests (Time.Add now (-cfg.Window)) w.Requests (0, now)).1 then
        if Time.Sub
            (Time.Add (scanRequests (Time.Add now (-cfg.Window)) w.Requests (0, now)).2
              cfg.Window) now < 0 then 0
        else
          Time.Sub
            (Time.Add (scanRequests (Time.Add now (-cfg.Window)) w.Requests (0, now)).2
              cfg.Window) now
      else 0,
    Metadata :=
      [("algorithm", MetaValue.str "SlidingWindow"),
       ("valid_requests",
         MetaValue.int (scanRequests (Time.Add now (-cfg.Window)) w.Requests (0, now)).1),
       ("window_start", MetaValue.time (Time.Add now (-cfg.Window)))] }

/-- The occupancy that `checkLeakyBucket` reports for a loaded bucket. -/
def checkLeakLevel (cfg : Config) (b : bucketData) (now : Int) : ℚ :=
  if !Time.IsZero b.LastRefill then
    max 0
      (b.Tokens -
        Duration.Seconds (Time.Sub now b.LastRefill) *
          ((cfg.Rate : ℚ) / Duration.Seconds cfg.Window))
  else b.Tokens

/-- The result reported by `checkLeakyBucket` for a loaded bucket. -/
def leakyBucketReport (cfg : Config) (now : Int) (b : bucketData) : Result :=
  { Allowed := decide (1 ≤ (cfg.BurstSize : ℚ) - checkLeakLevel cfg b now),
    Remaining := ⌊(cfg.BurstSize : ℚ) - checkLeakLevel cfg b now⌋,
    ResetTime :=
      Time.Add now
        (wrap64
          (truncDuration
            (checkLeakLevel cfg b now / (cfg.Rate : ℚ) * Duration.Seconds cfg.Window)
            * 1000000000)),
    RetryAfter :=
      if (cfg.BurstSize : ℚ) - checkLeakLevel cfg b now < 1 then
        truncDuration
          ((1 - ((cfg.BurstSize : ℚ) - checkLeakLevel cfg b now)) /
            ((cfg.Rate : ℚ) / Duration.Seconds cfg.Window) * 1000000000)
      else 0,
    Metadata :=
      [("algorithm", MetaValue.str "LeakyBucket"),
       ("current_level", MetaValue.float (checkLeakLevel cfg b now)),
       ("available_space", MetaValue.float ((cfg.BurstSize : ℚ) - checkLeakLevel cfg b now)),
       ("leak_rate", MetaValue.float ((cfg.Rate : ℚ) / Duration.Seconds cfg.Window))] }

/-- The entry that a read of `key` at time `t` finds: the stored entry, unless
it has expired at `t`. -/
def liveEntry (ms : MemoryStorage) (key : String) (t : Int) : Option memoryItem :=
  (ms.items.lookup key).filter (fun item => !item.isExpired t)

/-- Both limiters have the same configuration, flags and metrics, and every
read of their storages at a time from `t` on finds the same entry. -/
def SameView (t : Int) (a b : rateLimiter) : Prop :=
  a.config = b.config ∧ a.closed = b.closed ∧ a.cancelled = b.cancelled ∧
    a.metrics = b.metrics ∧ a.storage.closed = b.storage.closed ∧
    ∀ (key : String) (t1 : Int), t ≤ t1 →
      liveEntry a.storage key t1 = liveEntry b.storage key t1

/-- The limiter `rl1` differs from `rl` at most in its metrics and in the
storage entry of `key`. -/
def Frame (rl rl1 : rateLimiter) (key : String) : Prop :=
  rl1.config = rl.config ∧ rl1.closed = rl.closed ∧ rl1.cancelled = rl.cancelled ∧
    rl1.storage.closed = rl.storage.closed ∧
    ∀ other : String, other ≠ key →
      rl1.storage.items.lookup other = rl.storage.items.lookup other

/-- An operation of the decision API, with the clock reading at which it is
made. -/
inductive Op
  | allowN (key : String) (n : Int) (now : Int)
  | check (key : String) (now : Int)
  | reset (key : String) (now : Int)

/-- The clock reading of an operation. -/
def Op.time : Op → Int
  | .allowN _ _ now => now
  | .check _ now => now
  | .reset _ now => now

/-- What an operation returns. -/
inductive Outcome
  | verdict (allowed : Bool)
  | result (r : Result)
  | error (e : Option LimiterError)

/-- One operation on a limiter: what it returns and the limiter afterwards. -/
def rateLimiter.step (rl : rateLimiter) : Op → Outcome × rateLimiter
  | .allowN key n now => (Outcome.verdict (rl.AllowN key n now).1, (rl.AllowN key n now).2)
  | .check key now => (Outcome.result (rl.Check key now).1, (rl.Check key now).2)
  | .reset key _ => (Outcome.error (rl.Reset key).1, (rl.Reset key).2)

/-- The outcomes of a sequence of operations, in order, and the limiter
afterwards. -/
def runOps (rl : rateLimiter) : List Op → List Outcome × rateLimiter
  | [] => ([], rl)
  | op :: ops => ((rl.step op).1 :: (runOps (rl.step op).2 ops).1, (runOps (rl.step op).2 ops).2)

/-- The limiter of `TestFixedWindow` after one `Allow("test-user")` at 1 s: the
entry written for `test-user` expires at 3 s. -/
def usedLimiter : rateLimiter :=
  ((limiterOf fixedWindowConfig).Allow "test-user" 1000000000).2

/-- Two later operations on `test-user`: a `Check` at 4 s and an `Allow` at 5 s. -/
def laterOps : List Op :=
  [Op.check "test-user" 4000000000, Op.allowN "test-user" 1 5000000000]

/-- Two limiters that agree on everything a call on the extracted key `k` can
read: the configuration, the closed flags and the entry of `k`. -/
def SameEntry (a b : rateLimiter) (k : String) : Prop :=
  a.config = b.config ∧ a.closed = b.closed ∧ a.storage.closed = b.storage.closed ∧
    a.storage.items.lookup k = b.storage.items.lookup k

/-- The storage key that a raw key stands for under a configuration: the image
under the configured key extractor, or the raw key itself when none is
configured. -/
def effectiveKey (cfg : Config) (k : String) : String :=
  match cfg.KeyExtractor with
  | some f => f k
  | none => k

/-- The configuration of `TestTokenBucket` with a key extractor that maps every
raw key to the one key `shared`. -/
def sharedQuotaConfig : Config :=
  { tokenBucketConfig with KeyExtractor := some (fun _ => "shared") }

/-- The limiter that `New` returns for `sharedQuotaConfig`. -/
def sharedQuotaLimiter : rateLimiter :=
  { config := { sharedQuotaConfig with Storage := some NewMemory },
    storage := NewMemory, metrics := Metrics.zero, closed := false, cancelled := false }

/-- Whether the bytes are the ones that `json.Unmarshal` rejects. -/
def Bytes.isCorrupt : Bytes → Bool
  | .corrupt => true
  | _ => false

/-- Whether the entry that a call on `key` loads, if there is one, holds bytes
that deserialize. -/
def entryDecodes (rl : rateLimiter) (key : String) : Bool :=
  match rl.storage.items.lookup (rl.extractKey key) with
  | some item => !item.value.isCorrupt
  | none => true

/-- The limiter of `TestTokenBucket` after its five admitted calls, all made at
the instant 5 s. -/
def drainedLimiter : rateLimiter :=
  (allowAt (limiterOf tokenBucketConfig) "test-user" (List.replicate 5 5000000000)).2

/-- A Fixed Window configuration whose window is longer than half the range of
a `Duration`: 5 per 5000000000 s (about 158 years). -/
def longWindowConfig : Config :=
  { Algorithm := FixedWindow, Rate := 5, Window := 5000000000000000000, BurstSize := 0,
    CleanupInterval := 0, Storage := none, KeyExtractor := none }

/-- A storage with two entries at the clock reading 10 s: `old` expired at 5 s,
`new` expires at 20 s. -/
def twoEntryStorage : MemoryStorage :=
  { items :=
      [("old", { value := Bytes.corrupt, expiresAt := 5000000000 }),
       ("new", { value := Bytes.corrupt, expiresAt := 20000000000 })],
    closed := false }

/-- What the entry of a Sliding Window key looks like after `Allow` calls made
at times up to `s`: it holds a window whose timestamp list is no longer than
the rate and has no timestamp later than `s`. -/
def WindowInv (rl : rateLimiter) (k : String) (s : Int) : Prop :=
  ∀ item, rl.storage.items.lookup k = some item →
    ∃ w, item.value = Bytes.windowJSON w ∧ (w.Requests.length : Int) ≤ rl.config.Rate ∧
      ∀ x ∈ w.Requests, x ≤ s

/-- The times of the three admitted calls of `TestSlidingWindow`, 0.2 s apart. -/
def threeCalls : List Int := [5000000000, 5200000000, 5400000000]

/-- The configuration of `TestFixedWindow` with a cleanup interval of one
minute. -/
def tickingConfig : Config :=
  { fixedWindowConfig with CleanupInterval := 60000000000 }

/-- The limiter of `tickingConfig` after one `Allow("test-user")` at 1 s: the
entry written for `test-user` expires at 3 s. -/
def tickingLimiter : rateLimiter :=
  ((limiterOf tickingConfig).Allow "test-user" 1000000000).2

/-- A limiter of the configuration of `TestTokenBucket` whose storage holds
bytes that are not JSON under `test-user`, with no expiry. -/
def corruptEntryLimiter : rateLimiter :=
  { config :=
      { tokenBucketConfig with
        Storage := some NewMemory, KeyExtractor := some defaultKeyExtractor },
    storage :=
      { items := [("test-user", { value := Bytes.corrupt, expiresAt := 0 })],
        closed := false },
    metrics := Metrics.zero, closed := false, cancelled := false }

/-- A limiter of the configuration of `TestTokenBucket` whose storage has been
closed behind its back. -/
def closedStorageLimiter : rateLimiter :=
  { config :=
      { tokenBucketConfig with
        Storage := some NewMemory, KeyExtractor := some defaultKeyExtractor },
    storage := { items := [], closed := true },
    metrics := Metrics.zero, closed := false, cancelled := false }

/-- The limiter of `TestFixedWindow` after its five admitted calls, all made at
1 s on a fresh key: the window of `test-user` is full. -/
def fullWindowLimiter : rateLimiter :=
  { config :=
      { fixedWindowConfig with
        Storage := some NewMemory, KeyExtractor := some defaultKeyExtractor },
    storage :=
      { items :=
          [("test-user",
            { value :=
                Bytes.windowJSON { Count := 5, WindowStart := 1000000000, Requests := [] },
              expiresAt := 3000000000 })],
        closed := false },
    metrics := Metrics.zero, closed := false, cancelled := false }

/-- The verdicts of a sequence of `AllowN` calls, in order. -/
def callVerdicts (rl : rateLimiter) : List Call → List Bool
  | [] => []
  | c :: cs => (rl.AllowN c.key c.n c.now).1 :: callVerdicts (rl.AllowN c.key c.n c.now).2 cs

/-- Two `AllowN("test-user", 1)` calls on the drained bucket of
`TestTokenBucket`, 1 s and 2 s after it was emptied at 5 s: both are denied,
6 s being needed for one token. -/
def deniedCalls : List Call :=
  [{ key := "test-user", n := 1, now := 6000000000 },
   { key := "test-user", n := 1, now := 7000000000 }]

/-- The limiter of `TestFixedWindow` after `AllowN("test-user", math.MinInt64)`
at 1 s on a fresh key: the call is admitted and leaves the count `-2^63`. -/
def negativeCountLimiter : rateLimiter :=
  ((limiterOf fixedWindowConfig).AllowN "test-user" (-9223372036854775808) 1000000000).2

/-- The number of units admitted by a sequence of `AllowN` calls: the sum of
the `n` of the calls that return true. -/
def admittedUnits (rl : rateLimiter) : List Call → Int
  | [] => 0
  | c :: cs =>
    (if (rl.AllowN c.key c.n c.now).1 then c.n else 0) +
      admittedUnits (rl.AllowN c.key c.n c.now).2 cs

/-- A Token Bucket configuration whose burst is larger than twice the rate:
1 per second, burst of 10. -/
def burstyConfig : Config :=
  { Algorithm := TokenBucket, Rate := 1, Window := 1000000000, BurstSize := 10,
    CleanupInterval := 0, Storage := none, KeyExtractor := none }

/-- Two `AllowN("k", 10)` calls, the second 2 s and 1 ns after the first. -/
def twoBursts : List Call :=
  [{ key := "k", n := 10, now := clock2026 },
   { key := "k", n := 10, now := clock2026 + 2000000001 }]

/-- The number of units admitted at times in `(lo, hi]` by a sequence of
`AllowN` calls: the sum of the `n` of the calls made in that interval that
return true. -/
def admittedIn (rl : rateLimiter) (lo hi : Int) : List Call → Int
  | [] => 0
  | c :: cs =>
    (if (rl.AllowN c.key c.n c.now).1 = true ∧ lo < c.now ∧ c.now ≤ hi then c.n else 0) +
      admittedIn (rl.AllowN c.key c.n c.now).2 lo hi cs

/-- The number of timestamps of a list that lie in `(lo, hi]`. -/
def inWindow (lo hi : Int) (l : List Int) : Int :=
  ((l.filter (fun x => decide (lo < x ∧ x ≤ hi))).length : Int)

/-- Five `AllowN("test-user", 1)` calls on the Sliding Window limiter of the
tests, 0.3 s apart. -/
def fiveCalls : List Call :=
  [{ key := "test-user", n := 1, now := 5000000000 },
   { key := "test-user", n := 1, now := 5300000000 },
   { key := "test-user", n := 1, now := 5600000000 },
   { key := "test-user", n := 1, now := 5900000000 },
   { key := "test-user", n := 1, now := 6200000000 }]

/-! ## IEEE-754 binary64 arithmetic

The `float64` operations of the Token Bucket and Leaky Bucket paths, with the
rounding that the machine performs.  A `float64` value is represented by the
rational number it denotes; every arithmetic operation returns the exact
result rounded to the nearest binary64 value, ties to even (53-bit
significand, gradual underflow below `2 ^ (-1022)`).  Infinities and NaN do not
arise from `int64` inputs with `rate > 0` and `window > 0` and are not
represented.  Operations are rounded one by one, as on amd64. -/

/-- The power `2 ^ k` for an integer `k`. -/
def pow2 (k : Int) : ℚ :=
  if 0 ≤ k then ((2 ^ k.toNat : Nat) : ℚ) else 1 / ((2 ^ (-k).toNat : Nat) : ℚ)

/-- Rounding of a rational to the nearest integer, ties to the even one. -/
def roundHalfEven (q : ℚ) : Int :=
  if q - (⌊q⌋ : ℚ) < 1 / 2 then ⌊q⌋
  else if 1 / 2 < q - (⌊q⌋ : ℚ) then ⌊q⌋ + 1
  else if ⌊q⌋ % 2 = 0 then ⌊q⌋ else ⌊q⌋ + 1

/-- The number of halvings that bring `n` below 2, with `fuel` steps allowed. -/
def log2Aux : Nat → Nat → Nat
  | 0, _ => 0
  | fuel + 1, n => if n < 2 then 0 else log2Aux fuel (n / 2) + 1

/-- The position of the leading bit of a natural number. -/
def log2 (n : Nat) : Nat := log2Aux n n

/-- The binary exponent `e` of a rational `q ≠ 0`: `2 ^ e <= |q| < 2 ^ (e + 1)`. -/
def binaryExponent (q : ℚ) : Int :=
  if pow2 ((log2 q.num.natAbs : Int) - (log2 q.den : Int)) ≤ |q| then
    (log2 q.num.natAbs : Int) - (log2 q.den : Int)
  else (log2 q.num.natAbs : Int) - (log2 q.den : Int) - 1

/-- The spacing of the binary64 values around `q`. -/
def ulp (q : ℚ) : ℚ := pow2 (max (binaryExponent q) (-1022) - 52)

/-- The binary64 value nearest to a rational, ties to even. -/
def f64 (q : ℚ) : ℚ :=
  if q = 0 then 0 else (roundHalfEven (q / ulp q) : ℚ) * ulp q

/-- Go conversion `float64(x)` of an `int64`. -/
def float64 (x : Int) : ℚ := f64 (x : ℚ)

/-- Go `a + b` on `float64`. -/
def fadd (a b : ℚ) : ℚ := f64 (a + b)

/-- Go `a - b` on `float64`. -/
def fsub (a b : ℚ) : ℚ := f64 (a - b)

/-- Go `a * b` on `float64`. -/
def fmul (a b : ℚ) : ℚ := f64 (a * b)

/-- Go `a / b` on `float64`, for `b ≠ 0`. -/
def fdiv (a b : ℚ) : ℚ := f64 (a / b)

/-- Go conversion of a `float64` to `int64` (also `time.Duration(f)`):
truncation toward zero.  For a value outside the range of `int64` the Go
specification leaves the result to the implementation; amd64 returns
`math.MinInt64`. -/
def toInt64 (q : ℚ) : Int :=
  if minInt64 ≤ truncDuration q ∧ truncDuration q ≤ maxInt64 then truncDuration q
  else minInt64

/-- Go `Duration.Seconds` in `float64`: `float64(sec) + float64(nsec)/1e9` with
`sec := d / Second` and `nsec := d % Second` (division truncated toward
zero). -/
def F64.Seconds (d : Int) : ℚ :=
  fadd (float64 (Int.tdiv d 1000000000)) (fdiv (float64 (Int.tmod d 1000000000)) 1000000000)

/-! ## The bucket paths in binary64

The Token Bucket and Leaky Bucket paths of `algorithms.go` with the `float64`
arithmetic of the source; `bucketData.Tokens` holds the rational denoted by the
stored `float64` (`json.Marshal` and `json.Unmarshal` return the same
`float64`).  `math.Min`, `math.Max` and `math.Floor` are exact. -/

/-- Method `allowTokenBucket`, in `float64`. -/
def F64.allowTokenBucket (rl : rateLimiter) (key : String) (n : Int) (now : Int) :
    Bool × rateLimiter :=
  match rl.getBucketData key now with
  | (.error _, rl1) => (false, rl1)
  | (.ok bucket, rl1) =>
    let bucket : bucketData :=
      if Time.IsZero bucket.LastRefill then
        { Tokens := float64 rl.config.BurstSize, LastRefill := now }
      else
        let timePassed := F64.Seconds (Time.Sub now bucket.LastRefill)
        let tokensToAdd :=
          fdiv (fmul timePassed (float64 rl.config.Rate)) (F64.Seconds rl.config.Window)
        { Tokens := min (float64 rl.config.BurstSize) (fadd bucket.Tokens tokensToAdd),
          LastRefill := now }
    if float64 n ≤ bucket.Tokens then
      let bucket : bucketData := { bucket with Tokens := fsub bucket.Tokens (float64 n) }
      (true, (rl1.setBucketData key bucket now).2.incAllowed)
    else
      (false, (rl1.setBucketData key bucket now).2.incDenied)

/-- Method `allowLeakyBucket`, in `float64`. -/
def F64.allowLeakyBucket (rl : rateLimiter) (key : String) (n : Int) (now : Int) :
    Bool × rateLimiter :=
  match rl.getBucketData key now with
  | (.error _, rl1) => (false, rl1)
  | (.ok bucket, rl1) =>
    let bucket : bucketData :=
      if Time.IsZero bucket.LastRefill then
        { bucket with LastRefill := now }
      else
        let timePassed := F64.Seconds (Time.Sub now bucket.LastRefill)
        let leakRate := fdiv (float64 rl.config.Rate) (F64.Seconds rl.config.Window)
        let tokensLeaked := fmul timePassed leakRate
        { Tokens := max 0 (fsub bucket.Tokens tokensLeaked), LastRefill := now }
    if fadd bucket.Tokens (float64 n) ≤ float64 rl.config.BurstSize then
      let bucket : bucketData := { bucket with Tokens := fadd bucket.Tokens (float64 n) }
      (true, (rl1.setBucketData key bucket now).2.incAllowed)
    else
      (false, (rl1.setBucketData key bucket now).2.incDenied)

/-- Method `updateMetrics`, in `float64`; `alpha := 0.1`. -/
def F64.updateMetrics (rl : rateLimiter) (latency : Int) : rateLimiter :=
  let total := rl.metrics.TotalRequests + 1
  let average : Int :=
    if total = 1 then latency
    else
      let alpha : ℚ := f64 (1 / 10)
      toInt64
        (fadd (fmul (float64 rl.metrics.AverageLatency) (fsub 1 alpha))
          (fmul (float64 latency) alpha))
  { rl with metrics := { rl.metrics with TotalRequests := total, AverageLatency := average } }

/-- Method `AllowN`, with the bucket paths in `float64`. -/
def F64.AllowN (rl : rateLimiter) (key : String) (n : Int) (now : Int) : Bool × rateLimiter :=
  if rl.closed then (false, rl)
  else
    let start := now
    let extractedKey := rl.extractKey key
    let r : Bool × rateLimiter :=
      if rl.config.Algorithm = TokenBucket then F64.allowTokenBucket rl extractedKey n now
      else if rl.config.Algorithm = FixedWindow then rl.allowFixedWindow extractedKey n now
      else if rl.config.Algorithm = SlidingWindow then rl.allowSlidingWindow extractedKey n now
      else if rl.config.Algorithm = LeakyBucket then F64.allowLeakyBucket rl extractedKey n now
      else (false, rl)
    (r.1, F64.updateMetrics r.2 (Time.Sub now start))

/-- Method `Allow`, with the bucket paths in `float64`. -/
def F64.Allow (rl : rateLimiter) (key : String) (now : Int) : Bool × rateLimiter :=
  F64.AllowN rl key 1 now

/-- Method `checkTokenBucket`, in `float64`. -/
def F64.checkTokenBucket (rl : rateLimiter) (key : String) (now : Int) :
    Result × rateLimiter :=
  match rl.getBucketData key now with
  | (.error _, rl1) => (Result.denied, rl1)
  | (.ok bucket, rl1) =>
    let timePassed := F64.Seconds (Time.Sub now bucket.LastRefill)
    let tokensToAdd :=
      fdiv (fmul timePassed (float64 rl.config.Rate)) (F64.Seconds rl.config.Window)
    let currentTokens := min (float64 rl.config.BurstSize) (fadd bucket.Tokens tokensToAdd)
    let retryAfter : Int :=
      if currentTokens < 1 then
        let tokensNeeded := fsub 1 currentTokens
        let timeNeeded :=
          fdiv tokensNeeded (fdiv (float64 rl.config.Rate) (F64.Seconds rl.config.Window))
        toInt64 (fmul timeNeeded 1000000000)
      else 0
    ({ Allowed := decide (1 ≤ currentTokens),
       Remaining := toInt64 ((⌊currentTokens⌋ : Int) : ℚ),
       ResetTime := Time.Add now rl.config.Window,
       RetryAfter := retryAfter,
       Metadata :=
         [("algorithm", MetaValue.str "TokenBucket"),
          ("current_tokens", MetaValue.float currentTokens),
          ("burst_size", MetaValue.int rl.config.BurstSize)] }, rl1)

/-- Method `checkLeakyBucket`, in `float64`. -/
def F64.checkLeakyBucket (rl : rateLimiter) (key : String) (now : Int) :
    Result × rateLimiter :=
  match rl.getBucketData key now with
  | (.error _, rl1) => (Result.denied, rl1)
  | (.ok bucket, rl1) =>
    let currentLevel : ℚ :=
      if !Time.IsZero bucket.LastRefill then
        let timePassed := F64.Seconds (Time.Sub now bucket.LastRefill)
        let leakRate := fdiv (float64 rl.config.Rate) (F64.Seconds rl.config.Window)
        let tokensLeaked := fmul timePassed leakRate
        max 0 (fsub bucket.Tokens tokensLeaked)
      else bucket.Tokens
    let availableSpace := fsub (float64 rl.config.BurstSize) currentLevel
    let retryAfter : Int :=
      if availableSpace < 1 then
        let spaceNeeded := fsub 1 availableSpace
        let leakRate := fdiv (float64 rl.config.Rate) (F64.Seconds rl.config.Window)
        let timeNeeded := fdiv spaceNeeded leakRate
        toInt64 (fmul timeNeeded 1000000000)
      else 0
    ({ Allowed := decide (1 ≤ availableSpace),
       Remaining := toInt64 ((⌊availableSpace⌋ : Int) : ℚ),
       ResetTime :=
         Time.Add now
           (wrap64
             (toInt64
               (fmul (fdiv currentLevel (float64 rl.config.Rate))
                 (F64.Seconds rl.config.Window))
               * 1000000000)),
       RetryAfter := retryAfter,
       Metadata :=
         [("algorithm", MetaValue.str "LeakyBucket"),
          ("current_level", MetaValue.float currentLevel),
          ("available_space", MetaValue.float availableSpace),
          ("leak_rate",
            MetaValue.float (fdiv (float64 rl.config.Rate) (F64.Seconds rl.config.Window)))] },
      rl1)

/-- Method `Check`, with the bucket paths in `float64`. -/
def F64.Check (rl : rateLimiter) (key : String) (now : Int) : Result × rateLimiter :=
  if rl.closed then (Result.denied, rl)
  else
    let extractedKey := rl.extractKey key
    if rl.config.Algorithm = TokenBucket then F64.checkTokenBucket rl extractedKey now
    else if rl.config.Algorithm = FixedWindow then rl.checkFixedWindow extractedKey now
    else if rl.config.Algorithm = SlidingWindow then rl.checkSlidingWindow extractedKey now
    else if rl.config.Algorithm = LeakyBucket then F64.checkLeakyBucket rl extractedKey now
    else (Result.denied, rl)

/-- The verdicts of `Allow(key)` called once at each of the given times, in
order, and the limiter afterwards (`float64` paths). -/
def F64.allowAt (rl : rateLimiter) (key : String) : List Int → List Bool × rateLimiter
  | [] => ([], rl)
  | t :: ts =>
    let r := F64.Allow rl key t
    let rest := F64.allowAt r.2 key ts
    (r.1 :: rest.1, rest.2)

/-- The limiter after a sequence of `AllowN` calls (`float64` paths). -/
def F64.runCalls (rl : rateLimiter) : List Call → rateLimiter
  | [] => rl
  | c :: cs => F64.runCalls (F64.AllowN rl c.key c.n c.now).2 cs

/-- The verdicts of a sequence of `AllowN` calls (`float64` paths). -/
def F64.callVerdicts (rl : rateLimiter) : List Call → List Bool
  | [] => []
  | c :: cs =>
    (F64.AllowN rl c.key c.n c.now).1 :: F64.callVerdicts (F64.AllowN rl c.key c.n c.now).2 cs

/-- The number of units admitted by a sequence of `AllowN` calls (`float64`
paths). -/
def F64.admittedUnits (rl : rateLimiter) : List Call → Int
  | [] => 0
  | c :: cs =>
    (if (F64.AllowN rl c.key c.n c.now).1 = true then c.n else 0) +
      F64.admittedUnits (F64.AllowN rl c.key c.n c.now).2 cs

/-- The `float64` refill `timePassed * float64(rate) / window.Seconds()` for an
elapsed duration. -/
def F64.tokensToAdd (cfg : Config) (elapsed : Int) : ℚ :=
  fdiv (fmul (F64.Seconds elapsed) (float64 cfg.Rate)) (F64.Seconds cfg.Window)

/-- The `float64` leak `timePassed * (float64(rate) / window.Seconds())` for an
elapsed duration. -/
def F64.tokensLeaked (cfg : Config) (elapsed : Int) : ℚ :=
  fmul (F64.Seconds elapsed) (fdiv (float64 cfg.Rate) (F64.Seconds cfg.Window))

/-- The refreshed token level against which `allowTokenBucket` compares
`float64(n)`. -/
def F64.tokenLevel (cfg : Config) (b : bucketData) (now : Int) : ℚ :=
  if Time.IsZero b.LastRefill then float64 cfg.BurstSize
  else
    min (float64 cfg.BurstSize)
      (fadd b.Tokens (F64.tokensToAdd cfg (Time.Sub now b.LastRefill)))

/-- The decayed occupancy to which `allowLeakyBucket` adds `float64(n)`. -/
def F64.leakLevel (cfg : Config) (b : bucketData) (now : Int) : ℚ :=
  if Time.IsZero b.LastRefill then b.Tokens
  else max 0 (fsub b.Tokens (F64.tokensLeaked cfg (Time.Sub now b.LastRefill)))

/-- The level that `checkTokenBucket` reports. -/
def F64.checkLevel (cfg : Config) (b : bucketData) (now : Int) : ℚ :=
  min (float64 cfg.BurstSize)
    (fadd b.Tokens (F64.tokensToAdd cfg (Time.Sub now b.LastRefill)))

/-- The occupancy that `checkLeakyBucket` reports. -/
def F64.checkLeakLevel (cfg : Config) (b : bucketData) (now : Int) : ℚ :=
  if !Time.IsZero b.LastRefill then
    max 0 (fsub b.Tokens (F64.tokensLeaked cfg (Time.Sub now b.LastRefill)))
  else b.Tokens

/-- The verdict and the bucket persisted by `allowTokenBucket` for a loaded
bucket. -/
def F64.tokenBucketNext (cfg : Config) (n now : Int) (b : bucketData) : Bool × bucketData :=
  (decide (float64 n ≤ F64.tokenLevel cfg b now),
    { Tokens :=
        if float64 n ≤ F64.tokenLevel cfg b now then
          fsub (F64.tokenLevel cfg b now) (float64 n)
        else F64.tokenLevel cfg b now,
      LastRefill := now })

/-- The verdict and the bucket persisted by `allowLeakyBucket` for a loaded
bucket. -/
def F64.leakyBucketNext (cfg : Config) (n now : Int) (b : bucketData) : Bool × bucketData :=
  (decide (fadd (F64.leakLevel cfg b now) (float64 n) ≤ float64 cfg.BurstSize),
    { Tokens :=
        if fadd (F64.leakLevel cfg b now) (float64 n) ≤ float64 cfg.BurstSize then
          fadd (F64.leakLevel cfg b now) (float64 n)
        else F64.leakLevel cfg b now,
      LastRefill := now })

/-- The result reported by `checkTokenBucket` for a loaded bucket. -/
def F64.tokenBucketReport (cfg : Config) (now : Int) (b : bucketData) : Result :=
  { Allowed := decide (1 ≤ F64.checkLevel cfg b now),
    Remaining := toInt64 ((⌊F64.checkLevel cfg b now⌋ : Int) : ℚ),
    ResetTime := Time.Add now cfg.Window,
    RetryAfter :=
      if F64.checkLevel cfg b now < 1 then
        toInt64
          (fmul
            (fdiv (fsub 1 (F64.checkLevel cfg b now))
              (fdiv (float64 cfg.Rate) (F64.Seconds cfg.Window)))
            1000000000)
      else 0,
    Metadata :=
      [("algorithm", MetaValue.str "TokenBucket"),
       ("current_tokens", MetaValue.float (F64.checkLevel cfg b now)),
       ("burst_size", MetaValue.int cfg.BurstSize)] }

/-- The result reported by `checkLeakyBucket` for a loaded bucket. -/
def F64.leakyBucketReport (cfg : Config) (now : Int) (b : bucketData) : Result :=
  { Allowed := decide (1 ≤ fsub (float64 cfg.BurstSize) (F64.checkLeakLevel cfg b now)),
    Remaining :=
      toInt64 ((⌊fsub (float64 cfg.BurstSize) (F64.checkLeakLevel cfg b now)⌋ : Int) : ℚ),
    ResetTime :=
      Time.Add now
        (wrap64
          (toInt64
            (fmul (fdiv (F64.checkLeakLevel cfg b now) (float64 cfg.Rate))
              (F64.Seconds cfg.Window))
            * 1000000000)),
    RetryAfter :=
      if fsub (float64 cfg.BurstSize) (F64.checkLeakLevel cfg b now) < 1 then
        toInt64
          (fmul
            (fdiv (fsub 1 (fsub (float64 cfg.BurstSize) (F64.checkLeakLevel cfg b now)))
              (fdiv (float64 cfg.Rate) (F64.Seconds cfg.Window)))
            1000000000)
      else 0,
    Metadata :=
      [("algorithm", MetaValue.str "LeakyBucket"),
       ("current_level", MetaValue.float (F64.checkLeakLevel cfg b now)),
       ("available_space",
         MetaValue.float (fsub (float64 cfg.BurstSize) (F64.checkLeakLevel cfg b now))),
       ("leak_rate", MetaValue.float (fdiv (float64 cfg.Rate) (F64.Seconds cfg.Window)))] }

/-- A Token Bucket configuration whose burst size is not a `float64` value:
`2 ^ 53 + 3`. -/
def oddBurstConfig : Config :=
  { Algorithm := TokenBucket, Rate := 1, Window := 1000000000, BurstSize := 9007199254740995,
    CleanupInterval := 0, Storage := none, KeyExtractor := none }

/-- A Leaky Bucket configuration whose leak rate `7 / 4.9` is not a `float64`
value: 7 per 4.9 s, capacity 1. -/
def leakOneConfig : Config :=
  { Algorithm := LeakyBucket, Rate := 7, Window := 4900000000, BurstSize := 1,
    CleanupInterval := 0, Storage := none, KeyExtractor := none }

/-- The same leak rate with capacity 2. -/
def leakTwoConfig : Config :=
  { Algorithm := LeakyBucket, Rate := 7, Window := 4900000000, BurstSize := 2,
    CleanupInterval := 0, Storage := none, KeyExtractor := none }

/-- A Token Bucket configuration whose refill time is not a `float64` number
of seconds: 3 per 0.9 s, burst of 1. -/
def thirdWindowConfig : Config :=
  { Algorithm := TokenBucket, Rate := 3, Window := 900000000, BurstSize := 1,
    CleanupInterval := 0, Storage := none, KeyExtractor := none }

/-- A Token Bucket configuration with a burst of `2 ^ 53`, the largest
`float64` value whose neighbours are one apart. -/
def maxExactBurstConfig : Config :=
  { Algorithm := TokenBucket, Rate := 1, Window := 1000000000, BurstSize := 9007199254740992,
    CleanupInterval := 0, Storage := none, KeyExtractor := none }

/-- A Token Bucket configuration whose refill time is a whole number of
nanoseconds: 1000 per hour (one token every 3.6 s), burst of 1. -/
def hourlyConfig : Config :=
  { Algorithm := TokenBucket, Rate := 1000, Window := 3600000000000, BurstSize := 1,
    CleanupInterval := 0, Storage := none, KeyExtractor := none }

/-- The limiter of `TestLeakyBucket` after its five admitted calls, all made at
the instant 5 s: the bucket of `test-user` is full. -/
def fullBucketLimiter : rateLimiter :=
  { config :=
      { leakyBucketConfig with
        Storage := some NewMemory, KeyExtractor := some defaultKeyExtractor },
    storage :=
      { items :=
          [("test-user",
            { value := Bytes.bucketJSON { Tokens := 5, LastRefill := 5000000000 },
              expiresAt := 7000000000 })],
        closed := false },
    metrics := Metrics.zero, closed := false, cancelled := false }

/-- The unit roundoff of binary64, `2 ^ (-53)`. -/
def unitRoundoff : ℚ := 1 / 9007199254740992

/-- The value `a` approximates `x >= 0` with a relative error of `p` roundings
up or down in the numerator and `m` in the denominator. -/
def RelErr (p m : Nat) (a x : ℚ) : Prop :=
  x * (1 - unitRoundoff) ^ p / (1 + unitRoundoff) ^ m ≤ a ∧
    a ≤ x * (1 + unitRoundoff) ^ p / (1 - unitRoundoff) ^ m

/-- A Token Bucket configuration with a large burst: 1 per second, burst of
20000000. -/
def wideBurstConfig : Config :=
  { Algorithm := TokenBucket, Rate := 1, Window := 1000000000, BurstSize := 20000000,
    CleanupInterval := 0, Storage := none, KeyExtractor := none }

/-- The calls `AllowN("k", 1)` and, 999999999 ns later, `AllowN("k", 20000000)`. -/
def roundedBursts : List Call :=
  [{ key := "k", n := 1, now := clock2026 },
   { key := "k", n := 20000000, now := clock2026 + 999999999 }]

/-- One `AllowN("test-user", 1)` call on the drained bucket of
`TestTokenBucket`, 12 ms after it was emptied at 5 s. -/
def deniedOnce : List Call :=
  [{ key := "test-user", n := 1, now := 5012000000 }]

/-! ## The in-memory map -/

theorem lookup_mapDelete_self (key : String) (m : List (String × memoryItem)) :
    (mapDelete key m).lookup key = none := by
  induction m with
  | nil => rfl
  | cons p m ih =>
    obtain ⟨k, v⟩ := p
    by_cases h : k = key
    · subst h
      simpa [mapDelete, List.filter] using ih
    · have hb : (k == key) = false := by simpa using h
      have hb2 : (key == k) = false := by simpa using fun e => h e.symm
      simp only [mapDelete, List.filter, hb, Bool.not_false, List.lookup, hb2]
      simpa [mapDelete] using ih

theorem lookup_mapDelete_ne (key other : String) (m : List (String × memoryItem))
    (h : other ≠ key) : (mapDelete key m).lookup other = m.lookup other := by
  induction m with
  | nil => rfl
  | cons p m ih =>
    obtain ⟨k, v⟩ := p
    by_cases hk : k = key
    · subst hk
      have hb : (other == k) = false := by simpa using h
      simpa [mapDelete, List.filter, List.lookup, hb] using ih
    · have hb : (k == key) = false := by simpa using hk
      simp only [mapDelete, List.filter, hb, Bool.not_false, List.lookup]
      cases hc : (other == k)
      · simpa [mapDelete] using ih
      · rfl

theorem lookup_mapInsert_self (key : String) (item : memoryItem)
    (m : List (String × memoryItem)) : (mapInsert key item m).lookup key = some item := by
  simp [mapInsert, List.lookup]

theorem lookup_mapInsert_ne (key other : String) (item : memoryItem)
    (m : List (String × memoryItem)) (h : other ≠ key) :
    (mapInsert key item m).lookup other = m.lookup other := by
  have hb : (other == key) = false := by simpa using h
  simp only [mapInsert, List.lookup, hb]
  exact lookup_mapDelete_ne key other m h

/-! ## Construction -/

theorem validateConfig_fst (cfg : Config) :
    (validateConfig cfg).1 =
      if cfg.Rate ≤ 0 then some LimiterError.rateNotPositive
      else if cfg.Window ≤ 0 then some LimiterError.windowNotPositive
      else none := by
  unfold validateConfig
  split_ifs <;> rfl

/-- What a successful `New` guarantees about the limiter it returns. -/
theorem New_ok {cfg : Config} {rl : rateLimiter} (h : New cfg = Except.ok rl) :
    0 < cfg.Rate ∧ 0 < cfg.Window ∧ rl.config.Algorithm = cfg.Algorithm ∧
      rl.config.Rate = cfg.Rate ∧ rl.config.Window = cfg.Window ∧
      rl.config.BurstSize = cfg.BurstSize ∧ rl.closed = false ∧
      rl.metrics = Metrics.zero ∧ rl.storage = cfg.Storage.getD NewMemory := by
  unfold New at h
  rw [validateConfig_fst] at h
  by_cases h1 : cfg.Rate ≤ 0
  · simp [h1] at h
  · by_cases h2 : cfg.Window ≤ 0
    · simp [h1, h2] at h
    · simp only [h1, h2, if_false] at h
      injection h with h
      subst h
      refine ⟨by omega, by omega, ?_, ?_, ?_, ?_, rfl, rfl, ?_⟩
      all_goals (cases hs : cfg.Storage <;> cases hk : cfg.KeyExtractor <;> simp [hs, hk])

/-- C3. Construction validation: `validateConfig` reports an error, and `New`
returns an error, exactly when `rate <= 0` or `window <= 0`; `New` returns a
limiter exactly when `rate > 0` and `window > 0`. -/
theorem New_error_iff (cfg : Config) :
    ((validateConfig cfg).1.isSome = true ↔ (cfg.Rate ≤ 0 ∨ cfg.Window ≤ 0)) ∧
      ((∃ e, New cfg = Except.error e) ↔ (cfg.Rate ≤ 0 ∨ cfg.Window ≤ 0)) ∧
      ((∃ rl, New cfg = Except.ok rl) ↔ (0 < cfg.Rate ∧ 0 < cfg.Window)) := by
  refine ⟨?_, ?_, ?_⟩
  · rw [validateConfig_fst]
    by_cases h1 : cfg.Rate ≤ 0
    · simp [h1]
    · by_cases h2 : cfg.Window ≤ 0 <;> simp [h1, h2]
  · unfold New
    rw [validateConfig_fst]
    by_cases h1 : cfg.Rate ≤ 0
    · simp [h1]
    · by_cases h2 : cfg.Window ≤ 0 <;> simp [h1, h2]
  · unfold New
    rw [validateConfig_fst]
    by_cases h1 : cfg.Rate ≤ 0
    · simp [h1]
    · by_cases h2 : cfg.Window ≤ 0
      · simp [h1, h2]
      · simp only [h1, h2, if_false]
        constructor
        · intro _
          omega
        · intro _
          exact ⟨_, rfl⟩

/-! ## Storage and per-key state lemmas -/

theorem Get_snd_closed (ms : MemoryStorage) (key : String) (now : Int) :
    (ms.Get key now).2.closed = ms.closed := by
  unfold MemoryStorage.Get
  split_ifs with h
  · rfl
  · split
    · rfl
    · split_ifs <;> rfl

theorem Get_of_lookup_none (ms : MemoryStorage) (key : String) (now : Int)
    (hopen : ms.closed = false) (h : ms.items.lookup key = none) :
    ms.Get key now = (Except.error StorageError.ErrKeyNotFound, ms) := by
  simp [MemoryStorage.Get, hopen, h]

theorem Get_of_live (ms : MemoryStorage) (key : String) (now : Int) (item : memoryItem)
    (hopen : ms.closed = false) (h : ms.items.lookup key = some item)
    (hlive : item.isExpired now = false) :
    ms.Get key now = (Except.ok item.value, ms) := by
  simp [MemoryStorage.Get, hopen, h, hlive]

theorem Get_of_expired (ms : MemoryStorage) (key : String) (now : Int) (item : memoryItem)
    (hopen : ms.closed = false) (h : ms.items.lookup key = some item)
    (hexp : item.isExpired now = true) :
    ms.Get key now =
      (Except.error StorageError.ErrKeyNotFound,
        { ms with items := mapDelete key ms.items }) := by
  simp [MemoryStorage.Get, hopen, h, hexp]

theorem Get_of_closed (ms : MemoryStorage) (key : String) (now : Int)
    (hclosed : ms.closed = true) :
    ms.Get key now = (Except.error StorageError.ErrStorageClosed, ms) := by
  simp [MemoryStorage.Get, hclosed]

theorem Set_of_open (ms : MemoryStorage) (key : String) (value : Bytes) (ttl now : Int)
    (hopen : ms.closed = false) :
    ms.Set key value ttl now =
      (none,
        { ms with
          items :=
            mapInsert key (memoryItem.mk value (if 0 < ttl then Time.Add now ttl else 0))
              ms.items }) := by
  simp [MemoryStorage.Set, hopen]

theorem getBucketData_snd (rl : rateLimiter) (key : String) (now : Int) :
    (rl.getBucketData key now).2 = { rl with storage := (rl.storage.Get key now).2 } := by
  unfold rateLimiter.getBucketData
  dsimp only
  split
  · rfl
  · split <;> rfl

theorem getWindowData_snd (rl : rateLimiter) (key : String) (now : Int) :
    (rl.getWindowData key now).2 = { rl with storage := (rl.storage.Get key now).2 } := by
  unfold rateLimiter.getWindowData
  dsimp only
  split
  · rfl
  · split <;> rfl

theorem getBucketData_of_error (rl : rateLimiter) (key : String) (now : Int)
    (e : StorageError) (h : (rl.storage.Get key now).1 = Except.error e) :
    (rl.getBucketData key now).1 = Except.ok { Tokens := 0, LastRefill := 0 } := by
  simp [rateLimiter.getBucketData, h]

theorem getBucketData_of_ok (rl : rateLimiter) (key : String) (now : Int) (data : Bytes)
    (h : (rl.storage.Get key now).1 = Except.ok data) :
    (rl.getBucketData key now).1 =
      match unmarshalBucket data with
      | none => Except.error LimiterError.deserialize
      | some b => Except.ok b := by
  simp only [rateLimiter.getBucketData, h]
  cases unmarshalBucket data <;> rfl

theorem getWindowData_of_error (rl : rateLimiter) (key : String) (now : Int)
    (e : StorageError) (h : (rl.storage.Get key now).1 = Except.error e) :
    (rl.getWindowData key now).1 =
      Except.ok { Count := 0, WindowStart := now, Requests := [] } := by
  simp [rateLimiter.getWindowData, h]

theorem getWindowData_of_ok (rl : rateLimiter) (key : String) (now : Int) (data : Bytes)
    (h : (rl.storage.Get key now).1 = Except.ok data) :
    (rl.getWindowData key now).1 =
      match unmarshalWindow data with
      | none => Except.error LimiterError.deserialize
      | some w => Except.ok w := by
  simp only [rateLimiter.getWindowData, h]
  cases unmarshalWindow data <;> rfl

/-- Writing a bucket on an open storage leaves it under the key with the
expiry `expiryAt`, and changes nothing else of the limiter. -/
theorem setBucketData_of_open (rl : rateLimiter) (key : String) (b : bucketData) (now : Int)
    (hopen : rl.storage.closed = false) :
    (rl.setBucketData key b now).2 =
      { rl with
        storage :=
          { rl.storage with
            items :=
              mapInsert key (memoryItem.mk (Bytes.bucketJSON b) (expiryAt rl.config now))
                rl.storage.items } } := by
  simp [rateLimiter.setBucketData, Set_of_open _ _ _ _ _ hopen, expiryAt]

theorem setWindowData_of_open (rl : rateLimiter) (key : String) (w : windowData) (now : Int)
    (hopen : rl.storage.closed = false) :
    (rl.setWindowData key w now).2 =
      { rl with
        storage :=
          { rl.storage with
            items :=
              mapInsert key (memoryItem.mk (Bytes.windowJSON w) (expiryAt rl.config now))
                rl.storage.items } } := by
  simp [rateLimiter.setWindowData, Set_of_open _ _ _ _ _ hopen, expiryAt]

theorem getBucketData_of_lookup_none (rl : rateLimiter) (key : String) (now : Int)
    (hopen : rl.storage.closed = false) (h : rl.storage.items.lookup key = none) :
    (rl.getBucketData key now).1 = Except.ok { Tokens := 0, LastRefill := 0 } ∧
      (rl.storage.Get key now).2 = rl.storage := by
  have hg := Get_of_lookup_none rl.storage key now hopen h
  exact ⟨getBucketData_of_error rl key now _ (by rw [hg]), by rw [hg]⟩

theorem getBucketData_of_live (rl : rateLimiter) (key : String) (now : Int)
    (item : memoryItem) (b : bucketData)
    (hopen : rl.storage.closed = false) (h : rl.storage.items.lookup key = some item)
    (hlive : item.isExpired now = false) (hval : item.value = Bytes.bucketJSON b) :
    (rl.getBucketData key now).1 = Except.ok b ∧
      (rl.storage.Get key now).2 = rl.storage := by
  have hg := Get_of_live rl.storage key now item hopen h hlive
  refine ⟨?_, by rw [hg]⟩
  rw [getBucketData_of_ok rl key now item.value (by rw [hg]), hval]
  rfl

theorem getBucketData_of_expired (rl : rateLimiter) (key : String) (now : Int)
    (item : memoryItem)
    (hopen : rl.storage.closed = false) (h : rl.storage.items.lookup key = some item)
    (hexp : item.isExpired now = true) :
    (rl.getBucketData key now).1 = Except.ok { Tokens := 0, LastRefill := 0 } := by
  have hg := Get_of_expired rl.storage key now item hopen h hexp
  exact getBucketData_of_error rl key now _ (by rw [hg])

theorem getWindowData_of_lookup_none (rl : rateLimiter) (key : String) (now : Int)
    (hopen : rl.storage.closed = false) (h : rl.storage.items.lookup key = none) :
    (rl.getWindowData key now).1 =
        Except.ok { Count := 0, WindowStart := now, Requests := [] } ∧
      (rl.storage.Get key now).2 = rl.storage := by
  have hg := Get_of_lookup_none rl.storage key now hopen h
  exact ⟨getWindowData_of_error rl key now _ (by rw [hg]), by rw [hg]⟩

theorem getWindowData_of_live (rl : rateLimiter) (key : String) (now : Int)
    (item : memoryItem) (w : windowData)
    (hopen : rl.storage.closed = false) (h : rl.storage.items.lookup key = some item)
    (hlive : item.isExpired now = false) (hval : item.value = Bytes.windowJSON w) :
    (rl.getWindowData key now).1 = Except.ok w ∧
      (rl.storage.Get key now).2 = rl.storage := by
  have hg := Get_of_live rl.storage key now item hopen h hlive
  refine ⟨?_, by rw [hg]⟩
  rw [getWindowData_of_ok rl key now item.value (by rw [hg]), hval]
  rfl

theorem getWindowData_of_expired (rl : rateLimiter) (key : String) (now : Int)
    (item : memoryItem)
    (hopen : rl.storage.closed = false) (h : rl.storage.items.lookup key = some item)
    (hexp : item.isExpired now = true) :
    (rl.getWindowData key now).1 =
      Except.ok { Count := 0, WindowStart := now, Requests := [] } := by
  have hg := Get_of_expired rl.storage key now item hopen h hexp
  exact getWindowData_of_error rl key now _ (by rw [hg])

/-! ## Expiry of persisted state -/

theorem wrap64_of_range (x : Int) (h1 : minInt64 ≤ x) (h2 : x ≤ maxInt64) : wrap64 x = x := by
  unfold wrap64
  unfold minInt64 at h1
  unfold maxInt64 at h2
  omega

/-- A state persisted at `now` has not expired at `now`. -/
theorem isExpired_expiryAt_same (cfg : Config) (v : Bytes) (now : Int) :
    (memoryItem.mk v (expiryAt cfg now)).isExpired now = false := by
  unfold memoryItem.isExpired expiryAt Time.IsZero Time.After Time.Add
  by_cases h : 0 < wrap64 (cfg.Window * 2)
  · simp only [h, if_true]
    simp only [Bool.and_eq_false_iff, decide_eq_false_iff_not]
    right
    omega
  · simp [h]

/-- A state persisted at `t` has not expired up to `t + 2 * window`. -/
theorem isExpired_expiryAt_le (cfg : Config) (v : Bytes) (t now : Int)
    (hW : 0 < cfg.Window) (hW2 : cfg.Window ≤ maxInt64) (h : now ≤ t + 2 * cfg.Window) :
    (memoryItem.mk v (expiryAt cfg t)).isExpired now = false := by
  unfold memoryItem.isExpired expiryAt Time.IsZero Time.After Time.Add
  by_cases hp : 0 < wrap64 (cfg.Window * 2)
  · simp only [hp, if_true]
    simp only [Bool.and_eq_false_iff, decide_eq_false_iff_not]
    right
    unfold wrap64 at hp ⊢
    unfold maxInt64 at hW2
    omega
  · simp [hp]

/-- A state persisted at `t` that has expired at `now` is more than
`2 * window` old. -/
theorem isExpired_expiryAt_gt (cfg : Config) (v : Bytes) (t now : Int)
    (hW : 0 < cfg.Window) (hW2 : cfg.Window ≤ maxInt64)
    (h : (memoryItem.mk v (expiryAt cfg t)).isExpired now = true) :
    t + 2 * cfg.Window < now := by
  by_contra hc
  rw [isExpired_expiryAt_le cfg v t now hW hW2 (by omega)] at h
  exact Bool.noConfusion h

/-! ## Metrics bookkeeping -/

@[simp] theorem incAllowed_config (rl : rateLimiter) : rl.incAllowed.config = rl.config := rfl
@[simp] theorem incAllowed_storage (rl : rateLimiter) : rl.incAllowed.storage = rl.storage := rfl
@[simp] theorem incAllowed_closed (rl : rateLimiter) : rl.incAllowed.closed = rl.closed := rfl
@[simp] theorem incDenied_config (rl : rateLimiter) : rl.incDenied.config = rl.config := rfl
@[simp] theorem incDenied_storage (rl : rateLimiter) : rl.incDenied.storage = rl.storage := rfl
@[simp] theorem incDenied_closed (rl : rateLimiter) : rl.incDenied.closed = rl.closed := rfl
@[simp] theorem updateMetrics_config (rl : rateLimiter) (l : Int) :
    (rl.updateMetrics l).config = rl.config := rfl
@[simp] theorem updateMetrics_storage (rl : rateLimiter) (l : Int) :
    (rl.updateMetrics l).storage = rl.storage := rfl
@[simp] theorem updateMetrics_closed (rl : rateLimiter) (l : Int) :
    (rl.updateMetrics l).closed = rl.closed := rfl

/-! ## Token Bucket: one call -/

/-- One `allowTokenBucket` call on an open storage, in terms of the loaded
bucket: the verdict compares `n` with the refreshed level, and the bucket
written back holds the level less `n` on admission, the level on denial. -/
theorem allowTokenBucket_eq (rl : rateLimiter) (key : String) (n now : Int) (b : bucketData)
    (hopen : rl.storage.closed = false)
    (hload : (rl.getBucketData key now).1 = Except.ok b) :
    (rl.allowTokenBucket key n now).1 = decide ((n : ℚ) ≤ tokenLevel rl.config b now) ∧
      (rl.allowTokenBucket key n now).2.config = rl.config ∧
      (rl.allowTokenBucket key n now).2.closed = rl.closed ∧
      (rl.allowTokenBucket key n now).2.storage.closed = false ∧
      (rl.allowTokenBucket key n now).2.storage.items.lookup key =
        some (memoryItem.mk
          (Bytes.bucketJSON
            { Tokens :=
                if (n : ℚ) ≤ tokenLevel rl.config b now then
                  tokenLevel rl.config b now - (n : ℚ)
                else tokenLevel rl.config b now,
              LastRefill := now })
          (expiryAt rl.config now)) := by
  have hpair : rl.getBucketData key now =
      (Except.ok b, { rl with storage := (rl.storage.Get key now).2 }) :=
    Prod.ext hload (getBucketData_snd rl key now)
  have hopen1 : ({ rl with storage := (rl.storage.Get key now).2 } : rateLimiter).storage.closed
      = false := by
    simp [Get_snd_closed, hopen]
  unfold rateLimiter.allowTokenBucket
  rw [hpair]
  by_cases hz : Time.IsZero b.LastRefill = true
  · by_cases hn : (n : ℚ) ≤ (rl.config.BurstSize : ℚ)
    · simp [tokenLevel, hz, hn, setBucketData_of_open _ _ _ _ hopen1, lookup_mapInsert_self,
        Get_snd_closed, hopen]
    · simp [tokenLevel, hz, hn, setBucketData_of_open _ _ _ _ hopen1, lookup_mapInsert_self,
        Get_snd_closed, hopen]
  · by_cases hn : (n : ℚ) ≤ min (rl.config.BurstSize : ℚ)
        (b.Tokens + Duration.Seconds (Time.Sub now b.LastRefill) * (rl.config.Rate : ℚ) /
          Duration.Seconds rl.config.Window)
    · simp [tokenLevel, hz, hn, setBucketData_of_open _ _ _ _ hopen1, lookup_mapInsert_self,
        Get_snd_closed, hopen]
    · simp [tokenLevel, hz, hn, setBucketData_of_open _ _ _ _ hopen1, lookup_mapInsert_self,
        Get_snd_closed, hopen]

/-- One `AllowN` call of an open Token Bucket limiter on an open storage. -/
theorem AllowN_tokenBucket (rl : rateLimiter) (key : String) (n now : Int) (b : bucketData)
    (hcl : rl.closed = false) (halg : rl.config.Algorithm = TokenBucket)
    (hopen : rl.storage.closed = false)
    (hload : (rl.getBucketData (rl.extractKey key) now).1 = Except.ok b) :
    (rl.AllowN key n now).1 = decide ((n : ℚ) ≤ tokenLevel rl.config b now) ∧
      (rl.AllowN key n now).2.config = rl.config ∧
      (rl.AllowN key n now).2.closed = false ∧
      (rl.AllowN key n now).2.storage.closed = false ∧
      (rl.AllowN key n now).2.storage.items.lookup (rl.extractKey key) =
        some (memoryItem.mk
          (Bytes.bucketJSON
            { Tokens :=
                if (n : ℚ) ≤ tokenLevel rl.config b now then
                  tokenLevel rl.config b now - (n : ℚ)
                else tokenLevel rl.config b now,
              LastRefill := now })
          (expiryAt rl.config now)) := by
  obtain ⟨h1, h2, h3, h4, h5⟩ := allowTokenBucket_eq rl (rl.extractKey key) n now b hopen hload
  simp only [rateLimiter.AllowN, hcl, halg, if_true, Bool.false_eq_true, if_false,
    updateMetrics_config, updateMetrics_closed, updateMetrics_storage]
  exact ⟨h1, h2, h3.trans hcl, h4, h5⟩

theorem extractKey_congr (rl rl1 : rateLimiter) (h : rl1.config = rl.config) (key : String) :
    rl1.extractKey key = rl.extractKey key := by
  unfold rateLimiter.extractKey
  rw [h]

/-- With no time elapsed since the last update, the refreshed level is the
stored level capped at the burst size. -/
theorem tokenLevel_same (cfg : Config) (tokens : ℚ) (now : Int) (hnow : now ≠ 0) :
    tokenLevel cfg { Tokens := tokens, LastRefill := now } now =
      min (cfg.BurstSize : ℚ) tokens := by
  have hs : Time.Sub now now = 0 := by
    unfold Time.Sub maxInt64 minInt64
    simp
  simp [tokenLevel, Time.IsZero, hnow, hs, Duration.Seconds]

theorem tokenLevel_fresh (cfg : Config) (now : Int) :
    tokenLevel cfg { Tokens := 0, LastRefill := 0 } now = (cfg.BurstSize : ℚ) := by
  simp [tokenLevel, Time.IsZero]

/-! ## Token Bucket: the burst -/

theorem allowAt_cons_fst (rl : rateLimiter) (key : String) (t : Int) (ts : List Int) :
    (allowAt rl key (t :: ts)).1 =
      (rl.AllowN key 1 t).1 :: (allowAt (rl.AllowN key 1 t).2 key ts).1 := rfl

theorem allowAt_cons_snd (rl : rateLimiter) (key : String) (t : Int) (ts : List Int) :
    (allowAt rl key (t :: ts)).2 = (allowAt (rl.AllowN key 1 t).2 key ts).2 := rfl

/-- From a bucket holding `j` whole tokens, updated at `now`, the next `j`
calls at `now` are admitted and the one after them is denied. -/
theorem tokenBucket_drain (j : Nat) : ∀ (rl : rateLimiter) (key : String) (now : Int),
    now ≠ 0 → rl.closed = false → rl.config.Algorithm = TokenBucket →
    rl.storage.closed = false → (j : Int) ≤ rl.config.BurstSize →
    rl.storage.items.lookup (rl.extractKey key) =
      some (memoryItem.mk (Bytes.bucketJSON { Tokens := (j : ℚ), LastRefill := now })
        (expiryAt rl.config now)) →
    (allowAt rl key (List.replicate (j + 1) now)).1 = List.replicate j true ++ [false] := by
  induction j with
  | zero =>
    intro rl key now hnow hcl halg hopen _ hst
    have hload := (getBucketData_of_live rl (rl.extractKey key) now _ _ hopen hst
      (isExpired_expiryAt_same _ _ _) rfl).1
    obtain ⟨h1, _, _, _, _⟩ := AllowN_tokenBucket rl key 1 now _ hcl halg hopen hload
    have hB : (0 : ℚ) ≤ (rl.config.BurstSize : ℚ) := by
      have : (0 : Int) ≤ rl.config.BurstSize := by simpa using ‹((0 : Nat) : Int) ≤ _›
      exact_mod_cast this
    have hlvl : tokenLevel rl.config { Tokens := ((0 : Nat) : ℚ), LastRefill := now } now = 0 := by
      rw [tokenLevel_same _ _ _ hnow]
      simpa using hB
    rw [hlvl] at h1
    simp [allowAt, rateLimiter.Allow, h1]
  | succ j ih =>
    intro rl key now hnow hcl halg hopen hB hst
    have hload := (getBucketData_of_live rl (rl.extractKey key) now _ _ hopen hst
      (isExpired_expiryAt_same _ _ _) rfl).1
    obtain ⟨h1, h2, h3, h4, h5⟩ := AllowN_tokenBucket rl key 1 now _ hcl halg hopen hload
    have hBq : ((j + 1 : Nat) : ℚ) ≤ (rl.config.BurstSize : ℚ) := by exact_mod_cast hB
    have hlvl :
        tokenLevel rl.config { Tokens := ((j + 1 : Nat) : ℚ), LastRefill := now } now
          = ((j + 1 : Nat) : ℚ) := by
      rw [tokenLevel_same _ _ _ hnow]
      exact min_eq_right hBq
    rw [hlvl] at h1 h5
    have hone : ((1 : Int) : ℚ) ≤ ((j + 1 : Nat) : ℚ) := by
      push_cast
      have : (0 : ℚ) ≤ (j : ℚ) := Nat.cast_nonneg j
      linarith
    have hsub : ((j + 1 : Nat) : ℚ) - ((1 : Int) : ℚ) = (j : ℚ) := by
      push_cast
      ring
    rw [if_pos hone, hsub] at h5
    have hkey := extractKey_congr rl (rl.AllowN key 1 now).2 h2 key
    have hB1 : (j : Int) ≤ (rl.AllowN key 1 now).2.config.BurstSize := by
      rw [h2]
      omega
    have hrec := ih (rl.AllowN key 1 now).2 key now hnow h3 (by rw [h2]; exact halg) h4 hB1
      (by rw [hkey, h2]; exact h5)
    have hv : (rl.AllowN key 1 now).1 = true := by
      rw [h1]
      exact decide_eq_true hone
    rw [List.replicate_succ, allowAt_cons_fst, hv, hrec]
    rfl

/-- C1. Token Bucket burst: on a limiter built by `New` with
`burstSize >= 1`, for a key with no stored state and calls all made at the
same instant, each of the first `burstSize` calls `Allow(key)` returns true
and the call after them returns false. -/
theorem tokenBucket_burst (cfg : Config) (rl : rateLimiter) (key : String) (now : Int)
    (hnew : New cfg = Except.ok rl) (halg : cfg.Algorithm = TokenBucket)
    (hB : 1 ≤ cfg.BurstSize) (hopen : rl.storage.closed = false)
    (hfresh : rl.storage.items.lookup (rl.extractKey key) = none) (hnow : now ≠ 0) :
    (allowAt rl key (List.replicate (cfg.BurstSize.toNat + 1) now)).1 =
      List.replicate cfg.BurstSize.toNat true ++ [false] := by
  obtain ⟨_, _, hA, _, _, hBs, hcl, _, _⟩ := New_ok hnew
  have halg1 : rl.config.Algorithm = TokenBucket := hA.trans halg
  have hload := (getBucketData_of_lookup_none rl (rl.extractKey key) now hopen hfresh).1
  obtain ⟨h1, h2, h3, h4, h5⟩ := AllowN_tokenBucket rl key 1 now _ hcl halg1 hopen hload
  rw [tokenLevel_fresh] at h1 h5
  have hone : ((1 : Int) : ℚ) ≤ (rl.config.BurstSize : ℚ) := by
    rw [hBs]
    exact_mod_cast hB
  obtain ⟨j, hj⟩ : ∃ j : Nat, cfg.BurstSize.toNat = j + 1 :=
    ⟨cfg.BurstSize.toNat - 1, by omega⟩
  have hjB : cfg.BurstSize = (j : Int) + 1 := by omega
  have hsub : (rl.config.BurstSize : ℚ) - ((1 : Int) : ℚ) = (j : ℚ) := by
    rw [hBs, hjB]
    push_cast
    ring
  rw [if_pos hone, hsub] at h5
  have hkey := extractKey_congr rl (rl.AllowN key 1 now).2 h2 key
  have hrec := tokenBucket_drain j (rl.AllowN key 1 now).2 key now hnow h3
    (by rw [h2]; exact halg1) h4 (by rw [h2, hBs]; omega) (by rw [hkey, h2]; exact h5)
  have hv : (rl.AllowN key 1 now).1 = true := by
    rw [h1]
    exact decide_eq_true hone
  rw [hj, List.replicate_succ, allowAt_cons_fst, hv, hrec]
  rfl

/-- Witness for C1: the configuration of `TestTokenBucket`. -/
theorem tokenBucket_burst_witness :
    (allowAt (limiterOf tokenBucketConfig) "test-user" (List.replicate (5 + 1) 1000)).1 =
      List.replicate 5 true ++ [false] :=
  tokenBucket_burst tokenBucketConfig (limiterOf tokenBucketConfig) "test-user" 1000 rfl rfl
    (by decide) rfl rfl (by decide)

/-! ## The burst-size default -/

/-- With `BurstSize <= 0` a Token Bucket limiter denies the first call on a
key without stored state. -/
theorem tokenBucket_unset_burst_denies (rl : rateLimiter) (key : String) (now : Int)
    (hcl : rl.closed = false) (halg : rl.config.Algorithm = TokenBucket)
    (hB : rl.config.BurstSize ≤ 0) (hopen : rl.storage.closed = false)
    (hfresh : rl.storage.items.lookup (rl.extractKey key) = none) :
    (rl.Allow key now).1 = false := by
  have hload := (getBucketData_of_lookup_none rl (rl.extractKey key) now hopen hfresh).1
  obtain ⟨h1, _⟩ := AllowN_tokenBucket rl key 1 now _ hcl halg hopen hload
  rw [tokenLevel_fresh] at h1
  unfold rateLimiter.Allow
  rw [h1]
  refine decide_eq_false ?_
  have : (rl.config.BurstSize : ℚ) ≤ 0 := by exact_mod_cast hB
  push_cast
  linarith

/-- C2 (failing input). For `burstUnsetConfig` (rate 3, `BurstSize` unset)
`validateConfig` sets the burst size to the rate on its own copy of the
configuration only: the limiter returned by `New` keeps `BurstSize = 0`, and
the first `Allow` on a fresh key is denied instead of admitted. -/
theorem burst_default_lost :
    (validateConfig burstUnsetConfig).2.BurstSize = 3 ∧
      New burstUnsetConfig = Except.ok (limiterOf burstUnsetConfig) ∧
      (limiterOf burstUnsetConfig).config.BurstSize = 0 ∧
      ((limiterOf burstUnsetConfig).Allow "k" 1000).1 = false := by
  refine ⟨by decide, rfl, rfl, ?_⟩
  exact tokenBucket_unset_burst_denies _ _ _ rfl rfl (by decide) rfl rfl

/-! ## Metrics consistency -/

/-- C4 (failing inputs). One `Allow` on a limiter whose `Algorithm` is none of
the four constants, and one `Allow` on a Token Bucket limiter whose stored
bytes do not deserialize, both leave `totalRequests = 1` with
`allowedRequests = 0` and `deniedRequests = 0`. -/
theorem metrics_inconsistent :
    (∃ rl, New unknownAlgorithmConfig = Except.ok rl ∧
      (rl.Allow "k" 1000).1 = false ∧
      (rl.Allow "k" 1000).2.GetMetrics.TotalRequests = 1 ∧
      (rl.Allow "k" 1000).2.GetMetrics.AllowedRequests +
        (rl.Allow "k" 1000).2.GetMetrics.DeniedRequests = 0) ∧
    (∃ rl, New corruptStorageConfig = Except.ok rl ∧
      (rl.Allow "k" 1000).1 = false ∧
      (rl.Allow "k" 1000).2.GetMetrics.TotalRequests = 1 ∧
      (rl.Allow "k" 1000).2.GetMetrics.AllowedRequests +
        (rl.Allow "k" 1000).2.GetMetrics.DeniedRequests = 0) := by
  refine ⟨⟨_, rfl, ?_, ?_, ?_⟩, ⟨_, rfl, ?_, ?_, ?_⟩⟩ <;> decide

/-! ## Dispatch of `AllowN` -/

theorem AllowN_of_closed (rl : rateLimiter) (key : String) (n now : Int)
    (hcl : rl.closed = true) : rl.AllowN key n now = (false, rl) := by
  simp [rateLimiter.AllowN, hcl]

theorem AllowN_eq_tokenBucket (rl : rateLimiter) (key : String) (n now : Int)
    (hcl : rl.closed = false) (halg : rl.config.Algorithm = TokenBucket) :
    rl.AllowN key n now =
      ((rl.allowTokenBucket (rl.extractKey key) n now).1,
        (rl.allowTokenBucket (rl.extractKey key) n now).2.updateMetrics (Time.Sub now now)) := by
  simp [rateLimiter.AllowN, hcl, halg]

theorem AllowN_eq_fixedWindow (rl : rateLimiter) (key : String) (n now : Int)
    (hcl : rl.closed = false) (halg : rl.config.Algorithm = FixedWindow) :
    rl.AllowN key n now =
      ((rl.allowFixedWindow (rl.extractKey key) n now).1,
        (rl.allowFixedWindow (rl.extractKey key) n now).2.updateMetrics (Time.Sub now now)) := by
  simp [rateLimiter.AllowN, hcl, halg]

theorem AllowN_eq_slidingWindow (rl : rateLimiter) (key : String) (n now : Int)
    (hcl : rl.closed = false) (halg : rl.config.Algorithm = SlidingWindow) :
    rl.AllowN key n now =
      ((rl.allowSlidingWindow (rl.extractKey key) n now).1,
        (rl.allowSlidingWindow (rl.extractKey key) n now).2.updateMetrics
          (Time.Sub now now)) := by
  simp [rateLimiter.AllowN, hcl, halg]

theorem AllowN_eq_leakyBucket (rl : rateLimiter) (key : String) (n now : Int)
    (hcl : rl.closed = false) (halg : rl.config.Algorithm = LeakyBucket) :
    rl.AllowN key n now =
      ((rl.allowLeakyBucket (rl.extractKey key) n now).1,
        (rl.allowLeakyBucket (rl.extractKey key) n now).2.updateMetrics (Time.Sub now now)) := by
  simp [rateLimiter.AllowN, hcl, halg]

/-! ## Persisted state along a run -/

theorem Stored.rebase {rl0 rl rl1 : rateLimiter} {key : String} {v v1 : Bytes} {s s1 : Int}
    (h : Stored rl0 rl key v s) (h1 : Stored rl rl1 key v1 s1) : Stored rl0 rl1 key v1 s1 := by
  obtain ⟨hc, _, _, _⟩ := h
  obtain ⟨hc1, hcl1, ho1, hl1⟩ := h1
  refine ⟨hc1.trans hc, hcl1, ho1, ?_⟩
  rw [← extractKey_congr rl0 rl hc key, ← hc]
  exact hl1

theorem Stored.isExpired_eq {rl0 rl : rateLimiter} {key : String} {v : Bytes} {s : Int}
    (h : Stored rl0 rl key v s) :
    rl.storage.items.lookup (rl.extractKey key) =
      some (memoryItem.mk v (expiryAt rl.config s)) := by
  obtain ⟨hc, _, _, hl⟩ := h
  rw [extractKey_congr rl0 rl hc key, hc]
  exact hl

/-- A live stored bucket is the bucket that `getBucketData` loads. -/
theorem Stored.loadBucket {rl0 rl : rateLimiter} {key : String} {b : bucketData} {s : Int}
    (h : Stored rl0 rl key (Bytes.bucketJSON b) s) (now : Int)
    (hlive : (memoryItem.mk (Bytes.bucketJSON b) (expiryAt rl.config s)).isExpired now = false) :
    (rl.getBucketData (rl.extractKey key) now).1 = Except.ok b :=
  (getBucketData_of_live rl (rl.extractKey key) now _ b h.2.2.1 h.isExpired_eq hlive rfl).1

/-- An expired stored value loads as the uninitialised bucket. -/
theorem Stored.loadBucket_expired {rl0 rl : rateLimiter} {key : String} {v : Bytes} {s : Int}
    (h : Stored rl0 rl key v s) (now : Int)
    (hexp : (memoryItem.mk v (expiryAt rl.config s)).isExpired now = true) :
    (rl.getBucketData (rl.extractKey key) now).1 =
      Except.ok { Tokens := 0, LastRefill := 0 } :=
  getBucketData_of_expired rl (rl.extractKey key) now _ h.2.2.1 h.isExpired_eq hexp

/-- A live stored window is the window that `getWindowData` loads. -/
theorem Stored.loadWindow {rl0 rl : rateLimiter} {key : String} {w : windowData} {s : Int}
    (h : Stored rl0 rl key (Bytes.windowJSON w) s) (now : Int)
    (hlive : (memoryItem.mk (Bytes.windowJSON w) (expiryAt rl.config s)).isExpired now = false) :
    (rl.getWindowData (rl.extractKey key) now).1 = Except.ok w :=
  (getWindowData_of_live rl (rl.extractKey key) now _ w h.2.2.1 h.isExpired_eq hlive rfl).1

/-- An expired stored value loads as the empty window starting now. -/
theorem Stored.loadWindow_expired {rl0 rl : rateLimiter} {key : String} {v : Bytes} {s : Int}
    (h : Stored rl0 rl key v s) (now : Int)
    (hexp : (memoryItem.mk v (expiryAt rl.config s)).isExpired now = true) :
    (rl.getWindowData (rl.extractKey key) now).1 =
      Except.ok { Count := 0, WindowStart := now, Requests := [] } :=
  getWindowData_of_expired rl (rl.extractKey key) now _ h.2.2.1 h.isExpired_eq hexp

/-- One Token Bucket `AllowN` call, with the state it leaves. -/
theorem AllowN_tokenBucket_stored (rl : rateLimiter) (key : String) (n now : Int)
    (b : bucketData) (hcl : rl.closed = false) (halg : rl.config.Algorithm = TokenBucket)
    (hopen : rl.storage.closed = false)
    (hload : (rl.getBucketData (rl.extractKey key) now).1 = Except.ok b) :
    (rl.AllowN key n now).1 = decide ((n : ℚ) ≤ tokenLevel rl.config b now) ∧
      Stored rl (rl.AllowN key n now).2 key
        (Bytes.bucketJSON
          { Tokens :=
              if (n : ℚ) ≤ tokenLevel rl.config b now then
                tokenLevel rl.config b now - (n : ℚ)
              else tokenLevel rl.config b now,
            LastRefill := now }) now := by
  obtain ⟨h1, h2, h3, h4, h5⟩ := AllowN_tokenBucket rl key n now b hcl halg hopen hload
  exact ⟨h1, h2, h3, h4, h5⟩

/-! ## Fixed Window: one call -/

/-- One `allowFixedWindow` call on an open storage, in terms of the loaded
window. -/
theorem allowFixedWindow_eq (rl : rateLimiter) (key : String) (n now : Int) (w : windowData)
    (hopen : rl.storage.closed = false)
    (hload : (rl.getWindowData key now).1 = Except.ok w) :
    (rl.allowFixedWindow key n now).1 =
        decide (wrap64 ((rolledWindow rl.config w now).Count + n) ≤ rl.config.Rate) ∧
      (rl.allowFixedWindow key n now).2.config = rl.config ∧
      (rl.allowFixedWindow key n now).2.closed = rl.closed ∧
      (rl.allowFixedWindow key n now).2.storage.closed = false ∧
      (rl.allowFixedWindow key n now).2.storage.items.lookup key =
        some (memoryItem.mk
          (Bytes.windowJSON
            (if wrap64 ((rolledWindow rl.config w now).Count + n) ≤ rl.config.Rate then
              { rolledWindow rl.config w now with
                Count := wrap64 ((rolledWindow rl.config w now).Count + n) }
            else rolledWindow rl.config w now))
          (expiryAt rl.config now)) := by
  have hpair : rl.getWindowData key now =
      (Except.ok w, { rl with storage := (rl.storage.Get key now).2 }) :=
    Prod.ext hload (getWindowData_snd rl key now)
  have hopen1 : ({ rl with storage := (rl.storage.Get key now).2 } : rateLimiter).storage.closed
      = false := by
    simp [Get_snd_closed, hopen]
  unfold rateLimiter.allowFixedWindow
  rw [hpair]
  by_cases hn : wrap64 ((rolledWindow rl.config w now).Count + n) ≤ rl.config.Rate
  · have hn1 := hn
    unfold rolledWindow at hn1
    simp only [hn1, hn, if_true, setWindowData_of_open _ _ _ _ hopen1, incAllowed_config,
      incAllowed_closed, incAllowed_storage, lookup_mapInsert_self, decide_True, Get_snd_closed,
      hopen, true_and]
    rfl
  · have hn1 := hn
    unfold rolledWindow at hn1
    simp only [hn1, hn, if_false, setWindowData_of_open _ _ _ _ hopen1, incDenied_config,
      incDenied_closed, incDenied_storage, lookup_mapInsert_self, decide_False, Get_snd_closed,
      hopen, true_and]
    rfl

/-- One Fixed Window `AllowN` call, with the state it leaves. -/
theorem AllowN_fixedWindow_stored (rl : rateLimiter) (key : String) (n now : Int)
    (w : windowData) (hcl : rl.closed = false) (halg : rl.config.Algorithm = FixedWindow)
    (hopen : rl.storage.closed = false)
    (hload : (rl.getWindowData (rl.extractKey key) now).1 = Except.ok w) :
    (rl.AllowN key n now).1 =
        decide (wrap64 ((rolledWindow rl.config w now).Count + n) ≤ rl.config.Rate) ∧
      Stored rl (rl.AllowN key n now).2 key
        (Bytes.windowJSON
          (if wrap64 ((rolledWindow rl.config w now).Count + n) ≤ rl.config.Rate then
            { rolledWindow rl.config w now with
              Count := wrap64 ((rolledWindow rl.config w now).Count + n) }
          else rolledWindow rl.config w now)) now := by
  obtain ⟨h1, h2, h3, h4, h5⟩ := allowFixedWindow_eq rl (rl.extractKey key) n now w hopen hload
  rw [AllowN_eq_fixedWindow rl key n now hcl halg]
  exact ⟨h1, h2, h3.trans hcl, h4, h5⟩

/-! ## Fixed Window: runs inside one window and after it -/

theorem rolledWindow_inside (cfg : Config) (w : windowData) (now : Int)
    (hW2 : cfg.Window ≤ maxInt64) (h1 : w.WindowStart ≤ now)
    (h2 : now < w.WindowStart + cfg.Window) : rolledWindow cfg w now = w := by
  unfold rolledWindow Time.Sub
  unfold maxInt64 at *
  unfold minInt64
  have : ¬ (cfg.Window ≤
      if 9223372036854775807 < now - w.WindowStart then 9223372036854775807
      else if now - w.WindowStart < -9223372036854775808 then -9223372036854775808
      else now - w.WindowStart) := by
    split_ifs <;> omega
  rw [if_neg this]

theorem rolledWindow_after (cfg : Config) (w : windowData) (now : Int)
    (hW2 : cfg.Window ≤ maxInt64) (h : w.WindowStart + cfg.Window ≤ now) :
    rolledWindow cfg w now =
      { w with Count := 0, WindowStart := Time.Truncate now cfg.Window } := by
  unfold rolledWindow Time.Sub
  unfold maxInt64 at *
  unfold minInt64
  have : cfg.Window ≤
      if 9223372036854775807 < now - w.WindowStart then 9223372036854775807
      else if now - w.WindowStart < -9223372036854775808 then -9223372036854775808
      else now - w.WindowStart := by
    split_ifs <;> omega
  rw [if_pos this]

theorem Truncate_le (t d : Int) (hd : 0 < d) :
    Time.Truncate t d ≤ t ∧ t < Time.Truncate t d + d := by
  unfold Time.Truncate
  rw [if_neg (by omega)]
  have h1 := Int.emod_nonneg t (by omega : d ≠ 0)
  have h2 := Int.emod_lt_of_pos t hd
  constructor <;> omega

/-- Calls made inside the current window, starting from a count `c <= rate`:
the call number `i` is admitted exactly when `c + i < rate`; the window start
is kept. -/
theorem fixedWindow_run (ts : List Int) : ∀ (rl0 rl : rateLimiter) (key : String) (c : Nat)
    (ws s : Int) (reqs : List Int),
    rl0.config.Algorithm = FixedWindow → 0 < rl0.config.Window →
    rl0.config.Window ≤ maxInt64 → rl0.config.Rate < maxInt64 →
    Stored rl0 rl key (Bytes.windowJSON { Count := (c : Int), WindowStart := ws, Requests := reqs }) s →
    (c : Int) ≤ rl0.config.Rate → ws ≤ s →
    (∀ x ∈ ts, ws ≤ x ∧ x < ws + rl0.config.Window) →
    (allowAt rl key ts).1 =
        (List.range ts.length).map (fun i : Nat => decide ((c : Int) + (i : Int) < rl0.config.Rate)) ∧
      ∃ (c1 : Nat) (s1 : Int), (c1 : Int) ≤ rl0.config.Rate ∧ ws ≤ s1 ∧
        Stored rl0 (allowAt rl key ts).2 key
          (Bytes.windowJSON { Count := (c1 : Int), WindowStart := ws, Requests := reqs }) s1 := by
  induction ts with
  | nil =>
    intro rl0 rl key c ws s reqs _ _ _ _ hst hc hs _
    exact ⟨rfl, c, s, hc, hs, hst⟩
  | cons x ts ih =>
    intro rl0 rl key c ws s reqs halg hW hW2 hR hst hc hs hts
    obtain ⟨hx1, hx2⟩ := hts x (List.mem_cons_self _ _)
    have hcfg : rl.config = rl0.config := hst.1
    have hlive : (memoryItem.mk
        (Bytes.windowJSON { Count := (c : Int), WindowStart := ws, Requests := reqs })
        (expiryAt rl.config s)).isExpired x = false :=
      isExpired_expiryAt_le _ _ _ _ (by rw [hcfg]; exact hW) (by rw [hcfg]; exact hW2)
        (by rw [hcfg]; omega)
    have hload := hst.loadWindow x hlive
    obtain ⟨h1, h2⟩ := AllowN_fixedWindow_stored rl key 1 x _ hst.2.1
      (by rw [hcfg]; exact halg) hst.2.2.1 hload
    rw [hcfg, rolledWindow_inside rl0.config _ x hW2 hx1 hx2] at h1 h2
    have hwrap : wrap64 ((c : Int) + 1) = (c : Int) + 1 := by
      apply wrap64_of_range
      · unfold minInt64
        omega
      · omega
    simp only [hwrap] at h1 h2
    have h3 := hst.rebase h2
    by_cases hlt : (c : Int) + 1 ≤ rl0.config.Rate
    · rw [if_pos hlt] at h3
      obtain ⟨r1, c1, s1, r2, r3, r4⟩ := ih rl0 (rl.AllowN key 1 x).2 key (c + 1) ws x reqs
        halg hW hW2 hR (by push_cast; exact h3) (by push_cast; exact hlt) hx1
        (fun y hy => hts y (List.mem_cons_of_mem _ hy))
      refine ⟨?_, c1, s1, r2, r3, r4⟩
      rw [allowAt_cons_fst, h1, r1, List.length_cons, List.range_succ_eq_map, List.map_cons,
        List.map_map]
      refine List.cons_eq_cons.mpr ⟨?_, ?_⟩
      · simp only [Nat.cast_zero, add_zero, decide_eq_decide]
        omega
      · apply List.map_congr_left
        intro i _
        simp only [Function.comp, decide_eq_decide]
        push_cast
        omega
    · rw [if_neg hlt] at h3
      obtain ⟨r1, c1, s1, r2, r3, r4⟩ := ih rl0 (rl.AllowN key 1 x).2 key c ws x reqs
        halg hW hW2 hR h3 hc hx1 (fun y hy => hts y (List.mem_cons_of_mem _ hy))
      refine ⟨?_, c1, s1, r2, r3, r4⟩
      rw [allowAt_cons_fst, h1, r1, List.length_cons, List.range_succ_eq_map, List.map_cons,
        List.map_map]
      refine List.cons_eq_cons.mpr ⟨?_, ?_⟩
      · simp only [Nat.cast_zero, add_zero, decide_eq_decide]
        omega
      · apply List.map_congr_left
        intro i _
        simp only [Function.comp, decide_eq_decide]
        push_cast
        omega

theorem map_decide_range (c m : Nat) (R : Int) (hR : R = (c : Int) + (m : Int)) :
    (List.range (m + 1)).map (fun i : Nat => decide ((c : Int) + (i : Int) < R)) =
      List.replicate m true ++ [false] := by
  rw [List.range_succ, List.map_append]
  congr 1
  · rw [List.eq_replicate_iff]
    refine ⟨by simp, ?_⟩
    intro b hb
    rw [List.mem_map] at hb
    obtain ⟨i, hi, rfl⟩ := hb
    rw [List.mem_range] at hi
    apply decide_eq_true
    omega
  · simp only [List.map_cons, List.map_nil, List.cons.injEq, and_true]
    apply decide_eq_false
    omega

/-- After the window of a stored Fixed Window state has elapsed, `rate` calls
at one instant are admitted and the next one is denied. -/
theorem fixedWindow_after (rl0 rl : rateLimiter) (key : String) (c : Int) (ws s t : Int)
    (reqs : List Int) (halg : rl0.config.Algorithm = FixedWindow)
    (hR : 0 < rl0.config.Rate) (hW : 0 < rl0.config.Window)
    (hW2 : rl0.config.Window ≤ maxInt64) (hR2 : rl0.config.Rate < maxInt64)
    (hst : Stored rl0 rl key
      (Bytes.windowJSON { Count := c, WindowStart := ws, Requests := reqs }) s)
    (ht : ws + rl0.config.Window ≤ t) :
    (allowAt rl key (List.replicate (rl0.config.Rate.toNat + 1) t)).1 =
      List.replicate rl0.config.Rate.toNat true ++ [false] := by
  have hcfg : rl.config = rl0.config := hst.1
  have hwrap : wrap64 ((0 : Int) + 1) = 1 := by decide
  obtain ⟨m, hm⟩ : ∃ m : Nat, rl0.config.Rate.toNat = m + 1 :=
    ⟨rl0.config.Rate.toNat - 1, by omega⟩
  have hRm : rl0.config.Rate = ((1 : Nat) : Int) + (m : Int) := by
    push_cast
    omega
  -- the first call at `t` leaves a window with count 1 that contains `t`
  have hfirst : (rl.AllowN key 1 t).1 = true ∧
      ∃ (ws1 : Int) (reqs1 : List Int), ws1 ≤ t ∧ t < ws1 + rl0.config.Window ∧
        Stored rl0 (rl.AllowN key 1 t).2 key
          (Bytes.windowJSON { Count := ((1 : Nat) : Int), WindowStart := ws1, Requests := reqs1 })
          t := by
    cases hexp : (memoryItem.mk
        (Bytes.windowJSON { Count := c, WindowStart := ws, Requests := reqs })
        (expiryAt rl.config s)).isExpired t with
    | true =>
      have hload := hst.loadWindow_expired t hexp
      obtain ⟨h1, h2⟩ := AllowN_fixedWindow_stored rl key 1 t _ hst.2.1
        (by rw [hcfg]; exact halg) hst.2.2.1 hload
      rw [hcfg, rolledWindow_inside rl0.config _ t hW2 (le_refl _)
        (by show t < t + rl0.config.Window; omega)] at h1 h2
      simp only [hwrap] at h1 h2
      have hle : (1 : Int) ≤ rl0.config.Rate := by omega
      rw [if_pos hle] at h2
      exact ⟨by rw [h1]; exact decide_eq_true hle, t, [], le_refl _, by omega,
        hst.rebase h2⟩
    | false =>
      have hload := hst.loadWindow t hexp
      obtain ⟨h1, h2⟩ := AllowN_fixedWindow_stored rl key 1 t _ hst.2.1
        (by rw [hcfg]; exact halg) hst.2.2.1 hload
      rw [hcfg, rolledWindow_after rl0.config _ t hW2 ht] at h1 h2
      simp only [hwrap] at h1 h2
      have hle : (1 : Int) ≤ rl0.config.Rate := by omega
      rw [if_pos hle] at h2
      obtain ⟨q1, q2⟩ := Truncate_le t rl0.config.Window hW
      exact ⟨by rw [h1]; exact decide_eq_true hle, Time.Truncate t rl0.config.Window, reqs,
        q1, q2, hst.rebase h2⟩
  obtain ⟨hv, ws1, reqs1, hw1, hw2, hst1⟩ := hfirst
  obtain ⟨r1, _⟩ := fixedWindow_run (List.replicate (m + 1) t) rl0 (rl.AllowN key 1 t).2 key 1
    ws1 t reqs1 halg hW hW2 hR2 hst1 (by push_cast; omega) hw1
    (fun y hy => by rw [List.eq_of_mem_replicate hy]; exact ⟨hw1, hw2⟩)
  rw [List.length_replicate, map_decide_range 1 m _ hRm] at r1
  rw [hm, List.replicate_succ, allowAt_cons_fst, hv, r1]
  rfl

/-- C5. Fixed Window rollover: on a limiter built by `New`, for a key first
used at `t0`, the calls `Allow(key)` made at `t0` and then at times in
`[t0, t0 + window)` are admitted exactly while fewer than `rate` calls came
before them; and at an instant `t >= t0 + window` the next `rate` calls are
admitted and the one after them is denied. -/
theorem fixedWindow_rollover (cfg : Config) (rl : rateLimiter) (key : String)
    (t0 : Int) (ts : List Int) (t : Int)
    (hnew : New cfg = Except.ok rl) (halg : cfg.Algorithm = FixedWindow)
    (hW2 : cfg.Window ≤ maxInt64) (hR2 : cfg.Rate < maxInt64)
    (hopen : rl.storage.closed = false)
    (hfresh : rl.storage.items.lookup (rl.extractKey key) = none)
    (hts : ∀ x ∈ ts, t0 ≤ x ∧ x < t0 + cfg.Window) (ht : t0 + cfg.Window ≤ t) :
    (allowAt rl key (t0 :: ts)).1 =
        (List.range (ts.length + 1)).map (fun i : Nat => decide ((i : Int) < cfg.Rate)) ∧
      (allowAt (allowAt rl key (t0 :: ts)).2 key (List.replicate (cfg.Rate.toNat + 1) t)).1 =
        List.replicate cfg.Rate.toNat true ++ [false] := by
  obtain ⟨hR, hW, hA, hRe, hWe, _, hcl, _, _⟩ := New_ok hnew
  have halg1 : rl.config.Algorithm = FixedWindow := hA.trans halg
  have hload := (getWindowData_of_lookup_none rl (rl.extractKey key) t0 hopen hfresh).1
  obtain ⟨h1, h2⟩ := AllowN_fixedWindow_stored rl key 1 t0 _ hcl halg1 hopen hload
  rw [rolledWindow_inside rl.config _ t0 (by rw [hWe]; exact hW2) (le_refl _)
    (by show t0 < t0 + rl.config.Window; omega)] at h1 h2
  have hwrap : wrap64 ((0 : Int) + 1) = 1 := by decide
  simp only [hwrap] at h1 h2
  have hle : (1 : Int) ≤ rl.config.Rate := by omega
  rw [if_pos hle] at h2
  obtain ⟨r1, c1, s1, _, _, r4⟩ := fixedWindow_run ts rl (rl.AllowN key 1 t0).2 key 1 t0 t0 []
    halg1 (by omega) (by omega) (by omega) h2 (by push_cast; omega) (le_refl _)
    (fun y hy => by rw [hWe]; exact hts y hy)
  constructor
  · rw [allowAt_cons_fst, h1, r1, List.range_succ_eq_map, List.map_cons, List.map_map]
    refine List.cons_eq_cons.mpr ⟨?_, ?_⟩
    · simp only [Nat.cast_zero, decide_eq_decide]
      omega
    · apply List.map_congr_left
      intro i _
      simp only [Function.comp, decide_eq_decide]
      push_cast
      omega
  · rw [allowAt_cons_snd, ← hRe]
    exact fixedWindow_after rl _ key _ t0 s1 t [] halg1 (by omega) (by omega) (by omega)
      (by omega) r4 (by omega)

/-- Witness for C5: the configuration of `TestFixedWindow`, seven calls in the
first second and six calls 1.1 s after the first. -/
theorem fixedWindow_rollover_witness :
    (allowAt (limiterOf fixedWindowConfig) "test-user"
        (5000000000 :: [5000000000, 5000000001, 5200000000, 5300000000, 5999999999,
          5100000000])).1 =
        (List.range (6 + 1)).map (fun i : Nat => decide ((i : Int) < 5)) ∧
      (allowAt
        (allowAt (limiterOf fixedWindowConfig) "test-user"
          (5000000000 :: [5000000000, 5000000001, 5200000000, 5300000000, 5999999999,
            5100000000])).2
        "test-user" (List.replicate (5 + 1) 6100000000)).1 =
        List.replicate 5 true ++ [false] :=
  fixedWindow_rollover fixedWindowConfig (limiterOf fixedWindowConfig) "test-user" 5000000000
    [5000000000, 5000000001, 5200000000, 5300000000, 5999999999, 5100000000] 6100000000
    rfl rfl (by decide) (by decide) rfl rfl (by decide) (by decide)

/-! ## Sliding Window: one call -/

/-- One `allowSlidingWindow` call on an open storage, in terms of the loaded
window. -/
theorem allowSlidingWindow_eq (rl : rateLimiter) (key : String) (n now : Int) (w : windowData)
    (hopen : rl.storage.closed = false)
    (hload : (rl.getWindowData key now).1 = Except.ok w) :
    (rl.allowSlidingWindow key n now).1 =
        decide (wrap64 (((prunedRequests rl.config w now).length : Int) + n)
          ≤ rl.config.Rate) ∧
      (rl.allowSlidingWindow key n now).2.config = rl.config ∧
      (rl.allowSlidingWindow key n now).2.closed = rl.closed ∧
      (rl.allowSlidingWindow key n now).2.storage.closed = false ∧
      (rl.allowSlidingWindow key n now).2.storage.items.lookup key =
        some (memoryItem.mk
          (Bytes.windowJSON
            (if wrap64 (((prunedRequests rl.config w now).length : Int) + n)
                ≤ rl.config.Rate then
              { Count :=
                  ((prunedRequests rl.config w now ++ List.replicate n.toNat now).length : Int),
                WindowStart := w.WindowStart,
                Requests := prunedRequests rl.config w now ++ List.replicate n.toNat now }
            else
              { Count := ((prunedRequests rl.config w now).length : Int),
                WindowStart := w.WindowStart,
                Requests := prunedRequests rl.config w now }))
          (expiryAt rl.config now)) := by
  have hpair : rl.getWindowData key now =
      (Except.ok w, { rl with storage := (rl.storage.Get key now).2 }) :=
    Prod.ext hload (getWindowData_snd rl key now)
  have hopen1 : ({ rl with storage := (rl.storage.Get key now).2 } : rateLimiter).storage.closed
      = false := by
    simp [Get_snd_closed, hopen]
  unfold rateLimiter.allowSlidingWindow
  rw [hpair]
  by_cases hn : wrap64 (((prunedRequests rl.config w now).length : Int) + n) ≤ rl.config.Rate
  · have hn1 := hn
    unfold prunedRequests at hn1
    simp only [hn1, hn, if_true, setWindowData_of_open _ _ _ _ hopen1, incAllowed_config,
      incAllowed_closed, incAllowed_storage, lookup_mapInsert_self, decide_True, Get_snd_closed,
      hopen, true_and]
    rfl
  · have hn1 := hn
    unfold prunedRequests at hn1
    simp only [hn1, hn, if_false, setWindowData_of_open _ _ _ _ hopen1, incDenied_config,
      incDenied_closed, incDenied_storage, lookup_mapInsert_self, decide_False, Get_snd_closed,
      hopen, true_and]
    rfl

/-- One Sliding Window `AllowN` call, with the state it leaves. -/
theorem AllowN_slidingWindow_stored (rl : rateLimiter) (key : String) (n now : Int)
    (w : windowData) (hcl : rl.closed = false) (halg : rl.config.Algorithm = SlidingWindow)
    (hopen : rl.storage.closed = false)
    (hload : (rl.getWindowData (rl.extractKey key) now).1 = Except.ok w) :
    (rl.AllowN key n now).1 =
        decide (wrap64 (((prunedRequests rl.config w now).length : Int) + n)
          ≤ rl.config.Rate) ∧
      Stored rl (rl.AllowN key n now).2 key
        (Bytes.windowJSON
          (if wrap64 (((prunedRequests rl.config w now).length : Int) + n)
              ≤ rl.config.Rate then
            { Count :=
                ((prunedRequests rl.config w now ++ List.replicate n.toNat now).length : Int),
              WindowStart := w.WindowStart,
              Requests := prunedRequests rl.config w now ++ List.replicate n.toNat now }
          else
            { Count := ((prunedRequests rl.config w now).length : Int),
              WindowStart := w.WindowStart,
              Requests := prunedRequests rl.config w now })) now := by
  obtain ⟨h1, h2, h3, h4, h5⟩ :=
    allowSlidingWindow_eq rl (rl.extractKey key) n now w hopen hload
  rw [AllowN_eq_slidingWindow rl key n now hcl halg]
  exact ⟨h1, h2, h3.trans hcl, h4, h5⟩

theorem prunedRequests_all (cfg : Config) (w : windowData) (now : Int)
    (h : ∀ y ∈ w.Requests, now - cfg.Window < y) : prunedRequests cfg w now = w.Requests := by
  unfold prunedRequests
  rw [List.filter_eq_self]
  intro y hy
  have := h y hy
  unfold Time.After Time.Add
  apply decide_eq_true
  omega

/-! ## Sliding Window: filling the window, staying full, one slot opening -/

/-- A call at `x` in `[t1, t1 + window)` on a stored list with room, whose
timestamps are all at or after `t1`, is admitted and appends `x`. -/
theorem slidingWindow_fill_step (rl0 rl : rateLimiter) (key : String)
    (w : windowData) (s t1 x : Int)
    (halg : rl0.config.Algorithm = SlidingWindow) (hW : 0 < rl0.config.Window)
    (hW2 : rl0.config.Window ≤ maxInt64) (hR : rl0.config.Rate < maxInt64)
    (hst : Stored rl0 rl key (Bytes.windowJSON w) s) (hs : t1 ≤ s)
    (hreq : ∀ y ∈ w.Requests, t1 ≤ y)
    (hlen : (w.Requests.length : Int) + 1 ≤ rl0.config.Rate)
    (hx1 : t1 ≤ x) (hx2 : x < t1 + rl0.config.Window) :
    (rl.AllowN key 1 x).1 = true ∧
      Stored rl0 (rl.AllowN key 1 x).2 key
        (Bytes.windowJSON
          { Count := ((w.Requests ++ [x]).length : Int), WindowStart := w.WindowStart,
            Requests := w.Requests ++ [x] }) x := by
  have hcfg : rl.config = rl0.config := hst.1
  have hlive : (memoryItem.mk (Bytes.windowJSON w) (expiryAt rl.config s)).isExpired x
      = false :=
    isExpired_expiryAt_le _ _ _ _ (by rw [hcfg]; exact hW) (by rw [hcfg]; exact hW2)
      (by rw [hcfg]; omega)
  have hload := hst.loadWindow x hlive
  obtain ⟨h1, h2⟩ := AllowN_slidingWindow_stored rl key 1 x _ hst.2.1
    (by rw [hcfg]; exact halg) hst.2.2.1 hload
  have hpr : prunedRequests rl0.config w x = w.Requests :=
    prunedRequests_all _ _ _ (fun y hy => by have := hreq y hy; omega)
  rw [hcfg, hpr] at h1 h2
  have hwrap : wrap64 ((w.Requests.length : Int) + 1) = (w.Requests.length : Int) + 1 := by
    apply wrap64_of_range
    · unfold minInt64
      omega
    · omega
  rw [hwrap] at h1 h2
  rw [if_pos hlen] at h2
  have hone : List.replicate (1 : Int).toNat x = [x] := rfl
  rw [hone] at h2
  exact ⟨by rw [h1]; exact decide_eq_true hlen, hst.rebase h2⟩

/-- Calls at times in `[t1, t1 + window)` on a stored list with room for all of
them are all admitted, and each call time is appended to the list. -/
theorem slidingWindow_fill (ts : List Int) : ∀ (rl0 rl : rateLimiter) (key : String)
    (w : windowData) (s t1 : Int),
    rl0.config.Algorithm = SlidingWindow → 0 < rl0.config.Window →
    rl0.config.Window ≤ maxInt64 → rl0.config.Rate < maxInt64 →
    Stored rl0 rl key (Bytes.windowJSON w) s → t1 ≤ s →
    (∀ y ∈ w.Requests, t1 ≤ y) →
    ((w.Requests.length : Int) + (ts.length : Int) ≤ rl0.config.Rate) →
    (∀ x ∈ ts, t1 ≤ x ∧ x < t1 + rl0.config.Window) →
    (allowAt rl key ts).1 = List.replicate ts.length true ∧
      ∃ (w1 : windowData) (s1 : Int), t1 ≤ s1 ∧ w1.Requests = w.Requests ++ ts ∧
        Stored rl0 (allowAt rl key ts).2 key (Bytes.windowJSON w1) s1 := by
  induction ts with
  | nil =>
    intro rl0 rl key w s t1 _ _ _ _ hst hs _ _ _
    exact ⟨rfl, w, s, hs, by simp, hst⟩
  | cons x ts ih =>
    intro rl0 rl key w s t1 halg hW hW2 hR hst hs hreq hlen hts
    obtain ⟨hx1, hx2⟩ := hts x (List.mem_cons_self _ _)
    rw [List.length_cons] at hlen
    push_cast at hlen
    obtain ⟨h1, h3⟩ := slidingWindow_fill_step rl0 rl key w s t1 x halg hW hW2 hR hst hs hreq
      (by omega) hx1 hx2
    have hreq1 : ∀ y ∈ w.Requests ++ [x], t1 ≤ y := by
      intro y hy
      rw [List.mem_append, List.mem_singleton] at hy
      rcases hy with hy | hy
      · exact hreq y hy
      · rw [hy]; exact hx1
    have hlen1 : (((w.Requests ++ [x]).length : Nat) : Int) + (ts.length : Int)
        ≤ rl0.config.Rate := by
      rw [List.length_append, List.length_singleton]
      push_cast
      omega
    obtain ⟨r1, w1, s1, r2, r3, r4⟩ := ih rl0 (rl.AllowN key 1 x).2 key
      { Count := ((w.Requests ++ [x]).length : Int), WindowStart := w.WindowStart,
        Requests := w.Requests ++ [x] } x t1
      halg hW hW2 hR h3 hx1 hreq1 hlen1 (fun y hy => hts y (List.mem_cons_of_mem _ hy))
    refine ⟨?_, w1, s1, r2, ?_, r4⟩
    · rw [allowAt_cons_fst, h1, r1, List.length_cons, List.replicate_succ]
    · rw [r3, List.append_assoc]
      rfl

/-- A call at `x` in `[t1, t1 + window)` on a full stored list whose timestamps
are all at or after `t1` is denied and keeps the list. -/
theorem slidingWindow_full_step (rl0 rl : rateLimiter) (key : String)
    (w : windowData) (s t1 x : Int)
    (halg : rl0.config.Algorithm = SlidingWindow) (hW : 0 < rl0.config.Window)
    (hW2 : rl0.config.Window ≤ maxInt64) (hR : rl0.config.Rate < maxInt64)
    (hst : Stored rl0 rl key (Bytes.windowJSON w) s) (hs : t1 ≤ s)
    (hreq : ∀ y ∈ w.Requests, t1 ≤ y)
    (hlen : (w.Requests.length : Int) = rl0.config.Rate)
    (hx1 : t1 ≤ x) (hx2 : x < t1 + rl0.config.Window) :
    (rl.AllowN key 1 x).1 = false ∧
      Stored rl0 (rl.AllowN key 1 x).2 key
        (Bytes.windowJSON
          { Count := (w.Requests.length : Int), WindowStart := w.WindowStart,
            Requests := w.Requests }) x := by
  have hcfg : rl.config = rl0.config := hst.1
  have hlive : (memoryItem.mk (Bytes.windowJSON w) (expiryAt rl.config s)).isExpired x
      = false :=
    isExpired_expiryAt_le _ _ _ _ (by rw [hcfg]; exact hW) (by rw [hcfg]; exact hW2)
      (by rw [hcfg]; omega)
  have hload := hst.loadWindow x hlive
  obtain ⟨h1, h2⟩ := AllowN_slidingWindow_stored rl key 1 x _ hst.2.1
    (by rw [hcfg]; exact halg) hst.2.2.1 hload
  have hpr : prunedRequests rl0.config w x = w.Requests :=
    prunedRequests_all _ _ _ (fun y hy => by have := hreq y hy; omega)
  rw [hcfg, hpr] at h1 h2
  have hwrap : wrap64 ((w.Requests.length : Int) + 1) = (w.Requests.length : Int) + 1 := by
    apply wrap64_of_range
    · unfold minInt64
      omega
    · omega
  have hgt : ¬ ((w.Requests.length : Int) + 1 ≤ rl0.config.Rate) := by omega
  rw [hwrap] at h1 h2
  rw [if_neg hgt] at h2
  exact ⟨by rw [h1]; exact decide_eq_false hgt, hst.rebase h2⟩

/-- While the window is full and none of its timestamps has aged out, every
call is denied and the list is kept. -/
theorem slidingWindow_full (ds : List Int) : ∀ (rl0 rl : rateLimiter) (key : String)
    (w : windowData) (s t1 : Int),
    rl0.config.Algorithm = SlidingWindow → 0 < rl0.config.Window →
    rl0.config.Window ≤ maxInt64 → rl0.config.Rate < maxInt64 →
    Stored rl0 rl key (Bytes.windowJSON w) s → t1 ≤ s →
    (∀ y ∈ w.Requests, t1 ≤ y) → (w.Requests.length : Int) = rl0.config.Rate →
    (∀ d ∈ ds, t1 ≤ d ∧ d < t1 + rl0.config.Window) →
    (allowAt rl key ds).1 = List.replicate ds.length false ∧
      ∃ (w1 : windowData) (s1 : Int), t1 ≤ s1 ∧ w1.Requests = w.Requests ∧
        Stored rl0 (allowAt rl key ds).2 key (Bytes.windowJSON w1) s1 := by
  induction ds with
  | nil =>
    intro rl0 rl key w s t1 _ _ _ _ hst hs _ _ _
    exact ⟨rfl, w, s, hs, rfl, hst⟩
  | cons x ds ih =>
    intro rl0 rl key w s t1 halg hW hW2 hR hst hs hreq hlen hds
    obtain ⟨hx1, hx2⟩ := hds x (List.mem_cons_self _ _)
    obtain ⟨h1, h3⟩ := slidingWindow_full_step rl0 rl key w s t1 x halg hW hW2 hR hst hs hreq
      hlen hx1 hx2
    obtain ⟨r1, w1, s1, r2, r3, r4⟩ := ih rl0 (rl.AllowN key 1 x).2 key
      { Count := (w.Requests.length : Int), WindowStart := w.WindowStart,
        Requests := w.Requests } x t1
      halg hW hW2 hR h3 hx1 hreq hlen (fun y hy => hds y (List.mem_cons_of_mem _ hy))
    refine ⟨?_, w1, s1, r2, r3, r4⟩
    rw [allowAt_cons_fst, h1, r1, List.length_cons, List.replicate_succ]

/-- When only the oldest timestamp of a full, strictly increasing list has
aged out, one call is admitted and a second call at the same instant is
denied. -/
theorem slidingWindow_slot (rl0 rl : rateLimiter) (key : String) (w : windowData)
    (s t1 t2 t : Int) (rest : List Int)
    (halg : rl0.config.Algorithm = SlidingWindow) (hW : 0 < rl0.config.Window)
    (hW2 : rl0.config.Window ≤ maxInt64) (hR : rl0.config.Rate < maxInt64)
    (hst : Stored rl0 rl key (Bytes.windowJSON w) s) (hs : t1 ≤ s)
    (hreq : w.Requests = t1 :: t2 :: rest)
    (hsorted : (t1 :: t2 :: rest).Pairwise (fun a b => a < b))
    (hlen : ((t1 :: t2 :: rest).length : Int) = rl0.config.Rate)
    (h12 : t2 < t1 + rl0.config.Window)
    (ht1 : t1 + rl0.config.Window ≤ t) (ht2 : t < t2 + rl0.config.Window) :
    (allowAt rl key [t, t]).1 = [true, false] := by
  have hcfg : rl.config = rl0.config := hst.1
  rw [List.pairwise_cons, List.pairwise_cons] at hsorted
  obtain ⟨_, hs2, _⟩ := hsorted
  have hlive : (memoryItem.mk (Bytes.windowJSON w) (expiryAt rl.config s)).isExpired t
      = false :=
    isExpired_expiryAt_le _ _ _ _ (by rw [hcfg]; exact hW) (by rw [hcfg]; exact hW2)
      (by rw [hcfg]; omega)
  have hload := hst.loadWindow t hlive
  obtain ⟨h1, h2⟩ := AllowN_slidingWindow_stored rl key 1 t _ hst.2.1
    (by rw [hcfg]; exact halg) hst.2.2.1 hload
  have hkeep : ∀ y ∈ t2 :: rest, t - rl0.config.Window < y := by
    intro y hy
    rw [List.mem_cons] at hy
    rcases hy with hy | hy
    · omega
    · have := hs2 y hy
      omega
  have hpr : prunedRequests rl0.config w t = t2 :: rest := by
    unfold prunedRequests
    rw [hreq, List.filter_cons_of_neg, List.filter_eq_self]
    · intro y hy
      have := hkeep y hy
      unfold Time.After Time.Add
      apply decide_eq_true
      omega
    · unfold Time.After Time.Add
      simp only [decide_eq_true_eq]
      omega
  rw [hcfg, hpr] at h1 h2
  simp only [List.length_cons] at hlen h1 h2
  push_cast at hlen h1 h2
  have hwrap : wrap64 ((rest.length : Int) + 1 + 1) = (rest.length : Int) + 1 + 1 := by
    apply wrap64_of_range
    · unfold minInt64
      omega
    · omega
  have hle : (rest.length : Int) + 1 + 1 ≤ rl0.config.Rate := by omega
  rw [hwrap] at h1 h2
  rw [if_pos hle] at h2
  have hv : (rl.AllowN key 1 t).1 = true := by
    rw [h1]
    exact decide_eq_true hle
  have h3 := hst.rebase h2
  obtain ⟨q1, _⟩ := slidingWindow_full_step rl0 (rl.AllowN key 1 t).2 key _ t
    (t - rl0.config.Window + 1) t halg hW hW2 hR h3 (by omega)
    (by
      intro y hy
      simp only [List.mem_append, List.mem_singleton] at hy
      rcases hy with hy | hy
      · have := hkeep y hy
        omega
      · omega)
    (by
      simp only [List.length_append, List.length_cons, List.length_singleton, List.length_nil]
      push_cast
      omega)
    (by omega) (by omega)
  rw [allowAt_cons_fst, hv, allowAt_cons_fst, q1]
  rfl

/-- C6. Sliding Window precision: on a limiter built by `New` with
`rate >= 2` and a fresh key, `rate` calls `Allow(key)` at strictly increasing
times `t1 < t2 < ...`, all before `t1 + window`, are all admitted; every call
at a time from the last of them up to `t1 + window` (excluded) is denied; and
at a time `t` with `t1 + window <= t < t2 + window` one call is admitted and a
second call at the same `t` is denied. -/
theorem slidingWindow_precision (cfg : Config) (rl : rateLimiter) (key : String)
    (t1 t2 : Int) (rest ds : List Int) (t : Int)
    (hnew : New cfg = Except.ok rl) (halg : cfg.Algorithm = SlidingWindow)
    (hW2 : cfg.Window ≤ maxInt64) (hR2 : cfg.Rate < maxInt64)
    (hopen : rl.storage.closed = false)
    (hfresh : rl.storage.items.lookup (rl.extractKey key) = none)
    (hlen : ((t1 :: t2 :: rest).length : Int) = cfg.Rate)
    (hsorted : (t1 :: t2 :: rest).Pairwise (fun a b => a < b))
    (hlast : ∀ x ∈ t1 :: t2 :: rest, x < t1 + cfg.Window)
    (hds : ∀ d ∈ ds, (∀ x ∈ t1 :: t2 :: rest, x ≤ d) ∧ d < t1 + cfg.Window)
    (ht : t1 + cfg.Window ≤ t ∧ t < t2 + cfg.Window) :
    (allowAt rl key (t1 :: t2 :: rest)).1 = List.replicate (t1 :: t2 :: rest).length true ∧
      (allowAt (allowAt rl key (t1 :: t2 :: rest)).2 key ds).1 =
        List.replicate ds.length false ∧
      (allowAt (allowAt (allowAt rl key (t1 :: t2 :: rest)).2 key ds).2 key [t, t]).1 =
        [true, false] := by
  obtain ⟨hR, hW, hA, hRe, hWe, _, hcl, _, _⟩ := New_ok hnew
  have halg1 : rl.config.Algorithm = SlidingWindow := hA.trans halg
  have hge : ∀ x ∈ t2 :: rest, t1 ≤ x := by
    intro x hx
    have := (List.pairwise_cons.mp hsorted).1 x hx
    omega
  -- the first call, on the fresh key
  have hload := (getWindowData_of_lookup_none rl (rl.extractKey key) t1 hopen hfresh).1
  obtain ⟨h1, h2⟩ := AllowN_slidingWindow_stored rl key 1 t1 _ hcl halg1 hopen hload
  have hpr : prunedRequests rl.config
      { Count := 0, WindowStart := t1, Requests := [] } t1 = [] := rfl
  rw [hpr] at h1 h2
  have hwrap : wrap64 ((([] : List Int).length : Int) + 1) = 1 := by decide
  have hle : (1 : Int) ≤ rl.config.Rate := by omega
  rw [hwrap] at h1 h2
  rw [if_pos hle] at h2
  have hone : ([] : List Int) ++ List.replicate (1 : Int).toNat t1 = [t1] := rfl
  rw [hone] at h2
  have hv : (rl.AllowN key 1 t1).1 = true := by
    rw [h1]
    exact decide_eq_true hle
  simp only [List.length_cons] at hlen
  push_cast at hlen
  -- the remaining calls of the first phase
  obtain ⟨r1, w1, s1, r2, r3, r4⟩ := slidingWindow_fill (t2 :: rest) rl (rl.AllowN key 1 t1).2 key
    _ t1 t1 halg1 (by omega) (by omega) (by omega) h2 (le_refl _)
    (by
      intro y hy
      rw [List.mem_singleton] at hy
      omega)
    (by
      simp only [List.length_cons, List.length_nil]
      push_cast
      omega)
    (fun x hx => ⟨hge x hx, by rw [hWe]; exact hlast x (List.mem_cons_of_mem _ hx)⟩)
  have hreq1 : w1.Requests = t1 :: t2 :: rest := by rw [r3]; rfl
  have hall : ∀ y ∈ w1.Requests, t1 ≤ y := by
    intro y hy
    rw [hreq1, List.mem_cons] at hy
    rcases hy with hy | hy
    · omega
    · exact hge y hy
  -- the denied calls
  obtain ⟨d1, w2, s2, d2, d3, d4⟩ := slidingWindow_full ds rl
    (allowAt (rl.AllowN key 1 t1).2 key (t2 :: rest)).2 key w1 s1 t1 halg1 (by omega)
    (by omega) (by omega) r4 r2 hall
    (by rw [hreq1]; simp only [List.length_cons]; push_cast; omega)
    (fun d hd => ⟨(hds d hd).1 t1 (List.mem_cons_self _ _), by rw [hWe]; exact (hds d hd).2⟩)
  refine ⟨?_, ?_, ?_⟩
  · rw [allowAt_cons_fst, hv, r1]
    rfl
  · rw [allowAt_cons_snd]
    exact d1
  · rw [allowAt_cons_snd]
    exact slidingWindow_slot rl _ key w2 s2 t1 t2 t rest halg1 (by omega) (by omega) (by omega)
      d4 d2 (by rw [d3, hreq1]) hsorted
      (by simp only [List.length_cons]; push_cast; omega)
      (by rw [hWe]; exact hlast t2 (List.mem_cons_of_mem _ (List.mem_cons_self _ _)))
      (by rw [hWe]; exact ht.1) (by rw [hWe]; exact ht.2)

/-- Witness for C6: the configuration of `TestSlidingWindow`, three calls
200 ms apart, two denied calls, and two calls 1.1 s after the first. -/
theorem slidingWindow_precision_witness :
    (allowAt (limiterOf slidingWindowConfig) "test-user"
        (5000000000 :: 5200000000 :: [5400000000])).1 =
        List.replicate (5000000000 :: 5200000000 :: [5400000000]).length true ∧
      (allowAt
        (allowAt (limiterOf slidingWindowConfig) "test-user"
          (5000000000 :: 5200000000 :: [5400000000])).2
        "test-user" [5400000000, 5999999999]).1 =
        List.replicate [5400000000, 5999999999].length false ∧
      (allowAt
        (allowAt
          (allowAt (limiterOf slidingWindowConfig) "test-user"
            (5000000000 :: 5200000000 :: [5400000000])).2
          "test-user" [5400000000, 5999999999]).2
        "test-user" [6100000000, 6100000000]).1 = [true, false] :=
  slidingWindow_precision slidingWindowConfig (limiterOf slidingWindowConfig) "test-user"
    5000000000 5200000000 [5400000000] [5400000000, 5999999999] 6100000000
    rfl rfl (by decide) (by decide) rfl rfl (by decide) (by decide) (by decide) (by decide)
    (by decide)

/-! ## Leaky Bucket: one call -/

/-- One `allowLeakyBucket` call on an open storage, in terms of the loaded
bucket: the verdict compares the decayed occupancy plus `n` with the burst
size, and the bucket written back holds the occupancy plus `n` on admission,
the decayed occupancy on denial. -/
theorem allowLeakyBucket_eq (rl : rateLimiter) (key : String) (n now : Int) (b : bucketData)
    (hopen : rl.storage.closed = false)
    (hload : (rl.getBucketData key now).1 = Except.ok b) :
    (rl.allowLeakyBucket key n now).1 =
        decide (leakLevel rl.config b now + (n : ℚ) ≤ (rl.config.BurstSize : ℚ)) ∧
      (rl.allowLeakyBucket key n now).2.config = rl.config ∧
      (rl.allowLeakyBucket key n now).2.closed = rl.closed ∧
      (rl.allowLeakyBucket key n now).2.storage.closed = false ∧
      (rl.allowLeakyBucket key n now).2.storage.items.lookup key =
        some (memoryItem.mk
          (Bytes.bucketJSON
            { Tokens :=
                if leakLevel rl.config b now + (n : ℚ) ≤ (rl.config.BurstSize : ℚ) then
                  leakLevel rl.config b now + (n : ℚ)
                else leakLevel rl.config b now,
              LastRefill := now })
          (expiryAt rl.config now)) := by
  have hpair : rl.getBucketData key now =
      (Except.ok b, { rl with storage := (rl.storage.Get key now).2 }) :=
    Prod.ext hload (getBucketData_snd rl key now)
  have hopen1 : ({ rl with storage := (rl.storage.Get key now).2 } : rateLimiter).storage.closed
      = false := by
    simp [Get_snd_closed, hopen]
  unfold rateLimiter.allowLeakyBucket
  rw [hpair]
  by_cases hz : Time.IsZero b.LastRefill = true
  · by_cases hn : b.Tokens + (n : ℚ) ≤ (rl.config.BurstSize : ℚ)
    · simp [leakLevel, hz, hn, setBucketData_of_open _ _ _ _ hopen1, lookup_mapInsert_self,
        Get_snd_closed, hopen]
    · simp [leakLevel, hz, hn, setBucketData_of_open _ _ _ _ hopen1, lookup_mapInsert_self,
        Get_snd_closed, hopen]
  · by_cases hn : max 0 (b.Tokens - Duration.Seconds (Time.Sub now b.LastRefill) *
        ((rl.config.Rate : ℚ) / Duration.Seconds rl.config.Window)) + (n : ℚ)
          ≤ (rl.config.BurstSize : ℚ)
    · simp [leakLevel, hz, hn, setBucketData_of_open _ _ _ _ hopen1, lookup_mapInsert_self,
        Get_snd_closed, hopen]
    · simp [leakLevel, hz, hn, setBucketData_of_open _ _ _ _ hopen1, lookup_mapInsert_self,
        Get_snd_closed, hopen]

/-- One Leaky Bucket `AllowN` call, with the state it leaves. -/
theorem AllowN_leakyBucket_stored (rl : rateLimiter) (key : String) (n now : Int)
    (b : bucketData) (hcl : rl.closed = false) (halg : rl.config.Algorithm = LeakyBucket)
    (hopen : rl.storage.closed = false)
    (hload : (rl.getBucketData (rl.extractKey key) now).1 = Except.ok b) :
    (rl.AllowN key n now).1 =
        decide (leakLevel rl.config b now + (n : ℚ) ≤ (rl.config.BurstSize : ℚ)) ∧
      Stored rl (rl.AllowN key n now).2 key
        (Bytes.bucketJSON
          { Tokens :=
              if leakLevel rl.config b now + (n : ℚ) ≤ (rl.config.BurstSize : ℚ) then
                leakLevel rl.config b now + (n : ℚ)
              else leakLevel rl.config b now,
            LastRefill := now }) now := by
  obtain ⟨h1, h2, h3, h4, h5⟩ := allowLeakyBucket_eq rl (rl.extractKey key) n now b hopen hload
  rw [AllowN_eq_leakyBucket rl key n now hcl halg]
  exact ⟨h1, h2, h3.trans hcl, h4, h5⟩

theorem Time.Sub_self (t : Int) : Time.Sub t t = 0 := by
  unfold Time.Sub maxInt64 minInt64
  simp

/-- With no time elapsed since the last update, a non-negative occupancy is
unchanged. -/
theorem leakLevel_same (cfg : Config) (tokens : ℚ) (now : Int) (h : 0 ≤ tokens) :
    leakLevel cfg { Tokens := tokens, LastRefill := now } now = tokens := by
  unfold leakLevel
  split_ifs
  · rfl
  · simp [Time.Sub_self, Duration.Seconds, h]

theorem leakLevel_fresh (cfg : Config) (now : Int) :
    leakLevel cfg { Tokens := 0, LastRefill := 0 } now = 0 := by
  simp [leakLevel, Time.IsZero]

/-- The rate of refill or leakage over an elapsed duration, in tokens. -/
theorem seconds_rate (a R W : Int) (hW : 0 < W) :
    Duration.Seconds a * ((R : ℚ) / Duration.Seconds W) = (a : ℚ) * (R : ℚ) / (W : ℚ) := by
  unfold Duration.Seconds
  have : (W : ℚ) ≠ 0 := by
    have : (0 : ℚ) < (W : ℚ) := by exact_mod_cast hW
    exact ne_of_gt this
  field_simp
  ring

/-- Whether at least one token has accrued over an elapsed time `d` is not
affected by the saturation of `Time.Sub`. -/
theorem elapsed_rate_iff (t d R W : Int) (hR : 0 < R) (hW : 0 < W) (hW2 : W ≤ maxInt64) :
    (1 : ℚ) ≤ ((Time.Sub (t + d) t : Int) : ℚ) * (R : ℚ) / (W : ℚ) ↔
      (1 : ℚ) ≤ (d : ℚ) * (R : ℚ) / (W : ℚ) := by
  have hWq : (0 : ℚ) < (W : ℚ) := by exact_mod_cast hW
  rw [le_div_iff₀ hWq, le_div_iff₀ hWq, one_mul]
  have e1 : ((W : ℚ) ≤ ((Time.Sub (t + d) t : Int) : ℚ) * (R : ℚ)) ↔
      W ≤ Time.Sub (t + d) t * R := by
    constructor
    · intro h
      exact_mod_cast h
    · intro h
      exact_mod_cast h
  have e2 : ((W : ℚ) ≤ (d : ℚ) * (R : ℚ)) ↔ W ≤ d * R := by
    constructor
    · intro h
      exact_mod_cast h
    · intro h
      exact_mod_cast h
  rw [e1, e2]
  unfold Time.Sub
  unfold maxInt64 at *
  unfold minInt64
  have hsimp : t + d - t = d := by ring
  rw [hsimp]
  split_ifs with h1 h2
  · constructor
    · intro _
      nlinarith
    · intro _
      nlinarith
  · constructor
    · intro h
      nlinarith
    · intro h
      nlinarith
  · rfl

/-! ## Leaky Bucket: saturation -/

/-- From an occupancy of `j` whole units with room for `m` more, the next `m`
calls at the same instant are admitted, the one after them is denied, and the
bucket is left full. -/
theorem leakyBucket_fill (m : Nat) : ∀ (rl0 rl : rateLimiter) (key : String) (now : Int)
    (j : Nat), rl0.config.Algorithm = LeakyBucket →
    Stored rl0 rl key (Bytes.bucketJSON { Tokens := (j : ℚ), LastRefill := now }) now →
    (j : Int) + (m : Int) = rl0.config.BurstSize →
    (allowAt rl key (List.replicate (m + 1) now)).1 = List.replicate m true ++ [false] ∧
      Stored rl0 (allowAt rl key (List.replicate (m + 1) now)).2 key
        (Bytes.bucketJSON { Tokens := (rl0.config.BurstSize : ℚ), LastRefill := now }) now := by
  induction m with
  | zero =>
    intro rl0 rl key now j halg hst hj
    have hcfg : rl.config = rl0.config := hst.1
    have hload := hst.loadBucket now (isExpired_expiryAt_same _ _ _)
    obtain ⟨h1, h2⟩ := AllowN_leakyBucket_stored rl key 1 now _ hst.2.1
      (by rw [hcfg]; exact halg) hst.2.2.1 hload
    rw [hcfg, leakLevel_same _ _ _ (Nat.cast_nonneg j)] at h1 h2
    have hjB : (j : ℚ) = (rl0.config.BurstSize : ℚ) := by
      have : ((j : Int) : ℚ) = (rl0.config.BurstSize : ℚ) := by
        rw [← hj]
        push_cast
        ring
      exact_mod_cast this
    have hgt : ¬ ((j : ℚ) + ((1 : Int) : ℚ) ≤ (rl0.config.BurstSize : ℚ)) := by
      rw [hjB]
      push_cast
      linarith
    rw [if_neg hgt, hjB] at h2
    refine ⟨?_, ?_⟩
    · rw [List.replicate_succ, allowAt_cons_fst, h1]
      simp only [List.replicate_zero, List.nil_append]
      exact List.cons_eq_cons.mpr ⟨decide_eq_false hgt, rfl⟩
    · rw [List.replicate_succ, allowAt_cons_snd]
      exact hst.rebase h2
  | succ m ih =>
    intro rl0 rl key now j halg hst hj
    have hcfg : rl.config = rl0.config := hst.1
    have hload := hst.loadBucket now (isExpired_expiryAt_same _ _ _)
    obtain ⟨h1, h2⟩ := AllowN_leakyBucket_stored rl key 1 now _ hst.2.1
      (by rw [hcfg]; exact halg) hst.2.2.1 hload
    rw [hcfg, leakLevel_same _ _ _ (Nat.cast_nonneg j)] at h1 h2
    have hle : (j : ℚ) + ((1 : Int) : ℚ) ≤ (rl0.config.BurstSize : ℚ) := by
      have : (j : Int) + 1 ≤ rl0.config.BurstSize := by
        push_cast at hj
        omega
      exact_mod_cast this
    rw [if_pos hle] at h2
    have hcast : (j : ℚ) + ((1 : Int) : ℚ) = ((j + 1 : Nat) : ℚ) := by
      push_cast
      ring
    rw [hcast] at h2
    obtain ⟨r1, r2⟩ := ih rl0 (rl.AllowN key 1 now).2 key now (j + 1) halg (hst.rebase h2)
      (by push_cast at hj ⊢; omega)
    refine ⟨?_, ?_⟩
    · rw [List.replicate_succ, allowAt_cons_fst, h1, r1]
      exact List.cons_eq_cons.mpr ⟨decide_eq_true hle, rfl⟩
    · rw [List.replicate_succ, allowAt_cons_snd]
      exact r2

/-- A full Leaky Bucket last updated at `t` admits a call at `t + d` exactly
when `d * rate / window >= 1`. -/
theorem leakyBucket_after (rl0 rl : rateLimiter) (key : String) (t d : Int)
    (halg : rl0.config.Algorithm = LeakyBucket) (hR : 0 < rl0.config.Rate)
    (hW : 0 < rl0.config.Window) (hW2 : rl0.config.Window ≤ maxInt64)
    (hB : 1 ≤ rl0.config.BurstSize) (ht : t ≠ 0)
    (hst : Stored rl0 rl key
      (Bytes.bucketJSON { Tokens := (rl0.config.BurstSize : ℚ), LastRefill := t }) t) :
    (rl.AllowN key 1 (t + d)).1 =
      decide ((1 : ℚ) ≤ (d : ℚ) * (rl0.config.Rate : ℚ) / (rl0.config.Window : ℚ)) := by
  have hcfg : rl.config = rl0.config := hst.1
  have hBq : (1 : ℚ) ≤ (rl0.config.BurstSize : ℚ) := by exact_mod_cast hB
  have hWq : (0 : ℚ) < (rl0.config.Window : ℚ) := by exact_mod_cast hW
  cases hexp : (memoryItem.mk
      (Bytes.bucketJSON { Tokens := (rl0.config.BurstSize : ℚ), LastRefill := t })
      (expiryAt rl.config t)).isExpired (t + d) with
  | true =>
    have hload := hst.loadBucket_expired (t + d) hexp
    obtain ⟨h1, _⟩ := AllowN_leakyBucket_stored rl key 1 (t + d) _ hst.2.1
      (by rw [hcfg]; exact halg) hst.2.2.1 hload
    rw [hcfg, leakLevel_fresh] at h1
    have hd := isExpired_expiryAt_gt rl.config _ t (t + d) (by rw [hcfg]; exact hW)
      (by rw [hcfg]; exact hW2) hexp
    rw [hcfg] at hd
    rw [h1, decide_eq_decide]
    constructor
    · intro _
      rw [le_div_iff₀ hWq, one_mul]
      have : rl0.config.Window ≤ d * rl0.config.Rate := by nlinarith
      exact_mod_cast this
    · intro _
      push_cast
      linarith
  | false =>
    have hload := hst.loadBucket (t + d) hexp
    obtain ⟨h1, _⟩ := AllowN_leakyBucket_stored rl key 1 (t + d) _ hst.2.1
      (by rw [hcfg]; exact halg) hst.2.2.1 hload
    rw [hcfg] at h1
    have hlvl : leakLevel rl0.config
        { Tokens := (rl0.config.BurstSize : ℚ), LastRefill := t } (t + d) =
        max 0 ((rl0.config.BurstSize : ℚ) -
          ((Time.Sub (t + d) t : Int) : ℚ) * (rl0.config.Rate : ℚ) /
            (rl0.config.Window : ℚ)) := by
      unfold leakLevel
      have hz : Time.IsZero t = false := by
        unfold Time.IsZero
        exact decide_eq_false ht
      simp only [hz, Bool.false_eq_true, if_false]
      rw [seconds_rate _ _ _ hW]
    rw [hlvl] at h1
    rw [h1, decide_eq_decide, ← elapsed_rate_iff t d _ _ hR hW hW2]
    constructor
    · intro h
      have h2 := le_trans (le_max_right _ _) (le_sub_iff_add_le.mpr h)
      push_cast at h2
      linarith
    · intro h
      push_cast
      rw [← le_sub_iff_add_le]
      apply max_le
      · linarith
      · linarith

/-! ## Token Bucket: refill after a denial -/

theorem seconds_rate_div (a R W : Int) (hW : 0 < W) :
    Duration.Seconds a * (R : ℚ) / Duration.Seconds W = (a : ℚ) * (R : ℚ) / (W : ℚ) := by
  unfold Duration.Seconds
  have : (W : ℚ) ≠ 0 := by
    have : (0 : ℚ) < (W : ℚ) := by exact_mod_cast hW
    exact ne_of_gt this
  field_simp

/-- The refreshed level of an initialised bucket, in tokens. -/
theorem tokenLevel_initialised (cfg : Config) (b : bucketData) (now : Int)
    (hz : b.LastRefill ≠ 0) (hW : 0 < cfg.Window) :
    tokenLevel cfg b now =
      min (cfg.BurstSize : ℚ)
        (b.Tokens + ((Time.Sub now b.LastRefill : Int) : ℚ) * (cfg.Rate : ℚ) /
          (cfg.Window : ℚ)) := by
  unfold tokenLevel
  have hz1 : Time.IsZero b.LastRefill = false := by
    unfold Time.IsZero
    exact decide_eq_false hz
  simp only [hz1, Bool.false_eq_true, if_false]
  rw [seconds_rate_div _ _ _ hW]

/-- The refreshed level is not negative when the stored level is not negative
and the clock has not gone back since the last update. -/
theorem tokenLevel_nonneg (cfg : Config) (b : bucketData) (now : Int)
    (hB : 0 ≤ cfg.BurstSize) (hR : 0 ≤ cfg.Rate) (hW : 0 < cfg.Window)
    (htok : 0 ≤ b.Tokens) (hmono : b.LastRefill ≤ now) : 0 ≤ tokenLevel cfg b now := by
  have hBq : (0 : ℚ) ≤ (cfg.BurstSize : ℚ) := by exact_mod_cast hB
  by_cases hz : b.LastRefill = 0
  · have : tokenLevel cfg b now = (cfg.BurstSize : ℚ) := by
      simp [tokenLevel, Time.IsZero, hz]
    rw [this]
    exact hBq
  · rw [tokenLevel_initialised cfg b now hz hW]
    apply le_min hBq
    have hsub : 0 ≤ Time.Sub now b.LastRefill := by
      unfold Time.Sub maxInt64 minInt64
      split_ifs <;> omega
    have h1 : (0 : ℚ) ≤ ((Time.Sub now b.LastRefill : Int) : ℚ) := by exact_mod_cast hsub
    have h2 : (0 : ℚ) ≤ (cfg.Rate : ℚ) := by exact_mod_cast hR
    have h3 : (0 : ℚ) < (cfg.Window : ℚ) := by exact_mod_cast hW
    have h4 : (0 : ℚ) ≤ ((Time.Sub now b.LastRefill : Int) : ℚ) * (cfg.Rate : ℚ) /
        (cfg.Window : ℚ) := div_nonneg (mul_nonneg h1 h2) (le_of_lt h3)
    linarith

/-! ## Reset -/

/-- On two open limiters with the same configuration and open storages, on
both of which the key has no stored state, `AllowN` returns the same verdict
and leaves the same entry under the key. -/
theorem AllowN_fresh_congr (rl1 rl2 : rateLimiter) (key : String) (n now : Int)
    (hc : rl2.config = rl1.config)
    (hcl1 : rl1.closed = false) (hcl2 : rl2.closed = false)
    (ho1 : rl1.storage.closed = false) (ho2 : rl2.storage.closed = false)
    (hf1 : rl1.storage.items.lookup (rl1.extractKey key) = none)
    (hf2 : rl2.storage.items.lookup (rl2.extractKey key) = none) :
    (rl1.AllowN key n now).1 = (rl2.AllowN key n now).1 ∧
      (rl1.AllowN key n now).2.storage.items.lookup (rl1.extractKey key) =
        (rl2.AllowN key n now).2.storage.items.lookup (rl2.extractKey key) := by
  have hk : rl2.extractKey key = rl1.extractKey key := extractKey_congr rl1 rl2 hc key
  by_cases h0 : rl1.config.Algorithm = TokenBucket
  · have hb1 := (getBucketData_of_lookup_none rl1 _ now ho1 hf1).1
    have hb2 := (getBucketData_of_lookup_none rl2 _ now ho2 hf2).1
    obtain ⟨a1, a2⟩ := AllowN_tokenBucket_stored rl1 key n now _ hcl1 h0 ho1 hb1
    obtain ⟨b1, b2⟩ := AllowN_tokenBucket_stored rl2 key n now _ hcl2 (by rw [hc]; exact h0)
      ho2 hb2
    rw [a1, b1, a2.2.2.2, b2.2.2.2, hc]
    exact ⟨rfl, rfl⟩
  by_cases h1 : rl1.config.Algorithm = FixedWindow
  · have hb1 := (getWindowData_of_lookup_none rl1 _ now ho1 hf1).1
    have hb2 := (getWindowData_of_lookup_none rl2 _ now ho2 hf2).1
    obtain ⟨a1, a2⟩ := AllowN_fixedWindow_stored rl1 key n now _ hcl1 h1 ho1 hb1
    obtain ⟨b1, b2⟩ := AllowN_fixedWindow_stored rl2 key n now _ hcl2 (by rw [hc]; exact h1)
      ho2 hb2
    rw [a1, b1, a2.2.2.2, b2.2.2.2, hc]
    exact ⟨rfl, rfl⟩
  by_cases h2 : rl1.config.Algorithm = SlidingWindow
  · have hb1 := (getWindowData_of_lookup_none rl1 _ now ho1 hf1).1
    have hb2 := (getWindowData_of_lookup_none rl2 _ now ho2 hf2).1
    obtain ⟨a1, a2⟩ := AllowN_slidingWindow_stored rl1 key n now _ hcl1 h2 ho1 hb1
    obtain ⟨b1, b2⟩ := AllowN_slidingWindow_stored rl2 key n now _ hcl2 (by rw [hc]; exact h2)
      ho2 hb2
    rw [a1, b1, a2.2.2.2, b2.2.2.2, hc]
    exact ⟨rfl, rfl⟩
  by_cases h3 : rl1.config.Algorithm = LeakyBucket
  · have hb1 := (getBucketData_of_lookup_none rl1 _ now ho1 hf1).1
    have hb2 := (getBucketData_of_lookup_none rl2 _ now ho2 hf2).1
    obtain ⟨a1, a2⟩ := AllowN_leakyBucket_stored rl1 key n now _ hcl1 h3 ho1 hb1
    obtain ⟨b1, b2⟩ := AllowN_leakyBucket_stored rl2 key n now _ hcl2 (by rw [hc]; exact h3)
      ho2 hb2
    rw [a1, b1, a2.2.2.2, b2.2.2.2, hc]
    exact ⟨rfl, rfl⟩
  · have e1 : rl1.AllowN key n now = (false, rl1.updateMetrics (Time.Sub now now)) := by
      simp [rateLimiter.AllowN, hcl1, h0, h1, h2, h3]
    have e2 : rl2.AllowN key n now = (false, rl2.updateMetrics (Time.Sub now now)) := by
      simp [rateLimiter.AllowN, hcl2, hc, h0, h1, h2, h3]
    rw [e1, e2]
    simp only [updateMetrics_storage, hf1, hf2, and_self]

/-- A successful `Reset` is made on an open limiter with an open storage and
removes the entry of the key. -/
theorem Reset_ok {rl rl1 : rateLimiter} {key : String} (h : rl.Reset key = (none, rl1)) :
    rl1.config = rl.config ∧ rl1.closed = false ∧ rl1.storage.closed = false ∧
      rl1.storage.items.lookup (rl1.extractKey key) = none := by
  unfold rateLimiter.Reset at h
  cases hcl : rl.closed with
  | true => simp [hcl] at h
  | false =>
    simp only [hcl, Bool.false_eq_true, if_false] at h
    unfold MemoryStorage.Delete at h
    cases ho : rl.storage.closed with
    | true => simp [ho] at h
    | false =>
      simp only [ho, Bool.false_eq_true, if_false, Option.map_none', Prod.mk.injEq,
        true_and] at h
      subst h
      refine ⟨rfl, rfl, rfl, ?_⟩
      exact lookup_mapDelete_self _ _

/-- C9. Reset restores the fresh state: for every algorithm value, key and
prior stored state, after `Reset(key)` has returned without error, an
immediate `AllowN(key, n)` returns the same verdict, and leaves the same entry
under the key, as the same call on a limiter of the same configuration on
which the key has no stored state. -/
theorem reset_restores_fresh (rl rl1 fresh : rateLimiter) (key : String) (n now : Int)
    (hreset : rl.Reset key = (none, rl1))
    (hconfig : fresh.config = rl.config) (hcl : fresh.closed = false)
    (hopen : fresh.storage.closed = false)
    (hunused : fresh.storage.items.lookup (fresh.extractKey key) = none) :
    (rl1.AllowN key n now).1 = (fresh.AllowN key n now).1 ∧
      (rl1.AllowN key n now).2.storage.items.lookup (rl1.extractKey key) =
        (fresh.AllowN key n now).2.storage.items.lookup (fresh.extractKey key) := by
  obtain ⟨h1, h2, h3, h4⟩ := Reset_ok hreset
  exact AllowN_fresh_congr rl1 fresh key n now (hconfig.trans h1.symm) h2 hcl h3 hopen h4
    hunused

/-- Witness for C9: resetting the exhausted bucket of `TestReset`, compared
with a limiter on which only another key has been used. -/
theorem reset_restores_fresh_witness :
    ((limiterOf tokenBucketConfig).AllowN "test-user" 1 5000000000).1 =
        (otherKeyLimiter.AllowN "test-user" 1 5000000000).1 ∧
      ((limiterOf tokenBucketConfig).AllowN "test-user" 1 5000000000).2.storage.items.lookup
          ((limiterOf tokenBucketConfig).extractKey "test-user") =
        (otherKeyLimiter.AllowN "test-user" 1 5000000000).2.storage.items.lookup
          (otherKeyLimiter.extractKey "test-user") :=
  reset_restores_fresh exhaustedLimiter (limiterOf tokenBucketConfig) otherKeyLimiter
    "test-user" 1 5000000000 rfl rfl rfl rfl rfl

/-! ## Token Bucket: `AllowN` is all-or-nothing -/

theorem storedBucket_of_stored {rl0 rl : rateLimiter} {key : String} {b : bucketData}
    {s : Int} (h : Stored rl0 rl key (Bytes.bucketJSON b) s) :
    storedBucket rl (rl0.extractKey key) = some b := by
  unfold storedBucket
  rw [h.2.2.2]

/-- A call at the instant of the last update, on a level between 0 and the
burst size: admitted exactly when `n` is at most the level, which is then
reduced by `n`; otherwise the level is kept. -/
theorem tokenBucket_same_instant (rl0 rl : rateLimiter) (key : String) (n now : Int)
    (level : ℚ) (halg : rl0.config.Algorithm = TokenBucket) (hnow : now ≠ 0)
    (hlevel : level ≤ (rl0.config.BurstSize : ℚ))
    (hst : Stored rl0 rl key (Bytes.bucketJSON { Tokens := level, LastRefill := now }) now) :
    (rl.AllowN key n now).1 = decide ((n : ℚ) ≤ level) ∧
      Stored rl0 (rl.AllowN key n now).2 key
        (Bytes.bucketJSON
          { Tokens := if (n : ℚ) ≤ level then level - (n : ℚ) else level,
            LastRefill := now }) now := by
  have hcfg : rl.config = rl0.config := hst.1
  have hload := hst.loadBucket now (isExpired_expiryAt_same _ _ _)
  obtain ⟨h1, h2⟩ := AllowN_tokenBucket_stored rl key n now _ hst.2.1
    (by rw [hcfg]; exact halg) hst.2.2.1 hload
  rw [hcfg, tokenLevel_same _ _ _ hnow, min_eq_right hlevel] at h1 h2
  exact ⟨h1, hst.rebase h2⟩

/-! ## The closed limiter -/

/-- C18. Closed state is terminal: on the limiter left by `Close`, for every
key, `n` and time, `AllowN` returns false and `Check` returns
`Result{Allowed: false}` (every other field zero), both leaving the limiter,
its storage and its metrics as they were; `Reset` returns an error and leaves
the limiter and its storage as they were. -/
theorem closed_is_terminal (rl : rateLimiter) (key : String) (n now : Int) :
    (rl.Close).2.closed = true ∧
      (rl.Close).2.AllowN key n now = (false, (rl.Close).2) ∧
      (rl.Close).2.Check key now =
        ({ Allowed := false, Remaining := 0, ResetTime := 0, RetryAfter := 0, Metadata := [] },
          (rl.Close).2) ∧
      (rl.Close).2.Reset key = (some LimiterError.limiterClosed, (rl.Close).2) := by
  have hcl : (rl.Close).2.closed = true := by
    unfold rateLimiter.Close
    cases h : rl.closed <;> simp [h]
  refine ⟨hcl, ?_, ?_, ?_⟩
  · simp [rateLimiter.AllowN, hcl]
  · simp [rateLimiter.Check, hcl, Result.denied]
  · simp [rateLimiter.Reset, hcl]

/-- C19. Close is idempotent: on an open limiter the first `Close` marks the
limiter closed, cancels the cleanup task, closes the storage and returns the
result of closing it; a later `Close` returns nil and changes nothing, so the
storage is not closed a second time. -/
theorem close_idempotent (rl : rateLimiter) (hopen : rl.closed = false) :
    (rl.Close).1 = (rl.storage.Close).1.map LimiterError.storage ∧
      (rl.Close).2.closed = true ∧ (rl.Close).2.cancelled = true ∧
      (rl.Close).2.storage = (rl.storage.Close).2 ∧
      (rl.Close).2.config = rl.config ∧ (rl.Close).2.metrics = rl.metrics ∧
      (rl.Close).2.Close = (none, (rl.Close).2) ∧
      ((rl.Close).2.Close).2.Close = (none, (rl.Close).2) := by
  have h : rl.Close =
      ((rl.storage.Close).1.map LimiterError.storage,
        { rl with closed := true, cancelled := true, storage := (rl.storage.Close).2 }) := by
    simp [rateLimiter.Close, hopen]
  rw [h]
  refine ⟨rfl, rfl, rfl, rfl, rfl, rfl, ?_, ?_⟩ <;> simp [rateLimiter.Close]

/-- Witness for C19: closing the limiter of `TestTokenBucket` twice. -/
theorem close_idempotent_witness :
    (exhaustedLimiter.Close).1 = (exhaustedLimiter.storage.Close).1.map LimiterError.storage ∧
      (exhaustedLimiter.Close).2.closed = true ∧ (exhaustedLimiter.Close).2.cancelled = true ∧
      (exhaustedLimiter.Close).2.storage = (exhaustedLimiter.storage.Close).2 ∧
      (exhaustedLimiter.Close).2.config = exhaustedLimiter.config ∧
      (exhaustedLimiter.Close).2.metrics = exhaustedLimiter.metrics ∧
      (exhaustedLimiter.Close).2.Close = (none, (exhaustedLimiter.Close).2) ∧
      ((exhaustedLimiter.Close).2.Close).2.Close = (none, (exhaustedLimiter.Close).2) :=
  close_idempotent exhaustedLimiter rfl

/-! ## Runs of `AllowN` calls on one key -/

theorem runCalls_cons (rl : rateLimiter) (c : Call) (cs : List Call) :
    runCalls rl (c :: cs) = runCalls (rl.AllowN c.key c.n c.now).2 cs := rfl

theorem storedWindow_of_stored {rl0 rl : rateLimiter} {key : String} {w : windowData}
    {s : Int} (h : Stored rl0 rl key (Bytes.windowJSON w) s) :
    storedWindow rl (rl0.extractKey key) = some w := by
  unfold storedWindow
  rw [h.2.2.2]

theorem rolledWindow_count_le (cfg : Config) (w : windowData) (now : Int)
    (hR : 0 ≤ cfg.Rate) (hw : w.Count ≤ cfg.Rate) :
    (rolledWindow cfg w now).Count ≤ cfg.Rate := by
  unfold rolledWindow
  split_ifs
  · exact hR
  · exact hw

/-- A Fixed Window call on a loaded window whose count is at most `rate`
persists a window whose count is at most `rate`. -/
theorem fixedWindow_step_count (rl : rateLimiter) (key : String) (n now : Int) (w : windowData)
    (hcl : rl.closed = false) (halg : rl.config.Algorithm = FixedWindow)
    (hopen : rl.storage.closed = false) (hR : 0 ≤ rl.config.Rate)
    (hload : (rl.getWindowData (rl.extractKey key) now).1 = Except.ok w)
    (hw : w.Count ≤ rl.config.Rate) :
    ∃ w1, Stored rl (rl.AllowN key n now).2 key (Bytes.windowJSON w1) now ∧
      w1.Count ≤ rl.config.Rate := by
  obtain ⟨_, h2⟩ := AllowN_fixedWindow_stored rl key n now w hcl halg hopen hload
  refine ⟨_, h2, ?_⟩
  split_ifs with h
  · exact h
  · exact rolledWindow_count_le _ _ _ hR hw

/-- The invariant of C13 along a run that starts from a stored window. -/
theorem fixedWindow_run_count (cs : List Call) : ∀ (rl0 rl : rateLimiter) (key : String)
    (w : windowData) (s : Int),
    rl0.config.Algorithm = FixedWindow → 0 ≤ rl0.config.Rate →
    Stored rl0 rl key (Bytes.windowJSON w) s → w.Count ≤ rl0.config.Rate →
    (∀ c ∈ cs, c.key = key) →
    ∃ (w1 : windowData) (s1 : Int),
      Stored rl0 (runCalls rl cs) key (Bytes.windowJSON w1) s1 ∧ w1.Count ≤ rl0.config.Rate := by
  induction cs with
  | nil =>
    intro rl0 rl key w s _ _ hst hw _
    exact ⟨w, s, hst, hw⟩
  | cons c cs ih =>
    intro rl0 rl key w s halg hR hst hw hkey
    have hck : c.key = key := hkey c (List.mem_cons_self _ _)
    have hcfg : rl.config = rl0.config := hst.1
    rw [runCalls_cons, hck]
    have hload : ∃ w0, (rl.getWindowData (rl.extractKey key) c.now).1 = Except.ok w0 ∧
        w0.Count ≤ rl.config.Rate := by
      cases hexp : (memoryItem.mk (Bytes.windowJSON w) (expiryAt rl.config s)).isExpired c.now with
      | true => exact ⟨_, hst.loadWindow_expired c.now hexp, by rw [hcfg]; exact hR⟩
      | false => exact ⟨_, hst.loadWindow c.now hexp, by rw [hcfg]; exact hw⟩
    obtain ⟨w0, hl, hw0⟩ := hload
    obtain ⟨w1, h1, h2⟩ := fixedWindow_step_count rl key c.n c.now w0 hst.2.1
      (by rw [hcfg]; exact halg) hst.2.2.1 (by rw [hcfg]; exact hR) hl hw0
    exact ih rl0 _ key w1 c.now halg hR (hst.rebase h1) (by rw [← hcfg]; exact h2)
      (fun d hd => hkey d (List.mem_cons_of_mem _ hd))

/-- C13. Fixed Window count invariant: on a limiter built by `New`, starting
from a key with no stored state, after any sequence of `AllowN(key, n)` calls
(any `n`, any times) the persisted count is at most `rate`; nothing is
persisted only when no call was made. -/
theorem fixedWindow_count_invariant (cfg : Config) (rl : rateLimiter) (key : String)
    (cs : List Call)
    (hnew : New cfg = Except.ok rl) (halg : cfg.Algorithm = FixedWindow)
    (hopen : rl.storage.closed = false)
    (hfresh : rl.storage.items.lookup (rl.extractKey key) = none)
    (hkey : ∀ c ∈ cs, c.key = key) :
    (cs = [] ∧ storedWindow (runCalls rl cs) (rl.extractKey key) = none) ∨
      ∃ w, storedWindow (runCalls rl cs) (rl.extractKey key) = some w ∧
        w.Count ≤ cfg.Rate := by
  obtain ⟨hR, _, hA, hRe, _, _, hcl, _, _⟩ := New_ok hnew
  have halg1 : rl.config.Algorithm = FixedWindow := hA.trans halg
  cases cs with
  | nil =>
    left
    refine ⟨rfl, ?_⟩
    show storedWindow rl (rl.extractKey key) = none
    unfold storedWindow
    rw [hfresh]
  | cons c cs =>
    right
    have hck : c.key = key := hkey c (List.mem_cons_self _ _)
    rw [runCalls_cons, hck]
    have hl := (getWindowData_of_lookup_none rl (rl.extractKey key) c.now hopen hfresh).1
    obtain ⟨w1, h1, h2⟩ := fixedWindow_step_count rl key c.n c.now _ hcl halg1 hopen
      (by omega) hl (by show (0 : Int) ≤ rl.config.Rate; omega)
    obtain ⟨w2, s2, h3, h4⟩ := fixedWindow_run_count cs rl _ key w1 c.now halg1 (by omega) h1 h2
      (fun d hd => hkey d (List.mem_cons_of_mem _ hd))
    exact ⟨w2, storedWindow_of_stored h3, by rw [← hRe]; exact h4⟩

/-- Witness for C13: three `AllowN` calls on the limiter of `TestFixedWindow`. -/
theorem fixedWindow_count_invariant_witness :
    (sampleCalls = [] ∧
        storedWindow (runCalls (limiterOf fixedWindowConfig) sampleCalls)
          ((limiterOf fixedWindowConfig).extractKey "test-user") = none) ∨
      ∃ w, storedWindow (runCalls (limiterOf fixedWindowConfig) sampleCalls)
          ((limiterOf fixedWindowConfig).extractKey "test-user") = some w ∧
        w.Count ≤ fixedWindowConfig.Rate :=
  fixedWindow_count_invariant fixedWindowConfig (limiterOf fixedWindowConfig) "test-user"
    sampleCalls rfl rfl rfl rfl (by decide)

/-! ## Token Bucket: the level invariant -/

theorem tokenLevel_le_burst (cfg : Config) (b : bucketData) (now : Int) :
    tokenLevel cfg b now ≤ (cfg.BurstSize : ℚ) := by
  unfold tokenLevel
  split_ifs
  · exact le_refl _
  · exact min_le_left _ _

/-- A Token Bucket call with `n >= 0` on a loaded bucket whose refreshed level
is not negative persists a level between 0 and the burst size. -/
theorem tokenBucket_step_level (rl : rateLimiter) (key : String) (n now : Int) (b : bucketData)
    (hcl : rl.closed = false) (halg : rl.config.Algorithm = TokenBucket)
    (hopen : rl.storage.closed = false) (hn : 0 ≤ n)
    (hload : (rl.getBucketData (rl.extractKey key) now).1 = Except.ok b)
    (hlevel : 0 ≤ tokenLevel rl.config b now) :
    ∃ tokens : ℚ,
      Stored rl (rl.AllowN key n now).2 key
        (Bytes.bucketJSON { Tokens := tokens, LastRefill := now }) now ∧
      0 ≤ tokens ∧ tokens ≤ (rl.config.BurstSize : ℚ) := by
  obtain ⟨_, h2⟩ := AllowN_tokenBucket_stored rl key n now b hcl halg hopen hload
  have hle := tokenLevel_le_burst rl.config b now
  have hnq : (0 : ℚ) ≤ (n : ℚ) := by exact_mod_cast hn
  refine ⟨_, h2, ?_, ?_⟩
  · split_ifs with h
    · linarith
    · exact hlevel
  · split_ifs with h
    · linarith
    · exact hle

/-- The invariant of C11 along a run that starts from a stored bucket. -/
theorem tokenBucket_run_level (cs : List Call) : ∀ (rl0 rl : rateLimiter) (key : String)
    (tokens : ℚ) (s : Int),
    rl0.config.Algorithm = TokenBucket → 0 ≤ rl0.config.BurstSize → 0 ≤ rl0.config.Rate →
    0 < rl0.config.Window →
    Stored rl0 rl key (Bytes.bucketJSON { Tokens := tokens, LastRefill := s }) s →
    0 ≤ tokens → tokens ≤ (rl0.config.BurstSize : ℚ) →
    (∀ c ∈ cs, c.key = key ∧ 0 ≤ c.n ∧ s ≤ c.now) →
    cs.Pairwise (fun a b => a.now ≤ b.now) →
    ∃ (b1 : bucketData) (s1 : Int),
      Stored rl0 (runCalls rl cs) key (Bytes.bucketJSON b1) s1 ∧
        0 ≤ b1.Tokens ∧ b1.Tokens ≤ (rl0.config.BurstSize : ℚ) := by
  induction cs with
  | nil =>
    intro rl0 rl key tokens s _ _ _ _ hst h0 h1 _ _
    exact ⟨_, s, hst, h0, h1⟩
  | cons c cs ih =>
    intro rl0 rl key tokens s halg hB hR hW hst h0 h1 hcs hsorted
    obtain ⟨hck, hcn, hct⟩ := hcs c (List.mem_cons_self _ _)
    have hcfg : rl.config = rl0.config := hst.1
    rw [List.pairwise_cons] at hsorted
    rw [runCalls_cons, hck]
    have hload : ∃ b0, (rl.getBucketData (rl.extractKey key) c.now).1 = Except.ok b0 ∧
        0 ≤ tokenLevel rl.config b0 c.now := by
      cases hexp : (memoryItem.mk (Bytes.bucketJSON { Tokens := tokens, LastRefill := s })
          (expiryAt rl.config s)).isExpired c.now with
      | true =>
        refine ⟨_, hst.loadBucket_expired c.now hexp, ?_⟩
        rw [tokenLevel_fresh, hcfg]
        exact_mod_cast hB
      | false =>
        refine ⟨_, hst.loadBucket c.now hexp, ?_⟩
        rw [hcfg]
        exact tokenLevel_nonneg _ _ _ hB hR hW h0 hct
    obtain ⟨b0, hl, hlev⟩ := hload
    obtain ⟨t1, q1, q2, q3⟩ := tokenBucket_step_level rl key c.n c.now b0 hst.2.1
      (by rw [hcfg]; exact halg) hst.2.2.1 hcn hl hlev
    exact ih rl0 _ key t1 c.now halg hB hR hW (hst.rebase q1) q2 (by rw [← hcfg]; exact q3)
      (fun d hd => ⟨(hcs d (List.mem_cons_of_mem _ hd)).1,
        (hcs d (List.mem_cons_of_mem _ hd)).2.1, hsorted.1 d hd⟩)
      hsorted.2

/-! ## Leaky Bucket: the occupancy invariant -/

/-- The decayed occupancy lies between 0 and the stored occupancy when the
stored occupancy is not negative and the clock has not gone back since the
last update. -/
theorem leakLevel_bounds (cfg : Config) (b : bucketData) (now : Int)
    (hR : 0 ≤ cfg.Rate) (hW : 0 < cfg.Window)
    (htok : 0 ≤ b.Tokens) (hmono : b.LastRefill ≤ now) :
    0 ≤ leakLevel cfg b now ∧ leakLevel cfg b now ≤ b.Tokens := by
  unfold leakLevel
  split_ifs
  · exact ⟨htok, le_refl _⟩
  · rw [seconds_rate _ _ _ hW]
    have hsub : 0 ≤ Time.Sub now b.LastRefill := by
      unfold Time.Sub maxInt64 minInt64
      split_ifs <;> omega
    have h1 : (0 : ℚ) ≤ ((Time.Sub now b.LastRefill : Int) : ℚ) := by exact_mod_cast hsub
    have h2 : (0 : ℚ) ≤ (cfg.Rate : ℚ) := by exact_mod_cast hR
    have h3 : (0 : ℚ) < (cfg.Window : ℚ) := by exact_mod_cast hW
    have h4 : (0 : ℚ) ≤ ((Time.Sub now b.LastRefill : Int) : ℚ) * (cfg.Rate : ℚ) /
        (cfg.Window : ℚ) := div_nonneg (mul_nonneg h1 h2) (le_of_lt h3)
    refine ⟨le_max_left _ _, max_le htok ?_⟩
    linarith

/-- A Leaky Bucket call with `n >= 0` on a loaded bucket whose decayed
occupancy is between 0 and the burst size: the verdict is that of the test
`occupancy + n <= burstSize`, and the occupancy persisted is again between 0
and the burst size. -/
theorem leakyBucket_step_level (rl : rateLimiter) (key : String) (n now : Int) (b : bucketData)
    (hcl : rl.closed = false) (halg : rl.config.Algorithm = LeakyBucket)
    (hopen : rl.storage.closed = false) (hn : 0 ≤ n)
    (hload : (rl.getBucketData (rl.extractKey key) now).1 = Except.ok b)
    (h0 : 0 ≤ leakLevel rl.config b now)
    (h1 : leakLevel rl.config b now ≤ (rl.config.BurstSize : ℚ)) :
    (rl.AllowN key n now).1 =
        decide (leakLevel rl.config b now + (n : ℚ) ≤ (rl.config.BurstSize : ℚ)) ∧
      ∃ tokens : ℚ,
        Stored rl (rl.AllowN key n now).2 key
          (Bytes.bucketJSON { Tokens := tokens, LastRefill := now }) now ∧
        0 ≤ tokens ∧ tokens ≤ (rl.config.BurstSize : ℚ) := by
  obtain ⟨q1, q2⟩ := AllowN_leakyBucket_stored rl key n now b hcl halg hopen hload
  have hnq : (0 : ℚ) ≤ (n : ℚ) := by exact_mod_cast hn
  refine ⟨q1, _, q2, ?_, ?_⟩
  · split_ifs with h
    · linarith
    · exact h0
  · split_ifs with h
    · exact h
    · exact h1

/-- The bucket that a call loads from a stored bucket with occupancy between
0 and the burst size, persisted no later than the call: its decayed occupancy
is again between 0 and the burst size. -/
theorem leakyBucket_load_level (rl0 rl : rateLimiter) (key : String) (tokens : ℚ) (s now : Int)
    (hB : 0 ≤ rl0.config.BurstSize) (hR : 0 ≤ rl0.config.Rate) (hW : 0 < rl0.config.Window)
    (hst : Stored rl0 rl key (Bytes.bucketJSON { Tokens := tokens, LastRefill := s }) s)
    (h0 : 0 ≤ tokens) (h1 : tokens ≤ (rl0.config.BurstSize : ℚ)) (hs : s ≤ now) :
    ∃ b0, (rl.getBucketData (rl.extractKey key) now).1 = Except.ok b0 ∧
      0 ≤ leakLevel rl.config b0 now ∧
      leakLevel rl.config b0 now ≤ (rl.config.BurstSize : ℚ) := by
  have hcfg : rl.config = rl0.config := hst.1
  have hBq : (0 : ℚ) ≤ (rl0.config.BurstSize : ℚ) := by exact_mod_cast hB
  cases hexp : (memoryItem.mk (Bytes.bucketJSON { Tokens := tokens, LastRefill := s })
      (expiryAt rl.config s)).isExpired now with
  | true =>
    refine ⟨_, hst.loadBucket_expired now hexp, ?_, ?_⟩
    · rw [leakLevel_fresh]
    · rw [leakLevel_fresh, hcfg]
      exact hBq
  | false =>
    obtain ⟨p1, p2⟩ := leakLevel_bounds rl0.config { Tokens := tokens, LastRefill := s } now
      hR hW h0 hs
    refine ⟨_, hst.loadBucket now hexp, ?_, ?_⟩
    · rw [hcfg]
      exact p1
    · rw [hcfg]
      exact le_trans p2 h1

/-- The invariant of C12 along a run that starts from a stored bucket; the
last update is not later than any time that bounds the times of the run. -/
theorem leakyBucket_run_level (cs : List Call) : ∀ (rl0 rl : rateLimiter) (key : String)
    (tokens : ℚ) (s : Int),
    rl0.config.Algorithm = LeakyBucket → 0 ≤ rl0.config.BurstSize → 0 ≤ rl0.config.Rate →
    0 < rl0.config.Window →
    Stored rl0 rl key (Bytes.bucketJSON { Tokens := tokens, LastRefill := s }) s →
    0 ≤ tokens → tokens ≤ (rl0.config.BurstSize : ℚ) →
    (∀ c ∈ cs, c.key = key ∧ 0 ≤ c.n ∧ s ≤ c.now) →
    cs.Pairwise (fun a b => a.now ≤ b.now) →
    ∃ (tokens1 : ℚ) (s1 : Int),
      Stored rl0 (runCalls rl cs) key
          (Bytes.bucketJSON { Tokens := tokens1, LastRefill := s1 }) s1 ∧
        0 ≤ tokens1 ∧ tokens1 ≤ (rl0.config.BurstSize : ℚ) ∧
        ∀ t, s ≤ t → (∀ c ∈ cs, c.now ≤ t) → s1 ≤ t := by
  induction cs with
  | nil =>
    intro rl0 rl key tokens s _ _ _ _ hst h0 h1 _ _
    exact ⟨tokens, s, hst, h0, h1, fun t ht _ => ht⟩
  | cons c cs ih =>
    intro rl0 rl key tokens s halg hB hR hW hst h0 h1 hcs hsorted
    obtain ⟨hck, hcn, hct⟩ := hcs c (List.mem_cons_self _ _)
    have hcfg : rl.config = rl0.config := hst.1
    rw [List.pairwise_cons] at hsorted
    rw [runCalls_cons, hck]
    obtain ⟨b0, hl, hl0, hl1⟩ := leakyBucket_load_level rl0 rl key tokens s c.now hB hR hW hst
      h0 h1 hct
    obtain ⟨_, t1, q1, q2, q3⟩ := leakyBucket_step_level rl key c.n c.now b0 hst.2.1
      (by rw [hcfg]; exact halg) hst.2.2.1 hcn hl hl0 hl1
    obtain ⟨t2, s2, r1, r2, r3, r4⟩ := ih rl0 _ key t1 c.now halg hB hR hW (hst.rebase q1)
      q2 (by rw [← hcfg]; exact q3)
      (fun d hd => ⟨(hcs d (List.mem_cons_of_mem _ hd)).1,
        (hcs d (List.mem_cons_of_mem _ hd)).2.1, hsorted.1 d hd⟩)
      hsorted.2
    exact ⟨t2, s2, r1, r2, r3, fun t _ hall =>
      r4 t (hall c (List.mem_cons_self _ _)) (fun d hd => hall d (List.mem_cons_of_mem _ hd))⟩

/-! ## Sliding Window: pruning -/

theorem mem_prunedRequests (cfg : Config) (w : windowData) (now ts : Int) :
    ts ∈ prunedRequests cfg w now ↔ ts ∈ w.Requests ∧ now - cfg.Window < ts := by
  unfold prunedRequests Time.After Time.Add
  rw [List.mem_filter, decide_eq_true_iff]
  constructor
  · rintro ⟨h1, h2⟩
    exact ⟨h1, by omega⟩
  · rintro ⟨h1, h2⟩
    exact ⟨h1, by omega⟩

/-- C14 (counterexample). A stored timestamp later than the call time is kept
by the consume path: after `Allow` at 5 s on `futureStampLimiter` the persisted
list still holds the timestamp 7 s. -/
theorem slidingWindow_pruning_counterexample :
    ¬ (∀ w, storedWindow (futureStampLimiter.AllowN "test-user" 1 5000000000).2 "test-user"
          = some w →
        ∀ ts ∈ w.Requests, 5000000000 - 1000000000 < ts ∧ ts ≤ 5000000000) := by
  intro h
  have hw : storedWindow (futureStampLimiter.AllowN "test-user" 1 5000000000).2 "test-user" =
      some { Count := 2, WindowStart := 7000000000, Requests := [7000000000, 5000000000] } := by
    decide
  have := (h _ hw 7000000000 (by simp)).2
  omega

/-- C14 (amended). Sliding Window pruning: on an open limiter with an open
storage, when the loaded timestamp list holds no timestamp later than the call
time `now`, the list persisted by `AllowN(key, n)` at `now`, admitted or
denied, contains only timestamps `ts` with `now - window < ts <= now`. -/
theorem slidingWindow_pruning (rl : rateLimiter) (key : String) (n now : Int) (w : windowData)
    (hcl : rl.closed = false) (halg : rl.config.Algorithm = SlidingWindow)
    (hopen : rl.storage.closed = false) (hW : 0 < rl.config.Window)
    (hload : (rl.getWindowData (rl.extractKey key) now).1 = Except.ok w)
    (hpast : ∀ ts ∈ w.Requests, ts ≤ now) :
    ∃ w1, storedWindow (rl.AllowN key n now).2 (rl.extractKey key) = some w1 ∧
      ∀ ts ∈ w1.Requests, now - rl.config.Window < ts ∧ ts ≤ now := by
  obtain ⟨_, h2⟩ := AllowN_slidingWindow_stored rl key n now w hcl halg hopen hload
  refine ⟨_, storedWindow_of_stored h2, ?_⟩
  intro ts hts
  split_ifs at hts with h
  · simp only [List.mem_append] at hts
    rcases hts with hts | hts
    · rw [mem_prunedRequests] at hts
      exact ⟨hts.2, hpast ts hts.1⟩
    · rw [List.eq_of_mem_replicate hts]
      constructor <;> omega
  · simp only at hts
    rw [mem_prunedRequests] at hts
    exact ⟨hts.2, hpast ts hts.1⟩

/-- Witness for C14: the third call of `TestSlidingWindow`, on the list left
by the first two. -/
theorem slidingWindow_pruning_witness :
    ∃ w1, storedWindow
        ((allowAt (limiterOf slidingWindowConfig) "test-user"
          [5000000000, 5200000000]).2.AllowN "test-user" 1 5400000000).2
        ((allowAt (limiterOf slidingWindowConfig) "test-user"
          [5000000000, 5200000000]).2.extractKey "test-user") = some w1 ∧
      ∀ ts ∈ w1.Requests,
        5400000000 -
            (allowAt (limiterOf slidingWindowConfig) "test-user"
              [5000000000, 5200000000]).2.config.Window < ts ∧
          ts ≤ 5400000000 :=
  slidingWindow_pruning
    (allowAt (limiterOf slidingWindowConfig) "test-user" [5000000000, 5200000000]).2
    "test-user" 1 5400000000
    { Count := 2, WindowStart := 5000000000, Requests := [5000000000, 5200000000] }
    (by decide) (by decide) (by decide) (by decide) rfl (by decide)

/-! ## Token Bucket: `Check` -/

theorem Check_eq_tokenBucket (rl : rateLimiter) (key : String) (now : Int)
    (hcl : rl.closed = false) (halg : rl.config.Algorithm = TokenBucket) :
    rl.Check key now = rl.checkTokenBucket (rl.extractKey key) now := by
  simp [rateLimiter.Check, hcl, halg]

/-- The result of `checkTokenBucket` in terms of the loaded bucket. -/
theorem checkTokenBucket_eq (rl : rateLimiter) (key : String) (now : Int) (b : bucketData)
    (hload : (rl.getBucketData key now).1 = Except.ok b) :
    (rl.checkTokenBucket key now).1 =
      { Allowed := decide (1 ≤ checkLevel rl.config b now),
        Remaining := ⌊checkLevel rl.config b now⌋,
        ResetTime := Time.Add now rl.config.Window,
        RetryAfter :=
          if checkLevel rl.config b now < 1 then
            truncDuration
              ((1 - checkLevel rl.config b now) /
                ((rl.config.Rate : ℚ) / Duration.Seconds rl.config.Window) * 1000000000)
          else 0,
        Metadata :=
          [("algorithm", MetaValue.str "TokenBucket"),
           ("current_tokens", MetaValue.float (checkLevel rl.config b now)),
           ("burst_size", MetaValue.int rl.config.BurstSize)] } := by
  have hpair : rl.getBucketData key now = (Except.ok b, (rl.getBucketData key now).2) :=
    Prod.ext hload rfl
  unfold rateLimiter.checkTokenBucket
  rw [hpair]
  rfl

/-- The time needed for the missing fraction of a token, in nanoseconds. -/
theorem retry_time (c : ℚ) (R W : Int) (hR : 0 < R) (hW : 0 < W) :
    (1 - c) / ((R : ℚ) / Duration.Seconds W) * 1000000000 = (1 - c) * (W : ℚ) / (R : ℚ) := by
  unfold Duration.Seconds
  have h1 : (R : ℚ) ≠ 0 := by
    have : (0 : ℚ) < (R : ℚ) := by exact_mod_cast hR
    exact ne_of_gt this
  have h2 : (W : ℚ) ≠ 0 := by
    have : (0 : ℚ) < (W : ℚ) := by exact_mod_cast hW
    exact ne_of_gt this
  field_simp
  ring

/-- C16 (failing input). For `slowRefillConfig` (1 per hour, burst 3000000)
`Check` on a key with no stored state, at a clock reading of the year 2026,
reports `Remaining = 2562047` instead of the burst size 3000000, although
`AllowN` of all 3000000 units is admitted at that instant. -/
theorem check_fresh_underreports :
    New slowRefillConfig = Except.ok (limiterOf slowRefillConfig) ∧
      ((limiterOf slowRefillConfig).Check "k" clock2026).1.Allowed = true ∧
      ((limiterOf slowRefillConfig).Check "k" clock2026).1.Remaining = 2562047 ∧
      ((limiterOf slowRefillConfig).AllowN "k" 3000000 clock2026).1 = true := by
  refine ⟨rfl, ?_, ?_, ?_⟩ <;> decide!

/-! ## The common shape of the consume and inspection paths -/

theorem allowTokenBucket_def (rl : rateLimiter) (key : String) (n now : Int) :
    rl.allowTokenBucket key n now =
      consumeBucket rl key now (tokenBucketNext rl.config n now) := by
  unfold rateLimiter.allowTokenBucket consumeBucket
  rcases rl.getBucketData key now with ⟨r, rl1⟩
  cases r with
  | error e => rfl
  | ok b =>
    by_cases hz : Time.IsZero b.LastRefill = true
    · by_cases hn : (n : ℚ) ≤ (rl.config.BurstSize : ℚ)
      · simp [tokenBucketNext, tokenLevel, rateLimiter.countVerdict, hz, hn]
      · simp [tokenBucketNext, tokenLevel, rateLimiter.countVerdict, hz, hn]
    · by_cases hn : (n : ℚ) ≤ min (rl.config.BurstSize : ℚ)
          (b.Tokens + Duration.Seconds (Time.Sub now b.LastRefill) * (rl.config.Rate : ℚ) /
            Duration.Seconds rl.config.Window)
      · simp [tokenBucketNext, tokenLevel, rateLimiter.countVerdict, hz, hn]
      · simp [tokenBucketNext, tokenLevel, rateLimiter.countVerdict, hz, hn]

theorem allowLeakyBucket_def (rl : rateLimiter) (key : String) (n now : Int) :
    rl.allowLeakyBucket key n now =
      consumeBucket rl key now (leakyBucketNext rl.config n now) := by
  unfold rateLimiter.allowLeakyBucket consumeBucket
  rcases rl.getBucketData key now with ⟨r, rl1⟩
  cases r with
  | error e => rfl
  | ok b =>
    by_cases hz : Time.IsZero b.LastRefill = true
    · by_cases hn : b.Tokens + (n : ℚ) ≤ (rl.config.BurstSize : ℚ)
      · simp [leakyBucketNext, leakLevel, rateLimiter.countVerdict, hz, hn]
      · simp [leakyBucketNext, leakLevel, rateLimiter.countVerdict, hz, hn]
    · by_cases hn : max 0 (b.Tokens - Duration.Seconds (Time.Sub now b.LastRefill) *
          ((rl.config.Rate : ℚ) / Duration.Seconds rl.config.Window)) + (n : ℚ)
            ≤ (rl.config.BurstSize : ℚ)
      · simp [leakyBucketNext, leakLevel, rateLimiter.countVerdict, hz, hn]
      · simp [leakyBucketNext, leakLevel, rateLimiter.countVerdict, hz, hn]

theorem allowFixedWindow_def (rl : rateLimiter) (key : String) (n now : Int) :
    rl.allowFixedWindow key n now =
      consumeWindow rl key now (fixedWindowNext rl.config n now) := by
  unfold rateLimiter.allowFixedWindow consumeWindow
  rcases rl.getWindowData key now with ⟨r, rl1⟩
  cases r with
  | error e => rfl
  | ok w =>
    by_cases hn : wrap64 ((rolledWindow rl.config w now).Count + n) ≤ rl.config.Rate
    · have hn1 := hn
      unfold rolledWindow at hn1
      simp only [hn1, if_true, fixedWindowNext, hn, decide_True, rateLimiter.countVerdict]
      rfl
    · have hn1 := hn
      unfold rolledWindow at hn1
      simp only [hn1, if_false, fixedWindowNext, hn, decide_False, rateLimiter.countVerdict]
      rfl

theorem allowSlidingWindow_def (rl : rateLimiter) (key : String) (n now : Int) :
    rl.allowSlidingWindow key n now =
      consumeWindow rl key now (slidingWindowNext rl.config n now) := by
  unfold rateLimiter.allowSlidingWindow consumeWindow
  rcases rl.getWindowData key now with ⟨r, rl1⟩
  cases r with
  | error e => rfl
  | ok w =>
    by_cases hn : wrap64 (((prunedRequests rl.config w now).length : Int) + n) ≤ rl.config.Rate
    · have hn1 := hn
      unfold prunedRequests at hn1
      simp only [hn1, if_true, slidingWindowNext, hn, decide_True, rateLimiter.countVerdict]
      rfl
    · have hn1 := hn
      unfold prunedRequests at hn1
      simp only [hn1, if_false, slidingWindowNext, hn, decide_False, rateLimiter.countVerdict]
      rfl

theorem checkTokenBucket_def (rl : rateLimiter) (key : String) (now : Int) :
    rl.checkTokenBucket key now = peekBucket rl key now (tokenBucketReport rl.config now) := by
  unfold rateLimiter.checkTokenBucket peekBucket
  rcases rl.getBucketData key now with ⟨r, rl1⟩
  cases r with
  | error e => rfl
  | ok b => rfl

theorem checkLeakyBucket_def (rl : rateLimiter) (key : String) (now : Int) :
    rl.checkLeakyBucket key now = peekBucket rl key now (leakyBucketReport rl.config now) := by
  unfold rateLimiter.checkLeakyBucket peekBucket
  rcases rl.getBucketData key now with ⟨r, rl1⟩
  cases r with
  | error e => rfl
  | ok b => rfl

theorem checkFixedWindow_def (rl : rateLimiter) (key : String) (now : Int) :
    rl.checkFixedWindow key now = peekWindow rl key now (fixedWindowReport rl.config now) := by
  unfold rateLimiter.checkFixedWindow peekWindow
  rcases rl.getWindowData key now with ⟨r, rl1⟩
  cases r with
  | error e => rfl
  | ok w => rfl

theorem checkSlidingWindow_def (rl : rateLimiter) (key : String) (now : Int) :
    rl.checkSlidingWindow key now =
      peekWindow rl key now (slidingWindowReport rl.config now) := by
  unfold rateLimiter.checkSlidingWindow peekWindow
  rcases rl.getWindowData key now with ⟨r, rl1⟩
  cases r with
  | error e => rfl
  | ok w => rfl

/-! ## What a read finds -/

theorem isExpired_mono (item : memoryItem) (t t1 : Int) (h : t ≤ t1)
    (he : item.isExpired t = true) : item.isExpired t1 = true := by
  unfold memoryItem.isExpired Time.After at *
  simp only [Bool.and_eq_true, Bool.not_eq_true', decide_eq_true_eq] at *
  exact ⟨he.1, by omega⟩

/-- The result of `Get` in terms of the live entry. -/
theorem Get_fst_eq (ms : MemoryStorage) (key : String) (t : Int) :
    (ms.Get key t).1 =
      if ms.closed then Except.error StorageError.ErrStorageClosed
      else
        match liveEntry ms key t with
        | none => Except.error StorageError.ErrKeyNotFound
        | some item => Except.ok item.value := by
  unfold MemoryStorage.Get liveEntry
  cases hc : ms.closed with
  | true => simp
  | false =>
    cases hl : ms.items.lookup key with
    | none => simp [Option.filter]
    | some item =>
      cases he : item.isExpired t <;> simp [Option.filter, he]

theorem liveEntry_mapDelete (m : List (String × memoryItem)) (closed : Bool)
    (key key1 : String) (t1 : Int) :
    liveEntry { items := mapDelete key m, closed := closed } key1 t1 =
      if key1 = key then none else liveEntry { items := m, closed := closed } key1 t1 := by
  unfold liveEntry
  by_cases h : key1 = key
  · subst h
    simp [lookup_mapDelete_self, Option.filter]
  · simp only [h, if_false]
    rw [lookup_mapDelete_ne key key1 m h]

theorem liveEntry_mapInsert (m : List (String × memoryItem)) (closed : Bool)
    (key key1 : String) (item : memoryItem) (t1 : Int) :
    liveEntry { items := mapInsert key item m, closed := closed } key1 t1 =
      if key1 = key then (some item).filter (fun it => !it.isExpired t1)
      else liveEntry { items := m, closed := closed } key1 t1 := by
  unfold liveEntry
  by_cases h : key1 = key
  · subst h
    simp [lookup_mapInsert_self]
  · simp only [h, if_false]
    rw [lookup_mapInsert_ne key key1 item m h]

/-- The lazy eviction of `Get` is not seen by later reads. -/
theorem liveEntry_Get_snd (ms : MemoryStorage) (key : String) (t : Int) (key1 : String)
    (t1 : Int) (h : t ≤ t1) : liveEntry (ms.Get key t).2 key1 t1 = liveEntry ms key1 t1 := by
  unfold MemoryStorage.Get
  cases hc : ms.closed with
  | true => simp
  | false =>
    cases hl : ms.items.lookup key with
    | none => simp
    | some item =>
      cases he : item.isExpired t with
      | false => simp [he]
      | true =>
        simp only [Bool.false_eq_true, if_false, he, if_true]
        rw [liveEntry_mapDelete]
        by_cases hk : key1 = key
        · subst hk
          simp only [if_true]
          unfold liveEntry
          rw [hl]
          simp [Option.filter, isExpired_mono item t t1 h he]
        · simp only [hk, if_false]
          unfold liveEntry
          rfl

theorem Set_snd_closed (ms : MemoryStorage) (key : String) (v : Bytes) (ttl s : Int) :
    (ms.Set key v ttl s).2.closed = ms.closed := by
  unfold MemoryStorage.Set
  cases hc : ms.closed <;> simp [hc]

theorem Delete_snd_closed (ms : MemoryStorage) (key : String) :
    (ms.Delete key).2.closed = ms.closed := by
  unfold MemoryStorage.Delete
  cases hc : ms.closed <;> simp [hc]

theorem liveEntry_Set (ms : MemoryStorage) (key : String) (v : Bytes) (ttl s : Int)
    (key1 : String) (t1 : Int) :
    liveEntry (ms.Set key v ttl s).2 key1 t1 =
      if ms.closed = false ∧ key1 = key then
        (some (memoryItem.mk v (if 0 < ttl then Time.Add s ttl else 0))).filter
          (fun it => !it.isExpired t1)
      else liveEntry ms key1 t1 := by
  unfold MemoryStorage.Set
  cases hc : ms.closed with
  | true => simp
  | false =>
    simp only [Bool.false_eq_true, if_false, true_and]
    rw [liveEntry_mapInsert]
    by_cases hk : key1 = key
    · simp [hk]
    · simp only [hk, if_false]
      unfold liveEntry
      rfl

theorem liveEntry_Delete (ms : MemoryStorage) (key key1 : String) (t1 : Int) :
    liveEntry (ms.Delete key).2 key1 t1 =
      if ms.closed = false ∧ key1 = key then none else liveEntry ms key1 t1 := by
  unfold MemoryStorage.Delete
  cases hc : ms.closed with
  | true => simp
  | false =>
    simp only [Bool.false_eq_true, if_false, true_and]
    rw [liveEntry_mapDelete]
    by_cases hk : key1 = key
    · simp [hk]
    · simp only [hk, if_false]
      unfold liveEntry
      rfl
/-! ## Limiters that cannot be told apart by later operations -/

theorem SameView.refl (t : Int) (rl : rateLimiter) : SameView t rl rl :=
  ⟨rfl, rfl, rfl, rfl, rfl, fun _ _ _ => rfl⟩

theorem SameView.mono {t t1 : Int} {a b : rateLimiter} (h : SameView t a b) (ht : t ≤ t1) :
    SameView t1 a b :=
  ⟨h.1, h.2.1, h.2.2.1, h.2.2.2.1, h.2.2.2.2.1,
    fun key t2 h2 => h.2.2.2.2.2 key t2 (le_trans ht h2)⟩

theorem SameView.extractKey {t : Int} {a b : rateLimiter} (h : SameView t a b) (key : String) :
    a.extractKey key = b.extractKey key := by
  unfold rateLimiter.extractKey
  rw [h.1]

theorem getBucketData_fst (rl : rateLimiter) (key : String) (now : Int) :
    (rl.getBucketData key now).1 =
      match (rl.storage.Get key now).1 with
      | Except.error _ => Except.ok { Tokens := 0, LastRefill := 0 }
      | Except.ok data =>
        match unmarshalBucket data with
        | none => Except.error LimiterError.deserialize
        | some b => Except.ok b := by
  unfold rateLimiter.getBucketData
  dsimp only
  cases (rl.storage.Get key now).1 with
  | error e => rfl
  | ok data =>
    dsimp only
    cases unmarshalBucket data <;> rfl

theorem getWindowData_fst (rl : rateLimiter) (key : String) (now : Int) :
    (rl.getWindowData key now).1 =
      match (rl.storage.Get key now).1 with
      | Except.error _ => Except.ok { Count := 0, WindowStart := now, Requests := [] }
      | Except.ok data =>
        match unmarshalWindow data with
        | none => Except.error LimiterError.deserialize
        | some w => Except.ok w := by
  unfold rateLimiter.getWindowData
  dsimp only
  cases (rl.storage.Get key now).1 with
  | error e => rfl
  | ok data =>
    dsimp only
    cases unmarshalWindow data <;> rfl

theorem SameView.storageGet {t : Int} {a b : rateLimiter} (h : SameView t a b) (key : String) :
    (a.storage.Get key t).1 = (b.storage.Get key t).1 ∧
      SameView t { a with storage := (a.storage.Get key t).2 }
        { b with storage := (b.storage.Get key t).2 } := by
  obtain ⟨h1, h2, h3, h4, h5, h6⟩ := h
  refine ⟨?_, h1, h2, h3, h4, ?_, ?_⟩
  · rw [Get_fst_eq, Get_fst_eq, h5, h6 key t (le_refl _)]
  · simp only [Get_snd_closed, h5]
  · intro key1 t1 ht1
    simp only
    rw [liveEntry_Get_snd _ _ _ _ _ ht1, liveEntry_Get_snd _ _ _ _ _ ht1]
    exact h6 key1 t1 ht1

theorem SameView.getBucketData {t : Int} {a b : rateLimiter} (h : SameView t a b)
    (key : String) :
    (a.getBucketData key t).1 = (b.getBucketData key t).1 ∧
      SameView t (a.getBucketData key t).2 (b.getBucketData key t).2 := by
  obtain ⟨g1, g2⟩ := h.storageGet key
  rw [getBucketData_fst, getBucketData_fst, g1, getBucketData_snd, getBucketData_snd]
  exact ⟨rfl, g2⟩

theorem SameView.getWindowData {t : Int} {a b : rateLimiter} (h : SameView t a b)
    (key : String) :
    (a.getWindowData key t).1 = (b.getWindowData key t).1 ∧
      SameView t (a.getWindowData key t).2 (b.getWindowData key t).2 := by
  obtain ⟨g1, g2⟩ := h.storageGet key
  rw [getWindowData_fst, getWindowData_fst, g1, getWindowData_snd, getWindowData_snd]
  exact ⟨rfl, g2⟩

theorem SameView.storageSet {t : Int} {a b : rateLimiter} (h : SameView t a b) (key : String)
    (v : Bytes) (ttl s : Int) :
    SameView t { a with storage := (a.storage.Set key v ttl s).2 }
      { b with storage := (b.storage.Set key v ttl s).2 } := by
  obtain ⟨h1, h2, h3, h4, h5, h6⟩ := h
  refine ⟨h1, h2, h3, h4, ?_, ?_⟩
  · simp only [Set_snd_closed, h5]
  · intro key1 t1 ht1
    simp only
    rw [liveEntry_Set, liveEntry_Set, h5, h6 key1 t1 ht1]

theorem SameView.setBucketData {t : Int} {a b : rateLimiter} (h : SameView t a b)
    (key : String) (v : bucketData) (s : Int) :
    SameView t (a.setBucketData key v s).2 (b.setBucketData key v s).2 := by
  have e : b.config.Window = a.config.Window := by rw [h.1]
  have := h.storageSet key (Bytes.bucketJSON v) (wrap64 (a.config.Window * 2)) s
  unfold rateLimiter.setBucketData
  dsimp only
  rw [e]
  exact this

theorem SameView.setWindowData {t : Int} {a b : rateLimiter} (h : SameView t a b)
    (key : String) (v : windowData) (s : Int) :
    SameView t (a.setWindowData key v s).2 (b.setWindowData key v s).2 := by
  have e : b.config.Window = a.config.Window := by rw [h.1]
  have := h.storageSet key (Bytes.windowJSON v) (wrap64 (a.config.Window * 2)) s
  unfold rateLimiter.setWindowData
  dsimp only
  rw [e]
  exact this

theorem SameView.countVerdict {t : Int} {a b : rateLimiter} (h : SameView t a b)
    (v : Bool) : SameView t (a.countVerdict v) (b.countVerdict v) := by
  obtain ⟨h1, h2, h3, h4, h5, h6⟩ := h
  cases v
  · exact ⟨h1, h2, h3, by simp [rateLimiter.countVerdict, rateLimiter.incDenied, h4], h5, h6⟩
  · exact ⟨h1, h2, h3, by simp [rateLimiter.countVerdict, rateLimiter.incAllowed, h4], h5, h6⟩

theorem SameView.updateMetrics {t : Int} {a b : rateLimiter} (h : SameView t a b)
    (l : Int) : SameView t (a.updateMetrics l) (b.updateMetrics l) := by
  obtain ⟨h1, h2, h3, h4, h5, h6⟩ := h
  exact ⟨h1, h2, h3, by simp [rateLimiter.updateMetrics, h4], h5, h6⟩

theorem SameView.of_consumeBucket {t : Int} {a b : rateLimiter} (h : SameView t a b)
    (key : String) (next : bucketData → Bool × bucketData) :
    (consumeBucket a key t next).1 = (consumeBucket b key t next).1 ∧
      SameView t (consumeBucket a key t next).2 (consumeBucket b key t next).2 := by
  obtain ⟨g1, g2⟩ := h.getBucketData key
  unfold consumeBucket
  rcases ha : a.getBucketData key t with ⟨ra, a1⟩
  rcases hb : b.getBucketData key t with ⟨rb, b1⟩
  rw [ha, hb] at g1 g2
  simp only at g1 g2
  subst g1
  cases ra with
  | error e => exact ⟨rfl, g2⟩
  | ok bucket => exact ⟨rfl, (g2.setBucketData key _ t).countVerdict _⟩

theorem SameView.of_consumeWindow {t : Int} {a b : rateLimiter} (h : SameView t a b)
    (key : String) (next : windowData → Bool × windowData) :
    (consumeWindow a key t next).1 = (consumeWindow b key t next).1 ∧
      SameView t (consumeWindow a key t next).2 (consumeWindow b key t next).2 := by
  obtain ⟨g1, g2⟩ := h.getWindowData key
  unfold consumeWindow
  rcases ha : a.getWindowData key t with ⟨ra, a1⟩
  rcases hb : b.getWindowData key t with ⟨rb, b1⟩
  rw [ha, hb] at g1 g2
  simp only at g1 g2
  subst g1
  cases ra with
  | error e => exact ⟨rfl, g2⟩
  | ok window => exact ⟨rfl, (g2.setWindowData key _ t).countVerdict _⟩

theorem SameView.of_peekBucket {t : Int} {a b : rateLimiter} (h : SameView t a b)
    (key : String) (report : bucketData → Result) :
    (peekBucket a key t report).1 = (peekBucket b key t report).1 ∧
      SameView t (peekBucket a key t report).2 (peekBucket b key t report).2 := by
  obtain ⟨g1, g2⟩ := h.getBucketData key
  unfold peekBucket
  rcases ha : a.getBucketData key t with ⟨ra, a1⟩
  rcases hb : b.getBucketData key t with ⟨rb, b1⟩
  rw [ha, hb] at g1 g2
  simp only at g1 g2
  subst g1
  cases ra with
  | error e => exact ⟨rfl, g2⟩
  | ok bucket => exact ⟨rfl, g2⟩

theorem SameView.of_peekWindow {t : Int} {a b : rateLimiter} (h : SameView t a b)
    (key : String) (report : windowData → Result) :
    (peekWindow a key t report).1 = (peekWindow b key t report).1 ∧
      SameView t (peekWindow a key t report).2 (peekWindow b key t report).2 := by
  obtain ⟨g1, g2⟩ := h.getWindowData key
  unfold peekWindow
  rcases ha : a.getWindowData key t with ⟨ra, a1⟩
  rcases hb : b.getWindowData key t with ⟨rb, b1⟩
  rw [ha, hb] at g1 g2
  simp only at g1 g2
  subst g1
  cases ra with
  | error e => exact ⟨rfl, g2⟩
  | ok window => exact ⟨rfl, g2⟩
theorem SameView.of_AllowN {t : Int} {a b : rateLimiter} (h : SameView t a b)
    (key : String) (n : Int) :
    (a.AllowN key n t).1 = (b.AllowN key n t).1 ∧
      SameView t (a.AllowN key n t).2 (b.AllowN key n t).2 := by
  have hc := h.2.1
  have hcfg := h.1
  have hk := h.extractKey key
  unfold rateLimiter.AllowN
  rw [← hc, ← hk, ← hcfg]
  cases a.closed with
  | true => exact ⟨rfl, h⟩
  | false =>
    simp only [Bool.false_eq_true, if_false]
    by_cases h1 : a.config.Algorithm = TokenBucket
    · simp only [h1, if_true, allowTokenBucket_def, ← hcfg]
      have := h.of_consumeBucket (a.extractKey key) (tokenBucketNext a.config n t)
      exact ⟨this.1, this.2.updateMetrics _⟩
    · by_cases h2 : a.config.Algorithm = FixedWindow
      · simp only [h1, h2, if_true, if_false, allowFixedWindow_def, ← hcfg]
        have := h.of_consumeWindow (a.extractKey key) (fixedWindowNext a.config n t)
        exact ⟨this.1, this.2.updateMetrics _⟩
      · by_cases h3 : a.config.Algorithm = SlidingWindow
        · simp only [h1, h2, h3, if_true, if_false, allowSlidingWindow_def, ← hcfg]
          have := h.of_consumeWindow (a.extractKey key) (slidingWindowNext a.config n t)
          exact ⟨this.1, this.2.updateMetrics _⟩
        · by_cases h4 : a.config.Algorithm = LeakyBucket
          · simp only [h1, h2, h3, h4, if_true, if_false, allowLeakyBucket_def, ← hcfg]
            have := h.of_consumeBucket (a.extractKey key) (leakyBucketNext a.config n t)
            exact ⟨this.1, this.2.updateMetrics _⟩
          · simp only [h1, h2, h3, h4, if_false]
            exact ⟨trivial, h.updateMetrics _⟩

theorem SameView.of_Check {t : Int} {a b : rateLimiter} (h : SameView t a b)
    (key : String) :
    (a.Check key t).1 = (b.Check key t).1 ∧ SameView t (a.Check key t).2 (b.Check key t).2 := by
  have hc := h.2.1
  have hcfg := h.1
  have hk := h.extractKey key
  unfold rateLimiter.Check
  rw [← hc, ← hk, ← hcfg]
  cases a.closed with
  | true => exact ⟨rfl, h⟩
  | false =>
    simp only [Bool.false_eq_true, if_false]
    by_cases h1 : a.config.Algorithm = TokenBucket
    · simp only [h1, if_true, checkTokenBucket_def, ← hcfg]
      exact h.of_peekBucket (a.extractKey key) (tokenBucketReport a.config t)
    · by_cases h2 : a.config.Algorithm = FixedWindow
      · simp only [h1, h2, if_true, if_false, checkFixedWindow_def, ← hcfg]
        exact h.of_peekWindow (a.extractKey key) (fixedWindowReport a.config t)
      · by_cases h3 : a.config.Algorithm = SlidingWindow
        · simp only [h1, h2, h3, if_true, if_false, checkSlidingWindow_def, ← hcfg]
          exact h.of_peekWindow (a.extractKey key) (slidingWindowReport a.config t)
        · by_cases h4 : a.config.Algorithm = LeakyBucket
          · simp only [h1, h2, h3, h4, if_true, if_false, checkLeakyBucket_def, ← hcfg]
            exact h.of_peekBucket (a.extractKey key) (leakyBucketReport a.config t)
          · simp only [h1, h2, h3, h4, if_false]
            exact ⟨trivial, h⟩

theorem SameView.of_Reset {t : Int} {a b : rateLimiter} (h : SameView t a b) (key : String) :
    (a.Reset key).1 = (b.Reset key).1 ∧ SameView t (a.Reset key).2 (b.Reset key).2 := by
  have hk := h.extractKey key
  obtain ⟨h1, h2, h3, h4, h5, h6⟩ := h
  unfold rateLimiter.Reset
  rw [← h2, ← hk]
  cases hcl : a.closed with
  | true => exact ⟨rfl, h1, h2, h3, h4, h5, h6⟩
  | false =>
    simp only [Bool.false_eq_true, if_false]
    refine ⟨?_, h1, rfl, h3, h4, ?_, ?_⟩
    · unfold MemoryStorage.Delete
      rw [← h5]
      cases a.storage.closed <;> rfl
    · simp only [Delete_snd_closed, h5]
    · intro key1 t1 ht1
      simp only
      rw [liveEntry_Delete, liveEntry_Delete, h5, h6 key1 t1 ht1]

theorem SameView.of_step {t : Int} {a b : rateLimiter} (h : SameView t a b) (op : Op)
    (ht : t ≤ op.time) :
    (a.step op).1 = (b.step op).1 ∧ SameView op.time (a.step op).2 (b.step op).2 := by
  cases op with
  | allowN key n now =>
    have := (h.mono ht).of_AllowN key n
    exact ⟨congrArg Outcome.verdict this.1, this.2⟩
  | check key now =>
    have := (h.mono ht).of_Check key
    exact ⟨congrArg Outcome.result this.1, this.2⟩
  | reset key now =>
    have := (h.mono ht).of_Reset key
    exact ⟨congrArg Outcome.error this.1, this.2⟩

/-- The clock readings of a sequence of operations never go back, and none is
before `t`. -/
theorem SameView.of_runOps (ops : List Op) :
    ∀ (t : Int) (a b : rateLimiter), SameView t a b →
      List.Chain (fun s s1 => s ≤ s1) t (ops.map Op.time) →
      (runOps a ops).1 = (runOps b ops).1 ∧
        ∃ t1 : Int, t ≤ t1 ∧ SameView t1 (runOps a ops).2 (runOps b ops).2 := by
  induction ops with
  | nil => exact fun t a b h _ => ⟨rfl, t, le_refl _, h⟩
  | cons op ops ih =>
    intro t a b h hch
    rw [List.map_cons, List.chain_cons] at hch
    obtain ⟨g1, g2⟩ := h.of_step op hch.1
    obtain ⟨i1, t1, i2, i3⟩ := ih op.time _ _ g2 hch.2
    refine ⟨?_, t1, le_trans hch.1 i2, i3⟩
    show (a.step op).1 :: (runOps (a.step op).2 ops).1 =
      (b.step op).1 :: (runOps (b.step op).2 ops).1
    rw [g1, i1]

/-! ## What an operation leaves alone -/

theorem Get_snd_lookup_ne (ms : MemoryStorage) (key other : String) (t : Int)
    (h : other ≠ key) : (ms.Get key t).2.items.lookup other = ms.items.lookup other := by
  unfold MemoryStorage.Get
  split_ifs
  · rfl
  · split
    · rfl
    · split_ifs
      · exact lookup_mapDelete_ne key other _ h
      · rfl

theorem Set_snd_lookup_ne (ms : MemoryStorage) (key other : String) (v : Bytes) (ttl s : Int)
    (h : other ≠ key) : (ms.Set key v ttl s).2.items.lookup other = ms.items.lookup other := by
  unfold MemoryStorage.Set
  by_cases hc : ms.closed = true
  · rw [if_pos hc]
  · rw [if_neg hc]
    exact lookup_mapInsert_ne key other _ _ h

theorem Delete_snd_lookup_ne (ms : MemoryStorage) (key other : String) (h : other ≠ key) :
    (ms.Delete key).2.items.lookup other = ms.items.lookup other := by
  unfold MemoryStorage.Delete
  split_ifs
  · rfl
  · exact lookup_mapDelete_ne key other _ h

theorem Frame.frame_refl (rl : rateLimiter) (key : String) : Frame rl rl key :=
  ⟨rfl, rfl, rfl, rfl, fun _ _ => rfl⟩

theorem Frame.frame_trans {a b c : rateLimiter} {key : String} (h1 : Frame a b key)
    (h2 : Frame b c key) : Frame a c key :=
  ⟨h2.1.trans h1.1, h2.2.1.trans h1.2.1, h2.2.2.1.trans h1.2.2.1,
    h2.2.2.2.1.trans h1.2.2.2.1,
    fun other ho => (h2.2.2.2.2 other ho).trans (h1.2.2.2.2 other ho)⟩

theorem Frame.frame_storageGet (rl : rateLimiter) (key : String) (t : Int) :
    Frame rl { rl with storage := (rl.storage.Get key t).2 } key :=
  ⟨rfl, rfl, rfl, Get_snd_closed _ _ _, fun _ ho => Get_snd_lookup_ne _ _ _ _ ho⟩

theorem Frame.frame_getBucketData (rl : rateLimiter) (key : String) (t : Int) :
    Frame rl (rl.getBucketData key t).2 key := by
  rw [getBucketData_snd]
  exact Frame.frame_storageGet rl key t

theorem Frame.frame_getWindowData (rl : rateLimiter) (key : String) (t : Int) :
    Frame rl (rl.getWindowData key t).2 key := by
  rw [getWindowData_snd]
  exact Frame.frame_storageGet rl key t

theorem Frame.frame_setBucketData (rl : rateLimiter) (key : String) (v : bucketData) (s : Int) :
    Frame rl (rl.setBucketData key v s).2 key :=
  ⟨rfl, rfl, rfl, Set_snd_closed _ _ _ _ _, fun _ ho => Set_snd_lookup_ne _ _ _ _ _ _ ho⟩

theorem Frame.frame_setWindowData (rl : rateLimiter) (key : String) (v : windowData) (s : Int) :
    Frame rl (rl.setWindowData key v s).2 key :=
  ⟨rfl, rfl, rfl, Set_snd_closed _ _ _ _ _, fun _ ho => Set_snd_lookup_ne _ _ _ _ _ _ ho⟩

theorem Frame.frame_countVerdict (rl : rateLimiter) (key : String) (v : Bool) :
    Frame rl (rl.countVerdict v) key := by
  cases v <;> exact ⟨rfl, rfl, rfl, rfl, fun _ _ => rfl⟩

theorem Frame.frame_updateMetrics (rl : rateLimiter) (key : String) (l : Int) :
    Frame rl (rl.updateMetrics l) key :=
  ⟨rfl, rfl, rfl, rfl, fun _ _ => rfl⟩

theorem Frame.frame_of_consumeBucket (rl : rateLimiter) (key : String) (t : Int)
    (next : bucketData → Bool × bucketData) : Frame rl (consumeBucket rl key t next).2 key := by
  have g := Frame.frame_getBucketData rl key t
  unfold consumeBucket
  rcases hg : rl.getBucketData key t with ⟨r, rl1⟩
  rw [hg] at g
  cases r with
  | error e => exact g
  | ok bucket =>
    exact (g.frame_trans (Frame.frame_setBucketData rl1 key _ t)).frame_trans
      (Frame.frame_countVerdict _ key _)

theorem Frame.frame_of_consumeWindow (rl : rateLimiter) (key : String) (t : Int)
    (next : windowData → Bool × windowData) : Frame rl (consumeWindow rl key t next).2 key := by
  have g := Frame.frame_getWindowData rl key t
  unfold consumeWindow
  rcases hg : rl.getWindowData key t with ⟨r, rl1⟩
  rw [hg] at g
  cases r with
  | error e => exact g
  | ok window =>
    exact (g.frame_trans (Frame.frame_setWindowData rl1 key _ t)).frame_trans
      (Frame.frame_countVerdict _ key _)

theorem peekBucket_snd (rl : rateLimiter) (key : String) (t : Int)
    (report : bucketData → Result) :
    (peekBucket rl key t report).2 = { rl with storage := (rl.storage.Get key t).2 } := by
  rw [← getBucketData_snd]
  unfold peekBucket
  rcases rl.getBucketData key t with ⟨r, rl1⟩
  cases r <;> rfl

theorem peekWindow_snd (rl : rateLimiter) (key : String) (t : Int)
    (report : windowData → Result) :
    (peekWindow rl key t report).2 = { rl with storage := (rl.storage.Get key t).2 } := by
  rw [← getWindowData_snd]
  unfold peekWindow
  rcases rl.getWindowData key t with ⟨r, rl1⟩
  cases r <;> rfl

/-- The limiter after `Check` is the limiter before it, up to the read of the
entry of the extracted key. -/
theorem Check_snd (rl : rateLimiter) (key : String) (now : Int) :
    (rl.Check key now).2 = rl ∨
      (rl.Check key now).2 =
        { rl with storage := (rl.storage.Get (rl.extractKey key) now).2 } := by
  unfold rateLimiter.Check
  split_ifs
  · exact Or.inl rfl
  · exact Or.inr (by rw [checkTokenBucket_def, peekBucket_snd])
  · exact Or.inr (by rw [checkFixedWindow_def, peekWindow_snd])
  · exact Or.inr (by rw [checkSlidingWindow_def, peekWindow_snd])
  · exact Or.inr (by rw [checkLeakyBucket_def, peekBucket_snd])
  · exact Or.inl rfl

theorem Frame.frame_of_AllowN (rl : rateLimiter) (key : String) (n now : Int) :
    Frame rl (rl.AllowN key n now).2 (rl.extractKey key) := by
  unfold rateLimiter.AllowN
  split_ifs
  · exact Frame.frame_refl _ _
  · exact ((allowTokenBucket_def rl _ n now ▸ Frame.frame_of_consumeBucket rl _ now _ :
      Frame rl (rl.allowTokenBucket (rl.extractKey key) n now).2 _)).frame_trans
      (Frame.frame_updateMetrics _ _ _)
  · exact ((allowFixedWindow_def rl _ n now ▸ Frame.frame_of_consumeWindow rl _ now _ :
      Frame rl (rl.allowFixedWindow (rl.extractKey key) n now).2 _)).frame_trans
      (Frame.frame_updateMetrics _ _ _)
  · exact ((allowSlidingWindow_def rl _ n now ▸ Frame.frame_of_consumeWindow rl _ now _ :
      Frame rl (rl.allowSlidingWindow (rl.extractKey key) n now).2 _)).frame_trans
      (Frame.frame_updateMetrics _ _ _)
  · exact ((allowLeakyBucket_def rl _ n now ▸ Frame.frame_of_consumeBucket rl _ now _ :
      Frame rl (rl.allowLeakyBucket (rl.extractKey key) n now).2 _)).frame_trans
      (Frame.frame_updateMetrics _ _ _)
  · exact Frame.frame_updateMetrics _ _ _

theorem Frame.frame_of_Check (rl : rateLimiter) (key : String) (now : Int) :
    Frame rl (rl.Check key now).2 (rl.extractKey key) := by
  rcases Check_snd rl key now with h | h
  · rw [h]
    exact Frame.frame_refl _ _
  · rw [h]
    exact Frame.frame_storageGet _ _ _

theorem Frame.frame_of_Reset (rl : rateLimiter) (key : String) :
    Frame rl (rl.Reset key).2 (rl.extractKey key) := by
  unfold rateLimiter.Reset
  split_ifs
  · exact Frame.frame_refl _ _
  · exact ⟨rfl, rfl, rfl, Delete_snd_closed _ _, fun _ ho => Delete_snd_lookup_ne _ _ _ ho⟩

/-! ## `Check` and the stored state -/

theorem Get_snd_lookup_self (ms : MemoryStorage) (key : String) (t : Int) :
    (ms.Get key t).2.items.lookup key = ms.items.lookup key ∨
      ((ms.Get key t).2.items.lookup key = none ∧
        ∃ item, ms.items.lookup key = some item ∧ item.isExpired t = true) := by
  unfold MemoryStorage.Get
  by_cases hc : ms.closed = true
  · rw [if_pos hc]
    exact Or.inl rfl
  · rw [if_neg hc]
    rcases hl : ms.items.lookup key with _ | item
    · exact Or.inl hl
    · by_cases he : item.isExpired t = true
      · simp only [he, if_true]
        exact Or.inr ⟨lookup_mapDelete_self key _, item, rfl, he⟩
      · simp only [he, if_false]
        exact Or.inl hl

theorem SameView.after_Check (rl : rateLimiter) (key : String) (now : Int) :
    SameView now (rl.Check key now).2 rl := by
  rcases Check_snd rl key now with h | h
  · rw [h]
    exact SameView.refl _ _
  · rw [h]
    exact ⟨rfl, rfl, rfl, rfl, Get_snd_closed _ _ _,
      fun key1 t1 h1 => liveEntry_Get_snd _ _ _ _ _ h1⟩

/-- C15 (counterexample). `Check` changes the stored state: on `usedLimiter`
the entry of `test-user` is present before a `Check` at 4 s and absent after
it. -/
theorem check_read_only_counterexample :
    ¬ (∀ (rl : rateLimiter) (key : String) (now : Int),
        ((rl.Check key now).2.storage.items.lookup key).isSome =
          (rl.storage.items.lookup key).isSome) := by
  intro h
  have := h usedLimiter "test-user" 4000000000
  revert this
  decide

/-- C15 (amended). `Check(key)` at time `now` leaves the configuration, the
metrics counters and the closed flag unchanged, leaves the entry of every other
extracted key unchanged, and leaves the entry of the extracted key unchanged
unless that entry is expired at `now`, in which case it is removed; the
outcomes of any later operations made at clock readings that never go back and
are not before `now` are the same as if the `Check` had not been made. -/
theorem check_preserves_view (rl : rateLimiter) (key : String) (now : Int) :
    (rl.Check key now).2.config = rl.config ∧
    (rl.Check key now).2.metrics = rl.metrics ∧
    (rl.Check key now).2.closed = rl.closed ∧
    (∀ other, other ≠ rl.extractKey key →
      (rl.Check key now).2.storage.items.lookup other = rl.storage.items.lookup other) ∧
    ((rl.Check key now).2.storage.items.lookup (rl.extractKey key) =
        rl.storage.items.lookup (rl.extractKey key) ∨
      ((rl.Check key now).2.storage.items.lookup (rl.extractKey key) = none ∧
        ∃ item, rl.storage.items.lookup (rl.extractKey key) = some item ∧
          item.isExpired now = true)) ∧
    ∀ ops : List Op, List.Chain (fun s s1 => s ≤ s1) now (ops.map Op.time) →
      (runOps (rl.Check key now).2 ops).1 = (runOps rl ops).1 := by
  have hv := SameView.after_Check rl key now
  have hf := Frame.frame_of_Check rl key now
  refine ⟨hv.1, hv.2.2.2.1, hv.2.1, hf.2.2.2.2, ?_, ?_⟩
  · rcases Check_snd rl key now with h | h
    · rw [h]
      exact Or.inl rfl
    · rw [h]
      exact Get_snd_lookup_self _ _ _
  · intro ops hch
    exact (SameView.of_runOps ops now _ _ hv hch).1

theorem check_preserves_view_witness :
    (runOps (usedLimiter.Check "test-user" 4000000000).2 laterOps).1 =
      (runOps usedLimiter laterOps).1 :=
  (check_preserves_view usedLimiter "test-user" 4000000000).2.2.2.2.2 laterOps
    (by simp [laterOps, Op.time])

/-! ## What an operation reads -/

theorem Get_congr (m1 m2 : MemoryStorage) (key : String) (t : Int)
    (hc : m1.closed = m2.closed) (hl : m1.items.lookup key = m2.items.lookup key) :
    (m1.Get key t).1 = (m2.Get key t).1 ∧
      (m1.Get key t).2.items.lookup key = (m2.Get key t).2.items.lookup key := by
  unfold MemoryStorage.Get
  rw [← hc, ← hl]
  by_cases h : m1.closed = true
  · rw [if_pos h, if_pos h]
    exact ⟨rfl, hl⟩
  · rw [if_neg h, if_neg h]
    cases hl1 : m1.items.lookup key with
    | none => exact ⟨rfl, hl⟩
    | some item =>
      by_cases he : item.isExpired t = true
      · dsimp only
        rw [if_pos he, if_pos he]
        exact ⟨rfl, by rw [lookup_mapDelete_self, lookup_mapDelete_self]⟩
      · dsimp only
        rw [if_neg he, if_neg he]
        exact ⟨rfl, hl⟩

theorem Set_congr (m1 m2 : MemoryStorage) (key : String) (v : Bytes) (ttl s : Int)
    (hc : m1.closed = m2.closed) (hl : m1.items.lookup key = m2.items.lookup key) :
    (m1.Set key v ttl s).2.items.lookup key = (m2.Set key v ttl s).2.items.lookup key := by
  unfold MemoryStorage.Set
  rw [← hc]
  by_cases h : m1.closed = true
  · rw [if_pos h, if_pos h]
    exact hl
  · rw [if_neg h, if_neg h]
    dsimp only
    rw [lookup_mapInsert_self, lookup_mapInsert_self]

theorem SameEntry.entry_storageGet {a b : rateLimiter} {k : String} (h : SameEntry a b k)
    (t : Int) :
    (a.storage.Get k t).1 = (b.storage.Get k t).1 ∧
      SameEntry { a with storage := (a.storage.Get k t).2 }
        { b with storage := (b.storage.Get k t).2 } k := by
  obtain ⟨h1, h2, h3, h4⟩ := h
  obtain ⟨g1, g2⟩ := Get_congr a.storage b.storage k t h3 h4
  exact ⟨g1, h1, h2, by simp only [Get_snd_closed, h3], g2⟩

theorem SameEntry.entry_getBucketData {a b : rateLimiter} {k : String} (h : SameEntry a b k)
    (t : Int) :
    (a.getBucketData k t).1 = (b.getBucketData k t).1 ∧
      SameEntry (a.getBucketData k t).2 (b.getBucketData k t).2 k := by
  obtain ⟨g1, g2⟩ := h.entry_storageGet t
  rw [getBucketData_fst, getBucketData_fst, g1, getBucketData_snd, getBucketData_snd]
  exact ⟨rfl, g2⟩

theorem SameEntry.entry_getWindowData {a b : rateLimiter} {k : String} (h : SameEntry a b k)
    (t : Int) :
    (a.getWindowData k t).1 = (b.getWindowData k t).1 ∧
      SameEntry (a.getWindowData k t).2 (b.getWindowData k t).2 k := by
  obtain ⟨g1, g2⟩ := h.entry_storageGet t
  rw [getWindowData_fst, getWindowData_fst, g1, getWindowData_snd, getWindowData_snd]
  exact ⟨rfl, g2⟩

theorem SameEntry.entry_setBucketData {a b : rateLimiter} {k : String} (h : SameEntry a b k)
    (v : bucketData) (s : Int) :
    SameEntry (a.setBucketData k v s).2 (b.setBucketData k v s).2 k := by
  obtain ⟨h1, h2, h3, h4⟩ := h
  have e : b.config.Window = a.config.Window := by rw [h1]
  refine ⟨h1, h2, ?_, ?_⟩
  · exact (Set_snd_closed _ _ _ _ _).trans (h3.trans (Set_snd_closed _ _ _ _ _).symm)
  · unfold rateLimiter.setBucketData
    dsimp only
    rw [e]
    exact Set_congr _ _ _ _ _ _ h3 h4

theorem SameEntry.entry_setWindowData {a b : rateLimiter} {k : String} (h : SameEntry a b k)
    (v : windowData) (s : Int) :
    SameEntry (a.setWindowData k v s).2 (b.setWindowData k v s).2 k := by
  obtain ⟨h1, h2, h3, h4⟩ := h
  have e : b.config.Window = a.config.Window := by rw [h1]
  refine ⟨h1, h2, ?_, ?_⟩
  · exact (Set_snd_closed _ _ _ _ _).trans (h3.trans (Set_snd_closed _ _ _ _ _).symm)
  · unfold rateLimiter.setWindowData
    dsimp only
    rw [e]
    exact Set_congr _ _ _ _ _ _ h3 h4

theorem SameEntry.entry_countVerdict {a b : rateLimiter} {k : String} (h : SameEntry a b k)
    (v w : Bool) : SameEntry (a.countVerdict v) (b.countVerdict w) k := by
  cases v <;> cases w <;> exact h

theorem SameEntry.entry_updateMetrics {a b : rateLimiter} {k : String} (h : SameEntry a b k)
    (l m : Int) : SameEntry (a.updateMetrics l) (b.updateMetrics m) k := h

theorem SameEntry.entry_of_consumeBucket {a b : rateLimiter} {k : String} (h : SameEntry a b k)
    (t : Int) (next : bucketData → Bool × bucketData) :
    (consumeBucket a k t next).1 = (consumeBucket b k t next).1 ∧
      SameEntry (consumeBucket a k t next).2 (consumeBucket b k t next).2 k := by
  obtain ⟨g1, g2⟩ := h.entry_getBucketData t
  unfold consumeBucket
  rcases ha : a.getBucketData k t with ⟨ra, a1⟩
  rcases hb : b.getBucketData k t with ⟨rb, b1⟩
  rw [ha, hb] at g1 g2
  simp only at g1 g2
  subst g1
  cases ra with
  | error e => exact ⟨rfl, g2⟩
  | ok bucket => exact ⟨rfl, (g2.entry_setBucketData _ t).entry_countVerdict _ _⟩

theorem SameEntry.entry_of_consumeWindow {a b : rateLimiter} {k : String} (h : SameEntry a b k)
    (t : Int) (next : windowData → Bool × windowData) :
    (consumeWindow a k t next).1 = (consumeWindow b k t next).1 ∧
      SameEntry (consumeWindow a k t next).2 (consumeWindow b k t next).2 k := by
  obtain ⟨g1, g2⟩ := h.entry_getWindowData t
  unfold consumeWindow
  rcases ha : a.getWindowData k t with ⟨ra, a1⟩
  rcases hb : b.getWindowData k t with ⟨rb, b1⟩
  rw [ha, hb] at g1 g2
  simp only at g1 g2
  subst g1
  cases ra with
  | error e => exact ⟨rfl, g2⟩
  | ok window => exact ⟨rfl, (g2.entry_setWindowData _ t).entry_countVerdict _ _⟩

theorem SameEntry.entry_of_peekBucket {a b : rateLimiter} {k : String} (h : SameEntry a b k)
    (t : Int) (report : bucketData → Result) :
    (peekBucket a k t report).1 = (peekBucket b k t report).1 ∧
      SameEntry (peekBucket a k t report).2 (peekBucket b k t report).2 k := by
  obtain ⟨g1, g2⟩ := h.entry_getBucketData t
  unfold peekBucket
  rcases ha : a.getBucketData k t with ⟨ra, a1⟩
  rcases hb : b.getBucketData k t with ⟨rb, b1⟩
  rw [ha, hb] at g1 g2
  simp only at g1 g2
  subst g1
  cases ra with
  | error e => exact ⟨rfl, g2⟩
  | ok bucket => exact ⟨rfl, g2⟩

theorem SameEntry.entry_of_peekWindow {a b : rateLimiter} {k : String} (h : SameEntry a b k)
    (t : Int) (report : windowData → Result) :
    (peekWindow a k t report).1 = (peekWindow b k t report).1 ∧
      SameEntry (peekWindow a k t report).2 (peekWindow b k t report).2 k := by
  obtain ⟨g1, g2⟩ := h.entry_getWindowData t
  unfold peekWindow
  rcases ha : a.getWindowData k t with ⟨ra, a1⟩
  rcases hb : b.getWindowData k t with ⟨rb, b1⟩
  rw [ha, hb] at g1 g2
  simp only at g1 g2
  subst g1
  cases ra with
  | error e => exact ⟨rfl, g2⟩
  | ok window => exact ⟨rfl, g2⟩

theorem SameEntry.entry_of_AllowN {a b : rateLimiter} {key : String}
    (h : SameEntry a b (a.extractKey key)) (n t : Int) :
    (a.AllowN key n t).1 = (b.AllowN key n t).1 ∧
      SameEntry (a.AllowN key n t).2 (b.AllowN key n t).2 (a.extractKey key) := by
  have hc := h.2.1
  have hcfg := h.1
  have hk : a.extractKey key = b.extractKey key := by
    unfold rateLimiter.extractKey
    rw [hcfg]
  unfold rateLimiter.AllowN
  rw [← hc, ← hk, ← hcfg]
  cases a.closed with
  | true => exact ⟨rfl, h⟩
  | false =>
    simp only [Bool.false_eq_true, if_false]
    by_cases h1 : a.config.Algorithm = TokenBucket
    · simp only [h1, if_true, allowTokenBucket_def, ← hcfg]
      have := h.entry_of_consumeBucket t (tokenBucketNext a.config n t)
      exact ⟨this.1, this.2.entry_updateMetrics _ _⟩
    · by_cases h2 : a.config.Algorithm = FixedWindow
      · simp only [h1, h2, if_true, if_false, allowFixedWindow_def, ← hcfg]
        have := h.entry_of_consumeWindow t (fixedWindowNext a.config n t)
        exact ⟨this.1, this.2.entry_updateMetrics _ _⟩
      · by_cases h3 : a.config.Algorithm = SlidingWindow
        · simp only [h1, h2, h3, if_true, if_false, allowSlidingWindow_def, ← hcfg]
          have := h.entry_of_consumeWindow t (slidingWindowNext a.config n t)
          exact ⟨this.1, this.2.entry_updateMetrics _ _⟩
        · by_cases h4 : a.config.Algorithm = LeakyBucket
          · simp only [h1, h2, h3, h4, if_true, if_false, allowLeakyBucket_def, ← hcfg]
            have := h.entry_of_consumeBucket t (leakyBucketNext a.config n t)
            exact ⟨this.1, this.2.entry_updateMetrics _ _⟩
          · simp only [h1, h2, h3, h4, if_false]
            exact ⟨trivial, h.entry_updateMetrics _ _⟩

theorem SameEntry.entry_of_Check {a b : rateLimiter} {key : String}
    (h : SameEntry a b (a.extractKey key)) (t : Int) :
    (a.Check key t).1 = (b.Check key t).1 ∧
      SameEntry (a.Check key t).2 (b.Check key t).2 (a.extractKey key) := by
  have hc := h.2.1
  have hcfg := h.1
  have hk : a.extractKey key = b.extractKey key := by
    unfold rateLimiter.extractKey
    rw [hcfg]
  unfold rateLimiter.Check
  rw [← hc, ← hk, ← hcfg]
  cases a.closed with
  | true => exact ⟨rfl, h⟩
  | false =>
    simp only [Bool.false_eq_true, if_false]
    by_cases h1 : a.config.Algorithm = TokenBucket
    · simp only [h1, if_true, checkTokenBucket_def, ← hcfg]
      exact h.entry_of_peekBucket t (tokenBucketReport a.config t)
    · by_cases h2 : a.config.Algorithm = FixedWindow
      · simp only [h1, h2, if_true, if_false, checkFixedWindow_def, ← hcfg]
        exact h.entry_of_peekWindow t (fixedWindowReport a.config t)
      · by_cases h3 : a.config.Algorithm = SlidingWindow
        · simp only [h1, h2, h3, if_true, if_false, checkSlidingWindow_def, ← hcfg]
          exact h.entry_of_peekWindow t (slidingWindowReport a.config t)
        · by_cases h4 : a.config.Algorithm = LeakyBucket
          · simp only [h1, h2, h3, h4, if_true, if_false, checkLeakyBucket_def, ← hcfg]
            exact h.entry_of_peekBucket t (leakyBucketReport a.config t)
          · simp only [h1, h2, h3, h4, if_false]
            exact ⟨trivial, h⟩

/-! ## Key normalization and per-key independence -/

theorem New_extractKey {cfg : Config} {rl : rateLimiter} (h : New cfg = Except.ok rl)
    (k : String) : rl.extractKey k = effectiveKey cfg k := by
  unfold New at h
  rw [validateConfig_fst] at h
  by_cases h1 : cfg.Rate ≤ 0
  · simp [h1] at h
  · by_cases h2 : cfg.Window ≤ 0
    · simp [h1, h2] at h
    · simp only [h1, h2, if_false] at h
      injection h with h
      subst h
      unfold rateLimiter.extractKey effectiveKey
      cases hs : cfg.Storage <;> cases hk : cfg.KeyExtractor <;>
        simp [hs, hk, defaultKeyExtractor]

theorem AllowN_key_congr (rl : rateLimiter) (k1 k2 : String) (n now : Int)
    (h : rl.extractKey k1 = rl.extractKey k2) : rl.AllowN k1 n now = rl.AllowN k2 n now := by
  unfold rateLimiter.AllowN
  rw [h]

theorem Check_key_congr (rl : rateLimiter) (k1 k2 : String) (now : Int)
    (h : rl.extractKey k1 = rl.extractKey k2) : rl.Check k1 now = rl.Check k2 now := by
  unfold rateLimiter.Check
  rw [h]

theorem Reset_key_congr (rl : rateLimiter) (k1 k2 : String)
    (h : rl.extractKey k1 = rl.extractKey k2) : rl.Reset k1 = rl.Reset k2 := by
  unfold rateLimiter.Reset
  rw [h]

theorem Reset_deletes (rl : rateLimiter) (key : String) (h : (rl.Reset key).1 = none) :
    (rl.Reset key).2.storage.items.lookup (rl.extractKey key) = none := by
  have h1 : rl.Reset key = (none, (rl.Reset key).2) := by rw [← h]
  have := (Reset_ok h1).2.2.2
  rwa [extractKey_congr rl _ (Reset_ok h1).1] at this

/-- C20. Key normalization: on a limiter built by `New` from a configuration
`cfg`, in any later state, the key that `AllowN(k, n)`, `Check(k)` and
`Reset(k)` use is the image of `k` under the configured extractor, or `k` itself
when none is configured; each of the three leaves every other entry unchanged,
the verdict and the result are the same on any limiter that agrees on that one
entry, a successful `Reset` deletes that entry, and two raw keys with the same
image give the same calls. -/
theorem key_normalization (cfg : Config) (rl0 rl : rateLimiter)
    (hnew : New cfg = Except.ok rl0) (hcfg : rl.config = rl0.config)
    (k1 k2 : String) (n now : Int) :
    rl.extractKey k1 = effectiveKey cfg k1 ∧
      Frame rl (rl.AllowN k1 n now).2 (effectiveKey cfg k1) ∧
      Frame rl (rl.Check k1 now).2 (effectiveKey cfg k1) ∧
      Frame rl (rl.Reset k1).2 (effectiveKey cfg k1) ∧
      (∀ b : rateLimiter, SameEntry rl b (effectiveKey cfg k1) →
        (rl.AllowN k1 n now).1 = (b.AllowN k1 n now).1 ∧
          (rl.Check k1 now).1 = (b.Check k1 now).1) ∧
      ((rl.Reset k1).1 = none →
        (rl.Reset k1).2.storage.items.lookup (effectiveKey cfg k1) = none) ∧
      (effectiveKey cfg k1 = effectiveKey cfg k2 →
        rl.AllowN k1 n now = rl.AllowN k2 n now ∧ rl.Check k1 now = rl.Check k2 now ∧
          rl.Reset k1 = rl.Reset k2) := by
  have hk : ∀ k, rl.extractKey k = effectiveKey cfg k := fun k =>
    (extractKey_congr rl0 rl hcfg k).trans (New_extractKey hnew k)
  refine ⟨hk k1, ?_, ?_, ?_, ?_, ?_, ?_⟩
  · rw [← hk k1]
    exact Frame.frame_of_AllowN rl k1 n now
  · rw [← hk k1]
    exact Frame.frame_of_Check rl k1 now
  · rw [← hk k1]
    exact Frame.frame_of_Reset rl k1
  · intro b hb
    rw [← hk k1] at hb
    exact ⟨(hb.entry_of_AllowN n now).1, (hb.entry_of_Check now).1⟩
  · intro h
    rw [← hk k1]
    exact Reset_deletes rl k1 h
  · intro h
    have h12 : rl.extractKey k1 = rl.extractKey k2 := by rw [hk k1, hk k2, h]
    exact ⟨AllowN_key_congr rl k1 k2 n now h12, Check_key_congr rl k1 k2 now h12,
      Reset_key_congr rl k1 k2 h12⟩

theorem key_normalization_witness :
    New sharedQuotaConfig = Except.ok sharedQuotaLimiter ∧
      sharedQuotaLimiter.extractKey "alice" = "shared" ∧
      sharedQuotaLimiter.AllowN "alice" 1 5000000000 =
        sharedQuotaLimiter.AllowN "bob" 1 5000000000 :=
  ⟨rfl,
    (key_normalization sharedQuotaConfig sharedQuotaLimiter sharedQuotaLimiter rfl rfl
      "alice" "bob" 1 5000000000).1,
    ((key_normalization sharedQuotaConfig sharedQuotaLimiter sharedQuotaLimiter rfl rfl
      "alice" "bob" 1 5000000000).2.2.2.2.2.2 rfl).1⟩

/-- C21. Per-key independence: when the extracted keys of `other` and `key`
differ, `AllowN` and `Reset` on `key` leave the entry of `other` unchanged, so
that a later `AllowN` or `Check` on `other` answers as if they had not been made;
and the verdict of `AllowN` and the result of `Check` on `key` are the same on
any two limiters with the same configuration and closed flags that hold the same
entry for `key`, at the same time. -/
theorem per_key_independence (a b : rateLimiter) (key other : String) (n now : Int)
    (hne : a.extractKey other ≠ a.extractKey key)
    (hsame : SameEntry a b (a.extractKey key)) :
    (a.AllowN key n now).2.storage.items.lookup (a.extractKey other) =
        a.storage.items.lookup (a.extractKey other) ∧
      (a.Reset key).2.storage.items.lookup (a.extractKey other) =
        a.storage.items.lookup (a.extractKey other) ∧
      (∀ m t : Int,
        ((a.AllowN key n now).2.AllowN other m t).1 = (a.AllowN other m t).1 ∧
          ((a.AllowN key n now).2.Check other t).1 = (a.Check other t).1 ∧
          ((a.Reset key).2.AllowN other m t).1 = (a.AllowN other m t).1 ∧
          ((a.Reset key).2.Check other t).1 = (a.Check other t).1) ∧
      (a.AllowN key n now).1 = (b.AllowN key n now).1 ∧
      (a.Check key now).1 = (b.Check key now).1 := by
  have f1 := Frame.frame_of_AllowN a key n now
  have f2 := Frame.frame_of_Reset a key
  have e1 : (a.AllowN key n now).2.extractKey other = a.extractKey other :=
    extractKey_congr a _ f1.1 other
  have e2 : (a.Reset key).2.extractKey other = a.extractKey other :=
    extractKey_congr a _ f2.1 other
  have s1 : SameEntry (a.AllowN key n now).2 a ((a.AllowN key n now).2.extractKey other) := by
    rw [e1]
    exact ⟨f1.1, f1.2.1, f1.2.2.2.1, f1.2.2.2.2 _ hne⟩
  have s2 : SameEntry (a.Reset key).2 a ((a.Reset key).2.extractKey other) := by
    rw [e2]
    exact ⟨f2.1, f2.2.1, f2.2.2.2.1, f2.2.2.2.2 _ hne⟩
  exact ⟨f1.2.2.2.2 _ hne, f2.2.2.2.2 _ hne,
    fun m t => ⟨(s1.entry_of_AllowN m t).1, (s1.entry_of_Check t).1, (s2.entry_of_AllowN m t).1,
      (s2.entry_of_Check t).1⟩,
    (hsame.entry_of_AllowN n now).1, (hsame.entry_of_Check now).1⟩

theorem per_key_independence_witness :
    otherKeyLimiter.extractKey "other-user" ≠ otherKeyLimiter.extractKey "test-user" ∧
      SameEntry otherKeyLimiter (limiterOf tokenBucketConfig)
        (otherKeyLimiter.extractKey "test-user") ∧
      (otherKeyLimiter.AllowN "test-user" 1 5000000000).1 =
        ((limiterOf tokenBucketConfig).AllowN "test-user" 1 5000000000).1 :=
  ⟨by decide, ⟨rfl, rfl, rfl, rfl⟩,
    (per_key_independence otherKeyLimiter (limiterOf tokenBucketConfig) "test-user"
      "other-user" 1 5000000000 (by decide) ⟨rfl, rfl, rfl, rfl⟩).2.2.2.1⟩

/-! ## The counters -/

theorem Get_fst_decodes (ms : MemoryStorage) (key : String) (t : Int) (data : Bytes)
    (hd : ∀ item, ms.items.lookup key = some item → item.value.isCorrupt = false)
    (h : (ms.Get key t).1 = Except.ok data) : data.isCorrupt = false := by
  unfold MemoryStorage.Get at h
  by_cases hc : ms.closed = true
  · rw [if_pos hc] at h
    cases h
  · rw [if_neg hc] at h
    cases hl : ms.items.lookup key with
    | none =>
      rw [hl] at h
      cases h
    | some item =>
      rw [hl] at h
      by_cases he : item.isExpired t = true
      · simp only [he, if_true] at h
        cases h
      · simp only [he, if_false] at h
        injection h with h
        rw [← h]
        exact hd item hl

theorem getBucketData_decodes (rl : rateLimiter) (key : String) (t : Int)
    (hd : ∀ item, rl.storage.items.lookup key = some item → item.value.isCorrupt = false) :
    ∃ b, (rl.getBucketData key t).1 = Except.ok b := by
  rw [getBucketData_fst]
  cases hg : (rl.storage.Get key t).1 with
  | error e => exact ⟨_, rfl⟩
  | ok data =>
    have := Get_fst_decodes _ _ _ _ hd hg
    cases data with
    | bucketJSON b => exact ⟨_, rfl⟩
    | windowJSON w => exact ⟨_, rfl⟩
    | corrupt => cases this

theorem getWindowData_decodes (rl : rateLimiter) (key : String) (t : Int)
    (hd : ∀ item, rl.storage.items.lookup key = some item → item.value.isCorrupt = false) :
    ∃ w, (rl.getWindowData key t).1 = Except.ok w := by
  rw [getWindowData_fst]
  cases hg : (rl.storage.Get key t).1 with
  | error e => exact ⟨_, rfl⟩
  | ok data =>
    have := Get_fst_decodes _ _ _ _ hd hg
    cases data with
    | bucketJSON b => exact ⟨_, rfl⟩
    | windowJSON w => exact ⟨_, rfl⟩
    | corrupt => cases this

theorem getBucketData_metrics (rl : rateLimiter) (key : String) (t : Int) :
    (rl.getBucketData key t).2.metrics = rl.metrics := by
  rw [getBucketData_snd]

theorem getWindowData_metrics (rl : rateLimiter) (key : String) (t : Int) :
    (rl.getWindowData key t).2.metrics = rl.metrics := by
  rw [getWindowData_snd]

/-- The counters after a consume path: untouched on a load error, otherwise the
counter of the verdict is one higher. -/
theorem consumeBucket_metrics (rl : rateLimiter) (key : String) (t : Int)
    (next : bucketData → Bool × bucketData) :
    ((∃ e, (rl.getBucketData key t).1 = Except.error e) ∧
        (consumeBucket rl key t next).2.metrics = rl.metrics) ∨
      ((∃ b, (rl.getBucketData key t).1 = Except.ok b) ∧
        (consumeBucket rl key t next).2.metrics =
          (rl.countVerdict (consumeBucket rl key t next).1).metrics) := by
  have g := getBucketData_metrics rl key t
  unfold consumeBucket
  rcases hg : rl.getBucketData key t with ⟨r, rl1⟩
  rw [hg] at g
  simp only at g
  cases r with
  | error e => exact Or.inl ⟨⟨e, rfl⟩, g⟩
  | ok b =>
    refine Or.inr ⟨⟨b, rfl⟩, ?_⟩
    simp only
    cases (next b).1 <;>
      simp [rateLimiter.countVerdict, rateLimiter.incAllowed, rateLimiter.incDenied,
        rateLimiter.setBucketData, g]

theorem consumeWindow_metrics (rl : rateLimiter) (key : String) (t : Int)
    (next : windowData → Bool × windowData) :
    ((∃ e, (rl.getWindowData key t).1 = Except.error e) ∧
        (consumeWindow rl key t next).2.metrics = rl.metrics) ∨
      ((∃ w, (rl.getWindowData key t).1 = Except.ok w) ∧
        (consumeWindow rl key t next).2.metrics =
          (rl.countVerdict (consumeWindow rl key t next).1).metrics) := by
  have g := getWindowData_metrics rl key t
  unfold consumeWindow
  rcases hg : rl.getWindowData key t with ⟨r, rl1⟩
  rw [hg] at g
  simp only at g
  cases r with
  | error e => exact Or.inl ⟨⟨e, rfl⟩, g⟩
  | ok w =>
    refine Or.inr ⟨⟨w, rfl⟩, ?_⟩
    simp only
    cases (next w).1 <;>
      simp [rateLimiter.countVerdict, rateLimiter.incAllowed, rateLimiter.incDenied,
        rateLimiter.setWindowData, g]

/-- The counters after `AllowN`: one of three shapes. -/
theorem AllowN_metrics (rl : rateLimiter) (key : String) (n now : Int) :
    (rl.AllowN key n now).2.metrics = rl.metrics ∨
      (rl.AllowN key n now).2.metrics = (rl.updateMetrics (Time.Sub now now)).metrics ∨
      (rl.AllowN key n now).2.metrics =
        ((rl.countVerdict (rl.AllowN key n now).1).updateMetrics (Time.Sub now now)).metrics := by
  unfold rateLimiter.AllowN
  split_ifs
  · exact Or.inl rfl
  · dsimp only
    rw [allowTokenBucket_def]
    rcases consumeBucket_metrics rl (rl.extractKey key) now
      (tokenBucketNext rl.config n now) with h | h
    · exact Or.inr (Or.inl (by simp [rateLimiter.updateMetrics, h.2]))
    · exact Or.inr (Or.inr (by simp [rateLimiter.updateMetrics, h.2]))
  · dsimp only
    rw [allowFixedWindow_def]
    rcases consumeWindow_metrics rl (rl.extractKey key) now
      (fixedWindowNext rl.config n now) with h | h
    · exact Or.inr (Or.inl (by simp [rateLimiter.updateMetrics, h.2]))
    · exact Or.inr (Or.inr (by simp [rateLimiter.updateMetrics, h.2]))
  · dsimp only
    rw [allowSlidingWindow_def]
    rcases consumeWindow_metrics rl (rl.extractKey key) now
      (slidingWindowNext rl.config n now) with h | h
    · exact Or.inr (Or.inl (by simp [rateLimiter.updateMetrics, h.2]))
    · exact Or.inr (Or.inr (by simp [rateLimiter.updateMetrics, h.2]))
  · dsimp only
    rw [allowLeakyBucket_def]
    rcases consumeBucket_metrics rl (rl.extractKey key) now
      (leakyBucketNext rl.config n now) with h | h
    · exact Or.inr (Or.inl (by simp [rateLimiter.updateMetrics, h.2]))
    · exact Or.inr (Or.inr (by simp [rateLimiter.updateMetrics, h.2]))
  · exact Or.inr (Or.inl rfl)

/-- On an open limiter with one of the four algorithms and an entry that
deserializes, the counters after `AllowN` are those of the verdict. -/
theorem AllowN_metrics_decodes (rl : rateLimiter) (key : String) (n now : Int)
    (hopen : rl.closed = false)
    (halg : rl.config.Algorithm = TokenBucket ∨ rl.config.Algorithm = FixedWindow ∨
      rl.config.Algorithm = SlidingWindow ∨ rl.config.Algorithm = LeakyBucket)
    (hdec : entryDecodes rl key = true) :
    (rl.AllowN key n now).2.metrics =
      ((rl.countVerdict (rl.AllowN key n now).1).updateMetrics (Time.Sub now now)).metrics := by
  have hd : ∀ item, rl.storage.items.lookup (rl.extractKey key) = some item →
      item.value.isCorrupt = false := by
    intro item hi
    unfold entryDecodes at hdec
    rw [hi] at hdec
    simpa using hdec
  have hb := getBucketData_decodes rl (rl.extractKey key) now hd
  have hw := getWindowData_decodes rl (rl.extractKey key) now hd
  have nb : ¬ ∃ e, (rl.getBucketData (rl.extractKey key) now).1 = Except.error e := by
    rintro ⟨e, he⟩
    obtain ⟨b, hb⟩ := hb
    rw [hb] at he
    cases he
  have nw : ¬ ∃ e, (rl.getWindowData (rl.extractKey key) now).1 = Except.error e := by
    rintro ⟨e, he⟩
    obtain ⟨w, hw⟩ := hw
    rw [hw] at he
    cases he
  unfold rateLimiter.AllowN
  rw [hopen]
  simp only [Bool.false_eq_true, if_false]
  split_ifs with h1 h2 h3 h4
  · rw [allowTokenBucket_def]
    rcases consumeBucket_metrics rl (rl.extractKey key) now
      (tokenBucketNext rl.config n now) with h | h
    · exact absurd h.1 nb
    · simp [rateLimiter.updateMetrics, h.2]
  · rw [allowFixedWindow_def]
    rcases consumeWindow_metrics rl (rl.extractKey key) now
      (fixedWindowNext rl.config n now) with h | h
    · exact absurd h.1 nw
    · simp [rateLimiter.updateMetrics, h.2]
  · rw [allowSlidingWindow_def]
    rcases consumeWindow_metrics rl (rl.extractKey key) now
      (slidingWindowNext rl.config n now) with h | h
    · exact absurd h.1 nw
    · simp [rateLimiter.updateMetrics, h.2]
  · rw [allowLeakyBucket_def]
    rcases consumeBucket_metrics rl (rl.extractKey key) now
      (leakyBucketNext rl.config n now) with h | h
    · exact absurd h.1 nb
    · simp [rateLimiter.updateMetrics, h.2]
  · rcases halg with h | h | h | h <;> contradiction

theorem Set_snd_lookup_self (ms : MemoryStorage) (key : String) (v : Bytes) (ttl s : Int) :
    (ms.Set key v ttl s).2.items.lookup key = ms.items.lookup key ∨
      ∃ e, (ms.Set key v ttl s).2.items.lookup key = some (memoryItem.mk v e) := by
  unfold MemoryStorage.Set
  by_cases hc : ms.closed = true
  · rw [if_pos hc]
    exact Or.inl rfl
  · rw [if_neg hc]
    exact Or.inr ⟨_, lookup_mapInsert_self _ _ _⟩

theorem consumeBucket_entry (rl : rateLimiter) (key : String) (t : Int)
    (next : bucketData → Bool × bucketData) :
    (consumeBucket rl key t next).2.storage.items.lookup key = none ∨
      (consumeBucket rl key t next).2.storage.items.lookup key = rl.storage.items.lookup key ∨
      ∃ item, (consumeBucket rl key t next).2.storage.items.lookup key = some item ∧
        item.value.isCorrupt = false := by
  have g : (rl.getBucketData key t).2.storage.items.lookup key = none ∨
      (rl.getBucketData key t).2.storage.items.lookup key = rl.storage.items.lookup key := by
    rw [getBucketData_snd]
    rcases Get_snd_lookup_self rl.storage key t with h | h
    · exact Or.inr h
    · exact Or.inl h.1
  unfold consumeBucket
  rcases hg : rl.getBucketData key t with ⟨r, rl1⟩
  rw [hg] at g
  simp only at g
  cases r with
  | error e =>
    rcases g with g | g
    · exact Or.inl g
    · exact Or.inr (Or.inl g)
  | ok b =>
    have hs : ((rl1.setBucketData key (next b).2 t).2.countVerdict (next b).1).storage =
        (rl1.storage.Set key (Bytes.bucketJSON (next b).2) (wrap64 (rl1.config.Window * 2)) t).2 := by
      cases (next b).1 <;> rfl
    simp only [hs]
    rcases Set_snd_lookup_self rl1.storage key (Bytes.bucketJSON (next b).2)
      (wrap64 (rl1.config.Window * 2)) t with h | ⟨e, h⟩
    · rw [h]
      rcases g with g | g
      · exact Or.inl g
      · exact Or.inr (Or.inl g)
    · exact Or.inr (Or.inr ⟨_, h, rfl⟩)

theorem consumeWindow_entry (rl : rateLimiter) (key : String) (t : Int)
    (next : windowData → Bool × windowData) :
    (consumeWindow rl key t next).2.storage.items.lookup key = none ∨
      (consumeWindow rl key t next).2.storage.items.lookup key = rl.storage.items.lookup key ∨
      ∃ item, (consumeWindow rl key t next).2.storage.items.lookup key = some item ∧
        item.value.isCorrupt = false := by
  have g : (rl.getWindowData key t).2.storage.items.lookup key = none ∨
      (rl.getWindowData key t).2.storage.items.lookup key = rl.storage.items.lookup key := by
    rw [getWindowData_snd]
    rcases Get_snd_lookup_self rl.storage key t with h | h
    · exact Or.inr h
    · exact Or.inl h.1
  unfold consumeWindow
  rcases hg : rl.getWindowData key t with ⟨r, rl1⟩
  rw [hg] at g
  simp only at g
  cases r with
  | error e =>
    rcases g with g | g
    · exact Or.inl g
    · exact Or.inr (Or.inl g)
  | ok w =>
    have hs : ((rl1.setWindowData key (next w).2 t).2.countVerdict (next w).1).storage =
        (rl1.storage.Set key (Bytes.windowJSON (next w).2) (wrap64 (rl1.config.Window * 2)) t).2 := by
      cases (next w).1 <;> rfl
    simp only [hs]
    rcases Set_snd_lookup_self rl1.storage key (Bytes.windowJSON (next w).2)
      (wrap64 (rl1.config.Window * 2)) t with h | ⟨e, h⟩
    · rw [h]
      rcases g with g | g
      · exact Or.inl g
      · exact Or.inr (Or.inl g)
    · exact Or.inr (Or.inr ⟨_, h, rfl⟩)

theorem AllowN_entry (rl : rateLimiter) (key : String) (n now : Int) :
    (rl.AllowN key n now).2.storage.items.lookup (rl.extractKey key) = none ∨
      (rl.AllowN key n now).2.storage.items.lookup (rl.extractKey key) =
        rl.storage.items.lookup (rl.extractKey key) ∨
      ∃ item, (rl.AllowN key n now).2.storage.items.lookup (rl.extractKey key) = some item ∧
        item.value.isCorrupt = false := by
  unfold rateLimiter.AllowN
  split_ifs
  · exact Or.inr (Or.inl rfl)
  · dsimp only
    rw [allowTokenBucket_def]
    exact consumeBucket_entry rl _ now _
  · dsimp only
    rw [allowFixedWindow_def]
    exact consumeWindow_entry rl _ now _
  · dsimp only
    rw [allowSlidingWindow_def]
    exact consumeWindow_entry rl _ now _
  · dsimp only
    rw [allowLeakyBucket_def]
    exact consumeBucket_entry rl _ now _
  · exact Or.inr (Or.inl rfl)

theorem entryDecodes_AllowN (rl : rateLimiter) (key : String) (n now : Int) (k : String)
    (h : entryDecodes rl k = true) : entryDecodes (rl.AllowN key n now).2 k = true := by
  have f := Frame.frame_of_AllowN rl key n now
  unfold entryDecodes at h ⊢
  rw [extractKey_congr rl _ f.1 k]
  by_cases hk : rl.extractKey k = rl.extractKey key
  · rw [hk] at h ⊢
    rcases AllowN_entry rl key n now with e | e | ⟨item, e, hi⟩
    · rw [e]
    · rw [e]
      exact h
    · rw [e]
      simp [hi]
  · rw [f.2.2.2.2 _ hk]
    exact h

theorem Reset_metrics (rl : rateLimiter) (key : String) : (rl.Reset key).2.metrics = rl.metrics := by
  unfold rateLimiter.Reset
  split_ifs <;> rfl

theorem Close_metrics (rl : rateLimiter) : rl.Close.2.metrics = rl.metrics := by
  unfold rateLimiter.Close
  split_ifs <;> rfl

theorem step_metrics_mono (rl : rateLimiter) (op : Op) :
    rl.metrics.TotalRequests ≤ (rl.step op).2.metrics.TotalRequests ∧
      rl.metrics.AllowedRequests ≤ (rl.step op).2.metrics.AllowedRequests ∧
      rl.metrics.DeniedRequests ≤ (rl.step op).2.metrics.DeniedRequests := by
  cases op with
  | allowN key n now =>
    show rl.metrics.TotalRequests ≤ (rl.AllowN key n now).2.metrics.TotalRequests ∧
      rl.metrics.AllowedRequests ≤ (rl.AllowN key n now).2.metrics.AllowedRequests ∧
      rl.metrics.DeniedRequests ≤ (rl.AllowN key n now).2.metrics.DeniedRequests
    rcases AllowN_metrics rl key n now with h | h | h
    · rw [h]
      exact ⟨le_refl _, le_refl _, le_refl _⟩
    · rw [h]
      simp [rateLimiter.updateMetrics]
    · rw [h]
      cases (rl.AllowN key n now).1 <;>
        simp [rateLimiter.updateMetrics, rateLimiter.countVerdict, rateLimiter.incAllowed,
          rateLimiter.incDenied]
  | check key now =>
    show rl.metrics.TotalRequests ≤ (rl.Check key now).2.metrics.TotalRequests ∧
      rl.metrics.AllowedRequests ≤ (rl.Check key now).2.metrics.AllowedRequests ∧
      rl.metrics.DeniedRequests ≤ (rl.Check key now).2.metrics.DeniedRequests
    rw [(SameView.after_Check rl key now).2.2.2.1]
    exact ⟨le_refl _, le_refl _, le_refl _⟩
  | reset key now =>
    show rl.metrics.TotalRequests ≤ (rl.Reset key).2.metrics.TotalRequests ∧
      rl.metrics.AllowedRequests ≤ (rl.Reset key).2.metrics.AllowedRequests ∧
      rl.metrics.DeniedRequests ≤ (rl.Reset key).2.metrics.DeniedRequests
    rw [Reset_metrics]
    exact ⟨le_refl _, le_refl _, le_refl _⟩

/-- C22. Counters follow the verdict: on an open limiter configured with one of
the four algorithms, when the entry of the key deserializes, `AllowN(key, n)`
raises `TotalRequests` by exactly 1 and raises exactly one of `AllowedRequests`
(verdict true) and `DeniedRequests` (verdict false) by exactly 1, whatever `n`
is, and every entry that deserialized before the call does so after it; no
`AllowN`, `Check` or `Reset` on any limiter lowers a counter, and `Close` and
the cleanup tick leave the three counters as they are. -/
theorem counters_follow_verdict (rl : rateLimiter) (key : String) (n now : Int)
    (hopen : rl.closed = false)
    (halg : rl.config.Algorithm = TokenBucket ∨ rl.config.Algorithm = FixedWindow ∨
      rl.config.Algorithm = SlidingWindow ∨ rl.config.Algorithm = LeakyBucket)
    (hdec : entryDecodes rl key = true) :
    (rl.AllowN key n now).2.metrics.TotalRequests = rl.metrics.TotalRequests + 1 ∧
      (rl.AllowN key n now).2.metrics.AllowedRequests =
        rl.metrics.AllowedRequests + (if (rl.AllowN key n now).1 = true then 1 else 0) ∧
      (rl.AllowN key n now).2.metrics.DeniedRequests =
        rl.metrics.DeniedRequests + (if (rl.AllowN key n now).1 = true then 0 else 1) ∧
      (∀ k, entryDecodes rl k = true → entryDecodes (rl.AllowN key n now).2 k = true) ∧
      (∀ (any : rateLimiter) (op : Op),
        any.metrics.TotalRequests ≤ (any.step op).2.metrics.TotalRequests ∧
          any.metrics.AllowedRequests ≤ (any.step op).2.metrics.AllowedRequests ∧
          any.metrics.DeniedRequests ≤ (any.step op).2.metrics.DeniedRequests) ∧
      (∀ (any : rateLimiter) (t : Int),
        any.Close.2.metrics = any.metrics ∧
          (any.performCleanup t).metrics.TotalRequests = any.metrics.TotalRequests ∧
          (any.performCleanup t).metrics.AllowedRequests = any.metrics.AllowedRequests ∧
          (any.performCleanup t).metrics.DeniedRequests = any.metrics.DeniedRequests) := by
  have hm := AllowN_metrics_decodes rl key n now hopen halg hdec
  refine ⟨?_, ?_, ?_, fun k hk => entryDecodes_AllowN rl key n now k hk,
    fun any op => step_metrics_mono any op,
    fun any t => ⟨Close_metrics any, rfl, rfl, rfl⟩⟩
  · rw [hm]
    cases (rl.AllowN key n now).1 <;>
      simp [rateLimiter.updateMetrics, rateLimiter.countVerdict, rateLimiter.incAllowed,
        rateLimiter.incDenied]
  · rw [hm]
    cases (rl.AllowN key n now).1 <;>
      simp [rateLimiter.updateMetrics, rateLimiter.countVerdict, rateLimiter.incAllowed,
        rateLimiter.incDenied]
  · rw [hm]
    cases (rl.AllowN key n now).1 <;>
      simp [rateLimiter.updateMetrics, rateLimiter.countVerdict, rateLimiter.incAllowed,
        rateLimiter.incDenied]

theorem counters_follow_verdict_witness :
    drainedLimiter.closed = false ∧ entryDecodes drainedLimiter "test-user" = true ∧
      (drainedLimiter.AllowN "test-user" 1 5000000000).2.metrics.TotalRequests =
        drainedLimiter.metrics.TotalRequests + 1 ∧
      drainedLimiter.metrics.AllowedRequests = 5 ∧
      (drainedLimiter.AllowN "test-user" 1 5000000000).1 = false ∧
      (drainedLimiter.AllowN "test-user" 1 5000000000).2.metrics.AllowedRequests = 5 ∧
      (drainedLimiter.AllowN "test-user" 1 5000000000).2.metrics.DeniedRequests = 1 :=
  ⟨by decide!, by decide!,
    (counters_follow_verdict drainedLimiter "test-user" 1 5000000000 (by decide!)
      (Or.inl (by decide!)) (by decide!)).1,
    by decide!, by decide!, by decide!, by decide!⟩

/-! ## The TTL of persisted state -/

theorem consumeBucket_written (rl : rateLimiter) (key : String) (t : Int)
    (next : bucketData → Bool × bucketData) (hs : rl.storage.closed = false) (b : bucketData)
    (hb : (rl.getBucketData key t).1 = Except.ok b) :
    (consumeBucket rl key t next).2.storage.items.lookup key =
      some (memoryItem.mk (Bytes.bucketJSON (next b).2) (expiryAt rl.config t)) := by
  have g := getBucketData_snd rl key t
  have gc := Get_snd_closed rl.storage key t
  unfold consumeBucket
  rcases hg : rl.getBucketData key t with ⟨r, rl1⟩
  rw [hg] at g hb
  simp only at g hb
  subst hb
  have hs1 : rl1.storage.closed = false := by rw [g]; exact gc.trans hs
  have hc1 : rl1.config = rl.config := by rw [g]
  have hst : ((rl1.setBucketData key (next b).2 t).2.countVerdict (next b).1).storage =
      (rl1.storage.Set key (Bytes.bucketJSON (next b).2) (wrap64 (rl1.config.Window * 2)) t).2 := by
    cases (next b).1 <;> rfl
  simp only [hst]
  rw [Set_of_open _ _ _ _ _ hs1, hc1]
  exact lookup_mapInsert_self _ _ _

theorem consumeWindow_written (rl : rateLimiter) (key : String) (t : Int)
    (next : windowData → Bool × windowData) (hs : rl.storage.closed = false) (w : windowData)
    (hw : (rl.getWindowData key t).1 = Except.ok w) :
    (consumeWindow rl key t next).2.storage.items.lookup key =
      some (memoryItem.mk (Bytes.windowJSON (next w).2) (expiryAt rl.config t)) := by
  have g := getWindowData_snd rl key t
  have gc := Get_snd_closed rl.storage key t
  unfold consumeWindow
  rcases hg : rl.getWindowData key t with ⟨r, rl1⟩
  rw [hg] at g hw
  simp only at g hw
  subst hw
  have hs1 : rl1.storage.closed = false := by rw [g]; exact gc.trans hs
  have hc1 : rl1.config = rl.config := by rw [g]
  have hst : ((rl1.setWindowData key (next w).2 t).2.countVerdict (next w).1).storage =
      (rl1.storage.Set key (Bytes.windowJSON (next w).2) (wrap64 (rl1.config.Window * 2)) t).2 := by
    cases (next w).1 <;> rfl
  simp only [hst]
  rw [Set_of_open _ _ _ _ _ hs1, hc1]
  exact lookup_mapInsert_self _ _ _

/-- On an open limiter with an open storage, one of the four algorithms and an
entry that deserializes, `AllowN` leaves an entry whose expiry is `expiryAt`. -/
theorem AllowN_written (rl : rateLimiter) (key : String) (n now : Int)
    (hopen : rl.closed = false) (hs : rl.storage.closed = false)
    (halg : rl.config.Algorithm = TokenBucket ∨ rl.config.Algorithm = FixedWindow ∨
      rl.config.Algorithm = SlidingWindow ∨ rl.config.Algorithm = LeakyBucket)
    (hdec : entryDecodes rl key = true) :
    ∃ v, (rl.AllowN key n now).2.storage.items.lookup (rl.extractKey key) =
      some (memoryItem.mk v (expiryAt rl.config now)) := by
  have hd : ∀ item, rl.storage.items.lookup (rl.extractKey key) = some item →
      item.value.isCorrupt = false := by
    intro item hi
    unfold entryDecodes at hdec
    rw [hi] at hdec
    simpa using hdec
  obtain ⟨b, hb⟩ := getBucketData_decodes rl (rl.extractKey key) now hd
  obtain ⟨w, hw⟩ := getWindowData_decodes rl (rl.extractKey key) now hd
  unfold rateLimiter.AllowN
  rw [hopen]
  simp only [Bool.false_eq_true, if_false]
  split_ifs with h1 h2 h3 h4
  · rw [allowTokenBucket_def]
    exact ⟨_, consumeBucket_written rl _ now _ hs b hb⟩
  · rw [allowFixedWindow_def]
    exact ⟨_, consumeWindow_written rl _ now _ hs w hw⟩
  · rw [allowSlidingWindow_def]
    exact ⟨_, consumeWindow_written rl _ now _ hs w hw⟩
  · rw [allowLeakyBucket_def]
    exact ⟨_, consumeBucket_written rl _ now _ hs b hb⟩
  · rcases halg with h | h | h | h <;> contradiction

theorem wrap64_double (W : Int) (h1 : 0 < W) (h2 : W * 2 ≤ maxInt64) :
    wrap64 (W * 2) = 2 * W := by
  rw [wrap64_of_range _ (by unfold minInt64; omega) h2]
  ring

/-- C23 (counterexample). With a window of 5000000000 s the TTL that the write
passes is not `2 * window`: the product wraps to a negative `Duration`, and
the entry written by `Allow` at 1 s carries no expiry. -/
theorem persisted_ttl_counterexample :
    wrap64 (longWindowConfig.Window * 2) = -8446744073709551616 ∧
      wrap64 (longWindowConfig.Window * 2) ≠ 2 * longWindowConfig.Window ∧
      ((limiterOf longWindowConfig).setWindowData "test-user"
          { Count := 1, WindowStart := 0, Requests := [] } 1000000000).2.storage =
        (NewMemory.Set "test-user"
          (Bytes.windowJSON { Count := 1, WindowStart := 0, Requests := [] })
          (-8446744073709551616) 1000000000).2 ∧
      (((limiterOf longWindowConfig).Allow "test-user" 1000000000).2.storage.items.lookup
          "test-user").map (fun item => item.expiresAt) = some 0 := by
  refine ⟨by decide, by decide, rfl, by decide⟩

/-- C23 (amended). TTL of persisted state: `setBucketData` and `setWindowData`
pass the `Duration` product `window * 2` to the storage, which is exactly
`2 * window` when that fits a `Duration` (window at most about 146 years); then,
on an open limiter with an open storage, one of the four algorithms and an
entry that deserializes, the entry that `AllowN` leaves, admitted or denied,
expires at the call time plus `2 * window`. -/
theorem persisted_ttl (rl : rateLimiter) (key : String) (n now : Int) (b : bucketData)
    (w : windowData)
    (hW : 0 < rl.config.Window) (hW2 : rl.config.Window * 2 ≤ maxInt64)
    (hopen : rl.closed = false) (hs : rl.storage.closed = false)
    (halg : rl.config.Algorithm = TokenBucket ∨ rl.config.Algorithm = FixedWindow ∨
      rl.config.Algorithm = SlidingWindow ∨ rl.config.Algorithm = LeakyBucket)
    (hdec : entryDecodes rl key = true) :
    (rl.setBucketData key b now).2.storage =
        (rl.storage.Set key (Bytes.bucketJSON b) (2 * rl.config.Window) now).2 ∧
      (rl.setWindowData key w now).2.storage =
        (rl.storage.Set key (Bytes.windowJSON w) (2 * rl.config.Window) now).2 ∧
      ∃ v, (rl.AllowN key n now).2.storage.items.lookup (rl.extractKey key) =
        some (memoryItem.mk v (Time.Add now (2 * rl.config.Window))) := by
  have hd := wrap64_double rl.config.Window hW hW2
  refine ⟨?_, ?_, ?_⟩
  · unfold rateLimiter.setBucketData
    rw [hd]
  · unfold rateLimiter.setWindowData
    rw [hd]
  · obtain ⟨v, hv⟩ := AllowN_written rl key n now hopen hs halg hdec
    refine ⟨v, ?_⟩
    rw [hv]
    unfold expiryAt
    rw [hd, if_pos (by omega)]

theorem persisted_ttl_witness :
    (∃ v, ((limiterOf fixedWindowConfig).AllowN "test-user" 1 1000000000).2.storage.items.lookup
        ((limiterOf fixedWindowConfig).extractKey "test-user") =
      some (memoryItem.mk v (Time.Add 1000000000 (2 * (limiterOf fixedWindowConfig).config.Window)))) :=
  (persisted_ttl (limiterOf fixedWindowConfig) "test-user" 1 1000000000
    { Tokens := 0, LastRefill := 0 } { Count := 0, WindowStart := 0, Requests := [] }
    (by decide) (by decide) rfl rfl (Or.inr (Or.inl rfl)) rfl).2.2

/-! ## The in-memory storage: `Get` and `Set` -/

theorem Set_then_Get (ms : MemoryStorage) (key : String) (v : Bytes) (ttl s t : Int)
    (hopen : ms.closed = false) (hs : 0 ≤ s) :
    (ms.Set key v ttl s).2.Get key t =
      if 0 < ttl ∧ s + ttl < t then
        (Except.error StorageError.ErrKeyNotFound,
          { (ms.Set key v ttl s).2 with items := mapDelete key (ms.Set key v ttl s).2.items })
      else (Except.ok v, (ms.Set key v ttl s).2) := by
  have hl : (ms.Set key v ttl s).2.items.lookup key =
      some (memoryItem.mk v (if 0 < ttl then Time.Add s ttl else 0)) := by
    rw [Set_of_open _ _ _ _ _ hopen]
    exact lookup_mapInsert_self _ _ _
  have hc : (ms.Set key v ttl s).2.closed = false := (Set_snd_closed _ _ _ _ _).trans hopen
  by_cases h : 0 < ttl ∧ s + ttl < t
  · rw [if_pos h]
    refine Get_of_expired _ _ _ _ hc hl ?_
    unfold memoryItem.isExpired Time.IsZero Time.After Time.Add
    simp only [h.1, if_true, Bool.and_eq_true, Bool.not_eq_true', decide_eq_false_iff_not,
      decide_eq_true_eq]
    exact ⟨by omega, h.2⟩
  · rw [if_neg h]
    refine Get_of_live _ _ _ _ hc hl ?_
    unfold memoryItem.isExpired Time.IsZero Time.After Time.Add
    by_cases h1 : 0 < ttl
    · have h2 : ¬ s + ttl < t := fun h2 => h ⟨h1, h2⟩
      simp [h1, h2]
    · simp [h1]

/-- C24. In-memory storage `Get`/`Set` contract: on an open storage, `Get(key)`
at time `t` returns `ErrKeyNotFound` exactly when the key has no entry or its
entry is expired at `t`, and otherwise returns the value of the entry and
leaves the storage as it is; the entry of a key is the one of its most recent
`Set`, which made at a time `s` not before the zero time is expired at `t`
exactly when `ttl > 0` and `s + ttl < t`; a key never set or deleted has no
entry; `Set`, `Delete` and `Get` on another key leave the entry alone; and a
`Get` that finds an expired entry removes it from the map. -/
theorem storage_get_set (ms : MemoryStorage) (key : String) (v : Bytes) (ttl s t : Int)
    (hopen : ms.closed = false) (hs : 0 ≤ s) :
    ((ms.Get key t).1 = Except.error StorageError.ErrKeyNotFound ↔
        (ms.items.lookup key = none ∨
          ∃ item, ms.items.lookup key = some item ∧ item.isExpired t = true)) ∧
      (∀ item, ms.items.lookup key = some item → item.isExpired t = false →
        ms.Get key t = (Except.ok item.value, ms)) ∧
      ((ms.Set key v ttl s).2.Get key t).1 =
        (if 0 < ttl ∧ s + ttl < t then Except.error StorageError.ErrKeyNotFound
         else Except.ok v) ∧
      (NewMemory.Get key t).1 = Except.error StorageError.ErrKeyNotFound ∧
      ((ms.Delete key).2.Get key t).1 = Except.error StorageError.ErrKeyNotFound ∧
      (∀ other : String, other ≠ key → ∀ (v1 : Bytes) (ttl1 s1 : Int),
        (ms.Set other v1 ttl1 s1).2.items.lookup key = ms.items.lookup key ∧
          (ms.Delete other).2.items.lookup key = ms.items.lookup key ∧
          (ms.Get other s1).2.items.lookup key = ms.items.lookup key) ∧
      (∀ item, ms.items.lookup key = some item → item.isExpired t = true →
        (ms.Get key t).2.items.lookup key = none) ∧
      (0 < ttl → s + ttl < t → ((ms.Set key v ttl s).2.Get key t).2.items.lookup key = none) := by
  refine ⟨?_, ?_, ?_, ?_, ?_, ?_, ?_, ?_⟩
  · constructor
    · intro h
      cases hl : ms.items.lookup key with
      | none => exact Or.inl rfl
      | some item =>
        refine Or.inr ⟨item, rfl, ?_⟩
        by_contra he
        rw [Get_of_live ms key t item hopen hl (by simpa using he)] at h
        cases h
    · rintro (h | ⟨item, h, he⟩)
      · rw [Get_of_lookup_none ms key t hopen h]
      · rw [Get_of_expired ms key t item hopen h he]
  · intro item hl he
    exact Get_of_live ms key t item hopen hl he
  · rw [Set_then_Get ms key v ttl s t hopen hs]
    split_ifs <;> rfl
  · rfl
  · have hc : (ms.Delete key).2.closed = false := (Delete_snd_closed _ _).trans hopen
    have hl : (ms.Delete key).2.items.lookup key = none := by
      unfold MemoryStorage.Delete
      rw [hopen]
      exact lookup_mapDelete_self _ _
    rw [Get_of_lookup_none _ key t hc hl]
  · intro other ho v1 ttl1 s1
    exact ⟨Set_snd_lookup_ne ms other key v1 ttl1 s1 ho.symm,
      Delete_snd_lookup_ne ms other key ho.symm, Get_snd_lookup_ne ms other key s1 ho.symm⟩
  · intro item hl he
    rw [Get_of_expired ms key t item hopen hl he]
    exact lookup_mapDelete_self _ _
  · intro h1 h2
    rw [Set_then_Get ms key v ttl s t hopen hs, if_pos ⟨h1, h2⟩]
    exact lookup_mapDelete_self _ _

theorem storage_get_set_witness :
    ((NewMemory.Set "k" Bytes.corrupt 2000000000 1000000000).2.Get "k" 3000000000).1 =
        Except.ok Bytes.corrupt ∧
      ((NewMemory.Set "k" Bytes.corrupt 2000000000 1000000000).2.Get "k" 3000000001).1 =
        Except.error StorageError.ErrKeyNotFound :=
  ⟨(storage_get_set NewMemory "k" Bytes.corrupt 2000000000 1000000000 3000000000 rfl
      (by decide)).2.2.1,
    (storage_get_set NewMemory "k" Bytes.corrupt 2000000000 1000000000 3000000001 rfl
      (by decide)).2.2.1⟩

/-! ## The in-memory storage: `Close` -/

/-- C25. In-memory storage close: `Close` returns nil on every storage and
leaves it closed; a second `Close` returns nil and changes nothing; on the
closed storage `Get`, `Set`, `Delete` and `Exists` return `ErrStorageClosed`
with no data and leave the storage as it is, and `Size` is 0. -/
theorem storage_close (ms : MemoryStorage) (key : String) (v : Bytes) (ttl t : Int) :
    ms.Close.1 = none ∧ ms.Close.2.closed = true ∧
      ms.Close.2.Close = (none, ms.Close.2) ∧
      ms.Close.2.Get key t = (Except.error StorageError.ErrStorageClosed, ms.Close.2) ∧
      ms.Close.2.Set key v ttl t = (some StorageError.ErrStorageClosed, ms.Close.2) ∧
      ms.Close.2.Delete key = (some StorageError.ErrStorageClosed, ms.Close.2) ∧
      ms.Close.2.Exists key t = ((false, some StorageError.ErrStorageClosed), ms.Close.2) ∧
      ms.Close.2.Size = 0 := by
  have hc : ms.Close.2.closed = true := by
    unfold MemoryStorage.Close
    cases h : ms.closed <;> simp [h]
  refine ⟨?_, hc, ?_, ?_, ?_, ?_, ?_, ?_⟩
  · unfold MemoryStorage.Close
    split_ifs <;> rfl
  · generalize ms.Close.2 = m at hc
    simp [MemoryStorage.Close, hc]
  · generalize ms.Close.2 = m at hc
    simp [MemoryStorage.Get, hc]
  · generalize ms.Close.2 = m at hc
    simp [MemoryStorage.Set, hc]
  · generalize ms.Close.2 = m at hc
    simp [MemoryStorage.Delete, hc]
  · generalize ms.Close.2 = m at hc
    simp [MemoryStorage.Exists, hc]
  · generalize ms.Close.2 = m at hc
    simp [MemoryStorage.Size, hc]

/-! ## `Check`: no wait when allowed -/

theorem peekBucket_fst (rl : rateLimiter) (key : String) (t : Int)
    (report : bucketData → Result) :
    (peekBucket rl key t report).1 = Result.denied ∨
      ∃ b, (peekBucket rl key t report).1 = report b := by
  unfold peekBucket
  rcases rl.getBucketData key t with ⟨r, rl1⟩
  cases r with
  | error e => exact Or.inl rfl
  | ok b => exact Or.inr ⟨b, rfl⟩

theorem peekWindow_fst (rl : rateLimiter) (key : String) (t : Int)
    (report : windowData → Result) :
    (peekWindow rl key t report).1 = Result.denied ∨
      ∃ w, (peekWindow rl key t report).1 = report w := by
  unfold peekWindow
  rcases rl.getWindowData key t with ⟨r, rl1⟩
  cases r with
  | error e => exact Or.inl rfl
  | ok w => exact Or.inr ⟨w, rfl⟩

theorem tokenBucketReport_allowed (cfg : Config) (now : Int) (b : bucketData)
    (h : (tokenBucketReport cfg now b).Allowed = true) :
    (tokenBucketReport cfg now b).RetryAfter = 0 := by
  unfold tokenBucketReport at h ⊢
  simp only [decide_eq_true_eq] at h
  simp only
  rw [if_neg (not_lt.mpr h)]

theorem leakyBucketReport_allowed (cfg : Config) (now : Int) (b : bucketData)
    (h : (leakyBucketReport cfg now b).Allowed = true) :
    (leakyBucketReport cfg now b).RetryAfter = 0 := by
  unfold leakyBucketReport at h ⊢
  simp only [decide_eq_true_eq] at h
  simp only
  rw [if_neg (not_lt.mpr h)]

theorem fixedWindowReport_allowed (cfg : Config) (now : Int) (w : windowData)
    (h : (fixedWindowReport cfg now w).Allowed = true) :
    (fixedWindowReport cfg now w).RetryAfter = 0 := by
  unfold fixedWindowReport at h ⊢
  simp only [decide_eq_true_eq] at h
  simp only
  rw [if_neg (not_le.mpr h)]

theorem slidingWindowReport_allowed (cfg : Config) (now : Int) (w : windowData)
    (h : (slidingWindowReport cfg now w).Allowed = true) :
    (slidingWindowReport cfg now w).RetryAfter = 0 := by
  unfold slidingWindowReport at h ⊢
  simp only [decide_eq_true_eq] at h
  simp only
  rw [if_neg (fun h1 => absurd h1.1 (not_le.mpr h))]

/-- C27. `RetryAfter` is zero when allowed: for every limiter, whatever its
algorithm and stored state, every key and every time, a `Check` that returns
`Allowed = true` returns `RetryAfter = 0`. -/
theorem retryAfter_zero_when_allowed (rl : rateLimiter) (key : String) (now : Int)
    (h : (rl.Check key now).1.Allowed = true) : (rl.Check key now).1.RetryAfter = 0 := by
  unfold rateLimiter.Check at h ⊢
  split_ifs at h ⊢
  · rfl
  · dsimp only at h ⊢
    rw [checkTokenBucket_def] at h ⊢
    rcases peekBucket_fst rl (rl.extractKey key) now (tokenBucketReport rl.config now)
      with e | ⟨b, e⟩
    · rw [e]
      rfl
    · rw [e] at h ⊢
      exact tokenBucketReport_allowed _ _ _ h
  · dsimp only at h ⊢
    rw [checkFixedWindow_def] at h ⊢
    rcases peekWindow_fst rl (rl.extractKey key) now (fixedWindowReport rl.config now)
      with e | ⟨w, e⟩
    · rw [e]
      rfl
    · rw [e] at h ⊢
      exact fixedWindowReport_allowed _ _ _ h
  · dsimp only at h ⊢
    rw [checkSlidingWindow_def] at h ⊢
    rcases peekWindow_fst rl (rl.extractKey key) now (slidingWindowReport rl.config now)
      with e | ⟨w, e⟩
    · rw [e]
      rfl
    · rw [e] at h ⊢
      exact slidingWindowReport_allowed _ _ _ h
  · dsimp only at h ⊢
    rw [checkLeakyBucket_def] at h ⊢
    rcases peekBucket_fst rl (rl.extractKey key) now (leakyBucketReport rl.config now)
      with e | ⟨b, e⟩
    · rw [e]
      rfl
    · rw [e] at h ⊢
      exact leakyBucketReport_allowed _ _ _ h
  · rfl

theorem retryAfter_zero_when_allowed_witness :
    (usedLimiter.Check "test-user" 1500000000).1.Allowed = true ∧
      (usedLimiter.Check "test-user" 1500000000).1.RetryAfter = 0 :=
  ⟨by decide, retryAfter_zero_when_allowed usedLimiter "test-user" 1500000000 (by decide)⟩

/-! ## The in-memory storage: the sweep -/

theorem Cleanup_fold (t : Int) (l : List (String × memoryItem)) :
    ∀ (c : Nat) (acc : List (String × memoryItem)),
      l.foldl
          (fun (acc : Nat × List (String × memoryItem)) (p : String × memoryItem) =>
            if !Time.IsZero p.2.expiresAt && Time.After t p.2.expiresAt then
              (acc.1 + 1, mapDelete p.1 acc.2)
            else acc)
          (c, acc) =
        (c + (l.filter (fun p => p.2.isExpired t)).length,
          acc.filter (fun q =>
            !((l.filter (fun p => p.2.isExpired t)).map Prod.fst).contains q.1)) := by
  induction l with
  | nil =>
    intro c acc
    simp
  | cons p l ih =>
    intro c acc
    rw [List.foldl_cons]
    by_cases he : p.2.isExpired t = true
    · have he1 : (!Time.IsZero p.2.expiresAt && Time.After t p.2.expiresAt) = true := he
      rw [if_pos he1, ih]
      simp only [List.filter_cons, he, if_true, List.length_cons, List.map_cons, mapDelete,
        List.filter_filter, Prod.mk.injEq]
      refine ⟨by omega, List.filter_congr ?_⟩
      intro q _
      simp [List.contains_cons, Bool.and_comm]
    · have he1 : ¬ (!Time.IsZero p.2.expiresAt && Time.After t p.2.expiresAt) = true := he
      rw [if_neg he1, ih]
      simp only [List.filter_cons, he, if_false, Bool.false_eq_true]

theorem nodup_keys_eq {l : List (String × memoryItem)} (hnd : (l.map Prod.fst).Nodup)
    {p q : String × memoryItem} (hp : p ∈ l) (hq : q ∈ l) (h : p.1 = q.1) : p = q :=
  List.inj_on_of_nodup_map hnd hp hq h

theorem Cleanup_items (ms : MemoryStorage) (t : Int) (hopen : ms.closed = false)
    (hnd : (ms.items.map Prod.fst).Nodup) :
    ms.Cleanup t =
      ((ms.items.filter (fun p => p.2.isExpired t)).length,
        { ms with items := ms.items.filter (fun p => !p.2.isExpired t) }) := by
  unfold MemoryStorage.Cleanup
  rw [hopen]
  simp only [Bool.false_eq_true, if_false]
  rw [Cleanup_fold]
  simp only [Nat.zero_add, Prod.mk.injEq, true_and]
  congr 1
  apply List.filter_congr
  intro q hq
  congr 1
  rw [Bool.eq_iff_iff]
  rw [List.contains_iff_exists_mem_beq]
  simp only [beq_iff_eq, List.mem_map, List.mem_filter]
  constructor
  · rintro ⟨k, ⟨p, ⟨hp, he⟩, hk⟩, hk1⟩
    rw [← nodup_keys_eq hnd hp hq (hk.trans hk1.symm)]
    exact he
  · intro he
    exact ⟨q.1, ⟨q, ⟨hq, he⟩, rfl⟩, rfl⟩

theorem lookup_eq_none_of_not_mem (key : String) (l : List (String × memoryItem))
    (h : key ∉ l.map Prod.fst) : l.lookup key = none := by
  induction l with
  | nil => rfl
  | cons p l ih =>
    obtain ⟨k, v⟩ := p
    simp only [List.map_cons, List.mem_cons, not_or] at h
    have hb : (key == k) = false := by simpa using h.1
    simp only [List.lookup, hb]
    exact ih h.2

theorem lookup_filter_live (key : String) (t : Int) (l : List (String × memoryItem))
    (hnd : (l.map Prod.fst).Nodup) :
    (l.filter (fun p => !p.2.isExpired t)).lookup key =
      (l.lookup key).filter (fun item => !item.isExpired t) := by
  induction l with
  | nil => rfl
  | cons p l ih =>
    obtain ⟨k, v⟩ := p
    rw [List.map_cons, List.nodup_cons] at hnd
    by_cases hk : key = k
    · subst hk
      have hb : (key == key) = true := by simp
      by_cases he : v.isExpired t = true
      · have hnot : key ∉ (l.filter (fun p => !p.2.isExpired t)).map Prod.fst := by
          intro hm
          rw [List.mem_map] at hm
          obtain ⟨q, hq, hq1⟩ := hm
          exact hnd.1 (List.mem_map.mpr ⟨q, (List.mem_filter.mp hq).1, hq1⟩)
        simp only [List.filter_cons, he, Bool.not_true, Bool.false_eq_true, if_false,
          List.lookup, hb, Option.filter]
        exact lookup_eq_none_of_not_mem _ _ hnot
      · have he1 : v.isExpired t = false := by simpa using he
        simp [List.filter_cons, he1, List.lookup, Option.filter]
    · have hb : (key == k) = false := by simpa using hk
      by_cases he : v.isExpired t = true
      · simp only [List.filter_cons, he, Bool.not_true, Bool.false_eq_true, if_false,
          List.lookup, hb]
        exact ih hnd.2
      · have he1 : v.isExpired t = false := by simpa using he
        simp only [List.filter_cons, he1, Bool.not_false, if_true, List.lookup, hb]
        exact ih hnd.2

theorem nodup_mapDelete (key : String) (l : List (String × memoryItem))
    (hnd : (l.map Prod.fst).Nodup) : ((mapDelete key l).map Prod.fst).Nodup :=
  List.Nodup.sublist (List.Sublist.map _ (List.filter_sublist _)) hnd

theorem nodup_mapInsert (key : String) (item : memoryItem) (l : List (String × memoryItem))
    (hnd : (l.map Prod.fst).Nodup) : ((mapInsert key item l).map Prod.fst).Nodup := by
  unfold mapInsert
  rw [List.map_cons, List.nodup_cons]
  refine ⟨?_, nodup_mapDelete key l hnd⟩
  intro hm
  rw [List.mem_map] at hm
  obtain ⟨q, hq, hq1⟩ := hm
  unfold mapDelete at hq
  have := (List.mem_filter.mp hq).2
  simp [hq1] at this

/-- The map of a storage holds each key once: true of `NewMemory` and kept by
`Set`, `Delete` and `Get`. -/
theorem nodup_keys_kept (ms : MemoryStorage) (hnd : (ms.items.map Prod.fst).Nodup)
    (key : String) (v : Bytes) (ttl s : Int) :
    (NewMemory.items.map Prod.fst).Nodup ∧
      ((ms.Set key v ttl s).2.items.map Prod.fst).Nodup ∧
      ((ms.Delete key).2.items.map Prod.fst).Nodup ∧
      ((ms.Get key s).2.items.map Prod.fst).Nodup := by
  refine ⟨List.nodup_nil, ?_, ?_, ?_⟩
  · unfold MemoryStorage.Set
    by_cases hc : ms.closed = true
    · rw [if_pos hc]
      exact hnd
    · rw [if_neg hc]
      exact nodup_mapInsert _ _ _ hnd
  · unfold MemoryStorage.Delete
    split_ifs
    · exact hnd
    · exact nodup_mapDelete _ _ hnd
  · unfold MemoryStorage.Get
    split_ifs
    · exact hnd
    · split
      · exact hnd
      · split_ifs
        · exact nodup_mapDelete _ _ hnd
        · exact hnd

/-- C26. In-memory storage sweep: on an open storage whose map holds each key
once, `Cleanup` at time `t` removes exactly the entries expired at `t`, leaves
every other entry as it is, and returns the number removed, so that `Size`
after the call plus the returned count is `Size` before it; the storage stays
open and its map still holds each key once, as it does after `Set`, `Delete` and
`Get`. -/
theorem storage_cleanup (ms : MemoryStorage) (t : Int) (hopen : ms.closed = false)
    (hnd : (ms.items.map Prod.fst).Nodup) :
    (∀ key : String,
        (ms.Cleanup t).2.items.lookup key =
          (ms.items.lookup key).filter (fun item => !item.isExpired t)) ∧
      (ms.Cleanup t).2.items = ms.items.filter (fun p => !p.2.isExpired t) ∧
      (ms.Cleanup t).1 = (ms.items.filter (fun p => p.2.isExpired t)).length ∧
      (ms.Cleanup t).2.Size + (ms.Cleanup t).1 = ms.Size ∧
      (ms.Cleanup t).2.Size = ms.Size - (ms.Cleanup t).1 ∧
      (ms.Cleanup t).2.closed = false ∧
      ((ms.Cleanup t).2.items.map Prod.fst).Nodup ∧
      (∀ (key : String) (v : Bytes) (ttl s : Int),
        ((ms.Set key v ttl s).2.items.map Prod.fst).Nodup ∧
          ((ms.Delete key).2.items.map Prod.fst).Nodup ∧
          ((ms.Get key s).2.items.map Prod.fst).Nodup) := by
  rw [Cleanup_items ms t hopen hnd]
  have hsize : (ms.items.filter (fun p => !p.2.isExpired t)).length +
      (ms.items.filter (fun p => p.2.isExpired t)).length = ms.items.length := by
    have := List.length_eq_length_filter_add (l := ms.items) (fun p => p.2.isExpired t)
    omega
  refine ⟨fun key => lookup_filter_live key t ms.items hnd, rfl, rfl, ?_, ?_, hopen, ?_,
    fun key v ttl s => (nodup_keys_kept ms hnd key v ttl s).2⟩
  · simp only [MemoryStorage.Size, hopen, Bool.false_eq_true, if_false]
    exact hsize
  · simp only [MemoryStorage.Size, hopen, Bool.false_eq_true, if_false]
    omega
  · exact (List.Nodup.sublist (List.Sublist.map _ (List.filter_sublist _)) hnd)

theorem storage_cleanup_witness :
    (twoEntryStorage.Cleanup 10000000000).1 = 1 ∧
      (twoEntryStorage.Cleanup 10000000000).2.Size + (twoEntryStorage.Cleanup 10000000000).1 =
        twoEntryStorage.Size :=
  ⟨by decide,
    (storage_cleanup twoEntryStorage 10000000000 rfl (by decide)).2.2.2.1⟩

/-! ## Sliding Window: the wait that `Check` reports -/

theorem WindowInv.inv_mono {rl : rateLimiter} {k : String} {s t : Int} (h : WindowInv rl k s)
    (hst : s ≤ t) : WindowInv rl k t := by
  intro item hi
  obtain ⟨w, h1, h2, h3⟩ := h item hi
  exact ⟨w, h1, h2, fun x hx => le_trans (h3 x hx) hst⟩

/-- What `getWindowData` loads when the entry satisfies `WindowInv`: the empty
window or the stored one. -/
theorem getWindowData_of_inv (rl : rateLimiter) (k : String) (s t : Int)
    (hR : 0 ≤ rl.config.Rate) (h : WindowInv rl k s) :
    ∃ w, (rl.getWindowData k t).1 = Except.ok w ∧
      (w.Requests.length : Int) ≤ rl.config.Rate ∧ (∀ x ∈ w.Requests, x ≤ s) ∧
      (w.Requests = [] ∨ storedWindow rl k = some w) := by
  rw [getWindowData_fst, Get_fst_eq]
  by_cases hc : rl.storage.closed = true
  · rw [if_pos hc]
    exact ⟨_, rfl, by simpa using hR, by simp, Or.inl rfl⟩
  · rw [if_neg hc]
    cases hl : liveEntry rl.storage k t with
    | none => exact ⟨_, rfl, by simpa using hR, by simp, Or.inl rfl⟩
    | some item =>
      have hlk : rl.storage.items.lookup k = some item := by
        unfold liveEntry at hl
        cases hlk : rl.storage.items.lookup k with
        | none =>
          rw [hlk] at hl
          simp [Option.filter] at hl
        | some it =>
          rw [hlk] at hl
          simp only [Option.filter] at hl
          split_ifs at hl
          exact hl
      obtain ⟨w, h1, h2, h3⟩ := h item hlk
      refine ⟨w, ?_, h2, h3, Or.inr ?_⟩
      · simp only [h1, unmarshalWindow]
      · unfold storedWindow
        rw [hlk]
        simp only [h1]

theorem consumeWindow_of_ok (rl : rateLimiter) (key : String) (t : Int)
    (next : windowData → Bool × windowData) (w : windowData)
    (hw : (rl.getWindowData key t).1 = Except.ok w) :
    (consumeWindow rl key t next).1 = (next w).1 := by
  unfold consumeWindow
  rcases hg : rl.getWindowData key t with ⟨r, rl1⟩
  rw [hg] at hw
  simp only at hw
  subst hw
  rfl

theorem peekWindow_of_ok (rl : rateLimiter) (key : String) (t : Int)
    (report : windowData → Result) (w : windowData)
    (hw : (rl.getWindowData key t).1 = Except.ok w) :
    (peekWindow rl key t report).1 = report w := by
  unfold peekWindow
  rcases hg : rl.getWindowData key t with ⟨r, rl1⟩
  rw [hg] at hw
  simp only at hw
  subst hw
  rfl

/-- The entry of the key after a consume path: gone, untouched, or the window
computed from the loaded one. -/
theorem consumeWindow_entry_cases (rl : rateLimiter) (key : String) (t : Int)
    (next : windowData → Bool × windowData) :
    (consumeWindow rl key t next).2.storage.items.lookup key = none ∨
      (consumeWindow rl key t next).2.storage.items.lookup key = rl.storage.items.lookup key ∨
      ∃ w e, (rl.getWindowData key t).1 = Except.ok w ∧
        (consumeWindow rl key t next).2.storage.items.lookup key =
          some (memoryItem.mk (Bytes.windowJSON (next w).2) e) := by
  have g : (rl.getWindowData key t).2.storage.items.lookup key = none ∨
      (rl.getWindowData key t).2.storage.items.lookup key = rl.storage.items.lookup key := by
    rw [getWindowData_snd]
    rcases Get_snd_lookup_self rl.storage key t with h | h
    · exact Or.inr h
    · exact Or.inl h.1
  unfold consumeWindow
  rcases hg : rl.getWindowData key t with ⟨r, rl1⟩
  rw [hg] at g
  simp only at g
  cases r with
  | error e =>
    rcases g with g | g
    · exact Or.inl g
    · exact Or.inr (Or.inl g)
  | ok w =>
    have hs : ((rl1.setWindowData key (next w).2 t).2.countVerdict (next w).1).storage =
        (rl1.storage.Set key (Bytes.windowJSON (next w).2) (wrap64 (rl1.config.Window * 2)) t).2 := by
      cases (next w).1 <;> rfl
    simp only [hs]
    rcases Set_snd_lookup_self rl1.storage key (Bytes.windowJSON (next w).2)
      (wrap64 (rl1.config.Window * 2)) t with h | ⟨e, h⟩
    · rw [h]
      rcases g with g | g
      · exact Or.inl g
      · exact Or.inr (Or.inl g)
    · exact Or.inr (Or.inr ⟨w, e, rfl, h⟩)

theorem prunedRequests_length_le (cfg : Config) (w : windowData) (t : Int) :
    (prunedRequests cfg w t).length ≤ w.Requests.length := by
  unfold prunedRequests
  exact List.length_filter_le _ _

/-- The window that `Allow` persists keeps the two bounds. -/
theorem slidingWindowNext_inv (cfg : Config) (w : windowData) (s t : Int)
    (hR : cfg.Rate < maxInt64) (hlen : (w.Requests.length : Int) ≤ cfg.Rate)
    (hst : s ≤ t) (hx : ∀ x ∈ w.Requests, x ≤ s) :
    ((slidingWindowNext cfg 1 t w).2.Requests.length : Int) ≤ cfg.Rate ∧
      ∀ x ∈ (slidingWindowNext cfg 1 t w).2.Requests, x ≤ t := by
  have hp := prunedRequests_length_le cfg w t
  have hpx : ∀ x ∈ prunedRequests cfg w t, x ≤ t := fun x hx1 =>
    le_trans (hx x ((mem_prunedRequests cfg w t x).mp hx1).1) hst
  unfold slidingWindowNext
  by_cases hv : wrap64 (((prunedRequests cfg w t).length : Int) + 1) ≤ cfg.Rate
  · simp only [hv, if_true]
    have hw : wrap64 (((prunedRequests cfg w t).length : Int) + 1) =
        ((prunedRequests cfg w t).length : Int) + 1 := by
      apply wrap64_of_range
      · unfold minInt64
        omega
      · omega
    rw [hw] at hv
    constructor
    · rw [List.length_append]
      simp only [Int.toNat_one, List.length_replicate]
      push_cast
      exact hv
    · intro x hx1
      rw [List.mem_append] at hx1
      rcases hx1 with hx1 | hx1
      · exact hpx x hx1
      · rw [List.eq_of_mem_replicate hx1]
  · simp only [hv, if_false]
    exact ⟨by omega, hpx⟩

theorem Allow_slidingWindow_inv (rl : rateLimiter) (key : String) (s t : Int)
    (halg : rl.config.Algorithm = SlidingWindow) (hR0 : 0 ≤ rl.config.Rate)
    (hR : rl.config.Rate < maxInt64) (hst : s ≤ t)
    (h : WindowInv rl (rl.extractKey key) s) :
    WindowInv (rl.Allow key t).2 (rl.extractKey key) t := by
  have hcfg : (rl.Allow key t).2.config = rl.config := (Frame.frame_of_AllowN rl key 1 t).1
  unfold rateLimiter.Allow at hcfg ⊢
  by_cases hcl : rl.closed = true
  · have : rl.AllowN key 1 t = (false, rl) := by simp [rateLimiter.AllowN, hcl]
    rw [this]
    exact h.inv_mono hst
  · have hcl1 : rl.closed = false := by simpa using hcl
    intro item hi
    rw [hcfg]
    rw [AllowN_eq_slidingWindow rl key 1 t hcl1 halg, allowSlidingWindow_def] at hi
    simp only [updateMetrics_storage] at hi
    rcases consumeWindow_entry_cases rl (rl.extractKey key) t
      (slidingWindowNext rl.config 1 t) with e | e | ⟨w, e1, hw, e⟩
    · rw [e] at hi
      cases hi
    · rw [e] at hi
      exact (h.inv_mono hst) item hi
    · rw [e] at hi
      injection hi with hi
      subst hi
      obtain ⟨w1, hw1, hlen, hx, _⟩ := getWindowData_of_inv rl (rl.extractKey key) s t hR0 h
      rw [hw] at hw1
      injection hw1 with hw1
      subst hw1
      have := slidingWindowNext_inv rl.config w s t hR hlen hst hx
      exact ⟨_, rfl, this.1, this.2⟩

theorem allowAt_slidingWindow_inv (key : String) (ts : List Int) :
    ∀ (rl : rateLimiter) (s : Int), rl.config.Algorithm = SlidingWindow →
      0 ≤ rl.config.Rate → rl.config.Rate < maxInt64 →
      WindowInv rl (rl.extractKey key) s → List.Chain (fun a b => a ≤ b) s ts →
      ∀ t, s ≤ t → (∀ x ∈ ts, x ≤ t) →
        (allowAt rl key ts).2.config = rl.config ∧
          (allowAt rl key ts).2.closed = rl.closed ∧
          WindowInv (allowAt rl key ts).2 (rl.extractKey key) t := by
  induction ts with
  | nil =>
    intro rl s _ _ _ h _ t hst _
    exact ⟨rfl, rfl, h.inv_mono hst⟩
  | cons a ts ih =>
    intro rl s halg hR0 hR h hch t hst hts
    rw [List.chain_cons] at hch
    have f := Frame.frame_of_AllowN rl key 1 a
    have hk : (rl.AllowN key 1 a).2.extractKey key = rl.extractKey key :=
      extractKey_congr rl _ f.1 key
    have hinv : WindowInv (rl.AllowN key 1 a).2 ((rl.AllowN key 1 a).2.extractKey key) a := by
      rw [hk]
      exact Allow_slidingWindow_inv rl key s a halg hR0 hR hch.1 h
    have := ih (rl.AllowN key 1 a).2 a (by rw [f.1]; exact halg) (by rw [f.1]; exact hR0)
      (by rw [f.1]; exact hR) hinv hch.2 t (hts a (List.mem_cons_self _ _))
      (fun x hx => hts x (List.mem_cons_of_mem _ hx))
    rw [allowAt_cons_snd]
    rw [hk] at this
    exact ⟨this.1.trans f.1, this.2.1.trans f.2.1, this.2.2⟩
theorem scanRequests_fst (ws : Int) (l : List Int) :
    ∀ (c o : Int), (scanRequests ws l (c, o)).1 =
      c + ((l.filter (fun x => Time.After x ws)).length : Int) := by
  induction l with
  | nil =>
    intro c o
    simp [scanRequests]
  | cons a l ih =>
    intro c o
    unfold scanRequests
    by_cases ha : Time.After a ws = true
    · rw [if_pos ha, ih, List.filter_cons, if_pos ha, List.length_cons]
      push_cast
      ring
    · rw [if_neg ha, ih, List.filter_cons, if_neg ha]

theorem scanRequests_snd_le (ws : Int) (l : List Int) :
    ∀ (c o : Int), (scanRequests ws l (c, o)).2 ≤ o ∧
      ∀ x ∈ l, Time.After x ws = true → (scanRequests ws l (c, o)).2 ≤ x := by
  induction l with
  | nil =>
    intro c o
    simp [scanRequests]
  | cons a l ih =>
    intro c o
    unfold scanRequests
    by_cases ha : Time.After a ws = true
    · rw [if_pos ha]
      obtain ⟨h1, h2⟩ := ih (c + 1) (if Time.Before a o then a else o)
      have hm : (if Time.Before a o = true then a else o) ≤ o ∧
          (if Time.Before a o = true then a else o) ≤ a := by
        unfold Time.Before
        by_cases hb : a < o
        · simp only [hb, decide_True, if_true]
          omega
        · simp only [hb, decide_False, Bool.false_eq_true, if_false]
          omega
      refine ⟨le_trans h1 hm.1, ?_⟩
      intro x hx hxa
      rw [List.mem_cons] at hx
      rcases hx with hx | hx
      · rw [hx]
        exact le_trans h1 hm.2
      · exact h2 x hx hxa
    · rw [if_neg ha]
      obtain ⟨h1, h2⟩ := ih c o
      refine ⟨h1, ?_⟩
      intro x hx hxa
      rw [List.mem_cons] at hx
      rcases hx with hx | hx
      · rw [hx] at hxa
        exact absurd hxa ha
      · exact h2 x hx hxa

theorem scanRequests_snd_mem (ws : Int) (l : List Int) :
    ∀ (c o : Int), (scanRequests ws l (c, o)).2 = o ∨
      ((scanRequests ws l (c, o)).2 ∈ l ∧
        Time.After (scanRequests ws l (c, o)).2 ws = true) := by
  induction l with
  | nil =>
    intro c o
    simp [scanRequests]
  | cons a l ih =>
    intro c o
    unfold scanRequests
    by_cases ha : Time.After a ws = true
    · rw [if_pos ha]
      rcases ih (c + 1) (if Time.Before a o then a else o) with h | h
      · rw [h]
        by_cases hb : Time.Before a o = true
        · rw [if_pos hb]
          exact Or.inr ⟨List.mem_cons_self _ _, ha⟩
        · rw [if_neg hb]
          exact Or.inl rfl
      · exact Or.inr ⟨List.mem_cons_of_mem _ h.1, h.2⟩
    · rw [if_neg ha]
      rcases ih c o with h | h
      · exact Or.inl h
      · exact Or.inr ⟨List.mem_cons_of_mem _ h.1, h.2⟩

/-- The scan of `checkSlidingWindow` over a list with no timestamp later than
`t`: the count of the timestamps inside the window and, when there is one, the
earliest of them. -/
theorem scanRequests_oldest (ws t : Int) (l : List Int) (hl : ∀ x ∈ l, x ≤ t)
    (hne : 0 < (scanRequests ws l (0, t)).1) :
    (scanRequests ws l (0, t)).2 ∈ l ∧ ws < (scanRequests ws l (0, t)).2 ∧
      ∀ x ∈ l, ws < x → (scanRequests ws l (0, t)).2 ≤ x := by
  have hle := scanRequests_snd_le ws l 0 t
  have hall : ∀ x ∈ l, ws < x → (scanRequests ws l (0, t)).2 ≤ x := by
    intro x hx hxw
    exact hle.2 x hx (by unfold Time.After; exact decide_eq_true hxw)
  rw [scanRequests_fst] at hne
  have hpos : 0 < (l.filter (fun x => Time.After x ws)).length := by omega
  obtain ⟨y, hy⟩ := List.exists_mem_of_length_pos hpos
  rw [List.mem_filter] at hy
  have hyw : ws < y := by
    have := hy.2
    unfold Time.After at this
    exact of_decide_eq_true this
  rcases scanRequests_snd_mem ws l 0 t with h | h
  · have h1 : (scanRequests ws l (0, t)).2 ≤ y := hall y hy.1 hyw
    have h2 : y ≤ t := hl y hy.1
    have h3 : y = (scanRequests ws l (0, t)).2 := by omega
    rw [← h3]
    exact ⟨hy.1, hyw, fun x hx hxw => h3 ▸ hall x hx hxw⟩
  · refine ⟨h.1, ?_, hall⟩
    have := h.2
    unfold Time.After at this
    exact of_decide_eq_true this
theorem Check_eq_slidingWindow (rl : rateLimiter) (key : String) (now : Int)
    (hcl : rl.closed = false) (halg : rl.config.Algorithm = SlidingWindow) :
    rl.Check key now = rl.checkSlidingWindow (rl.extractKey key) now := by
  simp [rateLimiter.Check, hcl, halg]

/-- The timestamps later than the earliest one inside the window are fewer than
those inside the window. -/
theorem filter_after_oldest (l : List Int) (ws oldest : Int) (hmem : oldest ∈ l)
    (hws : ws < oldest) :
    (l.filter (fun x => Time.After x oldest)).length <
      (l.filter (fun x => Time.After x ws)).length := by
  have he : l.filter (fun x => Time.After x oldest) =
      (l.filter (fun x => Time.After x ws)).filter (fun x => Time.After x oldest) := by
    rw [List.filter_filter]
    apply List.filter_congr
    intro x _
    unfold Time.After
    by_cases h : oldest < x
    · have h1 : ws < x := by omega
      simp [h, h1]
    · simp [h]
  rw [he, List.length_filter_lt_length_iff_exists]
  refine ⟨oldest, List.mem_filter.mpr ⟨hmem, ?_⟩, ?_⟩
  · unfold Time.After
    exact decide_eq_true hws
  · unfold Time.After
    simp

/-- C30. Sliding Window `RetryAfter`: on a limiter built by `New` with the
Sliding Window algorithm (rate below the largest `int64`), after `Allow` calls
on a fresh key at times that never go back, when a `Check` at a time `t` not
before them finds the window exhausted (`Allowed = false`), the stored list has
an earliest timestamp `oldest` inside the window `(t - window, t]`, `Check`
returns `RetryAfter = max(0, oldest + window - t)`, this value is positive, and
an `Allow` at `t + RetryAfter` with no call in between returns true. -/
theorem slidingWindow_retryAfter (cfg : Config) (rl0 : rateLimiter) (key : String)
    (ts : List Int) (t : Int)
    (hnew : New cfg = Except.ok rl0) (halg : cfg.Algorithm = SlidingWindow)
    (hR : cfg.Rate < maxInt64) (hW : cfg.Window ≤ maxInt64)
    (hfresh : rl0.storage.items.lookup (rl0.extractKey key) = none)
    (hts : List.Chain' (fun a b => a ≤ b) ts) (ht : ∀ s ∈ ts, s ≤ t)
    (hex : ((allowAt rl0 key ts).2.Check key t).1.Allowed = false) :
    ∃ (w : windowData) (oldest : Int),
      storedWindow (allowAt rl0 key ts).2 (rl0.extractKey key) = some w ∧
        oldest ∈ w.Requests ∧ t - cfg.Window < oldest ∧
        (∀ x ∈ w.Requests, t - cfg.Window < x → oldest ≤ x) ∧
        ((allowAt rl0 key ts).2.Check key t).1.RetryAfter = max 0 (oldest + cfg.Window - t) ∧
        0 < ((allowAt rl0 key ts).2.Check key t).1.RetryAfter ∧
        (((allowAt rl0 key ts).2.Check key t).2.Allow key
          (t + ((allowAt rl0 key ts).2.Check key t).1.RetryAfter)).1 = true := by
  obtain ⟨hR0, hW0, hA, hRe, hWe, _, hcl0, _, _⟩ := New_ok hnew
  have halg0 : rl0.config.Algorithm = SlidingWindow := hA.trans halg
  have hinv0 : ∀ s, WindowInv rl0 (rl0.extractKey key) s := by
    intro s item hi
    rw [hfresh] at hi
    cases hi
  -- the state after the calls
  have hrun : (allowAt rl0 key ts).2.config = rl0.config ∧
      (allowAt rl0 key ts).2.closed = rl0.closed ∧
      WindowInv (allowAt rl0 key ts).2 (rl0.extractKey key) t := by
    cases ts with
    | nil => exact ⟨rfl, rfl, hinv0 t⟩
    | cons a l =>
      exact allowAt_slidingWindow_inv key (a :: l) rl0 a halg0 (by omega) (by omega)
        (hinv0 a) (List.Chain.cons (le_refl a) hts) t (ht a (List.mem_cons_self _ _)) ht
  generalize (allowAt rl0 key ts).2 = rl at hrun hex ⊢
  obtain ⟨hcfg, hclosed, hinv⟩ := hrun
  have hk : rl.extractKey key = rl0.extractKey key := extractKey_congr rl0 rl hcfg key
  have hcl : rl.closed = false := hclosed.trans hcl0
  have halg1 : rl.config.Algorithm = SlidingWindow := by rw [hcfg]; exact halg0
  have hRate : rl.config.Rate = cfg.Rate := by rw [hcfg]; exact hRe
  have hWin : rl.config.Window = cfg.Window := by rw [hcfg]; exact hWe
  rw [← hk] at hinv ⊢
  -- what `Check` loads and reports
  obtain ⟨w, hw, hlen, hx, hsrc⟩ :=
    getWindowData_of_inv rl (rl.extractKey key) t t (by omega) hinv
  have hchk : (rl.Check key t).1 = slidingWindowReport rl.config t w := by
    rw [Check_eq_slidingWindow rl key t hcl halg1, checkSlidingWindow_def]
    exact peekWindow_of_ok rl _ t _ w hw
  rw [hchk] at hex ⊢
  have hvc := scanRequests_fst (Time.Add t (-rl.config.Window)) w.Requests 0 t
  have hvle : ((w.Requests.filter (fun x => Time.After x (Time.Add t (-rl.config.Window)))).length
      : Int) ≤ (w.Requests.length : Int) := by
    exact_mod_cast List.length_filter_le _ _
  have hwrap : wrap64 (rl.config.Rate -
      (scanRequests (Time.Add t (-rl.config.Window)) w.Requests (0, t)).1) =
      rl.config.Rate - (scanRequests (Time.Add t (-rl.config.Window)) w.Requests (0, t)).1 := by
    apply wrap64_of_range
    · unfold minInt64
      omega
    · omega
  have hrem : rl.config.Rate -
      (scanRequests (Time.Add t (-rl.config.Window)) w.Requests (0, t)).1 ≤ 0 := by
    have h1 := hex
    unfold slidingWindowReport at h1
    simp only [decide_eq_false_iff_not, not_lt] at h1
    rw [hwrap] at h1
    exact h1
  have hpos : 0 < (scanRequests (Time.Add t (-rl.config.Window)) w.Requests (0, t)).1 := by
    omega
  obtain ⟨hmem, hws, hmin⟩ :=
    scanRequests_oldest (Time.Add t (-rl.config.Window)) t w.Requests hx hpos
  have hstored : storedWindow rl (rl.extractKey key) = some w := by
    rcases hsrc with h | h
    · have h0 : w.Requests.length = 0 := by rw [h]; rfl
      omega
    · exact h
  have holdle : (scanRequests (Time.Add t (-rl.config.Window)) w.Requests (0, t)).2 ≤ t :=
    hx _ hmem
  have hws1 : t + -rl.config.Window <
      (scanRequests (Time.Add t (-rl.config.Window)) w.Requests (0, t)).2 := hws
  clear hws
  generalize hold : (scanRequests (Time.Add t (-rl.config.Window)) w.Requests (0, t)).2 = oldest
    at hmem hws1 hmin holdle
  have hRA : (slidingWindowReport rl.config t w).RetryAfter =
      oldest + rl.config.Window - t := by
    unfold slidingWindowReport
    simp only
    rw [hwrap, if_pos ⟨hrem, hpos⟩, hold]
    have hsub : Time.Sub (Time.Add oldest rl.config.Window) t =
        oldest + rl.config.Window - t := by
      unfold Time.Sub Time.Add
      rw [if_neg (by omega), if_neg (by unfold minInt64; omega)]
    rw [hsub, if_neg]
    omega
  have hRApos : 0 < oldest + rl.config.Window - t := by omega
  refine ⟨w, oldest, hstored, hmem, by omega, ?_, ?_, ?_, ?_⟩
  · intro x hx1 hx2
    have hx3 : t + -rl.config.Window < x := by omega
    exact hmin x hx1 hx3
  · rw [hRA, hWin, max_eq_right]
    omega
  · rw [hRA]
    exact hRApos
  · -- the `Allow` at `t + RetryAfter`
    rw [hRA]
    have ht1 : t ≤ t + (oldest + rl.config.Window - t) := by omega
    have hview := ((SameView.after_Check rl key t).mono ht1).of_AllowN key 1
    unfold rateLimiter.Allow
    rw [hview.1, AllowN_eq_slidingWindow rl key 1 _ hcl halg1, allowSlidingWindow_def]
    simp only
    obtain ⟨w2, hw2, hlen2, _, hsrc2⟩ :=
      getWindowData_of_inv rl (rl.extractKey key) t (t + (oldest + rl.config.Window - t))
        (by omega) hinv
    rw [consumeWindow_of_ok rl _ _ _ w2 hw2]
    unfold slidingWindowNext
    simp only [decide_eq_true_eq]
    have hcount : ((prunedRequests rl.config w2
        (t + (oldest + rl.config.Window - t))).length : Int) + 1 ≤ rl.config.Rate := by
      rcases hsrc2 with h | h
      · unfold prunedRequests
        rw [h]
        simp only [List.filter_nil, List.length_nil]
        omega
      · rw [hstored] at h
        injection h with h
        subst h
        unfold prunedRequests
        have he : Time.Add (t + (oldest + rl.config.Window - t)) (-rl.config.Window) = oldest := by
          unfold Time.Add
          omega
        rw [he]
        have hlt := filter_after_oldest w.Requests (Time.Add t (-rl.config.Window)) oldest hmem
          (by unfold Time.Add; omega)
        omega
    rw [wrap64_of_range _ (by unfold minInt64; omega) (by omega)]
    exact hcount
theorem slidingWindow_retryAfter_witness :
    ((allowAt (limiterOf slidingWindowConfig) "test-user" threeCalls).2.Check "test-user"
        5500000000).1.Allowed = false ∧
      ((allowAt (limiterOf slidingWindowConfig) "test-user" threeCalls).2.Check "test-user"
        5500000000).1.RetryAfter = 500000000 ∧
      ∃ (w : windowData) (oldest : Int),
        storedWindow (allowAt (limiterOf slidingWindowConfig) "test-user" threeCalls).2
            ((limiterOf slidingWindowConfig).extractKey "test-user") = some w ∧
          oldest ∈ w.Requests ∧ 5500000000 - slidingWindowConfig.Window < oldest ∧
          (∀ x ∈ w.Requests, 5500000000 - slidingWindowConfig.Window < x → oldest ≤ x) ∧
          ((allowAt (limiterOf slidingWindowConfig) "test-user" threeCalls).2.Check "test-user"
            5500000000).1.RetryAfter = max 0 (oldest + slidingWindowConfig.Window - 5500000000) ∧
          0 < ((allowAt (limiterOf slidingWindowConfig) "test-user" threeCalls).2.Check
            "test-user" 5500000000).1.RetryAfter ∧
          (((allowAt (limiterOf slidingWindowConfig) "test-user" threeCalls).2.Check "test-user"
              5500000000).2.Allow "test-user"
            (5500000000 + ((allowAt (limiterOf slidingWindowConfig) "test-user"
              threeCalls).2.Check "test-user" 5500000000).1.RetryAfter)).1 = true :=
  ⟨by decide!, by decide!,
    slidingWindow_retryAfter slidingWindowConfig (limiterOf slidingWindowConfig) "test-user"
      threeCalls 5500000000 rfl rfl (by decide) (by decide) rfl (by simp [threeCalls])
      (by simp [threeCalls]) (by decide!)⟩

/-! ## Token Bucket: the reported wait falls short -/

/-- C29 (failing input). With 3 per second and a burst of 1, after one admitted
`Allow` the bucket is empty; `Check` at the same instant reports
`RetryAfter = 333333333` ns, and with no call in between an `Allow` made
exactly that long after the `Check` is denied, while one made a nanosecond
later is admitted. -/
theorem retryAfter_insufficient :
    ∃ rl, New thirdsConfig = Except.ok rl ∧
      (rl.Allow "k" clock2026).1 = true ∧
      ((rl.Allow "k" clock2026).2.Check "k" clock2026).1.Allowed = false ∧
      ((rl.Allow "k" clock2026).2.Check "k" clock2026).1.RetryAfter = 333333333 ∧
      (((rl.Allow "k" clock2026).2.Check "k" clock2026).2.Allow "k"
        (clock2026 + 333333333)).1 = false ∧
      (((rl.Allow "k" clock2026).2.Check "k" clock2026).2.Allow "k"
        (clock2026 + 333333334)).1 = true :=
  ⟨limiterOf thirdsConfig, rfl, by decide!, by decide!, by decide!, by decide!, by decide!⟩

/-! ## Failed reads and corrupt entries -/

theorem consumeBucket_fst (rl : rateLimiter) (key : String) (t : Int)
    (next : bucketData → Bool × bucketData) :
    (consumeBucket rl key t next).1 =
      match (rl.getBucketData key t).1 with
      | Except.error _ => false
      | Except.ok b => (next b).1 := by
  unfold consumeBucket
  rcases rl.getBucketData key t with ⟨r, rl1⟩
  cases r <;> rfl

theorem consumeWindow_fst (rl : rateLimiter) (key : String) (t : Int)
    (next : windowData → Bool × windowData) :
    (consumeWindow rl key t next).1 =
      match (rl.getWindowData key t).1 with
      | Except.error _ => false
      | Except.ok w => (next w).1 := by
  unfold consumeWindow
  rcases rl.getWindowData key t with ⟨r, rl1⟩
  cases r <;> rfl

theorem peekBucket_fst_eq (rl : rateLimiter) (key : String) (t : Int)
    (report : bucketData → Result) :
    (peekBucket rl key t report).1 =
      match (rl.getBucketData key t).1 with
      | Except.error _ => Result.denied
      | Except.ok b => report b := by
  unfold peekBucket
  rcases rl.getBucketData key t with ⟨r, rl1⟩
  cases r <;> rfl

theorem peekWindow_fst_eq (rl : rateLimiter) (key : String) (t : Int)
    (report : windowData → Result) :
    (peekWindow rl key t report).1 =
      match (rl.getWindowData key t).1 with
      | Except.error _ => Result.denied
      | Except.ok w => report w := by
  unfold peekWindow
  rcases rl.getWindowData key t with ⟨r, rl1⟩
  cases r <;> rfl

/-- The verdict of `AllowN` and the result of `Check` are determined by the
configuration, the closed flag and what the two loads return. -/
theorem verdict_of_load (a b : rateLimiter) (key : String) (n now : Int)
    (hcfg : a.config = b.config) (hcl : a.closed = b.closed)
    (hb : (a.getBucketData (a.extractKey key) now).1 =
      (b.getBucketData (b.extractKey key) now).1)
    (hw : (a.getWindowData (a.extractKey key) now).1 =
      (b.getWindowData (b.extractKey key) now).1) :
    (a.AllowN key n now).1 = (b.AllowN key n now).1 ∧
      (a.Check key now).1 = (b.Check key now).1 := by
  constructor
  · unfold rateLimiter.AllowN
    rw [← hcl, ← hcfg]
    split_ifs
    · rfl
    · dsimp only
      rw [allowTokenBucket_def, allowTokenBucket_def, consumeBucket_fst, consumeBucket_fst, hb,
        hcfg]
    · dsimp only
      rw [allowFixedWindow_def, allowFixedWindow_def, consumeWindow_fst, consumeWindow_fst, hw,
        hcfg]
    · dsimp only
      rw [allowSlidingWindow_def, allowSlidingWindow_def, consumeWindow_fst, consumeWindow_fst,
        hw, hcfg]
    · dsimp only
      rw [allowLeakyBucket_def, allowLeakyBucket_def, consumeBucket_fst, consumeBucket_fst, hb,
        hcfg]
    · rfl
  · unfold rateLimiter.Check
    rw [← hcl, ← hcfg]
    split_ifs
    · rfl
    · dsimp only
      rw [checkTokenBucket_def, checkTokenBucket_def, peekBucket_fst_eq, peekBucket_fst_eq, hb,
        hcfg]
    · dsimp only
      rw [checkFixedWindow_def, checkFixedWindow_def, peekWindow_fst_eq, peekWindow_fst_eq, hw,
        hcfg]
    · dsimp only
      rw [checkSlidingWindow_def, checkSlidingWindow_def, peekWindow_fst_eq, peekWindow_fst_eq,
        hw, hcfg]
    · dsimp only
      rw [checkLeakyBucket_def, checkLeakyBucket_def, peekBucket_fst_eq, peekBucket_fst_eq, hb,
        hcfg]
    · rfl

/-- C33. Failed read means fresh key: whatever error the storage `Get` returns
for the extracted key, `getBucketData` returns the bucket with 0 tokens and an
unset `LastRefill`, and `getWindowData` the window with count 0, `WindowStart`
equal to the current time and no timestamps, both without error; `AllowN` then
returns the verdict, and `Check` the result, that they return on a limiter of
the same configuration whose open storage has no entry for the key. -/
theorem failed_read_is_fresh (rl fresh : rateLimiter) (key : String) (n now : Int)
    (e : StorageError)
    (herr : (rl.storage.Get (rl.extractKey key) now).1 = Except.error e)
    (hcfg : fresh.config = rl.config) (hcl : fresh.closed = rl.closed)
    (hopen : fresh.storage.closed = false)
    (hnone : fresh.storage.items.lookup (fresh.extractKey key) = none) :
    (rl.getBucketData (rl.extractKey key) now).1 =
        Except.ok { Tokens := 0, LastRefill := 0 } ∧
      (rl.getWindowData (rl.extractKey key) now).1 =
        Except.ok { Count := 0, WindowStart := now, Requests := [] } ∧
      (rl.AllowN key n now).1 = (fresh.AllowN key n now).1 ∧
      (rl.Check key now).1 = (fresh.Check key now).1 := by
  have hb := getBucketData_of_error rl (rl.extractKey key) now e herr
  have hw := getWindowData_of_error rl (rl.extractKey key) now e herr
  have hferr : (fresh.storage.Get (fresh.extractKey key) now).1 =
      Except.error StorageError.ErrKeyNotFound := by
    rw [Get_of_lookup_none _ _ _ hopen hnone]
  have hfb := getBucketData_of_error fresh (fresh.extractKey key) now _ hferr
  have hfw := getWindowData_of_error fresh (fresh.extractKey key) now _ hferr
  have := verdict_of_load rl fresh key n now hcfg.symm hcl.symm (hb.trans hfb.symm)
    (hw.trans hfw.symm)
  exact ⟨hb, hw, this.1, this.2⟩

theorem failed_read_is_fresh_witness :
    (closedStorageLimiter.storage.Get (closedStorageLimiter.extractKey "test-user")
        5000000000).1 = Except.error StorageError.ErrStorageClosed ∧
      (closedStorageLimiter.AllowN "test-user" 1 5000000000).1 =
        ((limiterOf tokenBucketConfig).AllowN "test-user" 1 5000000000).1 :=
  ⟨rfl,
    (failed_read_is_fresh closedStorageLimiter (limiterOf tokenBucketConfig) "test-user" 1
      5000000000 StorageError.ErrStorageClosed rfl rfl rfl rfl rfl).2.2.1⟩

/-- C34. Corrupt state is not masked: when the live entry of the extracted key
holds bytes that do not deserialize, `getBucketData` and `getWindowData` return
the deserialization error, and on an open limiter with one of the four
algorithms `AllowN` returns false and `Check` returns the denied result, both
leaving the storage as it is. -/
theorem corrupt_state_not_masked (rl : rateLimiter) (key : String) (n now : Int)
    (item : memoryItem)
    (hcl : rl.closed = false) (hs : rl.storage.closed = false)
    (halg : rl.config.Algorithm = TokenBucket ∨ rl.config.Algorithm = FixedWindow ∨
      rl.config.Algorithm = SlidingWindow ∨ rl.config.Algorithm = LeakyBucket)
    (hl : rl.storage.items.lookup (rl.extractKey key) = some item)
    (hv : item.value = Bytes.corrupt) (hlive : item.isExpired now = false) :
    (rl.getBucketData (rl.extractKey key) now).1 = Except.error LimiterError.deserialize ∧
      (rl.getWindowData (rl.extractKey key) now).1 = Except.error LimiterError.deserialize ∧
      (rl.AllowN key n now).1 = false ∧ (rl.AllowN key n now).2.storage = rl.storage ∧
      (rl.Check key now).1 = Result.denied ∧ (rl.Check key now).1.Allowed = false ∧
      (rl.Check key now).2.storage = rl.storage := by
  have hget := Get_of_live rl.storage (rl.extractKey key) now item hs hl hlive
  have hb : (rl.getBucketData (rl.extractKey key) now).1 =
      Except.error LimiterError.deserialize := by
    rw [getBucketData_fst, hget, hv]
    rfl
  have hw : (rl.getWindowData (rl.extractKey key) now).1 =
      Except.error LimiterError.deserialize := by
    rw [getWindowData_fst, hget, hv]
    rfl
  have hbs : (rl.getBucketData (rl.extractKey key) now).2 = rl := by
    rw [getBucketData_snd, hget]
  have hws : (rl.getWindowData (rl.extractKey key) now).2 = rl := by
    rw [getWindowData_snd, hget]
  have cb : ∀ next, consumeBucket rl (rl.extractKey key) now next = (false, rl) := by
    intro next
    unfold consumeBucket
    rcases hg : rl.getBucketData (rl.extractKey key) now with ⟨r, rl1⟩
    rw [hg] at hb hbs
    simp only at hb hbs
    subst hb hbs
    rfl
  have cw : ∀ next, consumeWindow rl (rl.extractKey key) now next = (false, rl) := by
    intro next
    unfold consumeWindow
    rcases hg : rl.getWindowData (rl.extractKey key) now with ⟨r, rl1⟩
    rw [hg] at hw hws
    simp only at hw hws
    subst hw hws
    rfl
  have pb : ∀ report, peekBucket rl (rl.extractKey key) now report = (Result.denied, rl) := by
    intro report
    unfold peekBucket
    rcases hg : rl.getBucketData (rl.extractKey key) now with ⟨r, rl1⟩
    rw [hg] at hb hbs
    simp only at hb hbs
    subst hb hbs
    rfl
  have pw : ∀ report, peekWindow rl (rl.extractKey key) now report = (Result.denied, rl) := by
    intro report
    unfold peekWindow
    rcases hg : rl.getWindowData (rl.extractKey key) now with ⟨r, rl1⟩
    rw [hg] at hw hws
    simp only at hw hws
    subst hw hws
    rfl
  have hA : (rl.AllowN key n now).1 = false ∧ (rl.AllowN key n now).2.storage = rl.storage := by
    unfold rateLimiter.AllowN
    rw [hcl]
    simp only [Bool.false_eq_true, if_false]
    split_ifs
    · rw [allowTokenBucket_def, cb]
      exact ⟨rfl, rfl⟩
    · rw [allowFixedWindow_def, cw]
      exact ⟨rfl, rfl⟩
    · rw [allowSlidingWindow_def, cw]
      exact ⟨rfl, rfl⟩
    · rw [allowLeakyBucket_def, cb]
      exact ⟨rfl, rfl⟩
    · exact ⟨rfl, rfl⟩
  have hC : rl.Check key now = (Result.denied, rl) := by
    unfold rateLimiter.Check
    rw [hcl]
    simp only [Bool.false_eq_true, if_false]
    split_ifs
    · rw [checkTokenBucket_def, pb]
    · rw [checkFixedWindow_def, pw]
    · rw [checkSlidingWindow_def, pw]
    · rw [checkLeakyBucket_def, pb]
    · rfl
  refine ⟨hb, hw, hA.1, hA.2, ?_, ?_, ?_⟩
  · rw [hC]
  · rw [hC]
    rfl
  · rw [hC]

theorem corrupt_state_not_masked_witness :
    (corruptEntryLimiter.AllowN "test-user" 1 5000000000).1 = false ∧
      (corruptEntryLimiter.Check "test-user" 5000000000).1.Allowed = false :=
  ⟨(corrupt_state_not_masked corruptEntryLimiter "test-user" 1 5000000000
      { value := Bytes.corrupt, expiresAt := 0 } rfl rfl (Or.inl rfl) rfl rfl rfl).2.2.1,
    (corrupt_state_not_masked corruptEntryLimiter "test-user" 1 5000000000
      { value := Bytes.corrupt, expiresAt := 0 } rfl rfl (Or.inl rfl) rfl rfl rfl).2.2.2.2.2.1⟩

/-! ## The cleanup tick -/

/-- C35 (failing input). On `tickingLimiter` the entry of `test-user` expired at
3 s; the cleanup tick at 61 s sets `LastCleanup` and leaves the storage, with
the expired entry, as it is, although the sweep of the storage at that time
removes one entry. -/
theorem cleanup_tick_no_sweep :
    (tickingLimiter.performCleanup 61000000000).metrics.LastCleanup = 61000000000 ∧
      (tickingLimiter.storage.items.lookup "test-user").map
          (fun item => item.isExpired 61000000000) = some true ∧
      (tickingLimiter.performCleanup 61000000000).storage = tickingLimiter.storage ∧
      (tickingLimiter.performCleanup 61000000000).storage.Size = 1 ∧
      (tickingLimiter.storage.Cleanup 61000000000).1 = 1 ∧
      (tickingLimiter.storage.Cleanup 61000000000).2.Size = 0 := by
  refine ⟨rfl, by decide, rfl, by decide, by decide, by decide⟩

/-! ## Fixed Window: the first window of a key -/

/-- C32 (failing input). With a window of 1 s, `Allow` on a fresh key at 1.5 s
persists a window that starts at 1.5 s, which is not a multiple of the window
and not what truncating 1.5 s gives; the next window, opened by a call at
2.7 s, starts at 2 s, inside the first one. -/
theorem fixedWindow_first_window_unaligned :
    storedWindow ((limiterOf fixedWindowConfig).Allow "test-user" 1500000000).2 "test-user" =
        some { Count := 1, WindowStart := 1500000000, Requests := [] } ∧
      (1500000000 : Int) % fixedWindowConfig.Window ≠ 0 ∧
      Time.Truncate 1500000000 fixedWindowConfig.Window = 1000000000 ∧
      storedWindow
          ((((limiterOf fixedWindowConfig).Allow "test-user" 1500000000).2).Allow "test-user"
            2700000000).2 "test-user" =
        some { Count := 1, WindowStart := 2000000000, Requests := [] } ∧
      (2000000000 : Int) < 1500000000 + fixedWindowConfig.Window := by
  refine ⟨by decide, by decide, by decide, by decide!, by decide⟩

/-! ## Fixed Window: `Check` -/

theorem liveEntry_later (ms : MemoryStorage) (k : String) (t t1 : Int) (h : t ≤ t1) :
    liveEntry ms k t1 = none ∨ liveEntry ms k t1 = liveEntry ms k t := by
  unfold liveEntry
  cases ms.items.lookup k with
  | none => exact Or.inl rfl
  | some item =>
    by_cases he1 : item.isExpired t1 = true
    · left
      simp [Option.filter, he1]
    · right
      have he : item.isExpired t = false := by
        by_contra hc
        exact he1 (isExpired_mono item t t1 h (by simpa using hc))
      have he2 : item.isExpired t1 = false := by simpa using he1
      simp [Option.filter, he, he2]

/-- What `getWindowData` loads at a later time: what it loaded before, or the
empty window. -/
theorem getWindowData_later (rl : rateLimiter) (k : String) (t t1 : Int) (h : t ≤ t1) :
    (rl.getWindowData k t1).1 =
        Except.ok { Count := 0, WindowStart := t1, Requests := [] } ∨
      (rl.getWindowData k t1).1 = (rl.getWindowData k t).1 ∨
      (rl.getWindowData k t).1 = Except.ok { Count := 0, WindowStart := t, Requests := [] } := by
  rw [getWindowData_fst, getWindowData_fst, Get_fst_eq, Get_fst_eq]
  by_cases hc : rl.storage.closed = true
  · rw [if_pos hc]
    exact Or.inl rfl
  · rw [if_neg hc, if_neg hc]
    rcases liveEntry_later rl.storage k t t1 h with e | e
    · rw [e]
      exact Or.inl rfl
    · rw [e]
      cases liveEntry rl.storage k t with
      | none => exact Or.inr (Or.inr rfl)
      | some item => exact Or.inr (Or.inl rfl)

theorem Check_eq_fixedWindow (rl : rateLimiter) (key : String) (now : Int)
    (hcl : rl.closed = false) (halg : rl.config.Algorithm = FixedWindow) :
    rl.Check key now = rl.checkFixedWindow (rl.extractKey key) now := by
  simp [rateLimiter.Check, hcl, halg]

theorem wrap64_one : wrap64 1 = 1 := by decide

/-- C31. Fixed Window `Check`: on an open limiter with the Fixed Window
algorithm, for every loaded window whose start is not after `now`, `Check`
counts against the same rolled-over window as `AllowN`, and returns
`Remaining = rate - count` (the `int64` difference, exact whenever the count is
not negative), `ResetTime = windowStart + window` and
`Allowed = (Remaining > 0)`; when `Remaining <= 0`,
`RetryAfter = ResetTime - now` with `0 < RetryAfter <= window`, and an `Allow`
at `now + RetryAfter` with no call in between returns true. -/
theorem fixedWindow_check (rl : rateLimiter) (key : String) (n now : Int) (w : windowData)
    (hcl : rl.closed = false) (halg : rl.config.Algorithm = FixedWindow)
    (hR : 0 < rl.config.Rate) (hR2 : rl.config.Rate ≤ maxInt64)
    (hW : 0 < rl.config.Window) (hW2 : rl.config.Window ≤ maxInt64)
    (hload : (rl.getWindowData (rl.extractKey key) now).1 = Except.ok w)
    (hws : w.WindowStart ≤ now) :
    (rl.Check key now).1.Remaining =
        wrap64 (rl.config.Rate - (rolledWindow rl.config w now).Count) ∧
      (0 ≤ (rolledWindow rl.config w now).Count →
        (rolledWindow rl.config w now).Count ≤ maxInt64 →
        (rl.Check key now).1.Remaining =
          rl.config.Rate - (rolledWindow rl.config w now).Count) ∧
      (rl.Check key now).1.ResetTime =
        (rolledWindow rl.config w now).WindowStart + rl.config.Window ∧
      (rl.Check key now).1.Allowed = decide (0 < (rl.Check key now).1.Remaining) ∧
      (rl.AllowN key n now).1 =
        decide (wrap64 ((rolledWindow rl.config w now).Count + n) ≤ rl.config.Rate) ∧
      ((rl.Check key now).1.Remaining ≤ 0 →
        (rl.Check key now).1.RetryAfter = (rl.Check key now).1.ResetTime - now ∧
          0 < (rl.Check key now).1.RetryAfter ∧
          (rl.Check key now).1.RetryAfter ≤ rl.config.Window ∧
          ((rl.Check key now).2.Allow key (now + (rl.Check key now).1.RetryAfter)).1 = true) := by
  have hchk : (rl.Check key now).1 = fixedWindowReport rl.config now w := by
    rw [Check_eq_fixedWindow rl key now hcl halg, checkFixedWindow_def]
    exact peekWindow_of_ok rl _ now _ w hload
  have hallow : ∀ (m t : Int) (w1 : windowData),
      (rl.getWindowData (rl.extractKey key) t).1 = Except.ok w1 →
      (rl.AllowN key m t).1 =
        decide (wrap64 ((rolledWindow rl.config w1 t).Count + m) ≤ rl.config.Rate) := by
    intro m t w1 h1
    rw [AllowN_eq_fixedWindow rl key m t hcl halg, allowFixedWindow_def]
    simp only
    rw [consumeWindow_of_ok rl _ t _ w1 h1]
    rfl
  rw [hchk]
  refine ⟨rfl, ?_, rfl, rfl, hallow n now w hload, ?_⟩
  · intro h0 h1
    show wrap64 (rl.config.Rate - (rolledWindow rl.config w now).Count) = _
    exact wrap64_of_range _ (by unfold minInt64; unfold maxInt64 at h1 hR2; omega)
      (by omega)
  · intro hrem
    have hrem1 : wrap64 (rl.config.Rate - (rolledWindow rl.config w now).Count) ≤ 0 := hrem
    -- the window was not rolled over
    have hnot : ¬ rl.config.Window ≤ Time.Sub now w.WindowStart := by
      intro hroll
      have : (rolledWindow rl.config w now).Count = 0 := by
        unfold rolledWindow
        rw [if_pos hroll]
      rw [this, Int.sub_zero, wrap64_of_range _ (by unfold minInt64; omega) hR2] at hrem1
      omega
    have hrw : rolledWindow rl.config w now = w := by
      unfold rolledWindow
      rw [if_neg hnot]
    have hdiff : now - w.WindowStart < rl.config.Window := by
      unfold Time.Sub at hnot
      split_ifs at hnot <;> omega
    have hRA : (fixedWindowReport rl.config now w).RetryAfter =
        w.WindowStart + rl.config.Window - now := by
      unfold fixedWindowReport
      simp only
      rw [if_pos hrem1, hrw]
      unfold Time.Sub Time.Add
      rw [if_neg (by omega), if_neg (by unfold minInt64; omega)]
    have hRT : (fixedWindowReport rl.config now w).ResetTime =
        w.WindowStart + rl.config.Window := by
      unfold fixedWindowReport
      simp only
      rw [hrw]
      rfl
    rw [hRA, hRT]
    refine ⟨rfl, by omega, by omega, ?_⟩
    have ht1 : now ≤ now + (w.WindowStart + rl.config.Window - now) := by omega
    have hview := ((SameView.after_Check rl key now).mono ht1).of_AllowN key 1
    unfold rateLimiter.Allow
    rw [hview.1]
    have he : now + (w.WindowStart + rl.config.Window - now) =
        w.WindowStart + rl.config.Window := by omega
    rw [he]
    rw [he] at ht1
    rcases getWindowData_later rl (rl.extractKey key) now
      (w.WindowStart + rl.config.Window) ht1 with h1 | h1 | h1
    · rw [hallow 1 _ _ h1, rolledWindow_inside rl.config _ _ hW2 (le_refl _) (by simpa using hW)]
      simp only [Int.zero_add, wrap64_one, decide_eq_true_eq]
      omega
    · rw [hload] at h1
      rw [hallow 1 _ _ h1, rolledWindow_after rl.config _ _ hW2 (le_refl _)]
      simp only [Int.zero_add, wrap64_one, decide_eq_true_eq]
      omega
    · rw [hload] at h1
      injection h1 with h1
      subst h1
      simp only [rolledWindow] at hrem1
      split_ifs at hrem1
      · rw [Int.sub_zero, wrap64_of_range _ (by unfold minInt64; omega) hR2] at hrem1
        omega
      · rw [Int.sub_zero, wrap64_of_range _ (by unfold minInt64; omega) hR2] at hrem1
        omega

theorem fixedWindow_check_witness :
    (fullWindowLimiter.Check "test-user" 1200000000).1.Remaining ≤ 0 ∧
      (fullWindowLimiter.Check "test-user" 1200000000).1.RetryAfter =
        (fullWindowLimiter.Check "test-user" 1200000000).1.ResetTime - 1200000000 ∧
      0 < (fullWindowLimiter.Check "test-user" 1200000000).1.RetryAfter ∧
      (fullWindowLimiter.Check "test-user" 1200000000).1.RetryAfter ≤
        fullWindowLimiter.config.Window ∧
      ((fullWindowLimiter.Check "test-user" 1200000000).2.Allow "test-user"
        (1200000000 + (fullWindowLimiter.Check "test-user" 1200000000).1.RetryAfter)).1 = true :=
  ⟨by decide,
    (fixedWindow_check fullWindowLimiter "test-user" 1 1200000000
      { Count := 5, WindowStart := 1000000000, Requests := [] } rfl rfl (by decide) (by decide)
      (by decide) (by decide) rfl (by decide)).2.2.2.2.2 (by decide)⟩

/-! ## Denied calls keep the refill and the decay -/

theorem Time.Sub_of_range (a b : Int) (h1 : 0 ≤ a - b) (h2 : a - b ≤ maxInt64) :
    Time.Sub a b = a - b := by
  unfold Time.Sub
  rw [if_neg (by omega), if_neg (by unfold minInt64; omega)]

theorem min_refill_compose (B x p q : ℚ) (hq : 0 ≤ q) :
    min B (min B (x + p) + q) = min B (x + (p + q)) := by
  simp only [min_def]
  split_ifs <;> linarith

theorem max_leak_compose (x p q : ℚ) (hq : 0 ≤ q) :
    max 0 (max 0 (x - p) - q) = max 0 (x - (p + q)) := by
  simp only [max_def]
  split_ifs <;> linarith

theorem rate_share_nonneg (d R W : Int) (hd : 0 ≤ d) (hR : 0 ≤ R) (hW : 0 < W) :
    (0 : ℚ) ≤ (d : ℚ) * (R : ℚ) / (W : ℚ) := by
  have h1 : (0 : ℚ) ≤ (d : ℚ) := by exact_mod_cast hd
  have h2 : (0 : ℚ) ≤ (R : ℚ) := by exact_mod_cast hR
  have h3 : (0 : ℚ) < (W : ℚ) := by exact_mod_cast hW
  exact div_nonneg (mul_nonneg h1 h2) (le_of_lt h3)

/-- Refilling in two steps gives the level of refilling in one. -/
theorem tokenLevel_compose (cfg : Config) (b : bucketData) (t1 t2 : Int)
    (hR : 0 ≤ cfg.Rate) (hW : 0 < cfg.Window) (h0 : b.LastRefill ≠ 0) (h1 : t1 ≠ 0)
    (h01 : b.LastRefill ≤ t1) (h12 : t1 ≤ t2) (hr : t2 - b.LastRefill ≤ maxInt64) :
    tokenLevel cfg { Tokens := tokenLevel cfg b t1, LastRefill := t1 } t2 =
      tokenLevel cfg b t2 := by
  rw [tokenLevel_initialised cfg _ t2 h1 hW, tokenLevel_initialised cfg b t1 h0 hW,
    tokenLevel_initialised cfg b t2 h0 hW]
  simp only
  rw [Time.Sub_of_range t2 t1 (by omega) (by omega),
    Time.Sub_of_range t1 b.LastRefill (by omega) (by omega),
    Time.Sub_of_range t2 b.LastRefill (by omega) hr]
  have hq := rate_share_nonneg (t2 - t1) cfg.Rate cfg.Window (by omega) hR hW
  rw [min_refill_compose _ _ _ _ hq]
  congr 2
  push_cast
  ring

theorem leakLevel_initialised (cfg : Config) (b : bucketData) (now : Int)
    (hz : b.LastRefill ≠ 0) (hW : 0 < cfg.Window) :
    leakLevel cfg b now =
      max 0 (b.Tokens - ((Time.Sub now b.LastRefill : Int) : ℚ) * (cfg.Rate : ℚ) /
        (cfg.Window : ℚ)) := by
  unfold leakLevel Time.IsZero
  rw [if_neg (by simpa using hz), seconds_rate _ _ _ hW]

/-- Leaking in two steps gives the level of leaking in one. -/
theorem leakLevel_compose (cfg : Config) (b : bucketData) (t1 t2 : Int)
    (hR : 0 ≤ cfg.Rate) (hW : 0 < cfg.Window) (h0 : b.LastRefill ≠ 0) (h1 : t1 ≠ 0)
    (h01 : b.LastRefill ≤ t1) (h12 : t1 ≤ t2) (hr : t2 - b.LastRefill ≤ maxInt64) :
    leakLevel cfg { Tokens := leakLevel cfg b t1, LastRefill := t1 } t2 =
      leakLevel cfg b t2 := by
  rw [leakLevel_initialised cfg _ t2 h1 hW, leakLevel_initialised cfg b t1 h0 hW,
    leakLevel_initialised cfg b t2 h0 hW]
  simp only
  rw [Time.Sub_of_range t2 t1 (by omega) (by omega),
    Time.Sub_of_range t1 b.LastRefill (by omega) (by omega),
    Time.Sub_of_range t2 b.LastRefill (by omega) hr]
  have hq := rate_share_nonneg (t2 - t1) cfg.Rate cfg.Window (by omega) hR hW
  rw [max_leak_compose _ _ _ hq]
  congr 2
  push_cast
  ring

theorem callVerdicts_cons (rl : rateLimiter) (c : Call) (cs : List Call) :
    callVerdicts rl (c :: cs) =
      (rl.AllowN c.key c.n c.now).1 :: callVerdicts (rl.AllowN c.key c.n c.now).2 cs := rfl

theorem tokenBucket_denied_run (t2 : Int) (cs : List Call) :
    ∀ (rl0 rl : rateLimiter) (key : String) (b : bucketData) (s : Int),
    rl0.config.Algorithm = TokenBucket → 0 ≤ rl0.config.Rate → 0 < rl0.config.Window →
    rl0.config.Window * 2 ≤ maxInt64 →
    Stored rl0 rl key (Bytes.bucketJSON b) s → b.LastRefill = s → 0 < s →
    (∀ c ∈ cs, c.key = key ∧ c.now ≤ t2) →
    List.Chain (fun a b => a ≤ b) s (cs.map Call.now) →
    s ≤ t2 → t2 ≤ s + 2 * rl0.config.Window →
    (∀ v ∈ callVerdicts rl cs, v = false) →
    ∃ (b1 : bucketData) (s1 : Int),
      Stored rl0 (runCalls rl cs) key (Bytes.bucketJSON b1) s1 ∧ b1.LastRefill = s1 ∧
        s ≤ s1 ∧ s1 ≤ t2 ∧ tokenLevel rl0.config b1 t2 = tokenLevel rl0.config b t2 := by
  induction cs with
  | nil =>
    intro rl0 rl key b s _ _ _ _ hst hLR _ _ _ hs2 _ _
    exact ⟨b, s, hst, hLR, le_refl _, hs2, rfl⟩
  | cons c cs ih =>
    intro rl0 rl key b s halg hR hW hW2 hst hLR hs hcs hch hs2 hexp hden
    obtain ⟨hck, hct⟩ := hcs c (List.mem_cons_self _ _)
    have hcfg : rl.config = rl0.config := hst.1
    rw [List.map_cons, List.chain_cons] at hch
    rw [callVerdicts_cons] at hden
    have hv := hden _ (List.mem_cons_self _ _)
    rw [runCalls_cons, hck]
    rw [hck] at hv hden
    have hlive : (memoryItem.mk (Bytes.bucketJSON b) (expiryAt rl.config s)).isExpired c.now =
        false := by
      rw [hcfg]
      exact isExpired_expiryAt_le _ _ _ _ hW (by omega) (by omega)
    have hl := hst.loadBucket c.now hlive
    obtain ⟨q1, q2⟩ := AllowN_tokenBucket_stored rl key c.n c.now b hst.2.1
      (by rw [hcfg]; exact halg) hst.2.2.1 hl
    rw [q1, decide_eq_false_iff_not] at hv
    rw [if_neg hv] at q2
    obtain ⟨b1, s1, r1, r2, r3, r4, r5⟩ := ih rl0 _ key _ c.now halg hR hW hW2 (hst.rebase q2) rfl
      (by omega) (fun d hd => hcs d (List.mem_cons_of_mem _ hd)) hch.2 hct (by omega)
      (fun v hv1 => hden v (List.mem_cons_of_mem _ hv1))
    refine ⟨b1, s1, r1, r2, by omega, r4, ?_⟩
    rw [r5, hcfg]
    exact tokenLevel_compose rl0.config b c.now t2 hR hW (by omega) (by omega) (by omega) hct
      (by omega)

theorem leakyBucket_denied_run (t2 : Int) (cs : List Call) :
    ∀ (rl0 rl : rateLimiter) (key : String) (b : bucketData) (s : Int),
    rl0.config.Algorithm = LeakyBucket → 0 ≤ rl0.config.Rate → 0 < rl0.config.Window →
    rl0.config.Window * 2 ≤ maxInt64 →
    Stored rl0 rl key (Bytes.bucketJSON b) s → b.LastRefill = s → 0 < s →
    (∀ c ∈ cs, c.key = key ∧ c.now ≤ t2) →
    List.Chain (fun a b => a ≤ b) s (cs.map Call.now) →
    s ≤ t2 → t2 ≤ s + 2 * rl0.config.Window →
    (∀ v ∈ callVerdicts rl cs, v = false) →
    ∃ (b1 : bucketData) (s1 : Int),
      Stored rl0 (runCalls rl cs) key (Bytes.bucketJSON b1) s1 ∧ b1.LastRefill = s1 ∧
        s ≤ s1 ∧ s1 ≤ t2 ∧ leakLevel rl0.config b1 t2 = leakLevel rl0.config b t2 := by
  induction cs with
  | nil =>
    intro rl0 rl key b s _ _ _ _ hst hLR _ _ _ hs2 _ _
    exact ⟨b, s, hst, hLR, le_refl _, hs2, rfl⟩
  | cons c cs ih =>
    intro rl0 rl key b s halg hR hW hW2 hst hLR hs hcs hch hs2 hexp hden
    obtain ⟨hck, hct⟩ := hcs c (List.mem_cons_self _ _)
    have hcfg : rl.config = rl0.config := hst.1
    rw [List.map_cons, List.chain_cons] at hch
    rw [callVerdicts_cons] at hden
    have hv := hden _ (List.mem_cons_self _ _)
    rw [runCalls_cons, hck]
    rw [hck] at hv hden
    have hlive : (memoryItem.mk (Bytes.bucketJSON b) (expiryAt rl.config s)).isExpired c.now =
        false := by
      rw [hcfg]
      exact isExpired_expiryAt_le _ _ _ _ hW (by omega) (by omega)
    have hl := hst.loadBucket c.now hlive
    obtain ⟨q1, q2⟩ := AllowN_leakyBucket_stored rl key c.n c.now b hst.2.1
      (by rw [hcfg]; exact halg) hst.2.2.1 hl
    rw [q1, decide_eq_false_iff_not] at hv
    rw [if_neg hv] at q2
    obtain ⟨b1, s1, r1, r2, r3, r4, r5⟩ := ih rl0 _ key _ c.now halg hR hW hW2 (hst.rebase q2) rfl
      (by omega) (fun d hd => hcs d (List.mem_cons_of_mem _ hd)) hch.2 hct (by omega)
      (fun v hv1 => hden v (List.mem_cons_of_mem _ hv1))
    refine ⟨b1, s1, r1, r2, by omega, r4, ?_⟩
    rw [r5, hcfg]
    exact leakLevel_compose rl0.config b c.now t2 hR hW (by omega) (by omega) (by omega) hct
      (by omega)

/-! ## `Check` against `Allow` -/

theorem consumeBucket_of_ok (rl : rateLimiter) (key : String) (t : Int)
    (next : bucketData → Bool × bucketData) (b : bucketData)
    (hb : (rl.getBucketData key t).1 = Except.ok b) :
    (consumeBucket rl key t next).1 = (next b).1 := by
  rw [consumeBucket_fst, hb]

theorem peekBucket_of_ok (rl : rateLimiter) (key : String) (t : Int)
    (report : bucketData → Result) (b : bucketData)
    (hb : (rl.getBucketData key t).1 = Except.ok b) :
    (peekBucket rl key t report).1 = report b := by
  rw [peekBucket_fst_eq, hb]

theorem Check_eq_leakyBucket (rl : rateLimiter) (key : String) (now : Int)
    (hcl : rl.closed = false) (halg : rl.config.Algorithm = LeakyBucket) :
    rl.Check key now = rl.checkLeakyBucket (rl.extractKey key) now := by
  simp [rateLimiter.Check, hcl, halg]

theorem checkLeakLevel_eq (cfg : Config) (b : bucketData) (now : Int) :
    checkLeakLevel cfg b now = leakLevel cfg b now := by
  unfold checkLeakLevel leakLevel
  cases Time.IsZero b.LastRefill <;> rfl

theorem checkLevel_initialised (cfg : Config) (b : bucketData) (now : Int)
    (hz : b.LastRefill ≠ 0) : checkLevel cfg b now = tokenLevel cfg b now := by
  unfold checkLevel tokenLevel Time.IsZero
  rw [if_neg (by simpa using hz)]

/-- On a bucket that was never written, at a clock reading at least one window
after the zero time, the level that `Check` computes reaches 1 exactly when the
burst size does. -/
theorem checkLevel_fresh_iff (cfg : Config) (b : bucketData) (now : Int)
    (hz : b.LastRefill = 0) (htok : 0 ≤ b.Tokens) (hR : 0 < cfg.Rate) (hW : 0 < cfg.Window)
    (hW2 : cfg.Window ≤ maxInt64) (hnow : cfg.Window ≤ now) :
    (1 : ℚ) ≤ checkLevel cfg b now ↔ (1 : ℚ) ≤ (cfg.BurstSize : ℚ) := by
  have hsub : cfg.Window ≤ Time.Sub now b.LastRefill := by
    rw [hz]
    unfold Time.Sub
    split_ifs <;> omega
  have h1 : (1 : ℚ) ≤ ((Time.Sub now b.LastRefill : Int) : ℚ) * (cfg.Rate : ℚ) /
      (cfg.Window : ℚ) := by
    have hWq : (0 : ℚ) < (cfg.Window : ℚ) := by exact_mod_cast hW
    rw [le_div_iff₀ hWq, one_mul]
    have h2 : (cfg.Window : ℚ) ≤ ((Time.Sub now b.LastRefill : Int) : ℚ) := by
      exact_mod_cast hsub
    have h3 : (1 : ℚ) ≤ (cfg.Rate : ℚ) := by exact_mod_cast hR
    have h4 : (0 : ℚ) ≤ ((Time.Sub now b.LastRefill : Int) : ℚ) := le_trans (le_of_lt hWq) h2
    nlinarith
  unfold checkLevel
  rw [seconds_rate_div _ _ _ hW, le_min_iff]
  constructor
  · exact fun h => h.1
  · exact fun h => ⟨h, by linarith⟩

/-! ## `Remaining` before and after a call -/

theorem Check_tokenBucket_of_load (rl : rateLimiter) (key : String) (now : Int) (b : bucketData)
    (hcl : rl.closed = false) (halg : rl.config.Algorithm = TokenBucket)
    (hload : (rl.getBucketData (rl.extractKey key) now).1 = Except.ok b) :
    (rl.Check key now).1 = tokenBucketReport rl.config now b := by
  rw [Check_eq_tokenBucket rl key now hcl halg, checkTokenBucket_def]
  exact peekBucket_of_ok rl _ now _ b hload

theorem Check_leakyBucket_of_load (rl : rateLimiter) (key : String) (now : Int) (b : bucketData)
    (hcl : rl.closed = false) (halg : rl.config.Algorithm = LeakyBucket)
    (hload : (rl.getBucketData (rl.extractKey key) now).1 = Except.ok b) :
    (rl.Check key now).1 = leakyBucketReport rl.config now b := by
  rw [Check_eq_leakyBucket rl key now hcl halg, checkLeakyBucket_def]
  exact peekBucket_of_ok rl _ now _ b hload

theorem Check_fixedWindow_of_load (rl : rateLimiter) (key : String) (now : Int) (w : windowData)
    (hcl : rl.closed = false) (halg : rl.config.Algorithm = FixedWindow)
    (hload : (rl.getWindowData (rl.extractKey key) now).1 = Except.ok w) :
    (rl.Check key now).1 = fixedWindowReport rl.config now w := by
  rw [Check_eq_fixedWindow rl key now hcl halg, checkFixedWindow_def]
  exact peekWindow_of_ok rl _ now _ w hload

theorem Check_slidingWindow_of_load (rl : rateLimiter) (key : String) (now : Int)
    (w : windowData) (hcl : rl.closed = false) (halg : rl.config.Algorithm = SlidingWindow)
    (hload : (rl.getWindowData (rl.extractKey key) now).1 = Except.ok w) :
    (rl.Check key now).1 = slidingWindowReport rl.config now w := by
  rw [Check_eq_slidingWindow rl key now hcl halg, checkSlidingWindow_def]
  exact peekWindow_of_ok rl _ now _ w hload

/-- What a `Check` at the instant of a write loads: the state just written. -/
theorem Stored.reloadBucket {rl0 rl : rateLimiter} {key : String} {b : bucketData} {s : Int}
    (h : Stored rl0 rl key (Bytes.bucketJSON b) s) :
    (rl.getBucketData (rl.extractKey key) s).1 = Except.ok b :=
  h.loadBucket s (isExpired_expiryAt_same _ _ _)

theorem Stored.reloadWindow {rl0 rl : rateLimiter} {key : String} {w : windowData} {s : Int}
    (h : Stored rl0 rl key (Bytes.windowJSON w) s) :
    (rl.getWindowData (rl.extractKey key) s).1 = Except.ok w :=
  h.loadWindow s (isExpired_expiryAt_same _ _ _)

theorem checkLevel_same (cfg : Config) (tokens : ℚ) (now : Int) :
    checkLevel cfg { Tokens := tokens, LastRefill := now } now =
      min (cfg.BurstSize : ℚ) tokens := by
  unfold checkLevel
  simp only [Time.Sub_self, Duration.Seconds]
  norm_num

theorem tokenBucket_remaining_mono (rl : rateLimiter) (key : String) (n now : Int)
    (b : bucketData) (hcl : rl.closed = false) (halg : rl.config.Algorithm = TokenBucket)
    (hopen : rl.storage.closed = false) (hn : 0 ≤ n)
    (hload : (rl.getBucketData (rl.extractKey key) now).1 = Except.ok b)
    (hz : b.LastRefill ≠ 0) :
    ((rl.AllowN key n now).2.Check key now).1.Remaining ≤ (rl.Check key now).1.Remaining := by
  obtain ⟨_, hst⟩ := AllowN_tokenBucket_stored rl key n now b hcl halg hopen hload
  rw [Check_tokenBucket_of_load rl key now b hcl halg hload,
    Check_tokenBucket_of_load _ key now _ hst.2.1 (by rw [hst.1]; exact halg) hst.reloadBucket,
    hst.1]
  show ⌊checkLevel rl.config _ now⌋ ≤ ⌊checkLevel rl.config b now⌋
  apply Int.floor_mono
  rw [checkLevel_same, checkLevel_initialised rl.config b now hz]
  have hnq : (0 : ℚ) ≤ (n : ℚ) := by exact_mod_cast hn
  refine le_trans (min_le_right _ _) ?_
  split_ifs <;> linarith

theorem checkLeakLevel_same (cfg : Config) (tokens : ℚ) (now : Int) :
    tokens ≤ checkLeakLevel cfg { Tokens := tokens, LastRefill := now } now := by
  unfold checkLeakLevel
  split_ifs
  · simp only [Time.Sub_self, Duration.Seconds]
    norm_num
  · exact le_refl _

theorem leakyBucket_remaining_mono (rl : rateLimiter) (key : String) (n now : Int)
    (b : bucketData) (hcl : rl.closed = false) (halg : rl.config.Algorithm = LeakyBucket)
    (hopen : rl.storage.closed = false) (hn : 0 ≤ n)
    (hload : (rl.getBucketData (rl.extractKey key) now).1 = Except.ok b) :
    ((rl.AllowN key n now).2.Check key now).1.Remaining ≤ (rl.Check key now).1.Remaining := by
  obtain ⟨_, hst⟩ := AllowN_leakyBucket_stored rl key n now b hcl halg hopen hload
  rw [Check_leakyBucket_of_load rl key now b hcl halg hload,
    Check_leakyBucket_of_load _ key now _ hst.2.1 (by rw [hst.1]; exact halg) hst.reloadBucket,
    hst.1]
  show ⌊(rl.config.BurstSize : ℚ) - checkLeakLevel rl.config _ now⌋ ≤
    ⌊(rl.config.BurstSize : ℚ) - checkLeakLevel rl.config b now⌋
  apply Int.floor_mono
  have h1 := checkLeakLevel_same rl.config
    (if leakLevel rl.config b now + (n : ℚ) ≤ (rl.config.BurstSize : ℚ) then
      leakLevel rl.config b now + (n : ℚ)
    else leakLevel rl.config b now) now
  have hnq : (0 : ℚ) ≤ (n : ℚ) := by exact_mod_cast hn
  have h2 : leakLevel rl.config b now ≤
      (if leakLevel rl.config b now + (n : ℚ) ≤ (rl.config.BurstSize : ℚ) then
        leakLevel rl.config b now + (n : ℚ)
      else leakLevel rl.config b now) := by
    split_ifs <;> linarith
  rw [checkLeakLevel_eq rl.config b now]
  linarith

/-- A window that has just been rolled over, or was not due, is not rolled over
again at the same instant. -/
theorem rolledWindow_idem (cfg : Config) (w : windowData) (now c : Int) (hW : 0 < cfg.Window)
    (hW2 : cfg.Window ≤ maxInt64) :
    rolledWindow cfg { rolledWindow cfg w now with Count := c } now =
      { rolledWindow cfg w now with Count := c } := by
  have hmax : maxInt64 = 9223372036854775807 := rfl
  by_cases h : cfg.Window ≤ Time.Sub now w.WindowStart
  · have hr : rolledWindow cfg w now =
        { w with Count := 0, WindowStart := Time.Truncate now cfg.Window } := by
      unfold rolledWindow
      rw [if_pos h]
    rw [hr]
    have ht := Truncate_le now cfg.Window hW
    unfold rolledWindow
    simp only
    rw [if_neg]
    rw [Time.Sub_of_range _ _ (by omega) (by omega)]
    omega
  · have hr : rolledWindow cfg w now = w := by
      unfold rolledWindow
      rw [if_neg h]
    rw [hr]
    unfold rolledWindow
    simp only
    rw [if_neg h]

theorem wrap64_sub_mono (R c n : Int) (hc0 : 0 ≤ c) (hc1 : c ≤ R) (hR : R ≤ maxInt64)
    (hn0 : 0 ≤ n) (hn1 : n ≤ maxInt64) :
    wrap64 (R - (if wrap64 (c + n) ≤ R then wrap64 (c + n) else c)) ≤ wrap64 (R - c) := by
  have hmax : maxInt64 = 9223372036854775807 := rfl
  unfold wrap64
  split_ifs <;> omega

theorem fixedWindow_remaining_mono (rl : rateLimiter) (key : String) (n now : Int)
    (w : windowData) (hcl : rl.closed = false) (halg : rl.config.Algorithm = FixedWindow)
    (hopen : rl.storage.closed = false) (hn : 0 ≤ n) (hn1 : n ≤ maxInt64)
    (hR : 0 ≤ rl.config.Rate) (hR2 : rl.config.Rate ≤ maxInt64)
    (hW : 0 < rl.config.Window) (hW2 : rl.config.Window ≤ maxInt64)
    (hload : (rl.getWindowData (rl.extractKey key) now).1 = Except.ok w)
    (hc0 : 0 ≤ w.Count) (hc1 : w.Count ≤ rl.config.Rate) :
    ((rl.AllowN key n now).2.Check key now).1.Remaining ≤ (rl.Check key now).1.Remaining := by
  obtain ⟨_, hst⟩ := AllowN_fixedWindow_stored rl key n now w hcl halg hopen hload
  have hrc : 0 ≤ (rolledWindow rl.config w now).Count ∧
      (rolledWindow rl.config w now).Count ≤ rl.config.Rate := by
    unfold rolledWindow
    split_ifs
    · exact ⟨le_refl _, hR⟩
    · exact ⟨hc0, hc1⟩
  have hw1 : (if wrap64 ((rolledWindow rl.config w now).Count + n) ≤ rl.config.Rate then
        { rolledWindow rl.config w now with
          Count := wrap64 ((rolledWindow rl.config w now).Count + n) }
      else rolledWindow rl.config w now) =
      { rolledWindow rl.config w now with
        Count := if wrap64 ((rolledWindow rl.config w now).Count + n) ≤ rl.config.Rate then
          wrap64 ((rolledWindow rl.config w now).Count + n)
        else (rolledWindow rl.config w now).Count } := by
    split_ifs <;> rfl
  rw [hw1] at hst
  rw [Check_fixedWindow_of_load rl key now w hcl halg hload,
    Check_fixedWindow_of_load _ key now _ hst.2.1 (by rw [hst.1]; exact halg) hst.reloadWindow,
    hst.1]
  unfold fixedWindowReport
  simp only
  rw [rolledWindow_idem rl.config w now _ hW hW2]
  exact wrap64_sub_mono _ _ _ hrc.1 hrc.2 hR2 hn hn1

theorem filter_after_pruned (cfg : Config) (w : windowData) (now : Int) (k : Nat)
    (hW : 0 < cfg.Window) :
    ((prunedRequests cfg w now ++ List.replicate k now).filter
        (fun x => Time.After x (Time.Add now (-cfg.Window)))).length =
      (prunedRequests cfg w now).length + k := by
  have hall : ∀ x ∈ prunedRequests cfg w now ++ List.replicate k now,
      (fun x => Time.After x (Time.Add now (-cfg.Window))) x = true := by
    intro x hx
    rw [List.mem_append] at hx
    rcases hx with hx | hx
    · unfold prunedRequests at hx
      exact (List.mem_filter.mp hx).2
    · rw [List.eq_of_mem_replicate hx]
      unfold Time.After Time.Add
      exact decide_eq_true (by omega)
  rw [List.filter_eq_self.mpr hall, List.length_append, List.length_replicate]

theorem wrap64_sub_units (R p n k : Int) (hp0 : 0 ≤ p) (hp1 : p ≤ R) (hR : R ≤ maxInt64)
    (hn1 : n ≤ maxInt64) (hk : (0 ≤ n ∧ k = n) ∨ (n < 0 ∧ k = 0)) :
    wrap64 (R - (p + k)) ≤ wrap64 (R - p) := by
  have hmax : maxInt64 = 9223372036854775807 := rfl
  unfold wrap64
  omega

theorem slidingWindow_remaining_mono (rl : rateLimiter) (key : String) (n now : Int)
    (w : windowData) (hcl : rl.closed = false) (halg : rl.config.Algorithm = SlidingWindow)
    (hopen : rl.storage.closed = false) (hn1 : n ≤ maxInt64)
    (hR2 : rl.config.Rate ≤ maxInt64) (hW : 0 < rl.config.Window)
    (hload : (rl.getWindowData (rl.extractKey key) now).1 = Except.ok w)
    (hlen : (w.Requests.length : Int) ≤ rl.config.Rate) :
    ((rl.AllowN key n now).2.Check key now).1.Remaining ≤ (rl.Check key now).1.Remaining := by
  obtain ⟨_, hst⟩ := AllowN_slidingWindow_stored rl key n now w hcl halg hopen hload
  have hp := prunedRequests_length_le rl.config w now
  have hk : (0 ≤ n ∧ ((n.toNat : Nat) : Int) = n) ∨ (n < 0 ∧ ((n.toNat : Nat) : Int) = 0) := by
    by_cases h : 0 ≤ n
    · exact Or.inl ⟨h, Int.toNat_of_nonneg h⟩
    · right
      refine ⟨by omega, ?_⟩
      have : n.toNat = 0 := Int.toNat_eq_zero.mpr (by omega)
      rw [this]
      rfl
  have hbefore : (scanRequests (Time.Add now (-rl.config.Window)) w.Requests (0, now)).1 =
      ((prunedRequests rl.config w now).length : Int) := by
    rw [scanRequests_fst, Int.zero_add]
    rfl
  rw [Check_slidingWindow_of_load rl key now w hcl halg hload]
  by_cases hc : wrap64 (((prunedRequests rl.config w now).length : Int) + n) ≤ rl.config.Rate
  · rw [if_pos hc] at hst
    rw [Check_slidingWindow_of_load _ key now _ hst.2.1 (by rw [hst.1]; exact halg)
      hst.reloadWindow, hst.1]
    show wrap64 (rl.config.Rate -
        (scanRequests (Time.Add now (-rl.config.Window))
          (prunedRequests rl.config w now ++ List.replicate n.toNat now) (0, now)).1) ≤
      wrap64 (rl.config.Rate -
        (scanRequests (Time.Add now (-rl.config.Window)) w.Requests (0, now)).1)
    rw [hbefore, scanRequests_fst, Int.zero_add, filter_after_pruned rl.config w now _ hW]
    push_cast
    exact wrap64_sub_units _ _ _ _ (by omega) (by omega) hR2 hn1 hk
  · rw [if_neg hc] at hst
    rw [Check_slidingWindow_of_load _ key now _ hst.2.1 (by rw [hst.1]; exact halg)
      hst.reloadWindow, hst.1]
    show wrap64 (rl.config.Rate -
        (scanRequests (Time.Add now (-rl.config.Window))
          (prunedRequests rl.config w now) (0, now)).1) ≤
      wrap64 (rl.config.Rate -
        (scanRequests (Time.Add now (-rl.config.Window)) w.Requests (0, now)).1)
    have h0 := filter_after_pruned rl.config w now 0 hW
    simp only [List.replicate_zero, List.append_nil, Nat.add_zero] at h0
    rw [hbefore, scanRequests_fst, Int.zero_add, h0]

/-! ## Token Bucket: how much is admitted over a period -/

theorem admittedUnits_cons (rl : rateLimiter) (c : Call) (cs : List Call) :
    admittedUnits rl (c :: cs) =
      (if (rl.AllowN c.key c.n c.now).1 then c.n else 0) +
        admittedUnits (rl.AllowN c.key c.n c.now).2 cs := rfl

theorem Time.Sub_le (a b : Int) (h : b ≤ a) : Time.Sub a b ≤ a - b ∧ 0 ≤ Time.Sub a b := by
  have hmax : maxInt64 = 9223372036854775807 := rfl
  have hmin : minInt64 = -9223372036854775808 := rfl
  unfold Time.Sub
  split_ifs <;> omega

/-- The refreshed level is at most the stored level plus the refill of the
elapsed time. -/
theorem tokenLevel_le_refill (cfg : Config) (b : bucketData) (now : Int)
    (hz : b.LastRefill ≠ 0) (hR : 0 ≤ cfg.Rate) (hW : 0 < cfg.Window)
    (hmono : b.LastRefill ≤ now) :
    tokenLevel cfg b now ≤
      b.Tokens + ((now - b.LastRefill : Int) : ℚ) * (cfg.Rate : ℚ) / (cfg.Window : ℚ) := by
  rw [tokenLevel_initialised cfg b now hz hW]
  refine le_trans (min_le_right _ _) ?_
  have h1 := (Time.Sub_le now b.LastRefill hmono).1
  have h2 : ((Time.Sub now b.LastRefill : Int) : ℚ) ≤ ((now - b.LastRefill : Int) : ℚ) := by
    exact_mod_cast h1
  have h3 : (0 : ℚ) ≤ (cfg.Rate : ℚ) := by exact_mod_cast hR
  have h4 : (0 : ℚ) < (cfg.Window : ℚ) := by exact_mod_cast hW
  have h5 : ((Time.Sub now b.LastRefill : Int) : ℚ) * (cfg.Rate : ℚ) / (cfg.Window : ℚ) ≤
      ((now - b.LastRefill : Int) : ℚ) * (cfg.Rate : ℚ) / (cfg.Window : ℚ) :=
    div_le_div_of_nonneg_right (mul_le_mul_of_nonneg_right h2 h3) (le_of_lt h4)
  linarith

/-- When the burst is at most twice the rate, more than two windows of refill
fill the bucket. -/
theorem burst_le_refill (cfg : Config) (d : Int) (hR : 0 ≤ cfg.Rate) (hW : 0 < cfg.Window)
    (hB : cfg.BurstSize ≤ 2 * cfg.Rate) (hd : 2 * cfg.Window < d) :
    (cfg.BurstSize : ℚ) ≤ (d : ℚ) * (cfg.Rate : ℚ) / (cfg.Window : ℚ) := by
  have h3 : (0 : ℚ) ≤ (cfg.Rate : ℚ) := by exact_mod_cast hR
  have h4 : (0 : ℚ) < (cfg.Window : ℚ) := by exact_mod_cast hW
  have h5 : (cfg.BurstSize : ℚ) ≤ 2 * (cfg.Rate : ℚ) := by exact_mod_cast hB
  have h6 : 2 * (cfg.Window : ℚ) ≤ (d : ℚ) := by
    have : 2 * cfg.Window ≤ d := le_of_lt hd
    exact_mod_cast this
  rw [le_div_iff₀ h4]
  nlinarith

theorem tokenBucket_units_run (E : Int) (cs : List Call) :
    ∀ (rl0 rl : rateLimiter) (key : String) (tokens : ℚ) (s : Int),
    rl0.config.Algorithm = TokenBucket → 0 ≤ rl0.config.BurstSize → 0 ≤ rl0.config.Rate →
    0 < rl0.config.Window → rl0.config.Window ≤ maxInt64 →
    Stored rl0 rl key (Bytes.bucketJSON { Tokens := tokens, LastRefill := s }) s →
    0 < s → 0 ≤ tokens →
    (∀ c ∈ cs, c.key = key ∧ 0 ≤ c.n ∧ c.now ≤ E) →
    List.Chain (fun a b => a ≤ b ∧
      (rl0.config.BurstSize ≤ 2 * rl0.config.Rate ∨ b ≤ a + 2 * rl0.config.Window)) s
      (cs.map Call.now) →
    s ≤ E →
    (admittedUnits rl cs : ℚ) ≤
      tokens + ((E - s : Int) : ℚ) * (rl0.config.Rate : ℚ) / (rl0.config.Window : ℚ) := by
  induction cs with
  | nil =>
    intro rl0 rl key tokens s _ _ hR hW _ _ _ h0 _ _ hsE
    have := rate_share_nonneg (E - s) rl0.config.Rate rl0.config.Window (by omega) hR hW
    show ((0 : Int) : ℚ) ≤ _
    rw [Int.cast_zero]
    linarith
  | cons c cs ih =>
    intro rl0 rl key tokens s halg hB hR hW hW2 hst hs h0 hcs hch hsE
    obtain ⟨hck, hcn, hcE⟩ := hcs c (List.mem_cons_self _ _)
    have hcfg : rl.config = rl0.config := hst.1
    rw [List.map_cons, List.chain_cons] at hch
    obtain ⟨⟨hsc, hgap⟩, hch2⟩ := hch
    rw [admittedUnits_cons, hck]
    -- the level that the call sees is at most the stored level plus the refill
    have hload : ∃ b0, (rl.getBucketData (rl.extractKey key) c.now).1 = Except.ok b0 ∧
        0 ≤ tokenLevel rl0.config b0 c.now ∧
        tokenLevel rl0.config b0 c.now ≤
          tokens + ((c.now - s : Int) : ℚ) * (rl0.config.Rate : ℚ) /
            (rl0.config.Window : ℚ) := by
      cases hexp : (memoryItem.mk (Bytes.bucketJSON { Tokens := tokens, LastRefill := s })
          (expiryAt rl.config s)).isExpired c.now with
      | true =>
        refine ⟨_, hst.loadBucket_expired c.now hexp, ?_, ?_⟩
        · rw [tokenLevel_fresh]
          exact_mod_cast hB
        · rw [tokenLevel_fresh]
          rw [hcfg] at hexp
          have hgt := isExpired_expiryAt_gt _ _ _ _ hW hW2 hexp
          rcases hgap with hgap | hgap
          · have := burst_le_refill rl0.config (c.now - s) hR hW hgap (by omega)
            linarith
          · omega
      | false =>
        refine ⟨_, hst.loadBucket c.now hexp, ?_, ?_⟩
        · exact tokenLevel_nonneg _ _ _ hB hR hW h0 hsc
        · exact tokenLevel_le_refill rl0.config _ c.now (by simpa using (ne_of_gt hs)) hR hW hsc
    obtain ⟨b0, hl, hlev0, hlev⟩ := hload
    obtain ⟨q1, q2⟩ := AllowN_tokenBucket_stored rl key c.n c.now b0 hst.2.1
      (by rw [hcfg]; exact halg) hst.2.2.1 hl
    rw [hcfg] at q1 q2
    have hcn0 : (0 : ℚ) ≤ (c.n : ℚ) := by exact_mod_cast hcn
    have hsplit : ((E : ℚ) - (s : ℚ)) * (rl0.config.Rate : ℚ) / (rl0.config.Window : ℚ) =
        ((c.now : ℚ) - (s : ℚ)) * (rl0.config.Rate : ℚ) / (rl0.config.Window : ℚ) +
          ((E : ℚ) - (c.now : ℚ)) * (rl0.config.Rate : ℚ) / (rl0.config.Window : ℚ) := by
      ring
    by_cases hv : (c.n : ℚ) ≤ tokenLevel rl0.config b0 c.now
    · rw [if_pos hv] at q2
      have := ih rl0 _ key _ c.now halg hB hR hW hW2 (hst.rebase q2) (by omega)
        (by linarith) (fun d hd => hcs d (List.mem_cons_of_mem _ hd)) hch2 hcE
      rw [q1, decide_eq_true hv, if_pos rfl]
      push_cast at this hlev ⊢
      linarith
    · rw [if_neg hv] at q2
      have := ih rl0 _ key _ c.now halg hB hR hW hW2 (hst.rebase q2) (by omega)
        hlev0 (fun d hd => hcs d (List.mem_cons_of_mem _ hd)) hch2 hcE
      rw [q1, decide_eq_false hv]
      simp only [Bool.false_eq_true, if_false, Int.zero_add]
      push_cast at this hlev ⊢
      linarith

/-! ## Sliding Window: the rate guarantee -/

theorem admittedIn_cons (rl : rateLimiter) (lo hi : Int) (c : Call) (cs : List Call) :
    admittedIn rl lo hi (c :: cs) =
      (if (rl.AllowN c.key c.n c.now).1 = true ∧ lo < c.now ∧ c.now ≤ hi then c.n else 0) +
        admittedIn (rl.AllowN c.key c.n c.now).2 lo hi cs := rfl

theorem admittedIn_eq_zero (lo hi : Int) (cs : List Call) :
    ∀ rl : rateLimiter, (∀ c ∈ cs, hi < c.now) → admittedIn rl lo hi cs = 0 := by
  induction cs with
  | nil => exact fun _ _ => rfl
  | cons c cs ih =>
    intro rl h
    have hc := h c (List.mem_cons_self _ _)
    rw [admittedIn_cons, ih _ (fun d hd => h d (List.mem_cons_of_mem _ hd)), if_neg]
    · rfl
    · rintro ⟨_, _, h3⟩
      omega

theorem inWindow_nonneg (lo hi : Int) (l : List Int) : 0 ≤ inWindow lo hi l := by
  unfold inWindow
  exact Int.natCast_nonneg _

theorem inWindow_le_length (lo hi : Int) (l : List Int) :
    inWindow lo hi l ≤ (l.length : Int) := by
  unfold inWindow
  exact_mod_cast List.length_filter_le _ _

theorem inWindow_nil (lo hi : Int) : inWindow lo hi [] = 0 := rfl

theorem inWindow_append (lo hi : Int) (l1 l2 : List Int) :
    inWindow lo hi (l1 ++ l2) = inWindow lo hi l1 + inWindow lo hi l2 := by
  unfold inWindow
  rw [List.filter_append, List.length_append]
  push_cast
  rfl

theorem inWindow_replicate (lo hi : Int) (k : Nat) (t : Int) :
    inWindow lo hi (List.replicate k t) = if lo < t ∧ t ≤ hi then (k : Int) else 0 := by
  unfold inWindow
  by_cases h : lo < t ∧ t ≤ hi
  · rw [if_pos h, List.filter_eq_self.mpr, List.length_replicate]
    intro x hx
    rw [List.eq_of_mem_replicate hx]
    exact decide_eq_true h
  · rw [if_neg h, List.filter_eq_nil_iff.mpr]
    · rfl
    · intro x hx
      rw [List.eq_of_mem_replicate hx]
      simpa using h

theorem inWindow_eq_zero (lo hi : Int) (l : List Int) (h : ∀ x ∈ l, x ≤ lo) :
    inWindow lo hi l = 0 := by
  unfold inWindow
  rw [List.filter_eq_nil_iff.mpr]
  · rfl
  · intro x hx
    have := h x hx
    simp only [decide_eq_true_eq, not_and, not_le]
    intro h1
    omega

/-- Pruning at a time not after `hi` keeps every timestamp of `(hi - window, hi]`. -/
theorem inWindow_pruned (cfg : Config) (w : windowData) (t1 hi : Int) (h : t1 ≤ hi) :
    inWindow (hi - cfg.Window) hi (prunedRequests cfg w t1) =
      inWindow (hi - cfg.Window) hi w.Requests := by
  unfold inWindow prunedRequests
  rw [List.filter_filter]
  congr 2
  apply List.filter_congr
  intro x _
  unfold Time.After Time.Add
  by_cases hx : hi - cfg.Window < x ∧ x ≤ hi
  · have h1 : t1 + -cfg.Window < x := by omega
    simp [hx, h1]
  · simp [hx]

/-- One Sliding Window call: what it persists, and what it adds to the
timestamps of `(t - window, t]` when it is made at a time not after `t`. -/
theorem slidingWindow_step_units (rl : rateLimiter) (key : String) (n t1 t : Int)
    (wl : windowData) (hcl : rl.closed = false) (halg : rl.config.Algorithm = SlidingWindow)
    (hopen : rl.storage.closed = false)
    (hload : (rl.getWindowData (rl.extractKey key) t1).1 = Except.ok wl)
    (hn : 0 ≤ n) (hn1 : n + rl.config.Rate ≤ maxInt64)
    (hlen : (wl.Requests.length : Int) ≤ rl.config.Rate) (hx : ∀ x ∈ wl.Requests, x ≤ t1)
    (ht : t1 ≤ t) :
    ∃ w1 : windowData,
      Stored rl (rl.AllowN key n t1).2 key (Bytes.windowJSON w1) t1 ∧
        (w1.Requests.length : Int) ≤ rl.config.Rate ∧ (∀ x ∈ w1.Requests, x ≤ t1) ∧
        inWindow (t - rl.config.Window) t w1.Requests =
          inWindow (t - rl.config.Window) t wl.Requests +
            (if (rl.AllowN key n t1).1 = true ∧ t - rl.config.Window < t1 ∧ t1 ≤ t then n
             else 0) := by
  obtain ⟨q1, q2⟩ := AllowN_slidingWindow_stored rl key n t1 wl hcl halg hopen hload
  have hp := prunedRequests_length_le rl.config wl t1
  have hpx : ∀ x ∈ prunedRequests rl.config wl t1, x ≤ t1 := fun x hx1 =>
    hx x ((mem_prunedRequests rl.config wl t1 x).mp hx1).1
  have hw : wrap64 (((prunedRequests rl.config wl t1).length : Int) + n) =
      ((prunedRequests rl.config wl t1).length : Int) + n :=
    wrap64_of_range _ (by unfold minInt64; omega) (by omega)
  have hnn : ((n.toNat : Nat) : Int) = n := Int.toNat_of_nonneg hn
  have hpr := inWindow_pruned rl.config wl t1 t ht
  rw [hw] at q1 q2
  by_cases hc : ((prunedRequests rl.config wl t1).length : Int) + n ≤ rl.config.Rate
  · rw [if_pos hc] at q2
    refine ⟨_, q2, ?_, ?_, ?_⟩
    · show ((prunedRequests rl.config wl t1 ++ List.replicate n.toNat t1).length : Int) ≤ _
      rw [List.length_append, List.length_replicate]
      push_cast
      omega
    · intro x hx1
      rw [List.mem_append] at hx1
      rcases hx1 with hx1 | hx1
      · exact hpx x hx1
      · rw [List.eq_of_mem_replicate hx1]
    · show inWindow _ _ (prunedRequests rl.config wl t1 ++ List.replicate n.toNat t1) = _
      rw [inWindow_append, inWindow_replicate, hpr, q1, decide_eq_true hc, hnn]
      simp only [true_and]
  · rw [if_neg hc] at q2
    refine ⟨_, q2, ?_, hpx, ?_⟩
    · show ((prunedRequests rl.config wl t1).length : Int) ≤ _
      omega
    · show inWindow _ _ (prunedRequests rl.config wl t1) = _
      rw [hpr, q1, decide_eq_false hc]
      simp

theorem slidingWindow_units_run (t : Int) (cs : List Call) :
    ∀ (rl0 rl : rateLimiter) (key : String) (w : windowData) (s : Int),
    rl0.config.Algorithm = SlidingWindow → 0 ≤ rl0.config.Rate →
    0 < rl0.config.Window → rl0.config.Window ≤ maxInt64 →
    Stored rl0 rl key (Bytes.windowJSON w) s →
    (w.Requests.length : Int) ≤ rl0.config.Rate → (∀ x ∈ w.Requests, x ≤ s) →
    (∀ c ∈ cs, c.key = key ∧ 0 ≤ c.n ∧ c.n + rl0.config.Rate ≤ maxInt64 ∧ s ≤ c.now) →
    cs.Pairwise (fun a b => a.now ≤ b.now) →
    inWindow (t - rl0.config.Window) t w.Requests +
      admittedIn rl (t - rl0.config.Window) t cs ≤ rl0.config.Rate := by
  induction cs with
  | nil =>
    intro rl0 rl key w s _ _ _ _ _ hlen _ _ _
    have := inWindow_le_length (t - rl0.config.Window) t w.Requests
    show _ + 0 ≤ _
    omega
  | cons c cs ih =>
    intro rl0 rl key w s halg hR hW hW2 hst hlen hx hcs hsorted
    obtain ⟨hck, hcn, hcn1, hsc⟩ := hcs c (List.mem_cons_self _ _)
    have hcfg : rl.config = rl0.config := hst.1
    rw [List.pairwise_cons] at hsorted
    by_cases hct : c.now ≤ t
    · -- the call is made inside the period that ends at `t`
      have hload : ∃ wl, (rl.getWindowData (rl.extractKey key) c.now).1 = Except.ok wl ∧
          (wl.Requests.length : Int) ≤ rl.config.Rate ∧ (∀ x ∈ wl.Requests, x ≤ c.now) ∧
          inWindow (t - rl0.config.Window) t wl.Requests =
            inWindow (t - rl0.config.Window) t w.Requests := by
        cases hexp : (memoryItem.mk (Bytes.windowJSON w) (expiryAt rl.config s)).isExpired
            c.now with
        | true =>
          refine ⟨_, hst.loadWindow_expired c.now hexp, ?_, ?_, ?_⟩
          · rw [hcfg]
            simpa using hR
          · simp
          · rw [hcfg] at hexp
            have hgt := isExpired_expiryAt_gt _ _ _ _ hW hW2 hexp
            rw [inWindow_nil, inWindow_eq_zero _ _ _ (fun x hx1 => by
              have := hx x hx1
              omega)]
        | false =>
          exact ⟨w, hst.loadWindow c.now hexp, by rw [hcfg]; exact hlen,
            fun x hx1 => le_trans (hx x hx1) hsc, rfl⟩
      obtain ⟨wl, hl, hlen1, hx1, hin⟩ := hload
      obtain ⟨w1, r1, r2, r3, r4⟩ := slidingWindow_step_units rl key c.n c.now t wl hst.2.1
        (by rw [hcfg]; exact halg) hst.2.2.1 hl hcn (by rw [hcfg]; exact hcn1) hlen1 hx1 hct
      rw [hcfg] at r2 r4
      have := ih rl0 _ key w1 c.now halg hR hW hW2 (hst.rebase r1) r2 r3
        (fun d hd => ⟨(hcs d (List.mem_cons_of_mem _ hd)).1,
          (hcs d (List.mem_cons_of_mem _ hd)).2.1, (hcs d (List.mem_cons_of_mem _ hd)).2.2.1,
          hsorted.1 d hd⟩)
        hsorted.2
      rw [admittedIn_cons, hck]
      rw [r4, hin] at this
      omega
    · -- the call and all later ones are made after `t`
      have hz := admittedIn_eq_zero (t - rl0.config.Window) t (c :: cs) rl (by
        intro d hd
        rw [List.mem_cons] at hd
        rcases hd with hd | hd
        · rw [hd]
          omega
        · have := hsorted.1 d hd
          omega)
      rw [hz]
      have := inWindow_le_length (t - rl0.config.Window) t w.Requests
      omega

/-- C38. Sliding Window rate guarantee: on a limiter built by `New` with the
Sliding Window algorithm and an open storage, starting from a fresh key, for
every sequence of `AllowN(key, n)` calls with `n >= 0` (and `n + rate` within
`int64`) at times that never go back, and for every time `t`, the number of
units admitted at times in `(t - window, t]` is at most `rate`. -/
theorem slidingWindow_rate_guarantee (cfg : Config) (rl : rateLimiter) (key : String)
    (cs : List Call) (t : Int)
    (hnew : New cfg = Except.ok rl) (halg : cfg.Algorithm = SlidingWindow)
    (hW2 : cfg.Window ≤ maxInt64) (hopen : rl.storage.closed = false)
    (hfresh : rl.storage.items.lookup (rl.extractKey key) = none)
    (hcs : ∀ c ∈ cs, c.key = key ∧ 0 ≤ c.n ∧ c.n + cfg.Rate ≤ maxInt64)
    (hsorted : cs.Pairwise (fun a b => a.now ≤ b.now)) :
    admittedIn rl (t - cfg.Window) t cs ≤ cfg.Rate := by
  obtain ⟨hR, hW, hA, hRe, hWe, _, hcl, _, _⟩ := New_ok hnew
  have halg1 : rl.config.Algorithm = SlidingWindow := hA.trans halg
  rw [← hRe, ← hWe]
  cases cs with
  | nil =>
    show (0 : Int) ≤ _
    omega
  | cons c cs =>
    obtain ⟨hck, hcn, hcn1⟩ := hcs c (List.mem_cons_self _ _)
    rw [List.pairwise_cons] at hsorted
    by_cases hct : c.now ≤ t
    · have hl := (getWindowData_of_lookup_none rl (rl.extractKey key) c.now hopen hfresh).1
      obtain ⟨w1, r1, r2, r3, r4⟩ := slidingWindow_step_units rl key c.n c.now t _ hcl halg1
        hopen hl hcn (by omega) (by simpa using (by omega : 0 ≤ rl.config.Rate)) (by simp) hct
      have := slidingWindow_units_run t cs rl _ key w1 c.now halg1 (by omega) (by omega)
        (by omega) r1 r2 r3
        (fun d hd => ⟨(hcs d (List.mem_cons_of_mem _ hd)).1,
          (hcs d (List.mem_cons_of_mem _ hd)).2.1,
          by have := (hcs d (List.mem_cons_of_mem _ hd)).2.2; omega, hsorted.1 d hd⟩)
        hsorted.2
      rw [admittedIn_cons, hck]
      rw [r4, inWindow_nil] at this
      omega
    · have hz := admittedIn_eq_zero (t - rl.config.Window) t (c :: cs) rl (by
        intro d hd
        rw [List.mem_cons] at hd
        rcases hd with hd | hd
        · rw [hd]
          omega
        · have := hsorted.1 d hd
          omega)
      rw [hz]
      omega

theorem slidingWindow_rate_guarantee_witness :
    admittedIn (limiterOf slidingWindowConfig) (6200000000 - slidingWindowConfig.Window)
        6200000000 fiveCalls ≤ slidingWindowConfig.Rate :=
  slidingWindow_rate_guarantee slidingWindowConfig (limiterOf slidingWindowConfig) "test-user"
    fiveCalls 6200000000 rfl rfl (by decide) rfl rfl
    (by simp [fiveCalls, slidingWindowConfig, maxInt64]) (by simp [fiveCalls])

/-! ## binary64 rounding -/

theorem pow2_eq (k : Int) : pow2 k = (2 : ℚ) ^ k := by
  unfold pow2
  split_ifs with h
  · obtain ⟨n, rfl⟩ := Int.eq_ofNat_of_zero_le h
    simp
  · have hk : 0 ≤ -k := by omega
    obtain ⟨n, hn⟩ := Int.eq_ofNat_of_zero_le hk
    have hk2 : k = -(n : Int) := by omega
    subst hk2
    simp

theorem pow2_pos (k : Int) : 0 < pow2 k := by
  rw [pow2_eq]
  positivity

theorem pow2_add (a b : Int) : pow2 (a + b) = pow2 a * pow2 b := by
  rw [pow2_eq, pow2_eq, pow2_eq, zpow_add₀ (by norm_num)]

theorem pow2_le_pow2 {a b : Int} (h : a ≤ b) : pow2 a ≤ pow2 b := by
  rw [pow2_eq, pow2_eq]
  exact zpow_le_zpow_right₀ (by norm_num) h

theorem pow2_lt_pow2_iff {a b : Int} : pow2 a < pow2 b ↔ a < b := by
  rw [pow2_eq, pow2_eq]
  exact zpow_lt_zpow_iff_right₀ (by norm_num)

theorem log2Aux_spec (fuel : Nat) :
    ∀ n : Nat, n ≤ fuel → n ≠ 0 → 2 ^ log2Aux fuel n ≤ n ∧ n < 2 ^ (log2Aux fuel n + 1) := by
  induction fuel with
  | zero =>
    intro n h1 h2
    omega
  | succ f ih =>
    intro n h1 h2
    unfold log2Aux
    by_cases h : n < 2
    · rw [if_pos h]
      simp
      omega
    · rw [if_neg h]
      have h3 := ih (n / 2) (by omega) (by omega)
      rw [pow_succ, pow_succ]
      omega

theorem log2_spec (n : Nat) (h : n ≠ 0) : 2 ^ log2 n ≤ n ∧ n < 2 ^ (log2 n + 1) :=
  log2Aux_spec n n (le_refl n) h

theorem binaryExponent_spec (q : ℚ) (hq : q ≠ 0) :
    pow2 (binaryExponent q) ≤ |q| ∧ |q| < pow2 (binaryExponent q + 1) := by
  have hnum : q.num.natAbs ≠ 0 := by
    intro h
    exact hq (Rat.zero_of_num_zero (Int.natAbs_eq_zero.mp h))
  have hden : q.den ≠ 0 := q.den_nz
  obtain ⟨a1, a2⟩ := log2_spec q.num.natAbs hnum
  obtain ⟨b1, b2⟩ := log2_spec q.den hden
  have habs : |q| = (q.num.natAbs : ℚ) / (q.den : ℚ) := by
    rw [Rat.abs_def, Rat.divInt_eq_div]
    push_cast
    congr 1
    rw [Nat.cast_natAbs]
    push_cast
    rfl
  have hdpos : (0 : ℚ) < (q.den : ℚ) := by exact_mod_cast Nat.pos_of_ne_zero hden
  have a1q : (2 : ℚ) ^ (log2 q.num.natAbs) ≤ (q.num.natAbs : ℚ) := by exact_mod_cast a1
  have a2q : (q.num.natAbs : ℚ) < (2 : ℚ) ^ (log2 q.num.natAbs + 1) := by exact_mod_cast a2
  have b1q : (2 : ℚ) ^ (log2 q.den) ≤ (q.den : ℚ) := by exact_mod_cast b1
  have b2q : (q.den : ℚ) < (2 : ℚ) ^ (log2 q.den + 1) := by exact_mod_cast b2
  have hpa : (0 : ℚ) < (2 : ℚ) ^ (log2 q.num.natAbs) := by positivity
  have hpb : (0 : ℚ) < (2 : ℚ) ^ (log2 q.den) := by positivity
  -- the two candidates
  have hlow : pow2 ((log2 q.num.natAbs : Int) - (log2 q.den : Int) - 1) ≤ |q| := by
    rw [habs, pow2_eq, le_div_iff₀ hdpos, sub_sub, zpow_sub₀ (by norm_num), zpow_natCast,
      zpow_add₀ (by norm_num), zpow_natCast, zpow_one]
    rw [div_mul_eq_mul_div, div_le_iff₀ (by positivity)]
    have : (q.den : ℚ) ≤ (2 : ℚ) ^ (log2 q.den) * 2 := by
      rw [pow_succ] at b2q
      exact le_of_lt b2q
    nlinarith
  have hhigh : |q| < pow2 ((log2 q.num.natAbs : Int) - (log2 q.den : Int) + 1) := by
    rw [habs, pow2_eq, div_lt_iff₀ hdpos, sub_add_eq_add_sub, zpow_sub₀ (by norm_num),
      zpow_natCast, zpow_add₀ (by norm_num), zpow_natCast, zpow_one]
    rw [div_mul_eq_mul_div, lt_div_iff₀ (by positivity)]
    rw [pow_succ] at a2q
    nlinarith
  unfold binaryExponent
  split_ifs with h
  · exact ⟨h, hhigh⟩
  · refine ⟨hlow, ?_⟩
    rw [sub_add_cancel]
    exact lt_of_not_le h

theorem binaryExponent_unique (q : ℚ) (e : Int) (h1 : pow2 e ≤ |q|) (h2 : |q| < pow2 (e + 1)) :
    binaryExponent q = e := by
  have hq : q ≠ 0 := by
    intro h
    rw [h, abs_zero] at h1
    exact absurd (pow2_pos e) (not_lt.mpr h1)
  obtain ⟨s1, s2⟩ := binaryExponent_spec q hq
  have c1 : binaryExponent q < e + 1 := pow2_lt_pow2_iff.mp (lt_of_le_of_lt s1 h2)
  have c2 : e < binaryExponent q + 1 := pow2_lt_pow2_iff.mp (lt_of_le_of_lt h1 s2)
  omega

theorem binaryExponent_neg (q : ℚ) : binaryExponent (-q) = binaryExponent q := by
  by_cases hq : q = 0
  · rw [hq, neg_zero]
  · obtain ⟨s1, s2⟩ := binaryExponent_spec q hq
    exact binaryExponent_unique (-q) _ (by rwa [abs_neg]) (by rwa [abs_neg])

theorem ulp_pos (q : ℚ) : 0 < ulp q := pow2_pos _

theorem ulp_neg (q : ℚ) : ulp (-q) = ulp q := by
  unfold ulp
  rw [binaryExponent_neg]

theorem floor_bounds (x : ℚ) : ((⌊x⌋ : Int) : ℚ) ≤ x ∧ x < ((⌊x⌋ : Int) : ℚ) + 1 :=
  ⟨Int.floor_le x, Int.lt_floor_add_one x⟩

theorem roundHalfEven_int (z : Int) : roundHalfEven (z : ℚ) = z := by
  unfold roundHalfEven
  rw [Int.floor_intCast, sub_self, if_pos (by norm_num)]

theorem roundHalfEven_mono {x y : ℚ} (h : x ≤ y) : roundHalfEven x ≤ roundHalfEven y := by
  obtain ⟨a1, a2⟩ := floor_bounds x
  obtain ⟨b1, b2⟩ := floor_bounds y
  have hfl : ⌊x⌋ ≤ ⌊y⌋ := Int.floor_le_floor h
  unfold roundHalfEven
  rcases lt_or_eq_of_le hfl with hlt | heq
  · have : ⌊x⌋ + 1 ≤ ⌊y⌋ := hlt
    split_ifs <;> omega
  · rw [heq] at a1 a2 ⊢
    split_ifs <;> first | omega | (exfalso; linarith)

theorem roundHalfEven_err (x : ℚ) : |(roundHalfEven x : ℚ) - x| ≤ 1 / 2 := by
  obtain ⟨a1, a2⟩ := floor_bounds x
  unfold roundHalfEven
  rw [abs_le]
  split_ifs <;> push_cast <;> constructor <;> linarith

theorem roundHalfEven_neg (x : ℚ) : roundHalfEven (-x) = -roundHalfEven x := by
  obtain ⟨a1, a2⟩ := floor_bounds x
  obtain ⟨b1, b2⟩ := floor_bounds (-x)
  have h1 : ⌊-x⌋ ≤ -⌊x⌋ := by
    have : ((⌊-x⌋ : Int) : ℚ) < ((-⌊x⌋ + 1 : Int) : ℚ) := by
      push_cast
      linarith
    have := Int.cast_lt.mp this
    omega
  have h2 : -⌊x⌋ - 1 ≤ ⌊-x⌋ := by
    have : ((-⌊x⌋ - 1 : Int) : ℚ) < ((⌊-x⌋ + 1 : Int) : ℚ) := by
      push_cast
      linarith
    have := Int.cast_lt.mp this
    omega
  have h3 : ⌊-x⌋ = -⌊x⌋ ∨ ⌊-x⌋ = -⌊x⌋ - 1 := by omega
  unfold roundHalfEven
  rcases h3 with h3 | h3
  · rw [h3] at b1 b2 ⊢
    push_cast at b1 b2 ⊢
    split_ifs <;> first | omega | (exfalso; linarith)
  · rw [h3] at b1 b2 ⊢
    push_cast at b1 b2 ⊢
    split_ifs <;> first | omega | (exfalso; linarith)

theorem f64_zero : f64 0 = 0 := by
  unfold f64
  rw [if_pos rfl]

theorem f64_of_ne (q : ℚ) (hq : q ≠ 0) :
    f64 q = (roundHalfEven (q / ulp q) : ℚ) * ulp q := by
  unfold f64
  rw [if_neg hq]

theorem f64_neg (q : ℚ) : f64 (-q) = -f64 q := by
  by_cases hq : q = 0
  · rw [hq, neg_zero, f64_zero, neg_zero]
  · rw [f64_of_ne q hq, f64_of_ne (-q) (neg_ne_zero.mpr hq), ulp_neg, neg_div,
      roundHalfEven_neg]
    push_cast
    ring

/-- A rational whose quotient by its spacing is a whole number is a binary64
value. -/
theorem f64_of_quotient (q : ℚ) (z : Int) (h : q / ulp q = (z : ℚ)) : f64 q = q := by
  by_cases hq : q = 0
  · rw [hq, f64_zero]
  · rw [f64_of_ne q hq, h, roundHalfEven_int, ← h, div_mul_cancel₀ _ (ne_of_gt (ulp_pos q))]

theorem pow2_zero : pow2 0 = 1 := by
  rw [pow2_eq, zpow_zero]

theorem pow2_natCast (n : Nat) : pow2 (n : Int) = (((2 : Int) ^ n : Int) : ℚ) := by
  rw [pow2_eq, zpow_natCast]
  push_cast
  rfl

theorem pow2_sub (a b : Int) : pow2 (a - b) = pow2 a / pow2 b := by
  rw [pow2_eq, pow2_eq, pow2_eq, zpow_sub₀ (by norm_num)]

theorem pow2_53 : pow2 53 = 9007199254740992 := by
  rw [pow2_eq]
  norm_num

theorem pow2_52 : pow2 52 = 4503599627370496 := by
  rw [pow2_eq]
  norm_num

/-- Every `m * 2 ^ k` with `|m| <= 2 ^ 53` and `k >= -1074` is a binary64 value. -/
theorem f64_grid (m k : Int) (hk : -1074 ≤ k) (hm : |m| ≤ 9007199254740992) :
    f64 ((m : ℚ) * pow2 k) = (m : ℚ) * pow2 k := by
  by_cases hm0 : m = 0
  · rw [hm0, Int.cast_zero, zero_mul, f64_zero]
  have hq : (m : ℚ) * pow2 k ≠ 0 :=
    mul_ne_zero (by exact_mod_cast hm0) (ne_of_gt (pow2_pos k))
  obtain ⟨s1, s2⟩ := binaryExponent_spec _ hq
  have habs : |(m : ℚ) * pow2 k| = (|m| : Int) * pow2 k := by
    rw [abs_mul, abs_of_pos (pow2_pos k)]
    push_cast
    rfl
  by_cases hc : max (binaryExponent ((m : ℚ) * pow2 k)) (-1022) - 52 ≤ k
  · -- the spacing divides `2 ^ k`
    obtain ⟨j, hj⟩ := Int.eq_ofNat_of_zero_le (sub_nonneg.mpr hc)
    apply f64_of_quotient _ (m * 2 ^ j)
    have : pow2 k = pow2 (j : Int) * ulp ((m : ℚ) * pow2 k) := by
      unfold ulp
      rw [← pow2_add, ← hj]
      congr 1
      ring
    rw [pow2_natCast] at this
    push_cast at this
    rw [div_eq_iff (ne_of_gt (ulp_pos _))]
    push_cast
    calc (m : ℚ) * pow2 k = (m : ℚ) * ((2 : ℚ) ^ j * ulp ((m : ℚ) * pow2 k)) := by
          rw [← this]
      _ = (m : ℚ) * (2 : ℚ) ^ j * ulp ((m : ℚ) * pow2 k) := by ring
  · -- only `|m| = 2 ^ 53` is left
    have hc1 : k + 52 < max (binaryExponent ((m : ℚ) * pow2 k)) (-1022) := by omega
    have he : max (binaryExponent ((m : ℚ) * pow2 k)) (-1022) =
        binaryExponent ((m : ℚ) * pow2 k) := by
      rcases le_total (binaryExponent ((m : ℚ) * pow2 k)) (-1022) with h | h
      · rw [max_eq_right h] at hc1
        omega
      · exact max_eq_left h
    rw [he] at hc1
    have hle : |(m : ℚ) * pow2 k| ≤ pow2 (k + 53) := by
      rw [habs, add_comm, pow2_add, pow2_53]
      have : ((|m| : Int) : ℚ) ≤ 9007199254740992 := by exact_mod_cast hm
      exact mul_le_mul_of_nonneg_right this (le_of_lt (pow2_pos k))
    have hlt : binaryExponent ((m : ℚ) * pow2 k) < k + 53 + 1 :=
      pow2_lt_pow2_iff.mp (lt_of_le_of_lt s1 (lt_of_le_of_lt hle
        (pow2_lt_pow2_iff.mpr (by omega))))
    have hexp : binaryExponent ((m : ℚ) * pow2 k) = k + 53 := by omega
    rw [hexp, habs, add_comm, pow2_add, pow2_53] at s1
    have hm2 : (9007199254740992 : ℚ) ≤ ((|m| : Int) : ℚ) :=
      le_of_mul_le_mul_right s1 (pow2_pos k)
    have hm3 : (9007199254740992 : Int) ≤ |m| := by exact_mod_cast hm2
    have hm4 : |m| = 9007199254740992 := le_antisymm hm hm3
    have hu : ulp ((m : ℚ) * pow2 k) = pow2 k * 2 := by
      unfold ulp
      rw [he, hexp]
      have : k + 53 - 52 = k + 1 := by ring
      rw [this, pow2_add]
      congr 1
    rcases abs_eq (by norm_num : (0 : Int) ≤ 9007199254740992) |>.mp hm4 with h | h
    · apply f64_of_quotient _ 4503599627370496
      rw [hu, h]
      have := pow2_pos k
      field_simp
      ring
    · apply f64_of_quotient _ (-4503599627370496)
      rw [hu, h]
      have := pow2_pos k
      field_simp
      ring

theorem f64_is_grid (q : ℚ) :
    ∃ m k : Int, -1074 ≤ k ∧ |m| ≤ 9007199254740992 ∧ f64 q = (m : ℚ) * pow2 k := by
  by_cases hq : q = 0
  · exact ⟨0, 0, by norm_num, by norm_num, by rw [hq, f64_zero]; simp⟩
  obtain ⟨s1, s2⟩ := binaryExponent_spec q hq
  refine ⟨roundHalfEven (q / ulp q), max (binaryExponent q) (-1022) - 52, ?_, ?_,
    f64_of_ne q hq⟩
  · have := le_max_right (binaryExponent q) (-1022)
    omega
  · -- the quotient lies within `2 ^ 53`
    have hu := ulp_pos q
    have hlt : |q| / ulp q ≤ 9007199254740992 := by
      rw [div_le_iff₀ hu, ← pow2_53]
      unfold ulp
      rw [← pow2_add]
      refine le_trans (le_of_lt s2) (pow2_le_pow2 ?_)
      have := le_max_left (binaryExponent q) (-1022)
      omega
    rw [abs_le]
    have h1 : q / ulp q ≤ ((9007199254740992 : Int) : ℚ) := by
      push_cast
      refine le_trans ?_ hlt
      exact div_le_div_of_nonneg_right (le_abs_self q) (le_of_lt hu)
    have h2 : ((-9007199254740992 : Int) : ℚ) ≤ q / ulp q := by
      push_cast
      have : -(|q| / ulp q) ≤ q / ulp q := by
        rw [← neg_div]
        exact div_le_div_of_nonneg_right (neg_abs_le q) (le_of_lt hu)
      linarith
    have m1 := roundHalfEven_mono h1
    have m2 := roundHalfEven_mono h2
    rw [roundHalfEven_int] at m1 m2
    exact ⟨m2, m1⟩

theorem f64_idem (q : ℚ) : f64 (f64 q) = f64 q := by
  obtain ⟨m, k, hk, hm, h⟩ := f64_is_grid q
  rw [h, f64_grid m k hk hm]

/-- An integer of magnitude at most `2 ^ 53` is a binary64 value. -/
theorem f64_int (z : Int) (h : |z| ≤ 9007199254740992) : f64 (z : ℚ) = (z : ℚ) := by
  have := f64_grid z 0 (by norm_num) h
  rwa [pow2_zero, mul_one] at this

theorem float64_of_small (z : Int) (h : |z| ≤ 9007199254740992) : float64 z = (z : ℚ) :=
  f64_int z h

theorem f64_one : f64 1 = 1 := by
  have := f64_int 1 (by norm_num)
  simpa using this

theorem f64_nonneg {q : ℚ} (hq : 0 ≤ q) : 0 ≤ f64 q := by
  by_cases h0 : q = 0
  · rw [h0, f64_zero]
  · rw [f64_of_ne q h0]
    have : (0 : ℚ) ≤ q / ulp q := div_nonneg hq (le_of_lt (ulp_pos q))
    have m := roundHalfEven_mono this
    have : roundHalfEven (0 : ℚ) = 0 := by
      have := roundHalfEven_int 0
      simpa using this
    rw [this] at m
    exact mul_nonneg (by exact_mod_cast m) (le_of_lt (ulp_pos q))

/-- A positive rational rounds to at most the top of its binade. -/
theorem f64_le_top (q : ℚ) (hq : 0 < q) :
    f64 q ≤ pow2 (max (binaryExponent q) (-1022) + 1) := by
  obtain ⟨s1, s2⟩ := binaryExponent_spec q (ne_of_gt hq)
  rw [abs_of_pos hq] at s1 s2
  rw [f64_of_ne q (ne_of_gt hq)]
  have hu := ulp_pos q
  have h1 : q / ulp q ≤ ((9007199254740992 : Int) : ℚ) := by
    push_cast
    rw [div_le_iff₀ hu, ← pow2_53]
    unfold ulp
    rw [← pow2_add]
    refine le_trans (le_of_lt s2) (pow2_le_pow2 ?_)
    have := le_max_left (binaryExponent q) (-1022)
    omega
  have m1 := roundHalfEven_mono h1
  rw [roundHalfEven_int] at m1
  have m2 : ((roundHalfEven (q / ulp q) : Int) : ℚ) ≤ pow2 53 := by
    rw [pow2_53]
    exact_mod_cast m1
  calc ((roundHalfEven (q / ulp q) : Int) : ℚ) * ulp q ≤ pow2 53 * ulp q :=
        mul_le_mul_of_nonneg_right m2 (le_of_lt hu)
    _ = pow2 (max (binaryExponent q) (-1022) + 1) := by
        unfold ulp
        rw [← pow2_add]
        congr 1
        ring

/-- A positive rational in the normal range rounds to at least the bottom of
its binade. -/
theorem f64_ge_bottom (q : ℚ) (hq : 0 < q) (he : -1022 ≤ binaryExponent q) :
    pow2 (binaryExponent q) ≤ f64 q := by
  obtain ⟨s1, s2⟩ := binaryExponent_spec q (ne_of_gt hq)
  rw [abs_of_pos hq] at s1 s2
  rw [f64_of_ne q (ne_of_gt hq)]
  have hu := ulp_pos q
  have hmax : max (binaryExponent q) (-1022) = binaryExponent q := max_eq_left he
  have h1 : ((4503599627370496 : Int) : ℚ) ≤ q / ulp q := by
    push_cast
    rw [le_div_iff₀ hu, ← pow2_52]
    unfold ulp
    rw [← pow2_add, hmax]
    refine le_trans (le_of_eq ?_) s1
    congr 1
    ring
  have m1 := roundHalfEven_mono h1
  rw [roundHalfEven_int] at m1
  have m2 : pow2 52 ≤ ((roundHalfEven (q / ulp q) : Int) : ℚ) := by
    rw [pow2_52]
    exact_mod_cast m1
  calc pow2 (binaryExponent q) = pow2 52 * ulp q := by
        unfold ulp
        rw [← pow2_add, hmax]
        congr 1
        ring
    _ ≤ ((roundHalfEven (q / ulp q) : Int) : ℚ) * ulp q :=
        mul_le_mul_of_nonneg_right m2 (le_of_lt hu)

theorem f64_mono_pos {a b : ℚ} (ha : 0 < a) (h : a ≤ b) : f64 a ≤ f64 b := by
  have hb : 0 < b := lt_of_lt_of_le ha h
  obtain ⟨a1, a2⟩ := binaryExponent_spec a (ne_of_gt ha)
  obtain ⟨b1, b2⟩ := binaryExponent_spec b (ne_of_gt hb)
  rw [abs_of_pos ha] at a1 a2
  rw [abs_of_pos hb] at b1 b2
  have hexp : binaryExponent a < binaryExponent b + 1 :=
    pow2_lt_pow2_iff.mp (lt_of_le_of_lt a1 (lt_of_le_of_lt h b2))
  by_cases hc : max (binaryExponent a) (-1022) = max (binaryExponent b) (-1022)
  · have hu : ulp a = ulp b := by
      unfold ulp
      rw [hc]
    rw [f64_of_ne a (ne_of_gt ha), f64_of_ne b (ne_of_gt hb), hu]
    have : a / ulp b ≤ b / ulp b := div_le_div_of_nonneg_right h (le_of_lt (ulp_pos b))
    have m := roundHalfEven_mono this
    exact mul_le_mul_of_nonneg_right (by exact_mod_cast m) (le_of_lt (ulp_pos b))
  · have hlt : max (binaryExponent a) (-1022) < max (binaryExponent b) (-1022) := by
      rcases le_total (binaryExponent a) (-1022) with h1 | h1 <;>
      rcases le_total (binaryExponent b) (-1022) with h2 | h2
      · rw [max_eq_right h1, max_eq_right h2] at hc
        exact absurd rfl hc
      · rw [max_eq_right h1, max_eq_left h2] at hc ⊢
        omega
      · rw [max_eq_left h1, max_eq_right h2] at hc ⊢
        omega
      · rw [max_eq_left h1, max_eq_left h2] at hc ⊢
        omega
    have hbn : -1022 ≤ binaryExponent b ∧
        max (binaryExponent b) (-1022) = binaryExponent b := by
      rcases le_total (binaryExponent b) (-1022) with h2 | h2
      · rw [max_eq_right h2] at hlt
        have := le_max_right (binaryExponent a) (-1022)
        omega
      · exact ⟨h2, max_eq_left h2⟩
    rw [hbn.2] at hlt
    calc f64 a ≤ pow2 (max (binaryExponent a) (-1022) + 1) := f64_le_top a ha
      _ ≤ pow2 (binaryExponent b) := pow2_le_pow2 (by omega)
      _ ≤ f64 b := f64_ge_bottom b hb hbn.1

theorem f64_nonpos {q : ℚ} (hq : q ≤ 0) : f64 q ≤ 0 := by
  have := f64_nonneg (neg_nonneg.mpr hq)
  rw [f64_neg] at this
  linarith

/-- Rounding to binary64 is monotone. -/
theorem f64_mono {a b : ℚ} (h : a ≤ b) : f64 a ≤ f64 b := by
  rcases lt_trichotomy a 0 with ha | ha | ha
  · rcases lt_or_le b 0 with hb | hb
    · have := f64_mono_pos (neg_pos.mpr hb) (neg_le_neg h)
      rw [f64_neg, f64_neg] at this
      linarith
    · exact le_trans (f64_nonpos (le_of_lt ha)) (f64_nonneg hb)
  · rw [ha, f64_zero]
    rw [ha] at h
    exact f64_nonneg h
  · exact f64_mono_pos ha h

/-- The rounding error is at most half a spacing. -/
theorem f64_err (q : ℚ) :
    |f64 q - q| ≤ max |q| (pow2 (-1022)) / 9007199254740992 := by
  by_cases hq : q = 0
  · rw [hq, f64_zero, sub_zero, abs_zero]
    exact div_nonneg (le_max_of_le_right (le_of_lt (pow2_pos _))) (by norm_num)
  obtain ⟨s1, s2⟩ := binaryExponent_spec q hq
  have hu := ulp_pos q
  rw [f64_of_ne q hq]
  have h1 : (roundHalfEven (q / ulp q) : ℚ) * ulp q - q =
      ((roundHalfEven (q / ulp q) : ℚ) - q / ulp q) * ulp q := by
    field_simp
  rw [h1, abs_mul, abs_of_pos hu]
  have h2 := roundHalfEven_err (q / ulp q)
  have h3 : ulp q * 4503599627370496 ≤ max |q| (pow2 (-1022)) := by
    rw [← pow2_52]
    unfold ulp
    rw [← pow2_add]
    have : max (binaryExponent q) (-1022) - 52 + 52 = max (binaryExponent q) (-1022) := by ring
    rw [this]
    rcases le_total (binaryExponent q) (-1022) with h | h
    · rw [max_eq_right h]
      exact le_max_right _ _
    · rw [max_eq_left h]
      exact le_trans s1 (le_max_left _ _)
  rw [le_div_iff₀ (by norm_num)]
  have h4 : |(roundHalfEven (q / ulp q) : ℚ) - q / ulp q| * ulp q ≤ 1 / 2 * ulp q :=
    mul_le_mul_of_nonneg_right h2 (le_of_lt hu)
  nlinarith

/-! ## The bucket paths in binary64: one call -/

theorem allowTokenBucket_f64_def (rl : rateLimiter) (key : String) (n now : Int) :
    F64.allowTokenBucket rl key n now =
      consumeBucket rl key now (F64.tokenBucketNext rl.config n now) := by
  unfold F64.allowTokenBucket consumeBucket
  rcases rl.getBucketData key now with ⟨r, rl1⟩
  cases r with
  | error e => rfl
  | ok b =>
    by_cases hz : Time.IsZero b.LastRefill = true
    · by_cases hn : float64 n ≤ float64 rl.config.BurstSize
      · simp [F64.tokenBucketNext, F64.tokenLevel, rateLimiter.countVerdict, hz, hn]
      · simp [F64.tokenBucketNext, F64.tokenLevel, rateLimiter.countVerdict, hz, hn]
    · by_cases hn : float64 n ≤ min (float64 rl.config.BurstSize)
          (fadd b.Tokens (F64.tokensToAdd rl.config (Time.Sub now b.LastRefill)))
      · simp [F64.tokenBucketNext, F64.tokenLevel, rateLimiter.countVerdict, hz, hn]
        simpa [F64.tokensToAdd] using hn
      · simp [F64.tokenBucketNext, F64.tokenLevel, rateLimiter.countVerdict, hz, hn]
        simpa [F64.tokensToAdd] using hn

theorem allowLeakyBucket_f64_def (rl : rateLimiter) (key : String) (n now : Int) :
    F64.allowLeakyBucket rl key n now =
      consumeBucket rl key now (F64.leakyBucketNext rl.config n now) := by
  unfold F64.allowLeakyBucket consumeBucket
  rcases rl.getBucketData key now with ⟨r, rl1⟩
  cases r with
  | error e => rfl
  | ok b =>
    by_cases hz : Time.IsZero b.LastRefill = true
    · by_cases hn : fadd b.Tokens (float64 n) ≤ float64 rl.config.BurstSize
      · simp [F64.leakyBucketNext, F64.leakLevel, rateLimiter.countVerdict, hz, hn]
      · simp [F64.leakyBucketNext, F64.leakLevel, rateLimiter.countVerdict, hz, hn]
    · by_cases hn : fadd (max 0 (fsub b.Tokens
          (F64.tokensLeaked rl.config (Time.Sub now b.LastRefill)))) (float64 n) ≤
          float64 rl.config.BurstSize
      · simp [F64.leakyBucketNext, F64.leakLevel, rateLimiter.countVerdict, hz, hn]
        simpa [F64.tokensLeaked] using hn
      · simp [F64.leakyBucketNext, F64.leakLevel, rateLimiter.countVerdict, hz, hn]
        simpa [F64.tokensLeaked] using hn

theorem checkTokenBucket_f64_def (rl : rateLimiter) (key : String) (now : Int) :
    F64.checkTokenBucket rl key now =
      peekBucket rl key now (F64.tokenBucketReport rl.config now) := by
  unfold F64.checkTokenBucket peekBucket
  rcases rl.getBucketData key now with ⟨r, rl1⟩
  cases r with
  | error e => rfl
  | ok b => rfl

theorem checkLeakyBucket_f64_def (rl : rateLimiter) (key : String) (now : Int) :
    F64.checkLeakyBucket rl key now =
      peekBucket rl key now (F64.leakyBucketReport rl.config now) := by
  unfold F64.checkLeakyBucket peekBucket
  rcases rl.getBucketData key now with ⟨r, rl1⟩
  cases r with
  | error e => rfl
  | ok b => rfl

@[simp] theorem updateMetrics_f64_config (rl : rateLimiter) (l : Int) :
    (F64.updateMetrics rl l).config = rl.config := rfl
@[simp] theorem updateMetrics_f64_storage (rl : rateLimiter) (l : Int) :
    (F64.updateMetrics rl l).storage = rl.storage := rfl
@[simp] theorem updateMetrics_f64_closed (rl : rateLimiter) (l : Int) :
    (F64.updateMetrics rl l).closed = rl.closed := rfl

/-- What a call of a bucket path leaves behind, in terms of the loaded bucket. -/
theorem consumeBucket_stored (rl : rateLimiter) (key : String) (now : Int)
    (next : bucketData → Bool × bucketData) (b : bucketData)
    (hopen : rl.storage.closed = false)
    (hload : (rl.getBucketData key now).1 = Except.ok b) :
    (consumeBucket rl key now next).1 = (next b).1 ∧
      (consumeBucket rl key now next).2.config = rl.config ∧
      (consumeBucket rl key now next).2.closed = rl.closed ∧
      (consumeBucket rl key now next).2.storage.closed = false ∧
      (consumeBucket rl key now next).2.storage.items.lookup key =
        some (memoryItem.mk (Bytes.bucketJSON (next b).2) (expiryAt rl.config now)) := by
  have g := Frame.frame_of_consumeBucket rl key now next
  exact ⟨consumeBucket_of_ok rl key now next b hload, g.1, g.2.1, g.2.2.2.1.trans hopen,
    consumeBucket_written rl key now next hopen b hload⟩

/-- One `AllowN` call of an open Token Bucket limiter on an open storage
(`float64` path). -/
theorem AllowN_f64_tokenBucket_stored (rl : rateLimiter) (key : String) (n now : Int)
    (b : bucketData) (hcl : rl.closed = false) (halg : rl.config.Algorithm = TokenBucket)
    (hopen : rl.storage.closed = false)
    (hload : (rl.getBucketData (rl.extractKey key) now).1 = Except.ok b) :
    (F64.AllowN rl key n now).1 = decide (float64 n ≤ F64.tokenLevel rl.config b now) ∧
      Stored rl (F64.AllowN rl key n now).2 key
        (Bytes.bucketJSON
          { Tokens :=
              if float64 n ≤ F64.tokenLevel rl.config b now then
                fsub (F64.tokenLevel rl.config b now) (float64 n)
              else F64.tokenLevel rl.config b now,
            LastRefill := now }) now := by
  obtain ⟨h1, h2, h3, h4, h5⟩ := consumeBucket_stored rl (rl.extractKey key) now
    (F64.tokenBucketNext rl.config n now) b hopen hload
  rw [← allowTokenBucket_f64_def] at h1 h2 h3 h4 h5
  simp only [F64.AllowN, hcl, halg, if_true, Bool.false_eq_true, if_false,
    updateMetrics_f64_config, updateMetrics_f64_closed, updateMetrics_f64_storage]
  exact ⟨h1, h2, h3.trans hcl, h4, h5⟩

/-- One `AllowN` call of an open Leaky Bucket limiter on an open storage
(`float64` path). -/
theorem AllowN_f64_leakyBucket_stored (rl : rateLimiter) (key : String) (n now : Int)
    (b : bucketData) (hcl : rl.closed = false) (halg : rl.config.Algorithm = LeakyBucket)
    (hopen : rl.storage.closed = false)
    (hload : (rl.getBucketData (rl.extractKey key) now).1 = Except.ok b) :
    (F64.AllowN rl key n now).1 =
        decide (fadd (F64.leakLevel rl.config b now) (float64 n) ≤
          float64 rl.config.BurstSize) ∧
      Stored rl (F64.AllowN rl key n now).2 key
        (Bytes.bucketJSON
          { Tokens :=
              if fadd (F64.leakLevel rl.config b now) (float64 n) ≤
                  float64 rl.config.BurstSize then
                fadd (F64.leakLevel rl.config b now) (float64 n)
              else F64.leakLevel rl.config b now,
            LastRefill := now }) now := by
  obtain ⟨h1, h2, h3, h4, h5⟩ := consumeBucket_stored rl (rl.extractKey key) now
    (F64.leakyBucketNext rl.config n now) b hopen hload
  rw [← allowLeakyBucket_f64_def] at h1 h2 h3 h4 h5
  have hne : ¬ (LeakyBucket = TokenBucket) := by decide
  have hne1 : ¬ (LeakyBucket = FixedWindow) := by decide
  have hne2 : ¬ (LeakyBucket = SlidingWindow) := by decide
  simp only [F64.AllowN, hcl, halg, hne, hne1, hne2, if_true, Bool.false_eq_true, if_false,
    updateMetrics_f64_config, updateMetrics_f64_closed, updateMetrics_f64_storage]
  exact ⟨h1, h2, h3.trans hcl, h4, h5⟩

theorem Check_f64_tokenBucket_of_load (rl : rateLimiter) (key : String) (now : Int)
    (b : bucketData) (hcl : rl.closed = false) (halg : rl.config.Algorithm = TokenBucket)
    (hload : (rl.getBucketData (rl.extractKey key) now).1 = Except.ok b) :
    (F64.Check rl key now).1 = F64.tokenBucketReport rl.config now b := by
  simp only [F64.Check, hcl, halg, if_true, Bool.false_eq_true, if_false]
  rw [checkTokenBucket_f64_def, peekBucket_of_ok rl _ now _ b hload]

theorem Check_f64_leakyBucket_of_load (rl : rateLimiter) (key : String) (now : Int)
    (b : bucketData) (hcl : rl.closed = false) (halg : rl.config.Algorithm = LeakyBucket)
    (hload : (rl.getBucketData (rl.extractKey key) now).1 = Except.ok b) :
    (F64.Check rl key now).1 = F64.leakyBucketReport rl.config now b := by
  have hne : ¬ (LeakyBucket = TokenBucket) := by decide
  have hne1 : ¬ (LeakyBucket = FixedWindow) := by decide
  have hne2 : ¬ (LeakyBucket = SlidingWindow) := by decide
  simp only [F64.Check, hcl, halg, hne, hne1, hne2, if_true, Bool.false_eq_true, if_false]
  rw [checkLeakyBucket_f64_def, peekBucket_of_ok rl _ now _ b hload]

theorem runCalls_f64_cons (rl : rateLimiter) (c : Call) (cs : List Call) :
    F64.runCalls rl (c :: cs) = F64.runCalls (F64.AllowN rl c.key c.n c.now).2 cs := rfl

theorem allowAt_f64_cons (rl : rateLimiter) (key : String) (t : Int) (ts : List Int) :
    F64.allowAt rl key (t :: ts) =
      ((F64.AllowN rl key 1 t).1 :: (F64.allowAt (F64.AllowN rl key 1 t).2 key ts).1,
        (F64.allowAt (F64.AllowN rl key 1 t).2 key ts).2) := rfl

/-! ## binary64: conversions, seconds, refill and leak -/

theorem float64_nonneg {z : Int} (h : 0 ≤ z) : 0 ≤ float64 z :=
  f64_nonneg (by exact_mod_cast h)

theorem float64_mono {a b : Int} (h : a ≤ b) : float64 a ≤ float64 b :=
  f64_mono (by exact_mod_cast h)

theorem float64_one : float64 1 = 1 := by
  unfold float64
  rw [Int.cast_one, f64_one]

theorem float64_zero : float64 0 = 0 := by
  unfold float64
  rw [Int.cast_zero, f64_zero]

theorem float64_idem (z : Int) : f64 (float64 z) = float64 z := f64_idem _

theorem one_le_float64 {z : Int} (h : 1 ≤ z) : 1 ≤ float64 z := by
  have := float64_mono h
  rwa [float64_one] at this

theorem Seconds_f64_nonneg {d : Int} (h : 0 ≤ d) : 0 ≤ F64.Seconds d := by
  unfold F64.Seconds fadd fdiv
  have h1 : 0 ≤ Int.tdiv d 1000000000 := Int.tdiv_nonneg h (by norm_num)
  have h2 : 0 ≤ Int.tmod d 1000000000 := Int.tmod_nonneg _ h
  exact f64_nonneg (add_nonneg (float64_nonneg h1)
    (f64_nonneg (div_nonneg (float64_nonneg h2) (by norm_num))))

theorem Seconds_f64_zero : F64.Seconds 0 = 0 := by
  unfold F64.Seconds fadd fdiv
  simp [float64_zero, f64_zero]

theorem Seconds_f64_idem (d : Int) : f64 (F64.Seconds d) = F64.Seconds d := by
  unfold F64.Seconds fadd
  exact f64_idem _

theorem tokensToAdd_nonneg (cfg : Config) {d : Int} (hd : 0 ≤ d) (hR : 0 ≤ cfg.Rate)
    (hW : 0 ≤ cfg.Window) : 0 ≤ F64.tokensToAdd cfg d := by
  unfold F64.tokensToAdd fdiv fmul
  exact f64_nonneg (div_nonneg (f64_nonneg (mul_nonneg (Seconds_f64_nonneg hd)
    (float64_nonneg hR))) (Seconds_f64_nonneg hW))

theorem tokensToAdd_zero (cfg : Config) : F64.tokensToAdd cfg 0 = 0 := by
  unfold F64.tokensToAdd fdiv fmul
  simp [Seconds_f64_zero, f64_zero]

theorem tokensLeaked_nonneg (cfg : Config) {d : Int} (hd : 0 ≤ d) (hR : 0 ≤ cfg.Rate)
    (hW : 0 ≤ cfg.Window) : 0 ≤ F64.tokensLeaked cfg d := by
  unfold F64.tokensLeaked fdiv fmul
  exact f64_nonneg (mul_nonneg (Seconds_f64_nonneg hd)
    (f64_nonneg (div_nonneg (float64_nonneg hR) (Seconds_f64_nonneg hW))))

theorem tokensLeaked_zero (cfg : Config) : F64.tokensLeaked cfg 0 = 0 := by
  unfold F64.tokensLeaked fdiv fmul
  simp [Seconds_f64_zero, f64_zero]

theorem fadd_zero_right (a : ℚ) : fadd a 0 = f64 a := by
  unfold fadd
  rw [add_zero]

theorem fsub_zero_right (a : ℚ) : fsub a 0 = f64 a := by
  unfold fsub
  rw [sub_zero]

/-! ## Token Bucket in binary64: the level invariant -/

theorem tokenLevel_f64_le_burst (cfg : Config) (b : bucketData) (now : Int) :
    F64.tokenLevel cfg b now ≤ float64 cfg.BurstSize := by
  unfold F64.tokenLevel
  split_ifs
  · exact le_refl _
  · exact min_le_left _ _

theorem tokenLevel_f64_fresh (cfg : Config) (now : Int) :
    F64.tokenLevel cfg { Tokens := 0, LastRefill := 0 } now = float64 cfg.BurstSize := by
  simp [F64.tokenLevel, Time.IsZero]

theorem tokenLevel_f64_nonneg (cfg : Config) (b : bucketData) (now : Int)
    (hB : 0 ≤ cfg.BurstSize) (hR : 0 ≤ cfg.Rate) (hW : 0 ≤ cfg.Window)
    (htok : 0 ≤ b.Tokens) (hmono : b.LastRefill ≤ now) : 0 ≤ F64.tokenLevel cfg b now := by
  unfold F64.tokenLevel
  split_ifs
  · exact float64_nonneg hB
  · apply le_min (float64_nonneg hB)
    unfold fadd
    exact f64_nonneg (add_nonneg htok
      (tokensToAdd_nonneg cfg (Time.Sub_le now b.LastRefill hmono).2 hR hW))

/-- A Token Bucket call with `n >= 0` on a loaded bucket whose refreshed level
is not negative persists a level between 0 and `float64(burstSize)`. -/
theorem tokenBucket_f64_step_level (rl : rateLimiter) (key : String) (n now : Int)
    (b : bucketData)
    (hcl : rl.closed = false) (halg : rl.config.Algorithm = TokenBucket)
    (hopen : rl.storage.closed = false) (hn : 0 ≤ n)
    (hload : (rl.getBucketData (rl.extractKey key) now).1 = Except.ok b)
    (hlevel : 0 ≤ F64.tokenLevel rl.config b now) :
    ∃ tokens : ℚ,
      Stored rl (F64.AllowN rl key n now).2 key
        (Bytes.bucketJSON { Tokens := tokens, LastRefill := now }) now ∧
      0 ≤ tokens ∧ tokens ≤ float64 rl.config.BurstSize := by
  obtain ⟨_, h2⟩ := AllowN_f64_tokenBucket_stored rl key n now b hcl halg hopen hload
  have hle := tokenLevel_f64_le_burst rl.config b now
  have hnq : 0 ≤ float64 n := float64_nonneg hn
  refine ⟨_, h2, ?_, ?_⟩
  · split_ifs with h
    · unfold fsub
      exact f64_nonneg (by linarith)
    · exact hlevel
  · split_ifs with h
    · unfold fsub
      have : f64 (F64.tokenLevel rl.config b now - float64 n) ≤
          f64 (float64 rl.config.BurstSize) := f64_mono (by linarith)
      rwa [float64_idem] at this
    · exact hle

/-- The invariant of C11 along a run that starts from a stored bucket. -/
theorem tokenBucket_f64_run_level (cs : List Call) : ∀ (rl0 rl : rateLimiter) (key : String)
    (tokens : ℚ) (s : Int),
    rl0.config.Algorithm = TokenBucket → 0 ≤ rl0.config.BurstSize → 0 ≤ rl0.config.Rate →
    0 ≤ rl0.config.Window →
    Stored rl0 rl key (Bytes.bucketJSON { Tokens := tokens, LastRefill := s }) s →
    0 ≤ tokens → tokens ≤ float64 rl0.config.BurstSize →
    (∀ c ∈ cs, c.key = key ∧ 0 ≤ c.n ∧ s ≤ c.now) →
    cs.Pairwise (fun a b => a.now ≤ b.now) →
    ∃ (b1 : bucketData) (s1 : Int),
      Stored rl0 (F64.runCalls rl cs) key (Bytes.bucketJSON b1) s1 ∧
        0 ≤ b1.Tokens ∧ b1.Tokens ≤ float64 rl0.config.BurstSize := by
  induction cs with
  | nil =>
    intro rl0 rl key tokens s _ _ _ _ hst h0 h1 _ _
    exact ⟨_, s, hst, h0, h1⟩
  | cons c cs ih =>
    intro rl0 rl key tokens s halg hB hR hW hst h0 h1 hcs hsorted
    obtain ⟨hck, hcn, hct⟩ := hcs c (List.mem_cons_self _ _)
    have hcfg : rl.config = rl0.config := hst.1
    rw [List.pairwise_cons] at hsorted
    rw [runCalls_f64_cons, hck]
    have hload : ∃ b0, (rl.getBucketData (rl.extractKey key) c.now).1 = Except.ok b0 ∧
        0 ≤ F64.tokenLevel rl.config b0 c.now := by
      cases hexp : (memoryItem.mk (Bytes.bucketJSON { Tokens := tokens, LastRefill := s })
          (expiryAt rl.config s)).isExpired c.now with
      | true =>
        refine ⟨_, hst.loadBucket_expired c.now hexp, ?_⟩
        rw [tokenLevel_f64_fresh, hcfg]
        exact float64_nonneg hB
      | false =>
        refine ⟨_, hst.loadBucket c.now hexp, ?_⟩
        rw [hcfg]
        exact tokenLevel_f64_nonneg _ _ _ hB hR hW h0 hct
    obtain ⟨b0, hl, hlev⟩ := hload
    obtain ⟨t1, q1, q2, q3⟩ := tokenBucket_f64_step_level rl key c.n c.now b0 hst.2.1
      (by rw [hcfg]; exact halg) hst.2.2.1 hcn hl hlev
    exact ih rl0 _ key t1 c.now halg hB hR hW (hst.rebase q1) q2 (by rw [← hcfg]; exact q3)
      (fun d hd => ⟨(hcs d (List.mem_cons_of_mem _ hd)).1,
        (hcs d (List.mem_cons_of_mem _ hd)).2.1, hsorted.1 d hd⟩)
      hsorted.2

/-- C11 (counterexample). With a burst size of `2 ^ 53 + 3`, which `float64`
rounds to `2 ^ 53 + 4`, one `Allow` on a fresh key persists
`(2 ^ 53 + 4) - 1` rounded to `float64`, that is `2 ^ 53 + 4`: more than the
burst size. -/
theorem tokenBucket_level_counterexample :
    New oddBurstConfig = Except.ok (limiterOf oddBurstConfig) ∧
      float64 oddBurstConfig.BurstSize = 9007199254740996 ∧
      storedBucket (F64.Allow (limiterOf oddBurstConfig) "k" clock2026).2 "k" =
        some { Tokens := 9007199254740996, LastRefill := clock2026 } ∧
      ¬ ((9007199254740996 : ℚ) ≤ (oddBurstConfig.BurstSize : ℚ)) := by
  refine ⟨rfl, by decide!, by decide!, by decide!⟩

/-- C11 (amended). Token Bucket level invariant: on a limiter built by `New`
with `burstSize >= 1`, starting from a key with no stored state, after any
sequence of `AllowN(key, n)` calls with `n >= 0` made at non-decreasing times
the persisted token level satisfies `0 <= tokens <= float64(burstSize)`, the
burst size rounded to `float64`, which is `burstSize` itself when
`burstSize <= 2 ^ 53`; nothing is persisted only when no call was made. -/
theorem tokenBucket_level_invariant_f64 (cfg : Config) (rl : rateLimiter) (key : String)
    (cs : List Call)
    (hnew : New cfg = Except.ok rl) (halg : cfg.Algorithm = TokenBucket)
    (hB : 1 ≤ cfg.BurstSize) (hopen : rl.storage.closed = false)
    (hfresh : rl.storage.items.lookup (rl.extractKey key) = none)
    (hcs : ∀ c ∈ cs, c.key = key ∧ 0 ≤ c.n)
    (hsorted : cs.Pairwise (fun a b => a.now ≤ b.now)) :
    (cs = [] ∧ storedBucket (F64.runCalls rl cs) (rl.extractKey key) = none) ∨
      ∃ b, storedBucket (F64.runCalls rl cs) (rl.extractKey key) = some b ∧
        0 ≤ b.Tokens ∧ b.Tokens ≤ float64 cfg.BurstSize ∧
        (cfg.BurstSize ≤ 9007199254740992 → b.Tokens ≤ (cfg.BurstSize : ℚ)) := by
  obtain ⟨hR, hW, hA, hRe, hWe, hBs, hcl, _, _⟩ := New_ok hnew
  have halg1 : rl.config.Algorithm = TokenBucket := hA.trans halg
  cases cs with
  | nil =>
    left
    refine ⟨rfl, ?_⟩
    show storedBucket rl (rl.extractKey key) = none
    unfold storedBucket
    rw [hfresh]
  | cons c cs =>
    right
    obtain ⟨hck, hcn⟩ := hcs c (List.mem_cons_self _ _)
    rw [List.pairwise_cons] at hsorted
    rw [runCalls_f64_cons, hck]
    have hl := (getBucketData_of_lookup_none rl (rl.extractKey key) c.now hopen hfresh).1
    obtain ⟨t1, q1, q2, q3⟩ := tokenBucket_f64_step_level rl key c.n c.now _ hcl halg1 hopen
      hcn hl (by
        rw [tokenLevel_f64_fresh, hBs]
        exact float64_nonneg (by omega))
    obtain ⟨b2, s2, h3, h4, h5⟩ := tokenBucket_f64_run_level cs rl _ key t1 c.now halg1
      (by omega) (by omega) (by omega) q1 q2 q3
      (fun d hd => ⟨(hcs d (List.mem_cons_of_mem _ hd)).1,
        (hcs d (List.mem_cons_of_mem _ hd)).2, hsorted.1 d hd⟩)
      hsorted.2
    rw [hBs] at h5
    refine ⟨b2, storedBucket_of_stored h3, h4, h5, ?_⟩
    intro hsmall
    rwa [float64_of_small cfg.BurstSize (by rw [abs_of_nonneg (by omega)]; exact hsmall)] at h5

theorem tokenBucket_level_invariant_f64_witness :
    (sampleCalls = [] ∧
        storedBucket (F64.runCalls (limiterOf tokenBucketConfig) sampleCalls)
          ((limiterOf tokenBucketConfig).extractKey "test-user") = none) ∨
      ∃ b, storedBucket (F64.runCalls (limiterOf tokenBucketConfig) sampleCalls)
          ((limiterOf tokenBucketConfig).extractKey "test-user") = some b ∧
        0 ≤ b.Tokens ∧ b.Tokens ≤ float64 tokenBucketConfig.BurstSize ∧
        (tokenBucketConfig.BurstSize ≤ 9007199254740992 →
          b.Tokens ≤ (tokenBucketConfig.BurstSize : ℚ)) :=
  tokenBucket_level_invariant_f64 tokenBucketConfig (limiterOf tokenBucketConfig) "test-user"
    sampleCalls rfl rfl (by decide) rfl rfl (by decide) (by decide)

/-! ## Leaky Bucket in binary64: the occupancy invariant -/

theorem leakLevel_f64_fresh (cfg : Config) (now : Int) :
    F64.leakLevel cfg { Tokens := 0, LastRefill := 0 } now = 0 := by
  simp [F64.leakLevel, Time.IsZero]

/-- The decayed occupancy lies between 0 and any `float64` bound of the stored
occupancy, when the stored occupancy is not negative and the clock has not
gone back since the last update. -/
theorem leakLevel_f64_bounds (cfg : Config) (b : bucketData) (now : Int) (top : ℚ)
    (hR : 0 ≤ cfg.Rate) (hW : 0 ≤ cfg.Window)
    (htok : 0 ≤ b.Tokens) (htop : b.Tokens ≤ top) (hf : f64 top = top)
    (hmono : b.LastRefill ≤ now) :
    0 ≤ F64.leakLevel cfg b now ∧ F64.leakLevel cfg b now ≤ top := by
  unfold F64.leakLevel
  split_ifs
  · exact ⟨htok, htop⟩
  · have h4 := tokensLeaked_nonneg cfg (Time.Sub_le now b.LastRefill hmono).2 hR hW
    refine ⟨le_max_left _ _, max_le (le_trans htok htop) ?_⟩
    unfold fsub
    have : f64 (b.Tokens - F64.tokensLeaked cfg (Time.Sub now b.LastRefill)) ≤ f64 top :=
      f64_mono (by linarith)
    rwa [hf] at this

/-- A Leaky Bucket call with `n >= 0` on a loaded bucket whose decayed
occupancy is between 0 and `float64(burstSize)`: the verdict is that of the
`float64` test `occupancy + n <= burstSize`, and the occupancy persisted is
again between 0 and `float64(burstSize)`. -/
theorem leakyBucket_f64_step_level (rl : rateLimiter) (key : String) (n now : Int)
    (b : bucketData)
    (hcl : rl.closed = false) (halg : rl.config.Algorithm = LeakyBucket)
    (hopen : rl.storage.closed = false) (hn : 0 ≤ n)
    (hload : (rl.getBucketData (rl.extractKey key) now).1 = Except.ok b)
    (h0 : 0 ≤ F64.leakLevel rl.config b now)
    (h1 : F64.leakLevel rl.config b now ≤ float64 rl.config.BurstSize) :
    (F64.AllowN rl key n now).1 =
        decide (fadd (F64.leakLevel rl.config b now) (float64 n) ≤
          float64 rl.config.BurstSize) ∧
      ∃ tokens : ℚ,
        Stored rl (F64.AllowN rl key n now).2 key
          (Bytes.bucketJSON { Tokens := tokens, LastRefill := now }) now ∧
        0 ≤ tokens ∧ tokens ≤ float64 rl.config.BurstSize := by
  obtain ⟨q1, q2⟩ := AllowN_f64_leakyBucket_stored rl key n now b hcl halg hopen hload
  have hnq : 0 ≤ float64 n := float64_nonneg hn
  refine ⟨q1, _, q2, ?_, ?_⟩
  · split_ifs with h
    · unfold fadd
      exact f64_nonneg (by linarith)
    · exact h0
  · split_ifs with h
    · exact h
    · exact h1

theorem leakyBucket_f64_load_level (rl0 rl : rateLimiter) (key : String) (tokens : ℚ)
    (s now : Int)
    (hB : 0 ≤ rl0.config.BurstSize) (hR : 0 ≤ rl0.config.Rate) (hW : 0 ≤ rl0.config.Window)
    (hst : Stored rl0 rl key (Bytes.bucketJSON { Tokens := tokens, LastRefill := s }) s)
    (h0 : 0 ≤ tokens) (h1 : tokens ≤ float64 rl0.config.BurstSize) (hs : s ≤ now) :
    ∃ b0, (rl.getBucketData (rl.extractKey key) now).1 = Except.ok b0 ∧
      0 ≤ F64.leakLevel rl.config b0 now ∧
      F64.leakLevel rl.config b0 now ≤ float64 rl.config.BurstSize := by
  have hcfg : rl.config = rl0.config := hst.1
  cases hexp : (memoryItem.mk (Bytes.bucketJSON { Tokens := tokens, LastRefill := s })
      (expiryAt rl.config s)).isExpired now with
  | true =>
    refine ⟨_, hst.loadBucket_expired now hexp, ?_, ?_⟩
    · rw [leakLevel_f64_fresh]
    · rw [leakLevel_f64_fresh, hcfg]
      exact float64_nonneg hB
  | false =>
    obtain ⟨p1, p2⟩ := leakLevel_f64_bounds rl0.config { Tokens := tokens, LastRefill := s } now
      (float64 rl0.config.BurstSize) hR hW h0 h1 (float64_idem _) hs
    refine ⟨_, hst.loadBucket now hexp, ?_, ?_⟩
    · rw [hcfg]
      exact p1
    · rw [hcfg]
      exact p2

/-- The invariant of C12 along a run that starts from a stored bucket. -/
theorem leakyBucket_f64_run_level (cs : List Call) : ∀ (rl0 rl : rateLimiter) (key : String)
    (tokens : ℚ) (s : Int),
    rl0.config.Algorithm = LeakyBucket → 0 ≤ rl0.config.BurstSize → 0 ≤ rl0.config.Rate →
    0 ≤ rl0.config.Window →
    Stored rl0 rl key (Bytes.bucketJSON { Tokens := tokens, LastRefill := s }) s →
    0 ≤ tokens → tokens ≤ float64 rl0.config.BurstSize →
    (∀ c ∈ cs, c.key = key ∧ 0 ≤ c.n ∧ s ≤ c.now) →
    cs.Pairwise (fun a b => a.now ≤ b.now) →
    ∃ (tokens1 : ℚ) (s1 : Int),
      Stored rl0 (F64.runCalls rl cs) key
          (Bytes.bucketJSON { Tokens := tokens1, LastRefill := s1 }) s1 ∧
        0 ≤ tokens1 ∧ tokens1 ≤ float64 rl0.config.BurstSize ∧
        ∀ t, s ≤ t → (∀ c ∈ cs, c.now ≤ t) → s1 ≤ t := by
  induction cs with
  | nil =>
    intro rl0 rl key tokens s _ _ _ _ hst h0 h1 _ _
    exact ⟨tokens, s, hst, h0, h1, fun t ht _ => ht⟩
  | cons c cs ih =>
    intro rl0 rl key tokens s halg hB hR hW hst h0 h1 hcs hsorted
    obtain ⟨hck, hcn, hct⟩ := hcs c (List.mem_cons_self _ _)
    have hcfg : rl.config = rl0.config := hst.1
    rw [List.pairwise_cons] at hsorted
    rw [runCalls_f64_cons, hck]
    obtain ⟨b0, hl, hl0, hl1⟩ := leakyBucket_f64_load_level rl0 rl key tokens s c.now hB hR hW
      hst h0 h1 hct
    obtain ⟨_, t1, q1, q2, q3⟩ := leakyBucket_f64_step_level rl key c.n c.now b0 hst.2.1
      (by rw [hcfg]; exact halg) hst.2.2.1 hcn hl hl0 hl1
    obtain ⟨t2, s2, r1, r2, r3, r4⟩ := ih rl0 _ key t1 c.now halg hB hR hW (hst.rebase q1)
      q2 (by rw [← hcfg]; exact q3)
      (fun d hd => ⟨(hcs d (List.mem_cons_of_mem _ hd)).1,
        (hcs d (List.mem_cons_of_mem _ hd)).2.1, hsorted.1 d hd⟩)
      hsorted.2
    exact ⟨t2, s2, r1, r2, r3, fun t _ hall =>
      r4 t (hall c (List.mem_cons_self _ _)) (fun d hd => hall d (List.mem_cons_of_mem _ hd))⟩

/-- C12 (counterexample). With 7 per 4.9 s and capacity 2, after two
admissions at one instant the occupancy read 0.7 s later is
`1 + 2 ^ (-52)`; one more unit would raise it above the capacity, yet
`Allow` is admitted, because the `float64` sum rounds to 2. -/
theorem leakyBucket_level_counterexample :
    (F64.allowAt (limiterOf leakTwoConfig) "k" [clock2026, clock2026]).1 = [true, true] ∧
      storedBucket (F64.allowAt (limiterOf leakTwoConfig) "k" [clock2026, clock2026]).2 "k" =
        some { Tokens := 2, LastRefill := clock2026 } ∧
      F64.leakLevel leakTwoConfig { Tokens := 2, LastRefill := clock2026 }
          (clock2026 + 700000000) = 1 + 1 / 4503599627370496 ∧
      (F64.AllowN (F64.allowAt (limiterOf leakTwoConfig) "k" [clock2026, clock2026]).2 "k" 1
          (clock2026 + 700000000)).1 = true ∧
      ¬ ((1 + 1 / 4503599627370496 : ℚ) + ((1 : Int) : ℚ) ≤
          (leakTwoConfig.BurstSize : ℚ)) := by
  refine ⟨by decide!, by decide!, by decide!, by decide!, by decide!⟩

/-- Leaky Bucket level invariant: on a limiter built by `New`
with `burstSize >= 0`, starting from a key with no stored state, after any
sequence of `AllowN(key, n)` calls with `n >= 0` made at non-decreasing times
the persisted occupancy satisfies `0 <= tokens <= float64(burstSize)`, which is
`burstSize` when `burstSize <= 2 ^ 53`; and a further such call at a time `t`
is admitted exactly when the `float64` sum of the decayed occupancy and `n` is
at most `float64(burstSize)`: a call whose `float64` sum exceeds it is
denied. -/
theorem leakyBucket_level_invariant_computed (cfg : Config) (rl : rateLimiter) (key : String)
    (cs : List Call) (n t : Int)
    (hnew : New cfg = Except.ok rl) (halg : cfg.Algorithm = LeakyBucket)
    (hB : 0 ≤ cfg.BurstSize) (hopen : rl.storage.closed = false)
    (hfresh : rl.storage.items.lookup (rl.extractKey key) = none)
    (hcs : ∀ c ∈ cs, c.key = key ∧ 0 ≤ c.n)
    (hsorted : cs.Pairwise (fun a b => a.now ≤ b.now))
    (hn : 0 ≤ n) (ht : ∀ c ∈ cs, c.now ≤ t) :
    ((cs = [] ∧ storedBucket (F64.runCalls rl cs) (rl.extractKey key) = none) ∨
      ∃ b, storedBucket (F64.runCalls rl cs) (rl.extractKey key) = some b ∧
        0 ≤ b.Tokens ∧ b.Tokens ≤ float64 cfg.BurstSize ∧
        (cfg.BurstSize ≤ 9007199254740992 → b.Tokens ≤ (cfg.BurstSize : ℚ))) ∧
      ∃ b0, ((F64.runCalls rl cs).getBucketData (rl.extractKey key) t).1 = Except.ok b0 ∧
        0 ≤ F64.leakLevel cfg b0 t ∧ F64.leakLevel cfg b0 t ≤ float64 cfg.BurstSize ∧
        ((F64.AllowN (F64.runCalls rl cs) key n t).1 = true ↔
          fadd (F64.leakLevel cfg b0 t) (float64 n) ≤ float64 cfg.BurstSize) := by
  obtain ⟨hR, hW, hA, hRe, hWe, hBs, hcl, _, _⟩ := New_ok hnew
  have halg1 : rl.config.Algorithm = LeakyBucket := hA.trans halg
  have hBq : 0 ≤ float64 rl.config.BurstSize := by
    rw [hBs]
    exact float64_nonneg hB
  have hcfgeq : ∀ b0 : bucketData, F64.leakLevel cfg b0 t = F64.leakLevel rl.config b0 t := by
    intro b0
    unfold F64.leakLevel F64.tokensLeaked
    rw [hRe, hWe]
  have hsmall : ∀ x : ℚ, x ≤ float64 cfg.BurstSize → cfg.BurstSize ≤ 9007199254740992 →
      x ≤ (cfg.BurstSize : ℚ) := by
    intro x hx hs
    rwa [float64_of_small cfg.BurstSize (by rw [abs_of_nonneg hB]; exact hs)] at hx
  cases cs with
  | nil =>
    have hl := (getBucketData_of_lookup_none rl (rl.extractKey key) t hopen hfresh).1
    obtain ⟨q1, _⟩ := leakyBucket_f64_step_level rl key n t _ hcl halg1 hopen hn hl
      (by rw [leakLevel_f64_fresh]) (by rw [leakLevel_f64_fresh]; exact hBq)
    refine ⟨Or.inl ⟨rfl, ?_⟩, _, hl, ?_, ?_, ?_⟩
    · show storedBucket rl (rl.extractKey key) = none
      unfold storedBucket
      rw [hfresh]
    · rw [hcfgeq, leakLevel_f64_fresh]
    · rw [hcfgeq, leakLevel_f64_fresh, ← hBs]
      exact hBq
    · show (F64.AllowN rl key n t).1 = true ↔ _
      rw [q1, hcfgeq, hBs]
      exact decide_eq_true_iff
  | cons c cs =>
    obtain ⟨hck, hcn⟩ := hcs c (List.mem_cons_self _ _)
    rw [List.pairwise_cons] at hsorted
    rw [runCalls_f64_cons, hck]
    have hl := (getBucketData_of_lookup_none rl (rl.extractKey key) c.now hopen hfresh).1
    obtain ⟨_, t1, q1, q2, q3⟩ := leakyBucket_f64_step_level rl key c.n c.now _ hcl halg1 hopen
      hcn hl (by rw [leakLevel_f64_fresh]) (by rw [leakLevel_f64_fresh]; exact hBq)
    obtain ⟨t2, s2, h3, h4, h5, h6⟩ := leakyBucket_f64_run_level cs rl _ key t1 c.now halg1
      (by omega) (by omega) (by omega) q1 q2 q3
      (fun d hd => ⟨(hcs d (List.mem_cons_of_mem _ hd)).1,
        (hcs d (List.mem_cons_of_mem _ hd)).2, hsorted.1 d hd⟩)
      hsorted.2
    have hs2 : s2 ≤ t := h6 t (ht c (List.mem_cons_self _ _))
      (fun d hd => ht d (List.mem_cons_of_mem _ hd))
    have hcfg2 := h3.1
    have hkey2 := extractKey_congr rl (F64.runCalls (F64.AllowN rl key c.n c.now).2 cs) hcfg2 key
    obtain ⟨b0, p1, p2, p3⟩ := leakyBucket_f64_load_level rl _ key t2 s2 t (by omega) (by omega)
      (by omega) h3 h4 h5 hs2
    obtain ⟨p4, _⟩ := leakyBucket_f64_step_level _ key n t b0 h3.2.1
      (by rw [hcfg2]; exact halg1) h3.2.2.1 hn p1 p2 p3
    rw [hkey2] at p1
    rw [hcfg2] at p2 p3 p4
    rw [hBs] at h5
    refine ⟨Or.inr ⟨_, storedBucket_of_stored h3, h4, h5, hsmall _ h5⟩, b0, p1, ?_, ?_, ?_⟩
    · rw [hcfgeq]
      exact p2
    · rw [hcfgeq, ← hBs]
      exact p3
    · rw [p4, hcfgeq, hBs]
      exact decide_eq_true_iff

/-! ## Token Bucket in binary64: refill after a denial, all-or-nothing -/

theorem tokenLevel_f64_initialised (cfg : Config) (b : bucketData) (now : Int)
    (hz : b.LastRefill ≠ 0) :
    F64.tokenLevel cfg b now =
      min (float64 cfg.BurstSize)
        (fadd b.Tokens (F64.tokensToAdd cfg (Time.Sub now b.LastRefill))) := by
  unfold F64.tokenLevel Time.IsZero
  rw [if_neg (by simpa using hz)]

/-- With no time elapsed since the last update, the refreshed level is the
stored `float64` level capped at `float64(burstSize)`. -/
theorem tokenLevel_f64_same (cfg : Config) (tokens : ℚ) (now : Int) (hnow : now ≠ 0)
    (hf : f64 tokens = tokens) :
    F64.tokenLevel cfg { Tokens := tokens, LastRefill := now } now =
      min (float64 cfg.BurstSize) tokens := by
  rw [tokenLevel_f64_initialised _ _ _ hnow]
  show min _ (fadd tokens (F64.tokensToAdd cfg (Time.Sub now now))) = _
  rw [Time.Sub_self, tokensToAdd_zero, fadd_zero_right, hf]

theorem float64_le_int_iff (m z : Int) (h1 : -9007199254740992 ≤ z)
    (h2 : z < 9007199254740992) : float64 m ≤ (z : ℚ) ↔ m ≤ z := by
  have hz : float64 z = (z : ℚ) := float64_of_small z (by rw [abs_le]; omega)
  constructor
  · intro h
    by_contra hc
    have h3 : z + 1 ≤ m := by omega
    have h4 := float64_mono h3
    rw [float64_of_small (z + 1) (by rw [abs_le]; omega)] at h4
    push_cast at h4
    linarith
  · intro h
    have := float64_mono h
    rwa [hz] at this

theorem fsub_idem (a b : ℚ) : f64 (fsub a b) = fsub a b := f64_idem _

theorem fadd_idem (a b : ℚ) : f64 (fadd a b) = fadd a b := f64_idem _

theorem tokenLevel_f64_idem (cfg : Config) (b : bucketData) (now : Int) :
    f64 (F64.tokenLevel cfg b now) = F64.tokenLevel cfg b now := by
  unfold F64.tokenLevel
  split_ifs
  · exact float64_idem _
  · rcases min_choice (float64 cfg.BurstSize)
        (fadd b.Tokens (F64.tokensToAdd cfg (Time.Sub now b.LastRefill))) with h | h
    · rw [h]
      exact float64_idem _
    · rw [h]
      exact fadd_idem _ _

/-- A call at the instant of the last update, on a `float64` level of at most
`float64(burstSize)`: admitted exactly when `float64(n)` is at most the level,
which is then reduced by it; otherwise the level is kept. -/
theorem tokenBucket_f64_same_instant (rl0 rl : rateLimiter) (key : String) (n now : Int)
    (level : ℚ) (halg : rl0.config.Algorithm = TokenBucket) (hnow : now ≠ 0)
    (hlevel : level ≤ float64 rl0.config.BurstSize) (hf : f64 level = level)
    (hst : Stored rl0 rl key (Bytes.bucketJSON { Tokens := level, LastRefill := now }) now) :
    (F64.AllowN rl key n now).1 = decide (float64 n ≤ level) ∧
      Stored rl0 (F64.AllowN rl key n now).2 key
        (Bytes.bucketJSON
          { Tokens := if float64 n ≤ level then fsub level (float64 n) else level,
            LastRefill := now }) now := by
  have hcfg : rl.config = rl0.config := hst.1
  have hload := hst.loadBucket now (isExpired_expiryAt_same _ _ _)
  obtain ⟨h1, h2⟩ := AllowN_f64_tokenBucket_stored rl key n now _ hst.2.1
    (by rw [hcfg]; exact halg) hst.2.2.1 hload
  rw [hcfg, tokenLevel_f64_same _ _ _ hnow hf, min_eq_right hlevel] at h1 h2
  exact ⟨h1, hst.rebase h2⟩

/-- C8 (counterexample). With 3 per 0.9 s and a burst of 1, after the burst
`Allow` is denied at `t1`; 0.3 s later, when `d * rate / window = 1`, the
`float64` refill `0.3 * 3 / 0.9` is `1 - 2 ^ (-53)` and `Allow` is denied
again. -/
theorem tokenBucket_refill_counterexample :
    (F64.allowAt (limiterOf thirdWindowConfig) "k"
        [clock2026, clock2026, clock2026 + 300000000]).1 = [true, false, false] ∧
      F64.tokensToAdd thirdWindowConfig 300000000 = 1 - 1 / 9007199254740992 ∧
      (1 : ℚ) ≤ ((300000000 : Int) : ℚ) * (thirdWindowConfig.Rate : ℚ) /
        (thirdWindowConfig.Window : ℚ) := by
  refine ⟨by decide!, by decide!, by decide!⟩

/-- Refill monotonicity: on an open Token Bucket limiter with
`burstSize >= 1` whose refreshed level for the key at `t1` is not negative,
if `Allow(key)` is denied at `t1` then, with no call in between, `Allow(key)`
at `t1 + d` is admitted whenever the refill that the code computes in
`float64` for the elapsed time, `timePassed * float64(rate) / window.Seconds()`,
is at least 1. -/
theorem tokenBucket_refill_of_computed (rl : rateLimiter) (key : String) (t1 d : Int) (b : bucketData)
    (hcl : rl.closed = false) (halg : rl.config.Algorithm = TokenBucket)
    (hopen : rl.storage.closed = false) (hB : 1 ≤ rl.config.BurstSize)
    (hload : (rl.getBucketData (rl.extractKey key) t1).1 = Except.ok b)
    (hlevel : 0 ≤ F64.tokenLevel rl.config b t1)
    (hdenied : (F64.Allow rl key t1).1 = false)
    (hd : 1 ≤ F64.tokensToAdd rl.config (Time.Sub (t1 + d) t1)) :
    (F64.Allow (F64.Allow rl key t1).2 key (t1 + d)).1 = true := by
  unfold F64.Allow at hdenied ⊢
  obtain ⟨h1, h2⟩ := AllowN_f64_tokenBucket_stored rl key 1 t1 b hcl halg hopen hload
  rw [hdenied] at h1
  have hlt : ¬ (float64 1 ≤ F64.tokenLevel rl.config b t1) := by
    intro h
    rw [decide_eq_true h] at h1
    exact Bool.noConfusion h1
  rw [if_neg hlt] at h2
  have hcfg : (F64.AllowN rl key 1 t1).2.config = rl.config := h2.1
  have hBq : float64 1 ≤ float64 rl.config.BurstSize := float64_mono hB
  cases hexp : (memoryItem.mk
      (Bytes.bucketJSON { Tokens := F64.tokenLevel rl.config b t1, LastRefill := t1 })
      (expiryAt (F64.AllowN rl key 1 t1).2.config t1)).isExpired (t1 + d) with
  | true =>
    have hl := h2.loadBucket_expired (t1 + d) hexp
    obtain ⟨q1, _⟩ := AllowN_f64_tokenBucket_stored (F64.AllowN rl key 1 t1).2 key 1 (t1 + d) _
      h2.2.1 (by rw [hcfg]; exact halg) h2.2.2.1 hl
    rw [q1, tokenLevel_f64_fresh, hcfg]
    exact decide_eq_true hBq
  | false =>
    have hl := h2.loadBucket (t1 + d) hexp
    obtain ⟨q1, _⟩ := AllowN_f64_tokenBucket_stored (F64.AllowN rl key 1 t1).2 key 1 (t1 + d) _
      h2.2.1 (by rw [hcfg]; exact halg) h2.2.2.1 hl
    rw [q1, hcfg]
    apply decide_eq_true
    by_cases hz : t1 = 0
    · have : F64.tokenLevel rl.config
          { Tokens := F64.tokenLevel rl.config b t1, LastRefill := t1 } (t1 + d) =
          float64 rl.config.BurstSize := by
        simp [F64.tokenLevel, Time.IsZero, hz]
      rw [this]
      exact hBq
    · rw [tokenLevel_f64_initialised _ _ _ hz]
      apply le_min hBq
      show float64 1 ≤ fadd (F64.tokenLevel rl.config b t1)
        (F64.tokensToAdd rl.config (Time.Sub (t1 + d) t1))
      rw [float64_one]
      unfold fadd
      have : f64 1 ≤ f64 (F64.tokenLevel rl.config b t1 +
          F64.tokensToAdd rl.config (Time.Sub (t1 + d) t1)) := f64_mono (by linarith)
      rwa [f64_one] at this

/-- C10 (counterexample). With 3 per 0.9 s and a burst of 1, the bucket
emptied at `t` is read 0.3 s later: `min(burstSize, tokens + elapsed * rate /
window)` is 1, yet `AllowN(key, 1)` is denied.  With a burst of `2 ^ 53`,
`AllowN(key, 2 ^ 53 + 1)` on a fresh key is admitted, `float64(n)` being
`2 ^ 53`, and `2 ^ 53` tokens are subtracted. -/
theorem tokenBucket_allowN_counterexample :
    storedBucket (F64.Allow (limiterOf thirdWindowConfig) "k" clock2026).2 "k" =
        some { Tokens := 0, LastRefill := clock2026 } ∧
      (F64.AllowN (F64.Allow (limiterOf thirdWindowConfig) "k" clock2026).2 "k" 1
        (clock2026 + 300000000)).1 = false ∧
      ((1 : Int) : ℚ) ≤ min (thirdWindowConfig.BurstSize : ℚ)
        ((0 : ℚ) + ((Time.Sub (clock2026 + 300000000) clock2026 : Int) : ℚ) *
          (thirdWindowConfig.Rate : ℚ) / (thirdWindowConfig.Window : ℚ)) ∧
      (F64.AllowN (limiterOf maxExactBurstConfig) "k" 9007199254740993 clock2026).1 = true ∧
      storedBucket
          (F64.AllowN (limiterOf maxExactBurstConfig) "k" 9007199254740993 clock2026).2 "k" =
        some { Tokens := 0, LastRefill := clock2026 } ∧
      ¬ ((9007199254740993 : Int) ≤ maxExactBurstConfig.BurstSize) := by
  refine ⟨by decide!, by decide!, by decide!, by decide!, by decide!, by decide⟩

/-- Token Bucket `AllowN` is all-or-nothing in `float64`.  On an
open limiter whose bucket for the key is initialised, `AllowN(key, n)` returns
true exactly when the refreshed level
`min(float64(burstSize), tokens + timePassed * float64(rate) / window.Seconds())`,
computed in `float64`, is at least `float64(n)`; the level persisted is the
refreshed level less `float64(n)`, rounded to `float64`, on true, and the
refreshed level itself on false.  From a fresh bucket with
`burstSize < 2 ^ 53` and no time elapsing, after an admitted `AllowN(a)` a call
`AllowN(m)` is admitted exactly when `m <= burstSize - a`, and a denied
`AllowN(m)` does not change the verdict of a later call. -/
theorem tokenBucket_allowN_computed
    (rlA : rateLimiter) (keyA : String) (n nowA : Int) (b : bucketData)
    (hclA : rlA.closed = false) (halgA : rlA.config.Algorithm = TokenBucket)
    (hopenA : rlA.storage.closed = false)
    (hload : (rlA.getBucketData (rlA.extractKey keyA) nowA).1 = Except.ok b)
    (hinit : b.LastRefill ≠ 0)
    (cfg : Config) (rl : rateLimiter) (key : String) (a m m1 now : Int)
    (hnew : New cfg = Except.ok rl) (halg : cfg.Algorithm = TokenBucket)
    (hsmall : cfg.BurstSize < 9007199254740992)
    (hopen : rl.storage.closed = false)
    (hfresh : rl.storage.items.lookup (rl.extractKey key) = none) (hnow : now ≠ 0)
    (ha : 0 ≤ a) (hadm : (F64.AllowN rl key a now).1 = true) :
    ((F64.AllowN rlA keyA n nowA).1 = true ↔
        float64 n ≤ min (float64 rlA.config.BurstSize)
          (fadd b.Tokens (F64.tokensToAdd rlA.config (Time.Sub nowA b.LastRefill)))) ∧
      storedBucket (F64.AllowN rlA keyA n nowA).2 (rlA.extractKey keyA) =
        some
          { Tokens :=
              if float64 n ≤ min (float64 rlA.config.BurstSize)
                  (fadd b.Tokens
                    (F64.tokensToAdd rlA.config (Time.Sub nowA b.LastRefill))) then
                fsub
                  (min (float64 rlA.config.BurstSize)
                    (fadd b.Tokens
                      (F64.tokensToAdd rlA.config (Time.Sub nowA b.LastRefill))))
                  (float64 n)
              else
                min (float64 rlA.config.BurstSize)
                  (fadd b.Tokens (F64.tokensToAdd rlA.config (Time.Sub nowA b.LastRefill))),
            LastRefill := nowA } ∧
      ((F64.AllowN (F64.AllowN rl key a now).2 key m now).1 = true ↔
        m ≤ cfg.BurstSize - a) ∧
      ((F64.AllowN (F64.AllowN rl key a now).2 key m now).1 = false →
        (F64.AllowN (F64.AllowN (F64.AllowN rl key a now).2 key m now).2 key m1 now).1 =
          (F64.AllowN (F64.AllowN rl key a now).2 key m1 now).1) := by
  -- the general step
  obtain ⟨g1, g2⟩ := AllowN_f64_tokenBucket_stored rlA keyA n nowA b hclA halgA hopenA hload
  rw [tokenLevel_f64_initialised _ _ _ hinit] at g1 g2
  -- the run from the fresh bucket
  obtain ⟨_, _, hA, _, _, hBs, hcl, _, _⟩ := New_ok hnew
  have halg1 : rl.config.Algorithm = TokenBucket := hA.trans halg
  have hl := (getBucketData_of_lookup_none rl (rl.extractKey key) now hopen hfresh).1
  obtain ⟨h1, h2⟩ := AllowN_f64_tokenBucket_stored rl key a now _ hcl halg1 hopen hl
  rw [tokenLevel_f64_fresh] at h1 h2
  rw [hadm] at h1
  have haB : float64 a ≤ float64 rl.config.BurstSize := of_decide_eq_true h1.symm
  rw [if_pos haB] at h2
  have haq : 0 ≤ float64 a := float64_nonneg ha
  -- the burst size is not negative and is a `float64` value
  have hB0 : 0 ≤ cfg.BurstSize := by
    by_contra hc
    have h3 : cfg.BurstSize ≤ -1 := by omega
    have h4 := float64_mono h3
    rw [float64_of_small (-1) (by norm_num), ← hBs] at h4
    push_cast at h4
    linarith
  have hBf : float64 rl.config.BurstSize = (cfg.BurstSize : ℚ) := by
    rw [hBs]
    exact float64_of_small _ (by rw [abs_of_nonneg hB0]; omega)
  have haB2 : a ≤ cfg.BurstSize := by
    rw [hBf] at haB
    exact (float64_le_int_iff a cfg.BurstSize (by omega) hsmall).mp haB
  have haf : float64 a = (a : ℚ) := float64_of_small a (by rw [abs_of_nonneg ha]; omega)
  have hlevv : fsub (float64 rl.config.BurstSize) (float64 a) =
      ((cfg.BurstSize - a : Int) : ℚ) := by
    rw [hBf, haf]
    unfold fsub
    have := f64_int (cfg.BurstSize - a) (by rw [abs_of_nonneg (by omega)]; omega)
    push_cast at this ⊢
    exact this
  rw [hlevv] at h2
  have hlev : ((cfg.BurstSize - a : Int) : ℚ) ≤ float64 rl.config.BurstSize := by
    rw [hBf]
    exact_mod_cast (by omega : cfg.BurstSize - a ≤ cfg.BurstSize)
  have hlf : f64 ((cfg.BurstSize - a : Int) : ℚ) = ((cfg.BurstSize - a : Int) : ℚ) :=
    f64_int _ (by rw [abs_of_nonneg (by omega)]; omega)
  obtain ⟨p1, p2⟩ := tokenBucket_f64_same_instant rl (F64.AllowN rl key a now).2 key m now _
    halg1 hnow hlev hlf h2
  obtain ⟨q1, _⟩ := tokenBucket_f64_same_instant rl (F64.AllowN rl key a now).2 key m1 now _
    halg1 hnow hlev hlf h2
  refine ⟨?_, ?_, ?_, ?_⟩
  · rw [g1]
    exact decide_eq_true_iff
  · exact storedBucket_of_stored g2
  · rw [p1, decide_eq_true_iff]
    exact float64_le_int_iff m (cfg.BurstSize - a) (by omega) (by omega)
  · intro hden
    rw [hden] at p1
    have hgt : ¬ (float64 m ≤ ((cfg.BurstSize - a : Int) : ℚ)) := by
      intro h
      rw [decide_eq_true h] at p1
      exact Bool.noConfusion p1
    rw [if_neg hgt] at p2
    obtain ⟨r1, _⟩ := tokenBucket_f64_same_instant rl
      (F64.AllowN (F64.AllowN rl key a now).2 key m now).2 key m1 now _ halg1 hnow hlev hlf p2
    rw [r1, q1]

/-! ## Leaky Bucket in binary64: saturation -/

theorem f64_natCast (j : Nat) (h : (j : Int) ≤ 9007199254740992) : f64 (j : ℚ) = (j : ℚ) := by
  have := f64_int (j : Int) (by rw [abs_of_nonneg (Int.natCast_nonneg j)]; exact h)
  simpa using this

/-- With no time elapsed since the last update, a non-negative `float64`
occupancy is unchanged. -/
theorem leakLevel_f64_same (cfg : Config) (tokens : ℚ) (now : Int) (h : 0 ≤ tokens)
    (hf : f64 tokens = tokens) :
    F64.leakLevel cfg { Tokens := tokens, LastRefill := now } now = tokens := by
  unfold F64.leakLevel
  split_ifs
  · rfl
  · show max 0 (fsub tokens (F64.tokensLeaked cfg (Time.Sub now now))) = tokens
    rw [Time.Sub_self, tokensLeaked_zero, fsub_zero_right, hf]
    exact max_eq_right h

theorem fadd_nat_one (j : Nat) (h : (j : Int) < 9007199254740992) :
    fadd (j : ℚ) (float64 1) = ((j + 1 : Nat) : ℚ) := by
  rw [float64_one]
  unfold fadd
  have := f64_natCast (j + 1) (by push_cast; omega)
  push_cast at this ⊢
  exact this

/-- From an occupancy of `j` whole units with room for `m` more, the next `m`
calls at the same instant are admitted, the one after them is denied, and the
bucket is left full. -/
theorem leakyBucket_f64_fill (m : Nat) : ∀ (rl0 rl : rateLimiter) (key : String) (now : Int)
    (j : Nat), rl0.config.Algorithm = LeakyBucket →
    rl0.config.BurstSize < 9007199254740992 →
    Stored rl0 rl key (Bytes.bucketJSON { Tokens := (j : ℚ), LastRefill := now }) now →
    (j : Int) + (m : Int) = rl0.config.BurstSize →
    (F64.allowAt rl key (List.replicate (m + 1) now)).1 = List.replicate m true ++ [false] ∧
      Stored rl0 (F64.allowAt rl key (List.replicate (m + 1) now)).2 key
        (Bytes.bucketJSON { Tokens := (rl0.config.BurstSize : ℚ), LastRefill := now }) now := by
  induction m with
  | zero =>
    intro rl0 rl key now j halg hB2 hst hj
    have hcfg : rl.config = rl0.config := hst.1
    have hload := hst.loadBucket now (isExpired_expiryAt_same _ _ _)
    obtain ⟨h1, h2⟩ := AllowN_f64_leakyBucket_stored rl key 1 now _ hst.2.1
      (by rw [hcfg]; exact halg) hst.2.2.1 hload
    have hjf : f64 (j : ℚ) = (j : ℚ) := f64_natCast j (by omega)
    rw [hcfg, leakLevel_f64_same _ _ _ (Nat.cast_nonneg j) hjf,
      fadd_nat_one j (by omega)] at h1 h2
    have hjB : (j : ℚ) = (rl0.config.BurstSize : ℚ) := by
      have : ((j : Int) : ℚ) = (rl0.config.BurstSize : ℚ) := by
        rw [← hj]
        push_cast
        ring
      exact_mod_cast this
    have hBf : float64 rl0.config.BurstSize = (rl0.config.BurstSize : ℚ) :=
      float64_of_small _ (by rw [abs_of_nonneg (by omega)]; omega)
    have hgt : ¬ (((j + 1 : Nat) : ℚ) ≤ float64 rl0.config.BurstSize) := by
      rw [hBf, ← hjB]
      push_cast
      linarith
    rw [if_neg hgt, hjB] at h2
    refine ⟨?_, ?_⟩
    · rw [List.replicate_succ, allowAt_f64_cons]
      show (F64.AllowN rl key 1 now).1 :: _ = _
      rw [h1]
      simp only [List.replicate_zero, List.nil_append]
      exact List.cons_eq_cons.mpr ⟨decide_eq_false hgt, rfl⟩
    · rw [List.replicate_succ, allowAt_f64_cons]
      exact hst.rebase h2
  | succ m ih =>
    intro rl0 rl key now j halg hB2 hst hj
    have hcfg : rl.config = rl0.config := hst.1
    have hload := hst.loadBucket now (isExpired_expiryAt_same _ _ _)
    obtain ⟨h1, h2⟩ := AllowN_f64_leakyBucket_stored rl key 1 now _ hst.2.1
      (by rw [hcfg]; exact halg) hst.2.2.1 hload
    have hjf : f64 (j : ℚ) = (j : ℚ) := f64_natCast j (by push_cast at hj; omega)
    rw [hcfg, leakLevel_f64_same _ _ _ (Nat.cast_nonneg j) hjf,
      fadd_nat_one j (by push_cast at hj; omega)] at h1 h2
    have hBf : float64 rl0.config.BurstSize = (rl0.config.BurstSize : ℚ) :=
      float64_of_small _ (by rw [abs_of_nonneg (by push_cast at hj; omega)]; omega)
    have hle : ((j + 1 : Nat) : ℚ) ≤ float64 rl0.config.BurstSize := by
      rw [hBf]
      have : ((j + 1 : Nat) : Int) ≤ rl0.config.BurstSize := by
        push_cast at hj ⊢
        omega
      exact_mod_cast this
    rw [if_pos hle] at h2
    obtain ⟨r1, r2⟩ := ih rl0 (F64.AllowN rl key 1 now).2 key now (j + 1) halg hB2
      (hst.rebase h2) (by push_cast at hj ⊢; omega)
    refine ⟨?_, ?_⟩
    · rw [List.replicate_succ, allowAt_f64_cons]
      show (F64.AllowN rl key 1 now).1 :: _ = _
      rw [h1, r1]
      exact List.cons_eq_cons.mpr ⟨decide_eq_true hle, rfl⟩
    · rw [List.replicate_succ, allowAt_f64_cons]
      exact r2

/-- A state persisted at `t > 0` has expired after `t + 2 * window`, when
`2 * window` fits an `int64`. -/
theorem isExpired_expiryAt_of_gt (cfg : Config) (v : Bytes) (t now : Int)
    (hW : 0 < cfg.Window) (hW2 : cfg.Window * 2 ≤ maxInt64) (ht : 0 < t)
    (h : t + 2 * cfg.Window < now) :
    (memoryItem.mk v (expiryAt cfg t)).isExpired now = true := by
  have hw : wrap64 (cfg.Window * 2) = cfg.Window * 2 := by
    unfold wrap64
    unfold maxInt64 at hW2
    omega
  unfold memoryItem.isExpired expiryAt Time.IsZero Time.After Time.Add
  rw [hw, if_pos (by omega)]
  simp only [Bool.and_eq_true, Bool.not_eq_true', decide_eq_false_iff_not, decide_eq_true_eq]
  constructor <;> omega

/-- A full Leaky Bucket last updated at `t`: a call at `t + d` is admitted when
the entry has expired, and otherwise exactly when the `float64` test on the
decayed occupancy succeeds. -/
theorem leakyBucket_f64_after (rl0 rl : rateLimiter) (key : String) (t d : Int)
    (halg : rl0.config.Algorithm = LeakyBucket)
    (hW : 0 < rl0.config.Window) (hW2 : rl0.config.Window * 2 ≤ maxInt64)
    (hB : 1 ≤ rl0.config.BurstSize) (ht : 0 < t)
    (hst : Stored rl0 rl key
      (Bytes.bucketJSON { Tokens := (rl0.config.BurstSize : ℚ), LastRefill := t }) t) :
    (2 * rl0.config.Window < d → (F64.AllowN rl key 1 (t + d)).1 = true) ∧
      (d ≤ 2 * rl0.config.Window →
        (F64.AllowN rl key 1 (t + d)).1 =
          decide (fadd (max 0 (fsub (rl0.config.BurstSize : ℚ)
            (F64.tokensLeaked rl0.config (Time.Sub (t + d) t)))) (float64 1) ≤
              float64 rl0.config.BurstSize)) := by
  have hcfg : rl.config = rl0.config := hst.1
  constructor
  · intro hd
    have hexp := isExpired_expiryAt_of_gt rl.config
      (Bytes.bucketJSON { Tokens := (rl0.config.BurstSize : ℚ), LastRefill := t }) t (t + d)
      (by rw [hcfg]; exact hW) (by rw [hcfg]; exact hW2) ht (by rw [hcfg]; omega)
    have hload := hst.loadBucket_expired (t + d) hexp
    obtain ⟨h1, _⟩ := AllowN_f64_leakyBucket_stored rl key 1 (t + d) _ hst.2.1
      (by rw [hcfg]; exact halg) hst.2.2.1 hload
    rw [hcfg, leakLevel_f64_fresh] at h1
    rw [h1]
    apply decide_eq_true
    unfold fadd
    rw [zero_add, float64_idem]
    exact float64_mono hB
  · intro hd
    have hexp := isExpired_expiryAt_le rl.config
      (Bytes.bucketJSON { Tokens := (rl0.config.BurstSize : ℚ), LastRefill := t }) t (t + d)
      (by rw [hcfg]; exact hW) (by rw [hcfg]; omega) (by rw [hcfg]; omega)
    have hload := hst.loadBucket (t + d) hexp
    obtain ⟨h1, _⟩ := AllowN_f64_leakyBucket_stored rl key 1 (t + d) _ hst.2.1
      (by rw [hcfg]; exact halg) hst.2.2.1 hload
    rw [hcfg] at h1
    have hlvl : F64.leakLevel rl0.config
        { Tokens := (rl0.config.BurstSize : ℚ), LastRefill := t } (t + d) =
        max 0 (fsub (rl0.config.BurstSize : ℚ)
          (F64.tokensLeaked rl0.config (Time.Sub (t + d) t))) := by
      unfold F64.leakLevel
      have hz : Time.IsZero t = false := by
        unfold Time.IsZero
        exact decide_eq_false (by omega)
      simp only [hz, Bool.false_eq_true, if_false]
    rw [hlvl] at h1
    exact h1

/-- C7 (counterexample). With 7 per 4.9 s and capacity 1, the bucket is
saturated at `t`; 0.7 s later, when `d * rate / window = 1`, the `float64` leak
`0.7 * (7 / 4.9)` is `1 - 2 ^ (-52)` and `Allow` is denied. -/
theorem leakyBucket_saturation_counterexample :
    (F64.allowAt (limiterOf leakOneConfig) "k"
        [clock2026, clock2026, clock2026 + 700000000]).1 = [true, false, false] ∧
      F64.tokensLeaked leakOneConfig 700000000 = 1 - 1 / 4503599627370496 ∧
      (1 : ℚ) ≤ ((700000000 : Int) : ℚ) * (leakOneConfig.Rate : ℚ) /
        (leakOneConfig.Window : ℚ) := by
  refine ⟨by decide!, by decide!, by decide!⟩

/-- Leaky Bucket saturation: on a limiter built by `New` with
`1 <= burstSize < 2 ^ 53`, for a key with no stored state and calls all made
at the instant `now` (after the zero time), the first `burstSize` calls
`Allow(key)` are admitted and the next one is denied; after that, with no call
in between, a call at `now + d` is admitted if and only if the entry has
expired (`d > 2 * window`, for a window of at most `MaxInt64 / 2` ns) or the
occupancy recomputed in `float64`,
`max(0, burstSize - timePassed * (float64(rate) / window.Seconds()))`, plus 1 is
at most `burstSize` in `float64`; in particular it is admitted whenever the
`float64` leak `timePassed * (float64(rate) / window.Seconds())` is at least
1. -/
theorem leakyBucket_saturation_computed (cfg : Config) (rl : rateLimiter) (key : String)
    (now d : Int)
    (hnew : New cfg = Except.ok rl) (halg : cfg.Algorithm = LeakyBucket)
    (hB : 1 ≤ cfg.BurstSize) (hB2 : cfg.BurstSize < 9007199254740992)
    (hW2 : cfg.Window * 2 ≤ maxInt64)
    (hopen : rl.storage.closed = false)
    (hfresh : rl.storage.items.lookup (rl.extractKey key) = none) (hnow : 0 < now) :
    (F64.allowAt rl key (List.replicate (cfg.BurstSize.toNat + 1) now)).1 =
        List.replicate cfg.BurstSize.toNat true ++ [false] ∧
      ((F64.Allow (F64.allowAt rl key (List.replicate (cfg.BurstSize.toNat + 1) now)).2 key
          (now + d)).1 = true ↔
        2 * cfg.Window < d ∨
          fadd (max 0 (fsub (cfg.BurstSize : ℚ)
            (F64.tokensLeaked cfg (Time.Sub (now + d) now)))) 1 ≤ (cfg.BurstSize : ℚ)) ∧
      (1 ≤ F64.tokensLeaked cfg (Time.Sub (now + d) now) →
        (F64.Allow (F64.allowAt rl key (List.replicate (cfg.BurstSize.toNat + 1) now)).2 key
          (now + d)).1 = true) := by
  obtain ⟨hR, hW, hA, hRe, hWe, hBs, hcl, _, _⟩ := New_ok hnew
  have halg1 : rl.config.Algorithm = LeakyBucket := hA.trans halg
  have hload := (getBucketData_of_lookup_none rl (rl.extractKey key) now hopen hfresh).1
  obtain ⟨h1, h2⟩ := AllowN_f64_leakyBucket_stored rl key 1 now _ hcl halg1 hopen hload
  rw [leakLevel_f64_fresh] at h1 h2
  have hBf : float64 rl.config.BurstSize = (cfg.BurstSize : ℚ) := by
    rw [hBs]
    exact float64_of_small _ (by rw [abs_of_nonneg (by omega)]; omega)
  have h01 : fadd 0 (float64 1) = ((1 : Nat) : ℚ) := by
    have := fadd_nat_one 0 (by norm_num)
    simpa using this
  rw [h01] at h1 h2
  have hle : ((1 : Nat) : ℚ) ≤ float64 rl.config.BurstSize := by
    rw [hBf]
    exact_mod_cast hB
  rw [if_pos hle] at h2
  obtain ⟨m, hm⟩ : ∃ m : Nat, cfg.BurstSize.toNat = m + 1 :=
    ⟨cfg.BurstSize.toNat - 1, by omega⟩
  obtain ⟨r1, r2⟩ := leakyBucket_f64_fill m rl (F64.AllowN rl key 1 now).2 key now 1 halg1
    (by omega) h2 (by rw [hBs]; push_cast; omega)
  have hv : (F64.AllowN rl key 1 now).1 = true := by
    rw [h1]
    exact decide_eq_true hle
  obtain ⟨a1, a2⟩ := leakyBucket_f64_after rl _ key now d halg1 (by omega) (by omega)
    (by omega) hnow r2
  have hcfgl : F64.tokensLeaked rl.config (Time.Sub (now + d) now) =
      F64.tokensLeaked cfg (Time.Sub (now + d) now) := by
    unfold F64.tokensLeaked
    rw [hRe, hWe]
  rw [hWe] at a1 a2
  rw [hBs, hcfgl, float64_one] at a2
  rw [hBs] at hBf
  rw [hBf] at a2
  have hstate : (F64.allowAt rl key (List.replicate (cfg.BurstSize.toNat + 1) now)).2 =
      (F64.allowAt (F64.AllowN rl key 1 now).2 key (List.replicate (m + 1) now)).2 := by
    rw [hm, List.replicate_succ, allowAt_f64_cons]
  have hiff : (F64.Allow (F64.allowAt rl key
      (List.replicate (cfg.BurstSize.toNat + 1) now)).2 key (now + d)).1 = true ↔
        2 * cfg.Window < d ∨
          fadd (max 0 (fsub (cfg.BurstSize : ℚ)
            (F64.tokensLeaked cfg (Time.Sub (now + d) now)))) 1 ≤ (cfg.BurstSize : ℚ) := by
    rw [hstate]
    unfold F64.Allow
    constructor
    · intro h
      by_cases hd : 2 * cfg.Window < d
      · exact Or.inl hd
      · right
        rw [a2 (by omega)] at h
        exact of_decide_eq_true h
    · rintro (h | h)
      · exact a1 h
      · by_cases hd : 2 * cfg.Window < d
        · exact a1 hd
        · rw [a2 (by omega)]
          exact decide_eq_true h
  refine ⟨?_, hiff, ?_⟩
  · rw [hm, List.replicate_succ, allowAt_f64_cons]
    show (F64.AllowN rl key 1 now).1 :: _ = _
    rw [hv, r1]
    rfl
  · intro hleak
    apply hiff.mpr
    right
    have hB1 : f64 ((cfg.BurstSize : ℚ) - 1) = (cfg.BurstSize : ℚ) - 1 := by
      have := f64_int (cfg.BurstSize - 1) (by rw [abs_of_nonneg (by omega)]; omega)
      push_cast at this
      exact this
    have h3 : fsub (cfg.BurstSize : ℚ) (F64.tokensLeaked cfg (Time.Sub (now + d) now)) ≤
        (cfg.BurstSize : ℚ) - 1 := by
      unfold fsub
      have := f64_mono (show (cfg.BurstSize : ℚ) -
        F64.tokensLeaked cfg (Time.Sub (now + d) now) ≤ (cfg.BurstSize : ℚ) - 1 by linarith)
      rwa [hB1] at this
    have hBq : (1 : ℚ) ≤ (cfg.BurstSize : ℚ) := by exact_mod_cast hB
    have h4 : max 0 (fsub (cfg.BurstSize : ℚ)
        (F64.tokensLeaked cfg (Time.Sub (now + d) now))) ≤ (cfg.BurstSize : ℚ) - 1 :=
      max_le (by linarith) h3
    unfold fadd
    have := f64_mono (show max 0 (fsub (cfg.BurstSize : ℚ)
      (F64.tokensLeaked cfg (Time.Sub (now + d) now))) + 1 ≤ (cfg.BurstSize : ℚ) by linarith)
    unfold float64 at hBf
    rwa [hBf] at this

/-! ## Token Bucket in binary64: the wait that `Check` reports -/

theorem toInt64_of_range (z : Int) (h1 : minInt64 ≤ z) (h2 : z ≤ maxInt64) :
    toInt64 (z : ℚ) = z := by
  have ht : truncDuration (z : ℚ) = z := by
    unfold truncDuration
    split_ifs
    · exact Int.floor_intCast z
    · exact Int.ceil_intCast z
  unfold toInt64
  rw [ht, if_pos ⟨h1, h2⟩]

/-- C17 (counterexample). With 1000 per hour and an empty bucket the refreshed
level is 0 and `(1 - 0) * window / rate` is 3.6 s, a whole number of
nanoseconds; `Check` returns `RetryAfter = 3599999999` ns, the `float64`
quotient `1 / (1000 / 3600)` being just below 3.6. -/
theorem tokenBucket_retryAfter_counterexample :
    storedBucket (F64.Allow (limiterOf hourlyConfig) "k" clock2026).2 "k" =
        some { Tokens := 0, LastRefill := clock2026 } ∧
      F64.checkLevel hourlyConfig { Tokens := 0, LastRefill := clock2026 } clock2026 = 0 ∧
      (F64.Check (F64.Allow (limiterOf hourlyConfig) "k" clock2026).2 "k"
        clock2026).1.RetryAfter = 3599999999 ∧
      (1 - 0) * ((hourlyConfig.Window : Int) : ℚ) / ((hourlyConfig.Rate : Int) : ℚ) =
        3600000000 := by
  refine ⟨by decide!, by decide!, by decide!, by decide!⟩

/-- Token Bucket retryAfter: on an open limiter, whenever the
refreshed level `c = min(float64(burstSize), tokens + timePassed *
float64(rate) / window.Seconds())` of the loaded bucket, computed in `float64`,
is below 1, `Check` returns `Allowed = false`, `Remaining = floor(c)` (when
that is an `int64`) and `RetryAfter` equal to the `float64` value of
`(1 - c) / (float64(rate) / window.Seconds()) * 1e9`, truncated to whole
nanoseconds.  With 10 per minute and a burst of 5, at one instant, calls 1 to
5 are admitted, call 6 is denied, and `Check` after the fifth call reports
`Remaining = 0` and `RetryAfter = 6 s`. -/
theorem tokenBucket_retryAfter_computed (rl : rateLimiter) (key : String) (now : Int)
    (b : bucketData)
    (hcl : rl.closed = false) (halg : rl.config.Algorithm = TokenBucket)
    (hload : (rl.getBucketData (rl.extractKey key) now).1 = Except.ok b)
    (hc : min (float64 rl.config.BurstSize)
        (fadd b.Tokens (F64.tokensToAdd rl.config (Time.Sub now b.LastRefill))) < 1) :
    ((F64.Check rl key now).1.Allowed = false ∧
      (F64.Check rl key now).1.Remaining =
        toInt64 ((⌊min (float64 rl.config.BurstSize)
          (fadd b.Tokens (F64.tokensToAdd rl.config (Time.Sub now b.LastRefill)))⌋ : Int) : ℚ) ∧
      (minInt64 ≤ ⌊min (float64 rl.config.BurstSize)
          (fadd b.Tokens (F64.tokensToAdd rl.config (Time.Sub now b.LastRefill)))⌋ →
        (F64.Check rl key now).1.Remaining =
          ⌊min (float64 rl.config.BurstSize)
            (fadd b.Tokens (F64.tokensToAdd rl.config (Time.Sub now b.LastRefill)))⌋) ∧
      (F64.Check rl key now).1.RetryAfter =
        toInt64
          (fmul
            (fdiv
              (fsub 1 (min (float64 rl.config.BurstSize)
                (fadd b.Tokens (F64.tokensToAdd rl.config (Time.Sub now b.LastRefill)))))
              (fdiv (float64 rl.config.Rate) (F64.Seconds rl.config.Window)))
            1000000000)) ∧
      ((F64.allowAt (limiterOf tokenBucketConfig) "k" (List.replicate 6 clock2026)).1 =
          [true, true, true, true, true, false] ∧
        (F64.Check (F64.allowAt (limiterOf tokenBucketConfig) "k"
          (List.replicate 5 clock2026)).2 "k" clock2026).1.Remaining = 0 ∧
        (F64.Check (F64.allowAt (limiterOf tokenBucketConfig) "k"
          (List.replicate 5 clock2026)).2 "k" clock2026).1.RetryAfter = 6000000000) := by
  have hrep := Check_f64_tokenBucket_of_load rl key now b hcl halg hload
  have hlevel : F64.checkLevel rl.config b now =
      min (float64 rl.config.BurstSize)
        (fadd b.Tokens (F64.tokensToAdd rl.config (Time.Sub now b.LastRefill))) := rfl
  refine ⟨⟨?_, ?_, ?_, ?_⟩, by decide!, by decide!, by decide!⟩
  · rw [hrep]
    show decide (1 ≤ F64.checkLevel rl.config b now) = false
    rw [hlevel]
    exact decide_eq_false (not_le.mpr hc)
  · rw [hrep]
    rfl
  · intro hmin
    rw [hrep]
    show toInt64 ((⌊F64.checkLevel rl.config b now⌋ : Int) : ℚ) = _
    rw [hlevel]
    apply toInt64_of_range _ hmin
    have : ⌊min (float64 rl.config.BurstSize)
        (fadd b.Tokens (F64.tokensToAdd rl.config (Time.Sub now b.LastRefill)))⌋ < 1 :=
      Int.floor_lt.mpr (by exact_mod_cast hc)
    unfold maxInt64
    omega
  · rw [hrep]
    show (if F64.checkLevel rl.config b now < 1 then _ else 0) = _
    rw [hlevel, if_pos hc]

/-! ## `Remaining` before and after a call, with the bucket paths in binary64 -/

/-- On the window algorithms `F64.AllowN` is `AllowN` up to the metrics. -/
theorem AllowN_f64_of_window (rl : rateLimiter) (key : String) (n now : Int) (k : String)
    (halg : rl.config.Algorithm = FixedWindow ∨ rl.config.Algorithm = SlidingWindow) :
    (F64.AllowN rl key n now).1 = (rl.AllowN key n now).1 ∧
      SameEntry (F64.AllowN rl key n now).2 (rl.AllowN key n now).2 k := by
  have h0 : ¬ (FixedWindow = TokenBucket) := by decide
  have h1 : ¬ (SlidingWindow = TokenBucket) := by decide
  have h2 : ¬ (SlidingWindow = FixedWindow) := by decide
  unfold F64.AllowN rateLimiter.AllowN SameEntry
  by_cases hc : rl.closed = true
  · simp [hc]
  · rcases halg with h | h
    · simp [hc, h, h0]
    · simp [hc, h, h1, h2]

/-- On the window algorithms `F64.Check` is `Check`. -/
theorem Check_f64_of_window (rl : rateLimiter) (key : String) (now : Int)
    (halg : rl.config.Algorithm = FixedWindow ∨ rl.config.Algorithm = SlidingWindow) :
    F64.Check rl key now = rl.Check key now := by
  have h0 : ¬ (FixedWindow = TokenBucket) := by decide
  have h1 : ¬ (SlidingWindow = TokenBucket) := by decide
  have h2 : ¬ (SlidingWindow = FixedWindow) := by decide
  unfold F64.Check rateLimiter.Check
  by_cases hc : rl.closed = true
  · simp [hc]
  · rcases halg with h | h
    · simp [hc, h, h0]
    · simp [hc, h, h1, h2]

theorem toInt64_mono {x y : Int} (h : x ≤ y) (hy : y ≤ maxInt64) :
    toInt64 (x : ℚ) ≤ toInt64 (y : ℚ) := by
  have ht : ∀ z : Int, truncDuration (z : ℚ) = z := by
    intro z
    unfold truncDuration
    split_ifs
    · exact Int.floor_intCast z
    · exact Int.ceil_intCast z
  unfold toInt64
  rw [ht, ht]
  split_ifs <;> omega

theorem checkLevel_f64_same (cfg : Config) (tokens : ℚ) (now : Int)
    (hf : f64 tokens = tokens) :
    F64.checkLevel cfg { Tokens := tokens, LastRefill := now } now =
      min (float64 cfg.BurstSize) tokens := by
  unfold F64.checkLevel
  show min _ (fadd tokens (F64.tokensToAdd cfg (Time.Sub now now))) = _
  rw [Time.Sub_self, tokensToAdd_zero, fadd_zero_right, hf]

theorem checkLevel_f64_initialised (cfg : Config) (b : bucketData) (now : Int)
    (hz : b.LastRefill ≠ 0) : F64.checkLevel cfg b now = F64.tokenLevel cfg b now := by
  rw [tokenLevel_f64_initialised cfg b now hz]
  rfl

theorem tokenBucket_f64_remaining_mono (rl : rateLimiter) (key : String) (n now : Int)
    (b : bucketData) (hcl : rl.closed = false) (halg : rl.config.Algorithm = TokenBucket)
    (hopen : rl.storage.closed = false) (hn : 0 ≤ n)
    (hBf : float64 rl.config.BurstSize ≤ ((maxInt64 : Int) : ℚ))
    (hload : (rl.getBucketData (rl.extractKey key) now).1 = Except.ok b)
    (hz : b.LastRefill ≠ 0) :
    (F64.Check (F64.AllowN rl key n now).2 key now).1.Remaining ≤
      (F64.Check rl key now).1.Remaining := by
  obtain ⟨_, hst⟩ := AllowN_f64_tokenBucket_stored rl key n now b hcl halg hopen hload
  rw [Check_f64_tokenBucket_of_load rl key now b hcl halg hload,
    Check_f64_tokenBucket_of_load _ key now _ hst.2.1 (by rw [hst.1]; exact halg)
      hst.reloadBucket, hst.1]
  show toInt64 ((⌊F64.checkLevel rl.config _ now⌋ : Int) : ℚ) ≤
    toInt64 ((⌊F64.checkLevel rl.config b now⌋ : Int) : ℚ)
  have hnq : 0 ≤ float64 n := float64_nonneg hn
  have hidem := tokenLevel_f64_idem rl.config b now
  have hle := tokenLevel_f64_le_burst rl.config b now
  have hx : (if float64 n ≤ F64.tokenLevel rl.config b now then
        fsub (F64.tokenLevel rl.config b now) (float64 n)
      else F64.tokenLevel rl.config b now) ≤ F64.tokenLevel rl.config b now := by
    split_ifs
    · unfold fsub
      have := f64_mono (show F64.tokenLevel rl.config b now - float64 n ≤
        F64.tokenLevel rl.config b now by linarith)
      rwa [hidem] at this
    · exact le_refl _
  have hxf : f64 (if float64 n ≤ F64.tokenLevel rl.config b now then
        fsub (F64.tokenLevel rl.config b now) (float64 n)
      else F64.tokenLevel rl.config b now) =
      (if float64 n ≤ F64.tokenLevel rl.config b now then
        fsub (F64.tokenLevel rl.config b now) (float64 n)
      else F64.tokenLevel rl.config b now) := by
    split_ifs
    · exact fsub_idem _ _
    · exact hidem
  apply toInt64_mono
  · apply Int.floor_mono
    rw [checkLevel_f64_same _ _ _ hxf, checkLevel_f64_initialised rl.config b now hz]
    exact le_trans (min_le_right _ _) hx
  · rw [checkLevel_f64_initialised rl.config b now hz]
    have : ((⌊F64.tokenLevel rl.config b now⌋ : Int) : ℚ) ≤ ((maxInt64 : Int) : ℚ) :=
      le_trans (Int.floor_le _) (le_trans hle hBf)
    exact_mod_cast this

theorem checkLeakLevel_f64_eq (cfg : Config) (b : bucketData) (now : Int) :
    F64.checkLeakLevel cfg b now = F64.leakLevel cfg b now := by
  unfold F64.checkLeakLevel F64.leakLevel
  cases Time.IsZero b.LastRefill <;> rfl

theorem leakLevel_f64_idem (cfg : Config) (b : bucketData) (now : Int)
    (hf : f64 b.Tokens = b.Tokens) :
    f64 (F64.leakLevel cfg b now) = F64.leakLevel cfg b now := by
  unfold F64.leakLevel
  split_ifs
  · exact hf
  · rcases max_choice 0 (fsub b.Tokens (F64.tokensLeaked cfg (Time.Sub now b.LastRefill)))
      with h | h
    · rw [h]
      exact f64_zero
    · rw [h]
      exact fsub_idem _ _

theorem leakLevel_f64_ge_same (cfg : Config) (tokens : ℚ) (now : Int)
    (hf : f64 tokens = tokens) :
    tokens ≤ F64.leakLevel cfg { Tokens := tokens, LastRefill := now } now := by
  unfold F64.leakLevel
  split_ifs
  · exact le_refl _
  · show tokens ≤ max 0 (fsub tokens (F64.tokensLeaked cfg (Time.Sub now now)))
    rw [Time.Sub_self, tokensLeaked_zero, fsub_zero_right, hf]
    exact le_max_right _ _

theorem leakyBucket_f64_remaining_mono (rl : rateLimiter) (key : String) (n now : Int)
    (b : bucketData) (hcl : rl.closed = false) (halg : rl.config.Algorithm = LeakyBucket)
    (hopen : rl.storage.closed = false) (hn : 0 ≤ n)
    (hBf : float64 rl.config.BurstSize ≤ ((maxInt64 : Int) : ℚ))
    (hload : (rl.getBucketData (rl.extractKey key) now).1 = Except.ok b)
    (hlev : 0 ≤ F64.leakLevel rl.config b now) (hf : f64 b.Tokens = b.Tokens) :
    (F64.Check (F64.AllowN rl key n now).2 key now).1.Remaining ≤
      (F64.Check rl key now).1.Remaining := by
  obtain ⟨_, hst⟩ := AllowN_f64_leakyBucket_stored rl key n now b hcl halg hopen hload
  rw [Check_f64_leakyBucket_of_load rl key now b hcl halg hload,
    Check_f64_leakyBucket_of_load _ key now _ hst.2.1 (by rw [hst.1]; exact halg)
      hst.reloadBucket, hst.1]
  show toInt64 ((⌊fsub (float64 rl.config.BurstSize) (F64.checkLeakLevel rl.config _ now)⌋
      : Int) : ℚ) ≤
    toInt64 ((⌊fsub (float64 rl.config.BurstSize) (F64.checkLeakLevel rl.config b now)⌋
      : Int) : ℚ)
  have hnq : 0 ≤ float64 n := float64_nonneg hn
  have hidem := leakLevel_f64_idem rl.config b now hf
  have hx : F64.leakLevel rl.config b now ≤
      (if fadd (F64.leakLevel rl.config b now) (float64 n) ≤ float64 rl.config.BurstSize then
        fadd (F64.leakLevel rl.config b now) (float64 n)
      else F64.leakLevel rl.config b now) := by
    split_ifs
    · unfold fadd
      have := f64_mono (show F64.leakLevel rl.config b now ≤
        F64.leakLevel rl.config b now + float64 n by linarith)
      rwa [hidem] at this
    · exact le_refl _
  have hxf : f64 (if fadd (F64.leakLevel rl.config b now) (float64 n) ≤
        float64 rl.config.BurstSize then
        fadd (F64.leakLevel rl.config b now) (float64 n)
      else F64.leakLevel rl.config b now) =
      (if fadd (F64.leakLevel rl.config b now) (float64 n) ≤ float64 rl.config.BurstSize then
        fadd (F64.leakLevel rl.config b now) (float64 n)
      else F64.leakLevel rl.config b now) := by
    split_ifs
    · exact fadd_idem _ _
    · exact hidem
  have h1 := leakLevel_f64_ge_same rl.config _ now hxf
  rw [checkLeakLevel_f64_eq, checkLeakLevel_f64_eq]
  apply toInt64_mono
  · apply Int.floor_mono
    unfold fsub
    exact f64_mono (by linarith)
  · have h2 : fsub (float64 rl.config.BurstSize) (F64.leakLevel rl.config b now) ≤
        float64 rl.config.BurstSize := by
      unfold fsub
      have := f64_mono (show float64 rl.config.BurstSize - F64.leakLevel rl.config b now ≤
        float64 rl.config.BurstSize by linarith)
      rwa [float64_idem] at this
    have : ((⌊fsub (float64 rl.config.BurstSize) (F64.leakLevel rl.config b now)⌋ : Int) : ℚ)
        ≤ ((maxInt64 : Int) : ℚ) := le_trans (Int.floor_le _) (le_trans h2 hBf)
    exact_mod_cast this

theorem fixedWindow_f64_remaining_mono (rl : rateLimiter) (key : String) (n now : Int)
    (halg : rl.config.Algorithm = FixedWindow ∨ rl.config.Algorithm = SlidingWindow)
    (h : ((rl.AllowN key n now).2.Check key now).1.Remaining ≤
      (rl.Check key now).1.Remaining) :
    (F64.Check (F64.AllowN rl key n now).2 key now).1.Remaining ≤
      (F64.Check rl key now).1.Remaining := by
  obtain ⟨_, hse⟩ := AllowN_f64_of_window rl key n now
    ((F64.AllowN rl key n now).2.extractKey key) halg
  have hcfg : (F64.AllowN rl key n now).2.config = (rl.AllowN key n now).2.config := hse.1
  have hcfg0 : (rl.AllowN key n now).2.config = rl.config := by
    unfold rateLimiter.AllowN
    by_cases hc : rl.closed = true
    · simp [hc]
    · have g1 := (Frame.frame_of_AllowN rl key n now).1
      exact g1
  rw [Check_f64_of_window _ key now (by rw [hcfg, hcfg0]; exact halg),
    Check_f64_of_window rl key now halg, (hse.entry_of_Check now).1]
  exact h

/-- C40 (counterexample). On the drained bucket of `TestTokenBucket`, `Check`
reports `Remaining = 0`; `AllowN("test-user", -3)` at the same instant is
admitted, and `Check` then reports `Remaining = 3`. -/
theorem consuming_adds_quota_f64_counterexample :
    (F64.Check exhaustedLimiter "test-user" 5000000000).1.Remaining = 0 ∧
      (F64.AllowN exhaustedLimiter "test-user" (-3) 5000000000).1 = true ∧
      (F64.Check (F64.AllowN exhaustedLimiter "test-user" (-3) 5000000000).2 "test-user"
        5000000000).1.Remaining = 3 ∧
      ¬ ((F64.Check (F64.AllowN exhaustedLimiter "test-user" (-3) 5000000000).2 "test-user"
          5000000000).1.Remaining ≤
        (F64.Check exhaustedLimiter "test-user" 5000000000).1.Remaining) := by
  refine ⟨by decide!, by decide!, by decide!, by decide!⟩

/-- C40 (amended). Consuming never adds quota: on an open limiter with an open
storage and one of the four algorithms, for every `n >= 0`, with
`float64(burstSize)` below `2 ^ 63` and a loaded state with a `float64` level
that is not negative (bucket algorithms), `0 <= count <= rate` (Fixed Window)
and at most `rate` timestamps (Sliding Window), and for Token Bucket a bucket
that a call has already initialised, `Check(key).Remaining` taken immediately
after `AllowN(key, n)` at the same instant is at most the value taken
immediately before it. -/
theorem consuming_never_adds_quota_f64 (rl : rateLimiter) (key : String) (n now : Int)
    (b : bucketData) (w : windowData)
    (hcl : rl.closed = false) (hopen : rl.storage.closed = false)
    (halg : rl.config.Algorithm = TokenBucket ∨ rl.config.Algorithm = FixedWindow ∨
      rl.config.Algorithm = SlidingWindow ∨ rl.config.Algorithm = LeakyBucket)
    (hn : 0 ≤ n) (hn1 : n ≤ maxInt64)
    (hR : 0 < rl.config.Rate) (hR2 : rl.config.Rate ≤ maxInt64)
    (hW : 0 < rl.config.Window) (hW2 : rl.config.Window ≤ maxInt64)
    (hBf : float64 rl.config.BurstSize ≤ ((maxInt64 : Int) : ℚ))
    (hloadb : (rl.getBucketData (rl.extractKey key) now).1 = Except.ok b)
    (hloadw : (rl.getWindowData (rl.extractKey key) now).1 = Except.ok w)
    (hz : rl.config.Algorithm = TokenBucket → b.LastRefill ≠ 0)
    (htok : 0 ≤ b.Tokens) (hf : f64 b.Tokens = b.Tokens)
    (hc0 : 0 ≤ w.Count) (hc1 : w.Count ≤ rl.config.Rate)
    (hlen : (w.Requests.length : Int) ≤ rl.config.Rate) :
    (F64.Check (F64.AllowN rl key n now).2 key now).1.Remaining ≤
      (F64.Check rl key now).1.Remaining := by
  rcases halg with halg | halg | halg | halg
  · exact tokenBucket_f64_remaining_mono rl key n now b hcl halg hopen hn hBf hloadb (hz halg)
  · exact fixedWindow_f64_remaining_mono rl key n now (Or.inl halg)
      (fixedWindow_remaining_mono rl key n now w hcl halg hopen hn hn1 (le_of_lt hR) hR2 hW
        hW2 hloadw hc0 hc1)
  · exact fixedWindow_f64_remaining_mono rl key n now (Or.inr halg)
      (slidingWindow_remaining_mono rl key n now w hcl halg hopen hn1 hR2 hW hloadw hlen)
  · refine leakyBucket_f64_remaining_mono rl key n now b hcl halg hopen hn hBf hloadb ?_ hf
    unfold F64.leakLevel
    split_ifs
    · exact htok
    · exact le_max_left _ _

theorem consuming_never_adds_quota_f64_witness :
    (F64.Check otherKeyLimiter "other-user" 5000000000).1.Remaining = 2 ∧
      (F64.Check (F64.AllowN otherKeyLimiter "other-user" 1 5000000000).2 "other-user"
          5000000000).1.Remaining ≤
        (F64.Check otherKeyLimiter "other-user" 5000000000).1.Remaining :=
  ⟨by decide!,
    consuming_never_adds_quota_f64 otherKeyLimiter "other-user" 1 5000000000
      { Tokens := 2, LastRefill := 4000000000 } { Count := 0, WindowStart := 0, Requests := [] }
      rfl rfl (Or.inl rfl) (by decide) (by decide) (by decide) (by decide) (by decide)
      (by decide) (by decide!) rfl rfl (fun _ => by decide) (by decide!) (by decide!)
      (by decide) (by decide) (by decide)⟩

/-! ## `Check` against `Allow`, with the bucket paths in binary64 -/

theorem Seconds_f64_eq (d : Int) (h : 0 ≤ d) :
    F64.Seconds d =
      f64 (float64 (d / 1000000000) + f64 (float64 (d % 1000000000) / 1000000000)) := by
  unfold F64.Seconds fadd fdiv
  rw [Int.tdiv_eq_ediv h (by norm_num), Int.tmod_eq_emod h (by norm_num)]

theorem f64_frac_le_one (r : Int) (h0 : 0 ≤ r) (h1 : r < 1000000000) :
    0 ≤ f64 (float64 r / 1000000000) ∧ f64 (float64 r / 1000000000) ≤ 1 := by
  have hr : float64 r = (r : ℚ) := float64_of_small r (by rw [abs_of_nonneg h0]; omega)
  rw [hr]
  have hq0 : (0 : ℚ) ≤ (r : ℚ) := by exact_mod_cast h0
  have hq1 : (r : ℚ) ≤ 1000000000 := by exact_mod_cast (le_of_lt h1)
  refine ⟨f64_nonneg (div_nonneg hq0 (by norm_num)), ?_⟩
  have := f64_mono (show (r : ℚ) / 1000000000 ≤ 1 by
    rw [div_le_one (by norm_num)]
    exact hq1)
  rwa [f64_one] at this

/-- `Duration.Seconds` in `float64` is monotone on the durations from 0 to
`MaxInt64`. -/
theorem Seconds_f64_mono {a b : Int} (h0 : 0 ≤ a) (hab : a ≤ b) (hb : b ≤ maxInt64) :
    F64.Seconds a ≤ F64.Seconds b := by
  have hmax : maxInt64 = 9223372036854775807 := rfl
  rw [Seconds_f64_eq a h0, Seconds_f64_eq b (le_trans h0 hab)]
  apply f64_mono
  have hqa : float64 (a / 1000000000) = ((a / 1000000000 : Int) : ℚ) :=
    float64_of_small _ (by rw [abs_of_nonneg (by omega)]; omega)
  have hqb : float64 (b / 1000000000) = ((b / 1000000000 : Int) : ℚ) :=
    float64_of_small _ (by rw [abs_of_nonneg (by omega)]; omega)
  have hra := f64_frac_le_one (a % 1000000000) (by omega) (by omega)
  have hrb := f64_frac_le_one (b % 1000000000) (by omega) (by omega)
  rw [hqa, hqb]
  rcases lt_or_eq_of_le (show a / 1000000000 ≤ b / 1000000000 by omega) with hlt | heq
  · have : ((a / 1000000000 : Int) : ℚ) + 1 ≤ ((b / 1000000000 : Int) : ℚ) := by
      exact_mod_cast hlt
    linarith
  · rw [heq]
    have hr : a % 1000000000 ≤ b % 1000000000 := by omega
    have h1 : float64 (a % 1000000000) / 1000000000 ≤ float64 (b % 1000000000) / 1000000000 :=
      div_le_div_of_nonneg_right (float64_mono hr) (by norm_num)
    have := f64_mono h1
    linarith

theorem Seconds_f64_pos {d : Int} (h0 : 0 < d) (hb : d ≤ maxInt64) : 0 < F64.Seconds d := by
  have h1 : (0 : ℚ) < F64.Seconds 1 := by decide!
  exact lt_of_lt_of_le h1 (Seconds_f64_mono (by norm_num) h0 hb)

/-- After at least one window the `float64` refill is at least 1. -/
theorem tokensToAdd_ge_one (cfg : Config) (d : Int) (hR : 0 < cfg.Rate) (hW : 0 < cfg.Window)
    (hd : cfg.Window ≤ d) (hd2 : d ≤ maxInt64) : 1 ≤ F64.tokensToAdd cfg d := by
  have hS := Seconds_f64_mono (le_of_lt hW) hd hd2
  have hSW := Seconds_f64_pos hW (le_trans hd hd2)
  have hfR : 1 ≤ float64 cfg.Rate := one_le_float64 hR
  unfold F64.tokensToAdd fdiv fmul
  have h1 : F64.Seconds cfg.Window ≤ F64.Seconds d * float64 cfg.Rate := by nlinarith
  have h2 := f64_mono h1
  rw [Seconds_f64_idem] at h2
  have h3 : 1 ≤ f64 (F64.Seconds d * float64 cfg.Rate) / F64.Seconds cfg.Window := by
    rw [le_div_iff₀ hSW, one_mul]
    exact h2
  have := f64_mono h3
  rwa [f64_one] at this

/-- On a bucket that was never written, at a clock reading at least one window
after the zero time, the level that `Check` computes reaches 1 exactly when
`float64(burstSize)` does. -/
theorem checkLevel_f64_fresh_iff (cfg : Config) (b : bucketData) (now : Int)
    (hz : b.LastRefill = 0) (htok : 0 ≤ b.Tokens) (hR : 0 < cfg.Rate) (hW : 0 < cfg.Window)
    (hW2 : cfg.Window ≤ maxInt64) (hnow : cfg.Window ≤ now) :
    1 ≤ F64.checkLevel cfg b now ↔ 1 ≤ float64 cfg.BurstSize := by
  have hmax : maxInt64 = 9223372036854775807 := rfl
  have hsub : cfg.Window ≤ Time.Sub now b.LastRefill ∧ Time.Sub now b.LastRefill ≤ maxInt64 := by
    rw [hz]
    unfold Time.Sub minInt64
    split_ifs <;> constructor <;> omega
  have h1 := tokensToAdd_ge_one cfg _ hR hW hsub.1 hsub.2
  have h2 : 1 ≤ fadd b.Tokens (F64.tokensToAdd cfg (Time.Sub now b.LastRefill)) := by
    unfold fadd
    have := f64_mono (show (1 : ℚ) ≤ b.Tokens +
      F64.tokensToAdd cfg (Time.Sub now b.LastRefill) by linarith)
    rwa [f64_one] at this
  unfold F64.checkLevel
  rw [le_min_iff]
  constructor
  · exact fun h => h.1
  · exact fun h => ⟨h, h2⟩

theorem fixedWindow_check_allow (rl : rateLimiter) (key : String) (now : Int) (w : windowData)
    (hcl : rl.closed = false) (halg : rl.config.Algorithm = FixedWindow)
    (hR : 0 < rl.config.Rate) (hR2 : rl.config.Rate < maxInt64)
    (hloadw : (rl.getWindowData (rl.extractKey key) now).1 = Except.ok w)
    (hc0 : 0 ≤ w.Count) (hc1 : w.Count ≤ rl.config.Rate) :
    (rl.Check key now).1.Allowed = (rl.AllowN key 1 now).1 := by
  have hmax : maxInt64 = 9223372036854775807 := rfl
  rw [Check_eq_fixedWindow rl key now hcl halg, checkFixedWindow_def,
    peekWindow_of_ok rl _ now _ w hloadw, AllowN_eq_fixedWindow rl key 1 now hcl halg,
    allowFixedWindow_def]
  simp only
  rw [consumeWindow_of_ok rl _ now _ w hloadw]
  show decide (0 < wrap64 (rl.config.Rate - (rolledWindow rl.config w now).Count)) =
    decide (wrap64 ((rolledWindow rl.config w now).Count + 1) ≤ rl.config.Rate)
  have hrc : 0 ≤ (rolledWindow rl.config w now).Count ∧
      (rolledWindow rl.config w now).Count ≤ rl.config.Rate := by
    unfold rolledWindow
    split_ifs
    · exact ⟨le_refl _, le_of_lt hR⟩
    · exact ⟨hc0, hc1⟩
  rw [wrap64_of_range _ (by unfold minInt64; omega) (by omega),
    wrap64_of_range _ (by unfold minInt64; omega) (by omega)]
  congr 1
  apply propext
  constructor <;> intro h <;> omega

theorem slidingWindow_check_allow (rl : rateLimiter) (key : String) (now : Int)
    (w : windowData)
    (hcl : rl.closed = false) (halg : rl.config.Algorithm = SlidingWindow)
    (hR : 0 < rl.config.Rate) (hR2 : rl.config.Rate < maxInt64)
    (hloadw : (rl.getWindowData (rl.extractKey key) now).1 = Except.ok w)
    (hlen : (w.Requests.length : Int) < maxInt64) :
    (rl.Check key now).1.Allowed = (rl.AllowN key 1 now).1 := by
  have hmax : maxInt64 = 9223372036854775807 := rfl
  rw [Check_eq_slidingWindow rl key now hcl halg, checkSlidingWindow_def,
    peekWindow_of_ok rl _ now _ w hloadw, AllowN_eq_slidingWindow rl key 1 now hcl halg,
    allowSlidingWindow_def]
  simp only
  rw [consumeWindow_of_ok rl _ now _ w hloadw]
  show decide (0 < wrap64 (rl.config.Rate -
      (scanRequests (Time.Add now (-rl.config.Window)) w.Requests (0, now)).1)) =
    decide (wrap64 (((prunedRequests rl.config w now).length : Int) + 1) ≤ rl.config.Rate)
  have hvc : (scanRequests (Time.Add now (-rl.config.Window)) w.Requests (0, now)).1 =
      ((prunedRequests rl.config w now).length : Int) := by
    rw [scanRequests_fst, Int.zero_add]
    rfl
  have hp := prunedRequests_length_le rl.config w now
  rw [hvc, wrap64_of_range _ (by unfold minInt64; omega) (by omega),
    wrap64_of_range _ (by unfold minInt64; omega) (by omega)]
  congr 1
  apply propext
  constructor <;> intro h <;> omega

/-- C37 (counterexample). After `AllowN("test-user", math.MinInt64)` on the
Fixed Window limiter, `Check` at the same instant returns `Allowed = false`
(`rate - count` wraps to a negative `int64`) while `AllowN("test-user", 1)`
returns true.  On the Leaky Bucket with 7 per 4.9 s and capacity 2, saturated
at `t` and read 0.7 s later, `Check` returns `Allowed = false` (the `float64`
difference `2 - level` is below 1) while `AllowN(key, 1)` returns true (the
`float64` sum `level + 1` is 2). -/
theorem check_predicts_allow_f64_counterexample :
    (F64.AllowN (limiterOf fixedWindowConfig) "test-user" (-9223372036854775808)
        1000000000).1 = true ∧
      storedWindow (F64.AllowN (limiterOf fixedWindowConfig) "test-user"
          (-9223372036854775808) 1000000000).2 "test-user" =
        some { Count := -9223372036854775808, WindowStart := 1000000000, Requests := [] } ∧
      (F64.Check (F64.AllowN (limiterOf fixedWindowConfig) "test-user"
          (-9223372036854775808) 1000000000).2 "test-user" 1000000000).1.Allowed = false ∧
      (F64.AllowN (F64.AllowN (limiterOf fixedWindowConfig) "test-user"
          (-9223372036854775808) 1000000000).2 "test-user" 1 1000000000).1 = true ∧
      (F64.allowAt (limiterOf leakTwoConfig) "k" [clock2026, clock2026]).1 = [true, true] ∧
      (F64.Check (F64.allowAt (limiterOf leakTwoConfig) "k" [clock2026, clock2026]).2 "k"
        (clock2026 + 700000000)).1.Allowed = false ∧
      (F64.AllowN (F64.allowAt (limiterOf leakTwoConfig) "k" [clock2026, clock2026]).2 "k" 1
        (clock2026 + 700000000)).1 = true := by
  refine ⟨by decide, by decide, by decide, by decide, by decide!, by decide!, by decide!⟩

/-- C37 (amended). `Check` predicts `Allow`: on an open limiter with one of the
four algorithms and `rate < MaxInt64`, at a clock reading at least one window
after the zero time, when the state loaded for the key has `tokens >= 0`
(bucket algorithms), `0 <= count <= rate` (Fixed Window) and fewer than
`MaxInt64` timestamps (Sliding Window), and for the Leaky Bucket the `float64`
operations `burstSize - level` and `level + 1` on the decayed level are exact
(as for a whole-number level and `burstSize <= 2 ^ 53`), `Check(key)` returns
`Allowed = true` exactly when `AllowN(key, 1)` at the same time returns
true. -/
theorem check_predicts_allow_f64 (rl : rateLimiter) (key : String) (now : Int)
    (b : bucketData) (w : windowData)
    (hcl : rl.closed = false)
    (halg : rl.config.Algorithm = TokenBucket ∨ rl.config.Algorithm = FixedWindow ∨
      rl.config.Algorithm = SlidingWindow ∨ rl.config.Algorithm = LeakyBucket)
    (hR : 0 < rl.config.Rate) (hR2 : rl.config.Rate < maxInt64)
    (hW : 0 < rl.config.Window) (hW2 : rl.config.Window ≤ maxInt64)
    (hnow : rl.config.Window ≤ now)
    (hloadb : (rl.getBucketData (rl.extractKey key) now).1 = Except.ok b)
    (hloadw : (rl.getWindowData (rl.extractKey key) now).1 = Except.ok w)
    (htok : 0 ≤ b.Tokens) (hc0 : 0 ≤ w.Count) (hc1 : w.Count ≤ rl.config.Rate)
    (hlen : (w.Requests.length : Int) < maxInt64)
    (hexact : rl.config.Algorithm = LeakyBucket →
      fsub (float64 rl.config.BurstSize) (F64.leakLevel rl.config b now) =
          float64 rl.config.BurstSize - F64.leakLevel rl.config b now ∧
        fadd (F64.leakLevel rl.config b now) 1 = F64.leakLevel rl.config b now + 1) :
    (F64.Check rl key now).1.Allowed = (F64.AllowN rl key 1 now).1 := by
  rcases halg with halg | halg | halg | halg
  · -- Token Bucket
    rw [Check_f64_tokenBucket_of_load rl key now b hcl halg hloadb]
    have hn : (F64.AllowN rl key 1 now).1 =
        decide (float64 1 ≤ F64.tokenLevel rl.config b now) := by
      simp only [F64.AllowN, hcl, halg, if_true, Bool.false_eq_true, if_false]
      rw [allowTokenBucket_f64_def, consumeBucket_of_ok rl _ now _ b hloadb]
      rfl
    rw [hn, float64_one]
    show decide (1 ≤ F64.checkLevel rl.config b now) = _
    congr 1
    by_cases hz : b.LastRefill = 0
    · rw [checkLevel_f64_fresh_iff rl.config b now hz htok hR hW hW2 hnow]
      have : F64.tokenLevel rl.config b now = float64 rl.config.BurstSize := by
        unfold F64.tokenLevel Time.IsZero
        rw [if_pos (by simpa using hz)]
      rw [this]
    · rw [checkLevel_f64_initialised rl.config b now hz]
  · rw [Check_f64_of_window rl key now (Or.inl halg),
      (AllowN_f64_of_window rl key 1 now key (Or.inl halg)).1]
    exact fixedWindow_check_allow rl key now w hcl halg hR hR2 hloadw hc0 hc1
  · rw [Check_f64_of_window rl key now (Or.inr halg),
      (AllowN_f64_of_window rl key 1 now key (Or.inr halg)).1]
    exact slidingWindow_check_allow rl key now w hcl halg hR hR2 hloadw hlen
  · -- Leaky Bucket
    rw [Check_f64_leakyBucket_of_load rl key now b hcl halg hloadb]
    have hne : ¬ (LeakyBucket = TokenBucket) := by decide
    have hne1 : ¬ (LeakyBucket = FixedWindow) := by decide
    have hne2 : ¬ (LeakyBucket = SlidingWindow) := by decide
    have hn : (F64.AllowN rl key 1 now).1 =
        decide (fadd (F64.leakLevel rl.config b now) (float64 1) ≤
          float64 rl.config.BurstSize) := by
      simp only [F64.AllowN, hcl, halg, hne, hne1, hne2, if_true, Bool.false_eq_true, if_false]
      rw [allowLeakyBucket_f64_def, consumeBucket_of_ok rl _ now _ b hloadb]
      rfl
    obtain ⟨e1, e2⟩ := hexact halg
    rw [hn, float64_one, e2]
    show decide (1 ≤ fsub (float64 rl.config.BurstSize) (F64.checkLeakLevel rl.config b now)) = _
    rw [checkLeakLevel_f64_eq, e1]
    congr 1
    apply propext
    constructor <;> intro h <;> linarith

theorem check_predicts_allow_f64_witness :
    (F64.allowAt (limiterOf leakyBucketConfig) "test-user"
        (List.replicate 5 5000000000)).2.storage = fullBucketLimiter.storage ∧
      (F64.Check fullBucketLimiter "test-user" 5000000000).1.Allowed = false ∧
      (F64.Check fullBucketLimiter "test-user" 5000000000).1.Allowed =
        (F64.AllowN fullBucketLimiter "test-user" 1 5000000000).1 :=
  ⟨by decide!, by decide!,
    check_predicts_allow_f64 fullBucketLimiter "test-user" 5000000000
      { Tokens := 5, LastRefill := 5000000000 }
      { Count := 0, WindowStart := 0, Requests := [] }
      rfl (Or.inr (Or.inr (Or.inr rfl))) (by decide) (by decide) (by decide) (by decide)
      (by decide) rfl rfl (by decide!) (by decide) (by decide) (by decide)
      (fun _ => ⟨by decide!, by decide!⟩)⟩

/-! ## binary64: relative error of the refill and of the leak -/

theorem unitRoundoff_pos : 0 < unitRoundoff := by
  unfold unitRoundoff
  norm_num

theorem one_sub_unitRoundoff_pos : 0 < 1 - unitRoundoff := by
  unfold unitRoundoff
  norm_num

theorem one_add_unitRoundoff_pos : 0 < 1 + unitRoundoff := by
  unfold unitRoundoff
  norm_num

theorem tiny_le : pow2 (-1022) ≤ 1 / 1000000000000000000000000000000 := by
  refine le_trans (pow2_le_pow2 (show (-1022 : Int) ≤ -100 by norm_num)) ?_
  rw [pow2_eq]
  norm_num

/-- The relative rounding error in the normal range. -/
theorem f64_rel (q : ℚ) (hq : pow2 (-1022) ≤ q) :
    q * (1 - unitRoundoff) ≤ f64 q ∧ f64 q ≤ q * (1 + unitRoundoff) := by
  have hpos : 0 < q := lt_of_lt_of_le (pow2_pos _) hq
  have h := f64_err q
  rw [abs_of_pos hpos, max_eq_left hq, abs_le] at h
  unfold unitRoundoff
  constructor
  · have := h.1
    linarith
  · have := h.2
    linarith

theorem relErr_refl (x : ℚ) : RelErr 0 0 x x := by
  unfold RelErr
  simp

theorem relErr_nonneg {p m : Nat} {a x : ℚ} (h : RelErr p m a x) (hx : 0 ≤ x) : 0 ≤ a := by
  refine le_trans ?_ h.1
  have h1 := one_sub_unitRoundoff_pos
  have h2 := one_add_unitRoundoff_pos
  positivity

theorem relErr_zero {p m : Nat} {a x : ℚ} (h : RelErr p m a x) (hx : 0 ≤ x) (ha : a = 0) :
    x = 0 := by
  have h1 := one_sub_unitRoundoff_pos
  have h2 := one_add_unitRoundoff_pos
  have h3 := h.1
  rw [ha] at h3
  have h4 : 0 < (1 - unitRoundoff) ^ p / (1 + unitRoundoff) ^ m := by positivity
  rw [mul_div_assoc] at h3
  by_contra hne
  have hxp : 0 < x := lt_of_le_of_ne hx (Ne.symm hne)
  have := mul_pos hxp h4
  linarith

theorem relErr_f64 {p m : Nat} {a x : ℚ} (h : RelErr p m a x) (hx : 0 ≤ x)
    (ha : a = 0 ∨ pow2 (-1022) ≤ a) : RelErr (p + 1) m (f64 a) x := by
  have h1 := one_sub_unitRoundoff_pos
  have h2 := one_add_unitRoundoff_pos
  rcases ha with ha | ha
  · have hx0 := relErr_zero h hx ha
    rw [ha, f64_zero, hx0]
    unfold RelErr
    simp
  · obtain ⟨r1, r2⟩ := f64_rel a ha
    unfold RelErr at h ⊢
    constructor
    · calc x * (1 - unitRoundoff) ^ (p + 1) / (1 + unitRoundoff) ^ m
          = x * (1 - unitRoundoff) ^ p / (1 + unitRoundoff) ^ m * (1 - unitRoundoff) := by
            rw [pow_succ]
            ring
        _ ≤ a * (1 - unitRoundoff) := mul_le_mul_of_nonneg_right h.1 (le_of_lt h1)
        _ ≤ f64 a := r1
    · calc f64 a ≤ a * (1 + unitRoundoff) := r2
        _ ≤ x * (1 + unitRoundoff) ^ p / (1 - unitRoundoff) ^ m * (1 + unitRoundoff) :=
            mul_le_mul_of_nonneg_right h.2 (le_of_lt h2)
        _ = x * (1 + unitRoundoff) ^ (p + 1) / (1 - unitRoundoff) ^ m := by
            rw [pow_succ]
            ring

theorem relErr_mul {p m p1 m1 : Nat} {a x b y : ℚ} (h : RelErr p m a x)
    (g : RelErr p1 m1 b y) (hx : 0 ≤ x) (hy : 0 ≤ y) :
    RelErr (p + p1) (m + m1) (a * b) (x * y) := by
  have h1 := one_sub_unitRoundoff_pos
  have h2 := one_add_unitRoundoff_pos
  have ha := relErr_nonneg h hx
  have hb := relErr_nonneg g hy
  unfold RelErr at h g ⊢
  constructor
  · calc x * y * (1 - unitRoundoff) ^ (p + p1) / (1 + unitRoundoff) ^ (m + m1)
        = (x * (1 - unitRoundoff) ^ p / (1 + unitRoundoff) ^ m) *
            (y * (1 - unitRoundoff) ^ p1 / (1 + unitRoundoff) ^ m1) := by
          rw [pow_add, pow_add]
          field_simp
          ring
      _ ≤ a * b := mul_le_mul h.1 g.1 (by positivity) ha
  · calc a * b ≤ (x * (1 + unitRoundoff) ^ p / (1 - unitRoundoff) ^ m) *
            (y * (1 + unitRoundoff) ^ p1 / (1 - unitRoundoff) ^ m1) :=
          mul_le_mul h.2 g.2 hb (by positivity)
      _ = x * y * (1 + unitRoundoff) ^ (p + p1) / (1 - unitRoundoff) ^ (m + m1) := by
          rw [pow_add, pow_add]
          field_simp
          ring

theorem relErr_div {p m p1 m1 : Nat} {a x b y : ℚ} (h : RelErr p m a x)
    (g : RelErr p1 m1 b y) (hx : 0 ≤ x) (hy : 0 < y) :
    RelErr (p + m1) (m + p1) (a / b) (x / y) := by
  have h1 := one_sub_unitRoundoff_pos
  have h2 := one_add_unitRoundoff_pos
  have ha := relErr_nonneg h hx
  unfold RelErr at h g ⊢
  have hlow : 0 < y * (1 - unitRoundoff) ^ p1 / (1 + unitRoundoff) ^ m1 := by positivity
  have hb : 0 < b := lt_of_lt_of_le hlow g.1
  constructor
  · calc x / y * (1 - unitRoundoff) ^ (p + m1) / (1 + unitRoundoff) ^ (m + p1)
        = (x * (1 - unitRoundoff) ^ p / (1 + unitRoundoff) ^ m) /
            (y * (1 + unitRoundoff) ^ p1 / (1 - unitRoundoff) ^ m1) := by
          rw [pow_add, pow_add]
          field_simp
          ring
      _ ≤ a / b := div_le_div₀ ha h.1 hb g.2
  · calc a / b ≤ (x * (1 + unitRoundoff) ^ p / (1 - unitRoundoff) ^ m) /
            (y * (1 - unitRoundoff) ^ p1 / (1 + unitRoundoff) ^ m1) :=
          div_le_div₀ (by positivity) h.2 hlow g.1
      _ = x / y * (1 + unitRoundoff) ^ (p + m1) / (1 - unitRoundoff) ^ (m + p1) := by
          rw [pow_add, pow_add]
          field_simp
          ring

theorem relErr_add {p m : Nat} {a x b y : ℚ} (h : RelErr p m a x) (g : RelErr p m b y) :
    RelErr p m (a + b) (x + y) := by
  unfold RelErr at h g ⊢
  constructor
  · have : (x + y) * (1 - unitRoundoff) ^ p / (1 + unitRoundoff) ^ m =
        x * (1 - unitRoundoff) ^ p / (1 + unitRoundoff) ^ m +
          y * (1 - unitRoundoff) ^ p / (1 + unitRoundoff) ^ m := by ring
    rw [this]
    exact add_le_add h.1 g.1
  · have : (x + y) * (1 + unitRoundoff) ^ p / (1 - unitRoundoff) ^ m =
        x * (1 + unitRoundoff) ^ p / (1 - unitRoundoff) ^ m +
          y * (1 + unitRoundoff) ^ p / (1 - unitRoundoff) ^ m := by ring
    rw [this]
    exact add_le_add h.2 g.2

theorem relErr_succ {p m : Nat} {a x : ℚ} (h : RelErr p m a x) (hx : 0 ≤ x) :
    RelErr (p + 1) m a x := by
  have h1 := one_sub_unitRoundoff_pos
  have h2 := one_add_unitRoundoff_pos
  have hu := unitRoundoff_pos
  unfold RelErr at h ⊢
  constructor
  · refine le_trans ?_ h.1
    rw [pow_succ]
    have h3 : 0 ≤ x * (1 - unitRoundoff) ^ p / (1 + unitRoundoff) ^ m := by positivity
    calc x * ((1 - unitRoundoff) ^ p * (1 - unitRoundoff)) / (1 + unitRoundoff) ^ m
        = x * (1 - unitRoundoff) ^ p / (1 + unitRoundoff) ^ m * (1 - unitRoundoff) := by ring
      _ ≤ x * (1 - unitRoundoff) ^ p / (1 + unitRoundoff) ^ m * 1 :=
          mul_le_mul_of_nonneg_left (by linarith) h3
      _ = _ := mul_one _
  · refine le_trans h.2 ?_
    rw [pow_succ]
    have h3 : 0 ≤ x * (1 + unitRoundoff) ^ p / (1 - unitRoundoff) ^ m := by positivity
    calc x * (1 + unitRoundoff) ^ p / (1 - unitRoundoff) ^ m
        = x * (1 + unitRoundoff) ^ p / (1 - unitRoundoff) ^ m * 1 := (mul_one _).symm
      _ ≤ x * (1 + unitRoundoff) ^ p / (1 - unitRoundoff) ^ m * (1 + unitRoundoff) :=
          mul_le_mul_of_nonneg_left (by linarith) h3
      _ = _ := by ring

/-- Five roundings up and two down stay within `2 ^ (-50)`, and leave at least
half of the value. -/
theorem relErr_bound {a x : ℚ} (h : RelErr 5 2 a x) (hx : 0 ≤ x) :
    x * (1 - 1 / 1125899906842624) ≤ a ∧ a ≤ x * (1 + 1 / 1125899906842624) := by
  unfold RelErr unitRoundoff at h
  constructor
  · refine le_trans ?_ h.1
    rw [mul_div_assoc]
    exact mul_le_mul_of_nonneg_left (by norm_num) hx
  · refine le_trans h.2 ?_
    rw [mul_div_assoc]
    exact mul_le_mul_of_nonneg_left (by norm_num) hx

theorem relErr_half {p m : Nat} {a x : ℚ} (h : RelErr p m a x) (hx : 0 ≤ x) (hp : p ≤ 4)
    (hm : m ≤ 2) : x / 2 ≤ a := by
  have h1 : RelErr 5 2 a x := by
    have e1 : RelErr p 2 a x := by
      have h1 := one_sub_unitRoundoff_pos
      have h2 := one_add_unitRoundoff_pos
      have hu := unitRoundoff_pos
      unfold RelErr at h ⊢
      have hpa : (1 + unitRoundoff) ^ m ≤ (1 + unitRoundoff) ^ 2 :=
        pow_le_pow_right₀ (by linarith) hm
      have hpb : (1 - unitRoundoff) ^ 2 ≤ (1 - unitRoundoff) ^ m :=
        pow_le_pow_of_le_one (le_of_lt h1) (by linarith) hm
      constructor
      · refine le_trans ?_ h.1
        exact div_le_div_of_nonneg_left (by positivity) (by positivity) hpa
      · refine le_trans h.2 ?_
        exact div_le_div_of_nonneg_left (by positivity) (by positivity) hpb
    interval_cases p
    · exact relErr_succ (relErr_succ (relErr_succ (relErr_succ (relErr_succ e1 hx) hx) hx) hx) hx
    · exact relErr_succ (relErr_succ (relErr_succ (relErr_succ e1 hx) hx) hx) hx
    · exact relErr_succ (relErr_succ (relErr_succ e1 hx) hx) hx
    · exact relErr_succ (relErr_succ e1 hx) hx
    · exact relErr_succ e1 hx
  have := (relErr_bound h1 hx).1
  linarith

theorem tiny_le_one : pow2 (-1022) ≤ 1 := le_trans tiny_le (by norm_num)

theorem relErr_of_zero (p m : Nat) : RelErr p m 0 0 := by
  unfold RelErr
  simp

theorem float64_relErr {z : Int} (h : 0 ≤ z) : RelErr 1 0 (float64 z) (z : ℚ) := by
  have hz : (0 : ℚ) ≤ (z : ℚ) := by exact_mod_cast h
  refine relErr_f64 (relErr_refl _) hz ?_
  rcases eq_or_lt_of_le h with h0 | h1
  · left
    rw [← h0]
    simp
  · right
    have : (1 : ℚ) ≤ (z : ℚ) := by exact_mod_cast h1
    exact le_trans tiny_le_one this

/-- `Duration.Seconds` in `float64` is the exact number of seconds up to two
roundings. -/
theorem Seconds_f64_relErr {d : Int} (h0 : 0 ≤ d) (hb : d ≤ maxInt64) :
    RelErr 2 0 (F64.Seconds d) ((d : ℚ) / 1000000000) := by
  have hmax : maxInt64 = 9223372036854775807 := rfl
  rcases eq_or_lt_of_le h0 with hd0 | hdpos
  · rw [← hd0, Seconds_f64_zero]
    simpa using relErr_of_zero 2 0
  rw [Seconds_f64_eq d h0]
  have hq : float64 (d / 1000000000) = ((d / 1000000000 : Int) : ℚ) :=
    float64_of_small _ (by rw [abs_of_nonneg (by omega)]; omega)
  have hr : float64 (d % 1000000000) = ((d % 1000000000 : Int) : ℚ) :=
    float64_of_small _ (by rw [abs_of_nonneg (by omega)]; omega)
  rw [hq, hr]
  have hq0 : (0 : ℚ) ≤ ((d / 1000000000 : Int) : ℚ) := by
    exact_mod_cast (show (0 : Int) ≤ d / 1000000000 by omega)
  have hr0 : (0 : ℚ) ≤ ((d % 1000000000 : Int) : ℚ) := by
    exact_mod_cast (show (0 : Int) ≤ d % 1000000000 by omega)
  have inner : RelErr 1 0 (f64 (((d % 1000000000 : Int) : ℚ) / 1000000000))
      (((d % 1000000000 : Int) : ℚ) / 1000000000) := by
    refine relErr_f64 (relErr_refl _) (by positivity) ?_
    rcases eq_or_lt_of_le (show (0 : Int) ≤ d % 1000000000 by omega) with e | e
    · left
      rw [← e]
      simp
    · right
      have : (1 : ℚ) ≤ ((d % 1000000000 : Int) : ℚ) := by exact_mod_cast e
      refine le_trans tiny_le ?_
      rw [le_div_iff₀ (by norm_num)]
      linarith
  have qerr : RelErr 1 0 ((d / 1000000000 : Int) : ℚ) ((d / 1000000000 : Int) : ℚ) :=
    relErr_succ (relErr_refl _) hq0
  have hsum := relErr_add qerr inner
  have hD : ((d / 1000000000 : Int) : ℚ) + ((d % 1000000000 : Int) : ℚ) / 1000000000 =
      (d : ℚ) / 1000000000 := by
    have h1 : (d : ℚ) = ((1000000000 * (d / 1000000000) + d % 1000000000 : Int) : ℚ) := by
      rw [Int.ediv_add_emod]
    rw [h1]
    push_cast
    field_simp
    ring
  rw [hD] at hsum
  have hDpos : (1 : ℚ) / 1000000000 ≤ (d : ℚ) / 1000000000 := by
    have : (1 : ℚ) ≤ (d : ℚ) := by exact_mod_cast hdpos
    exact div_le_div_of_nonneg_right this (by norm_num)
  refine relErr_f64 hsum (le_trans (by norm_num) hDpos) (Or.inr ?_)
  have hhalf := relErr_half hsum (le_trans (by norm_num) hDpos) (by norm_num) (by norm_num)
  have := tiny_le
  linarith

/-- The `float64` refill is the exact refill `elapsed * rate / window` up to
five roundings in the numerator and two in the denominator. -/
theorem tokensToAdd_relErr (cfg : Config) {d : Int} (h0 : 0 ≤ d) (hb : d ≤ maxInt64)
    (hR : 0 < cfg.Rate) (hW : 0 < cfg.Window) (hWb : cfg.Window ≤ maxInt64) :
    RelErr 5 2 (F64.tokensToAdd cfg d) ((d : ℚ) * (cfg.Rate : ℚ) / (cfg.Window : ℚ)) := by
  have hmax : maxInt64 = 9223372036854775807 := rfl
  rcases eq_or_lt_of_le h0 with hd0 | hdpos
  · rw [← hd0, tokensToAdd_zero]
    simpa using relErr_of_zero 5 2
  have hdq : (1 : ℚ) ≤ (d : ℚ) := by exact_mod_cast hdpos
  have hRq : (1 : ℚ) ≤ (cfg.Rate : ℚ) := by exact_mod_cast hR
  have hWq : (1 : ℚ) ≤ (cfg.Window : ℚ) := by exact_mod_cast hW
  have hWq2 : (cfg.Window : ℚ) ≤ 9223372036854775807 := by
    have : cfg.Window ≤ 9223372036854775807 := by omega
    exact_mod_cast this
  have hSd := Seconds_f64_relErr h0 hb
  have hSW := Seconds_f64_relErr (le_of_lt hW) hWb
  have hfR := float64_relErr (le_of_lt hR)
  have hx1 : (1 : ℚ) / 1000000000 ≤ (d : ℚ) / 1000000000 * (cfg.Rate : ℚ) := by
    have : (1 : ℚ) / 1000000000 ≤ (d : ℚ) / 1000000000 :=
      div_le_div_of_nonneg_right hdq (by norm_num)
    nlinarith
  have m1 := relErr_mul hSd hfR (by positivity) (by positivity)
  have m2 := relErr_f64 m1 (by positivity) (Or.inr (by
    have hhalf := relErr_half m1 (by positivity) (by norm_num) (by norm_num)
    have := tiny_le
    linarith))
  have m3 := relErr_div m2 hSW (by positivity) (by positivity)
  have hx3 : (1 : ℚ) / 9223372036854775807 ≤
      (d : ℚ) / 1000000000 * (cfg.Rate : ℚ) / ((cfg.Window : ℚ) / 1000000000) := by
    rw [le_div_iff₀ (by positivity)]
    have : (1 : ℚ) / 9223372036854775807 * ((cfg.Window : ℚ) / 1000000000) ≤
        1 / 1000000000 := by
      rw [div_mul_div_comm, one_mul, div_le_div_iff₀ (by norm_num) (by norm_num)]
      linarith
    linarith
  have m4 := relErr_f64 m3 (by positivity) (Or.inr (by
    have hhalf := relErr_half m3 (by positivity) (by norm_num) (by norm_num)
    have := tiny_le
    linarith))
  have hx : (d : ℚ) / 1000000000 * (cfg.Rate : ℚ) / ((cfg.Window : ℚ) / 1000000000) =
      (d : ℚ) * (cfg.Rate : ℚ) / (cfg.Window : ℚ) := by
    field_simp
  rw [hx] at m4
  exact m4

/-- The `float64` leak is the exact leak `elapsed * rate / window` up to five
roundings in the numerator and two in the denominator. -/
theorem tokensLeaked_relErr (cfg : Config) {d : Int} (h0 : 0 ≤ d) (hb : d ≤ maxInt64)
    (hR : 0 < cfg.Rate) (hW : 0 < cfg.Window) (hWb : cfg.Window ≤ maxInt64) :
    RelErr 5 2 (F64.tokensLeaked cfg d) ((d : ℚ) * (cfg.Rate : ℚ) / (cfg.Window : ℚ)) := by
  have hmax : maxInt64 = 9223372036854775807 := rfl
  rcases eq_or_lt_of_le h0 with hd0 | hdpos
  · rw [← hd0, tokensLeaked_zero]
    simpa using relErr_of_zero 5 2
  have hdq : (1 : ℚ) ≤ (d : ℚ) := by exact_mod_cast hdpos
  have hRq : (1 : ℚ) ≤ (cfg.Rate : ℚ) := by exact_mod_cast hR
  have hWq : (1 : ℚ) ≤ (cfg.Window : ℚ) := by exact_mod_cast hW
  have hWq2 : (cfg.Window : ℚ) ≤ 9223372036854775807 := by
    have : cfg.Window ≤ 9223372036854775807 := by omega
    exact_mod_cast this
  have hSd := Seconds_f64_relErr h0 hb
  have hSW := Seconds_f64_relErr (le_of_lt hW) hWb
  have hfR := float64_relErr (le_of_lt hR)
  have m1 := relErr_div hfR hSW (by positivity) (by positivity)
  have hx1 : (1000000000 : ℚ) / 9223372036854775807 ≤
      (cfg.Rate : ℚ) / ((cfg.Window : ℚ) / 1000000000) := by
    rw [le_div_iff₀ (by positivity)]
    have : (1000000000 : ℚ) / 9223372036854775807 * ((cfg.Window : ℚ) / 1000000000) ≤ 1 := by
      rw [div_mul_div_comm, div_le_one (by norm_num)]
      linarith
    linarith
  have m2 := relErr_f64 m1 (by positivity) (Or.inr (by
    have hhalf := relErr_half m1 (by positivity) (by norm_num) (by norm_num)
    have := tiny_le
    linarith))
  have m3 := relErr_mul hSd m2 (by positivity) (by positivity)
  have hx3 : (1 : ℚ) / 9223372036854775807 ≤
      (d : ℚ) / 1000000000 * ((cfg.Rate : ℚ) / ((cfg.Window : ℚ) / 1000000000)) := by
    have : (1 : ℚ) / 1000000000 ≤ (d : ℚ) / 1000000000 :=
      div_le_div_of_nonneg_right hdq (by norm_num)
    have h5 : (0 : ℚ) ≤ (cfg.Rate : ℚ) / ((cfg.Window : ℚ) / 1000000000) := by positivity
    calc (1 : ℚ) / 9223372036854775807
        = 1 / 1000000000 * (1000000000 / 9223372036854775807) := by norm_num
      _ ≤ (d : ℚ) / 1000000000 * ((cfg.Rate : ℚ) / ((cfg.Window : ℚ) / 1000000000)) :=
          mul_le_mul this hx1 (by norm_num) (by positivity)
  have m4 := relErr_f64 m3 (by positivity) (Or.inr (by
    have hhalf := relErr_half m3 (by positivity) (by norm_num) (by norm_num)
    have := tiny_le
    linarith))
  have hx : (d : ℚ) / 1000000000 * ((cfg.Rate : ℚ) / ((cfg.Window : ℚ) / 1000000000)) =
      (d : ℚ) * (cfg.Rate : ℚ) / (cfg.Window : ℚ) := by
    field_simp
    ring
  rw [hx] at m4
  exact m4

/-! ## Token Bucket in binary64: how much is admitted over a period -/

theorem admittedUnits_f64_cons (rl : rateLimiter) (c : Call) (cs : List Call) :
    F64.admittedUnits rl (c :: cs) =
      (if (F64.AllowN rl c.key c.n c.now).1 = true then c.n else 0) +
        F64.admittedUnits (F64.AllowN rl c.key c.n c.now).2 cs := rfl

theorem Time.Sub_le_max (a b : Int) : Time.Sub a b ≤ maxInt64 := by
  have hmax : maxInt64 = 9223372036854775807 := rfl
  have hmin : minInt64 = -9223372036854775808 := rfl
  unfold Time.Sub
  split_ifs <;> omega

/-- The absolute rounding error of a value of magnitude at most `M >= 1`. -/
theorem f64_abs_err (q M : ℚ) (hq : |q| ≤ M) (h1 : 1 ≤ M) :
    |f64 q - q| ≤ M * unitRoundoff := by
  refine le_trans (f64_err q) ?_
  unfold unitRoundoff
  rw [mul_one_div]
  exact div_le_div_of_nonneg_right (max_le hq (le_trans tiny_le_one h1)) (by norm_num)

/-- The `float64` refill of an elapsed time of at most `e` is at most
`e * rate / window * (1 + 2 ^ (-50))`. -/
theorem tokensToAdd_le (cfg : Config) (d e : Int) (h0 : 0 ≤ d) (hb : d ≤ maxInt64)
    (hde : d ≤ e) (hR : 0 < cfg.Rate) (hW : 0 < cfg.Window) (hWb : cfg.Window ≤ maxInt64) :
    F64.tokensToAdd cfg d ≤
      (e : ℚ) * (cfg.Rate : ℚ) / (cfg.Window : ℚ) * (1 + 1 / 1125899906842624) := by
  have hx := rate_share_nonneg d cfg.Rate cfg.Window h0 (le_of_lt hR) hW
  have h1 := (relErr_bound (tokensToAdd_relErr cfg h0 hb hR hW hWb) hx).2
  refine le_trans h1 (mul_le_mul_of_nonneg_right ?_ (by norm_num))
  have h3 : (0 : ℚ) ≤ (cfg.Rate : ℚ) := by exact_mod_cast (le_of_lt hR)
  have h4 : (0 : ℚ) < (cfg.Window : ℚ) := by exact_mod_cast hW
  have h5 : (d : ℚ) ≤ (e : ℚ) := by exact_mod_cast hde
  exact div_le_div_of_nonneg_right (mul_le_mul_of_nonneg_right h5 h3) (le_of_lt h4)

/-- The refreshed `float64` level is at most the stored level plus the refill
of the elapsed time, up to the rounding of the refill and of one addition. -/
theorem tokenLevel_f64_le_refill (cfg : Config) (b : bucketData) (now : Int)
    (hz : b.LastRefill ≠ 0) (hB : 1 ≤ cfg.BurstSize) (hR : 0 < cfg.Rate) (hW : 0 < cfg.Window)
    (hWb : cfg.Window ≤ maxInt64) (htok : 0 ≤ b.Tokens) (hmono : b.LastRefill ≤ now) :
    F64.tokenLevel cfg b now ≤
      b.Tokens + ((now - b.LastRefill : Int) : ℚ) * (cfg.Rate : ℚ) / (cfg.Window : ℚ) *
          (1 + 1 / 1125899906842624) +
        float64 cfg.BurstSize * unitRoundoff := by
  rw [tokenLevel_f64_initialised cfg b now hz]
  have hsub := Time.Sub_le now b.LastRefill hmono
  have hadd := tokensToAdd_le cfg (Time.Sub now b.LastRefill) (now - b.LastRefill) hsub.2
    (Time.Sub_le_max _ _) hsub.1 hR hW hWb
  have hadd0 := tokensToAdd_nonneg cfg hsub.2 (le_of_lt hR) (le_of_lt hW)
  have hBf : 1 ≤ float64 cfg.BurstSize := one_le_float64 hB
  have hu := unitRoundoff_pos
  by_cases hy : float64 cfg.BurstSize ≤
      b.Tokens + F64.tokensToAdd cfg (Time.Sub now b.LastRefill)
  · refine le_trans (min_le_left _ _) ?_
    have : 0 ≤ float64 cfg.BurstSize * unitRoundoff := by positivity
    linarith
  · refine le_trans (min_le_right _ _) ?_
    unfold fadd
    have herr := f64_abs_err (b.Tokens + F64.tokensToAdd cfg (Time.Sub now b.LastRefill))
      (float64 cfg.BurstSize) (by rw [abs_of_nonneg (by linarith)]; linarith) hBf
    rw [abs_le] at herr
    linarith [herr.2]

/-- A difference of two values between 0 and `M >= 1` rounds up by at most
`M * 2 ^ (-53)`. -/
theorem fsub_le (a b M : ℚ) (hb : 0 ≤ b) (hba : b ≤ a) (haM : a ≤ M) (h1 : 1 ≤ M) :
    0 ≤ fsub a b ∧ fsub a b ≤ a - b + M * unitRoundoff := by
  unfold fsub
  refine ⟨f64_nonneg (by linarith), ?_⟩
  have herr := f64_abs_err (a - b) M (by rw [abs_of_nonneg (by linarith)]; linarith) h1
  rw [abs_le] at herr
  linarith [herr.2]

theorem tokenBucket_f64_units_run (E : Int) (cs : List Call) :
    ∀ (rl0 rl : rateLimiter) (key : String) (tokens : ℚ) (s : Int),
    rl0.config.Algorithm = TokenBucket → 1 ≤ rl0.config.BurstSize →
    rl0.config.BurstSize < 9007199254740992 → 0 < rl0.config.Rate →
    0 < rl0.config.Window → rl0.config.Window ≤ maxInt64 →
    Stored rl0 rl key (Bytes.bucketJSON { Tokens := tokens, LastRefill := s }) s →
    0 < s → 0 ≤ tokens →
    (∀ c ∈ cs, c.key = key ∧ 0 ≤ c.n ∧ c.now ≤ E) →
    List.Chain (fun a b => a ≤ b ∧
      (rl0.config.BurstSize ≤ 2 * rl0.config.Rate ∨ b ≤ a + 2 * rl0.config.Window)) s
      (cs.map Call.now) →
    s ≤ E →
    (F64.admittedUnits rl cs : ℚ) ≤
      tokens + ((E - s : Int) : ℚ) * (rl0.config.Rate : ℚ) / (rl0.config.Window : ℚ) *
          (1 + 1 / 1125899906842624) +
        (cs.length : ℚ) * (2 * ((rl0.config.BurstSize : ℚ) * unitRoundoff)) := by
  induction cs with
  | nil =>
    intro rl0 rl key tokens s _ _ _ hR hW _ _ _ h0 _ _ hsE
    have := rate_share_nonneg (E - s) rl0.config.Rate rl0.config.Window (by omega)
      (le_of_lt hR) hW
    show ((0 : Int) : ℚ) ≤ _
    rw [Int.cast_zero]
    simp only [List.length_nil, Nat.cast_zero, zero_mul, add_zero]
    have h2 : (0 : ℚ) ≤ ((E - s : Int) : ℚ) * (rl0.config.Rate : ℚ) / (rl0.config.Window : ℚ) *
        (1 + 1 / 1125899906842624) := mul_nonneg this (by norm_num)
    linarith
  | cons c cs ih =>
    intro rl0 rl key tokens s halg hB hB2 hR hW hW2 hst hs h0 hcs hch hsE
    obtain ⟨hck, hcn, hcE⟩ := hcs c (List.mem_cons_self _ _)
    have hcfg : rl.config = rl0.config := hst.1
    rw [List.map_cons, List.chain_cons] at hch
    obtain ⟨⟨hsc, hgap⟩, hch2⟩ := hch
    rw [admittedUnits_f64_cons, hck]
    have hBf : float64 rl0.config.BurstSize = (rl0.config.BurstSize : ℚ) :=
      float64_of_small _ (by rw [abs_le]; omega)
    have hBq : (1 : ℚ) ≤ (rl0.config.BurstSize : ℚ) := by exact_mod_cast hB
    have hu := unitRoundoff_pos
    have hslack : (0 : ℚ) ≤ (rl0.config.BurstSize : ℚ) * unitRoundoff := by positivity
    -- the level that the call sees is at most the stored level plus the refill
    have hload : ∃ b0, (rl.getBucketData (rl.extractKey key) c.now).1 = Except.ok b0 ∧
        0 ≤ F64.tokenLevel rl0.config b0 c.now ∧
        F64.tokenLevel rl0.config b0 c.now ≤
          tokens + ((c.now - s : Int) : ℚ) * (rl0.config.Rate : ℚ) /
            (rl0.config.Window : ℚ) * (1 + 1 / 1125899906842624) +
            (rl0.config.BurstSize : ℚ) * unitRoundoff := by
      cases hexp : (memoryItem.mk (Bytes.bucketJSON { Tokens := tokens, LastRefill := s })
          (expiryAt rl.config s)).isExpired c.now with
      | true =>
        refine ⟨_, hst.loadBucket_expired c.now hexp, ?_, ?_⟩
        · rw [tokenLevel_f64_fresh]
          exact float64_nonneg (by omega)
        · rw [tokenLevel_f64_fresh, hBf]
          rw [hcfg] at hexp
          have hgt := isExpired_expiryAt_gt _ _ _ _ hW hW2 hexp
          rcases hgap with hgap | hgap
          · have h1 := burst_le_refill rl0.config (c.now - s) (le_of_lt hR) hW hgap (by omega)
            have h2 := rate_share_nonneg (c.now - s) rl0.config.Rate rl0.config.Window
              (by omega) (le_of_lt hR) hW
            have h3 : ((c.now - s : Int) : ℚ) * (rl0.config.Rate : ℚ) /
                (rl0.config.Window : ℚ) ≤
                ((c.now - s : Int) : ℚ) * (rl0.config.Rate : ℚ) / (rl0.config.Window : ℚ) *
                  (1 + 1 / 1125899906842624) :=
              le_mul_of_one_le_right h2 (by norm_num)
            linarith
          · omega
      | false =>
        refine ⟨_, hst.loadBucket c.now hexp, ?_, ?_⟩
        · exact tokenLevel_f64_nonneg _ _ _ (by omega) (le_of_lt hR) (le_of_lt hW) h0 hsc
        · have := tokenLevel_f64_le_refill rl0.config { Tokens := tokens, LastRefill := s }
            c.now (by simpa using (ne_of_gt hs)) hB hR hW hW2 h0 hsc
          rw [hBf] at this
          exact this
    obtain ⟨b0, hl, hlev0, hlev⟩ := hload
    obtain ⟨q1, q2⟩ := AllowN_f64_tokenBucket_stored rl key c.n c.now b0 hst.2.1
      (by rw [hcfg]; exact halg) hst.2.2.1 hl
    rw [hcfg] at q1 q2
    have hlevB := tokenLevel_f64_le_burst rl0.config b0 c.now
    rw [hBf] at hlevB
    have hsplit : ((E - s : Int) : ℚ) * (rl0.config.Rate : ℚ) / (rl0.config.Window : ℚ) *
          (1 + 1 / 1125899906842624) =
        ((c.now - s : Int) : ℚ) * (rl0.config.Rate : ℚ) / (rl0.config.Window : ℚ) *
            (1 + 1 / 1125899906842624) +
          ((E - c.now : Int) : ℚ) * (rl0.config.Rate : ℚ) / (rl0.config.Window : ℚ) *
            (1 + 1 / 1125899906842624) := by
      push_cast
      ring
    have hlen : (((c :: cs).length : Nat) : ℚ) = (cs.length : ℚ) + 1 := by
      rw [List.length_cons]
      push_cast
      ring
    rw [hlen, hsplit]
    by_cases hv : float64 c.n ≤ F64.tokenLevel rl0.config b0 c.now
    · rw [if_pos hv] at q2
      -- an admitted count is at most the burst size, so `float64(n)` is `n`
      have hnB : c.n ≤ rl0.config.BurstSize :=
        (float64_le_int_iff c.n rl0.config.BurstSize (by omega) hB2).1 (le_trans hv hlevB)
      have hfn : float64 c.n = (c.n : ℚ) := float64_of_small _ (by rw [abs_le]; omega)
      rw [hfn] at hv q2
      have hcn0 : (0 : ℚ) ≤ (c.n : ℚ) := by exact_mod_cast hcn
      obtain ⟨hs0, hs1⟩ := fsub_le (F64.tokenLevel rl0.config b0 c.now) (c.n : ℚ)
        (rl0.config.BurstSize : ℚ) hcn0 hv hlevB hBq
      have := ih rl0 _ key _ c.now halg hB hB2 hR hW hW2 (hst.rebase q2) (by omega)
        hs0 (fun d hd => hcs d (List.mem_cons_of_mem _ hd)) hch2 hcE
      rw [q1, hfn, decide_eq_true hv, if_pos rfl]
      push_cast at this hlev ⊢
      linarith
    · rw [if_neg hv] at q2
      have := ih rl0 _ key _ c.now halg hB hB2 hR hW hW2 (hst.rebase q2) (by omega)
        hlev0 (fun d hd => hcs d (List.mem_cons_of_mem _ hd)) hch2 hcE
      rw [q1, decide_eq_false hv]
      simp only [Bool.false_eq_true, if_false, Int.zero_add]
      push_cast at this hlev ⊢
      linarith

/-- C39 (counterexample). Two runs of `AllowN` on a fresh key admit more than
`burstSize + T * rate / window`.  With 1 per second and a burst of 10,
`AllowN("k", 10)` is admitted on the fresh key and again 2 s and 1 ns later,
when the entry has expired and the bucket starts full again: 20 units against
12.000000001.  With 1 per second and a burst of 20000000, `AllowN("k", 1)` and,
999999999 ns later, `AllowN("k", 20000000)` are both admitted, because the
`float64` sum `19999999 + 0.999999999` rounds to 20000000: 20000001 units
against 20000000.999999999. -/
theorem tokenBucket_throughput_f64_counterexample :
    (F64.callVerdicts (limiterOf burstyConfig) twoBursts = [true, true] ∧
      F64.admittedUnits (limiterOf burstyConfig) twoBursts = 20 ∧
      ¬ ((F64.admittedUnits (limiterOf burstyConfig) twoBursts : ℚ) ≤
        (burstyConfig.BurstSize : ℚ) +
          ((2000000001 : Int) : ℚ) * (burstyConfig.Rate : ℚ) / (burstyConfig.Window : ℚ))) ∧
    (F64.callVerdicts (limiterOf wideBurstConfig) roundedBursts = [true, true] ∧
      F64.admittedUnits (limiterOf wideBurstConfig) roundedBursts = 20000001 ∧
      ¬ ((F64.admittedUnits (limiterOf wideBurstConfig) roundedBursts : ℚ) ≤
        (wideBurstConfig.BurstSize : ℚ) +
          ((999999999 : Int) : ℚ) * (wideBurstConfig.Rate : ℚ) /
            (wideBurstConfig.Window : ℚ))) := by
  have h : F64.admittedUnits (limiterOf burstyConfig) twoBursts = 20 := by decide!
  have g : F64.admittedUnits (limiterOf wideBurstConfig) roundedBursts = 20000001 := by
    decide!
  refine ⟨⟨by decide!, h, ?_⟩, by decide!, g, ?_⟩
  · rw [h]
    simp only [burstyConfig]
    norm_num
  · rw [g]
    simp only [wideBurstConfig]
    norm_num

/-- C39 (amended). Token Bucket throughput bound in `float64`: on a limiter
built by `New` with `1 <= burstSize < 2^53`, starting from a fresh key at a time
`t0`, for every sequence of `k` calls `AllowN(key, n)` with `n >= 0` at times in
`[t0, t0 + T]` that never go back, when the burst size is at most twice the
rate or consecutive calls are at most `2 * window` apart (so that no entry
expires between two calls), the total number of units admitted is at most
`burstSize + T * rate / window * (1 + 2^(-50)) + k * burstSize * 2^(-52)`. -/
theorem tokenBucket_throughput_f64 (cfg : Config) (rl : rateLimiter) (key : String)
    (cs : List Call) (t0 T : Int)
    (hnew : New cfg = Except.ok rl) (halg : cfg.Algorithm = TokenBucket)
    (hB : 1 ≤ cfg.BurstSize) (hB2 : cfg.BurstSize < 9007199254740992)
    (hW2 : cfg.Window ≤ maxInt64)
    (hopen : rl.storage.closed = false)
    (hfresh : rl.storage.items.lookup (rl.extractKey key) = none)
    (ht0 : 0 < t0) (hT : 0 ≤ T)
    (hcs : ∀ c ∈ cs, c.key = key ∧ 0 ≤ c.n ∧ c.now ≤ t0 + T)
    (hch : List.Chain (fun a b => a ≤ b ∧
      (cfg.BurstSize ≤ 2 * cfg.Rate ∨ b ≤ a + 2 * cfg.Window)) t0 (cs.map Call.now)) :
    (F64.admittedUnits rl cs : ℚ) ≤
      (cfg.BurstSize : ℚ) +
        (T : ℚ) * (cfg.Rate : ℚ) / (cfg.Window : ℚ) * (1 + 1 / 1125899906842624) +
        (cs.length : ℚ) * (cfg.BurstSize : ℚ) / 4503599627370496 := by
  obtain ⟨hR, hW, hA, hRe, hWe, hBs, hcl, _, _⟩ := New_ok hnew
  have halg1 : rl.config.Algorithm = TokenBucket := hA.trans halg
  have hRq : (0 : ℚ) ≤ (cfg.Rate : ℚ) := by exact_mod_cast (le_of_lt hR)
  have hWq : (0 : ℚ) < (cfg.Window : ℚ) := by exact_mod_cast hW
  have hBq : (1 : ℚ) ≤ (cfg.BurstSize : ℚ) := by exact_mod_cast hB
  have hBf : float64 cfg.BurstSize = (cfg.BurstSize : ℚ) :=
    float64_of_small _ (by rw [abs_le]; omega)
  have hslack : (cs.length : ℚ) * (2 * ((cfg.BurstSize : ℚ) * unitRoundoff)) =
      (cs.length : ℚ) * (cfg.BurstSize : ℚ) / 4503599627370496 := by
    unfold unitRoundoff
    ring
  rw [← hslack]
  cases cs with
  | nil =>
    have := rate_share_nonneg T cfg.Rate cfg.Window hT (le_of_lt hR) hW
    show ((0 : Int) : ℚ) ≤ _
    rw [Int.cast_zero]
    simp only [List.length_nil, Nat.cast_zero, zero_mul, add_zero]
    have h2 : (0 : ℚ) ≤ (T : ℚ) * (cfg.Rate : ℚ) / (cfg.Window : ℚ) *
        (1 + 1 / 1125899906842624) := mul_nonneg this (by norm_num)
    linarith
  | cons c cs =>
    obtain ⟨hck, hcn, hcE⟩ := hcs c (List.mem_cons_self _ _)
    rw [List.map_cons, List.chain_cons] at hch
    obtain ⟨⟨hsc, _⟩, hch2⟩ := hch
    rw [admittedUnits_f64_cons, hck]
    have hl := (getBucketData_of_lookup_none rl (rl.extractKey key) c.now hopen hfresh).1
    obtain ⟨q1, q2⟩ := AllowN_f64_tokenBucket_stored rl key c.n c.now _ hcl halg1 hopen hl
    rw [tokenLevel_f64_fresh, hBs, hBf] at q1 q2
    have hch3 : List.Chain (fun a b => a ≤ b ∧
        (rl.config.BurstSize ≤ 2 * rl.config.Rate ∨ b ≤ a + 2 * rl.config.Window)) c.now
        (cs.map Call.now) := by
      rw [hBs, hRe, hWe]
      exact hch2
    have hmono : ((t0 + T - c.now : Int) : ℚ) * (rl.config.Rate : ℚ) / (rl.config.Window : ℚ) *
          (1 + 1 / 1125899906842624) ≤
        (T : ℚ) * (cfg.Rate : ℚ) / (cfg.Window : ℚ) * (1 + 1 / 1125899906842624) := by
      rw [hRe, hWe]
      have h1 : ((t0 + T - c.now : Int) : ℚ) ≤ (T : ℚ) := by
        have : t0 + T - c.now ≤ T := by omega
        exact_mod_cast this
      exact mul_le_mul_of_nonneg_right
        (div_le_div_of_nonneg_right (mul_le_mul_of_nonneg_right h1 hRq) (le_of_lt hWq))
        (by norm_num)
    have hu := unitRoundoff_pos
    have hsl : (0 : ℚ) ≤ (cfg.BurstSize : ℚ) * unitRoundoff := by positivity
    have hlen : (((c :: cs).length : Nat) : ℚ) = (cs.length : ℚ) + 1 := by
      rw [List.length_cons]
      push_cast
      ring
    rw [hlen]
    by_cases hv : float64 c.n ≤ (cfg.BurstSize : ℚ)
    · rw [if_pos hv] at q2
      have hnB : c.n ≤ cfg.BurstSize :=
        (float64_le_int_iff c.n cfg.BurstSize (by omega) hB2).1 hv
      have hfn : float64 c.n = (c.n : ℚ) := float64_of_small _ (by rw [abs_le]; omega)
      rw [hfn] at hv q2
      have hcn0 : (0 : ℚ) ≤ (c.n : ℚ) := by exact_mod_cast hcn
      obtain ⟨hs0, hs1⟩ := fsub_le (cfg.BurstSize : ℚ) (c.n : ℚ) (cfg.BurstSize : ℚ) hcn0 hv
        (le_refl _) hBq
      have := tokenBucket_f64_units_run (t0 + T) cs rl _ key _ c.now halg1 (by omega)
        (by omega) (by omega) (by omega) (by omega) q2 (by omega) hs0
        (fun d hd => hcs d (List.mem_cons_of_mem _ hd)) hch3 hcE
      rw [hBs] at this
      rw [q1, hfn, decide_eq_true hv, if_pos rfl]
      push_cast at this hmono ⊢
      linarith
    · rw [if_neg hv] at q2
      have := tokenBucket_f64_units_run (t0 + T) cs rl _ key _ c.now halg1 (by omega)
        (by omega) (by omega) (by omega) (by omega) q2 (by omega) (by linarith)
        (fun d hd => hcs d (List.mem_cons_of_mem _ hd)) hch3 hcE
      rw [hBs] at this
      rw [q1, decide_eq_false hv]
      simp only [Bool.false_eq_true, if_false, Int.zero_add]
      push_cast at this hmono ⊢
      linarith

theorem tokenBucket_throughput_f64_witness :
    (F64.admittedUnits (limiterOf tokenBucketConfig) sampleCalls : ℚ) ≤
      (tokenBucketConfig.BurstSize : ℚ) +
        ((400000000 : Int) : ℚ) * (tokenBucketConfig.Rate : ℚ) /
          (tokenBucketConfig.Window : ℚ) * (1 + 1 / 1125899906842624) +
        (sampleCalls.length : ℚ) * (tokenBucketConfig.BurstSize : ℚ) / 4503599627370496 :=
  tokenBucket_throughput_f64 tokenBucketConfig (limiterOf tokenBucketConfig) "test-user"
    sampleCalls 5000000000 400000000 rfl rfl (by decide) (by decide) (by decide) rfl rfl
    (by decide) (by decide) (by simp [sampleCalls])
    (List.Chain.cons ⟨by decide, Or.inl (by decide)⟩
      (List.Chain.cons ⟨by decide, Or.inl (by decide)⟩
        (List.Chain.cons ⟨by decide, Or.inl (by decide)⟩ List.Chain.nil)))

/-! ## Denied calls and the progress of refill and decay, in binary64 -/

theorem callVerdicts_f64_cons (rl : rateLimiter) (c : Call) (cs : List Call) :
    F64.callVerdicts rl (c :: cs) =
      (F64.AllowN rl c.key c.n c.now).1 ::
        F64.callVerdicts (F64.AllowN rl c.key c.n c.now).2 cs := rfl

theorem rate_share_le (d R W : Int) (hd : d ≤ 2 * W) (hR : 0 ≤ R) (hW : 0 < W) :
    (d : ℚ) * (R : ℚ) / (W : ℚ) ≤ 2 * (R : ℚ) := by
  have h1 : (d : ℚ) ≤ 2 * (W : ℚ) := by exact_mod_cast hd
  have h2 : (0 : ℚ) ≤ (R : ℚ) := by exact_mod_cast hR
  have h3 : (0 : ℚ) < (W : ℚ) := by exact_mod_cast hW
  rw [div_le_iff₀ h3]
  nlinarith

/-- Within two windows the `float64` refill is within `16 * rate * 2 ^ (-53)` of
the exact refill. -/
theorem tokensToAdd_near (cfg : Config) (d : Int) (h0 : 0 ≤ d) (hd : d ≤ 2 * cfg.Window)
    (hR : 0 < cfg.Rate) (hW : 0 < cfg.Window) (hW2 : cfg.Window * 2 ≤ maxInt64) :
    |F64.tokensToAdd cfg d - (d : ℚ) * (cfg.Rate : ℚ) / (cfg.Window : ℚ)| ≤
        16 * (cfg.Rate : ℚ) * unitRoundoff ∧
      0 ≤ F64.tokensToAdd cfg d ∧ F64.tokensToAdd cfg d ≤ 3 * (cfg.Rate : ℚ) := by
  have hx := rate_share_nonneg d cfg.Rate cfg.Window h0 (le_of_lt hR) hW
  have hxle := rate_share_le d cfg.Rate cfg.Window hd (le_of_lt hR) hW
  obtain ⟨r1, r2⟩ := relErr_bound
    (tokensToAdd_relErr cfg h0 (by omega) hR hW (by omega)) hx
  have hRq : (0 : ℚ) ≤ (cfg.Rate : ℚ) := by exact_mod_cast (le_of_lt hR)
  unfold unitRoundoff
  refine ⟨?_, ?_, ?_⟩
  · rw [abs_le]
    constructor <;> linarith
  · exact tokensToAdd_nonneg cfg h0 (le_of_lt hR) (le_of_lt hW)
  · linarith

/-- Within two windows the `float64` leak is within `16 * rate * 2 ^ (-53)` of
the exact leak. -/
theorem tokensLeaked_near (cfg : Config) (d : Int) (h0 : 0 ≤ d) (hd : d ≤ 2 * cfg.Window)
    (hR : 0 < cfg.Rate) (hW : 0 < cfg.Window) (hW2 : cfg.Window * 2 ≤ maxInt64) :
    |F64.tokensLeaked cfg d - (d : ℚ) * (cfg.Rate : ℚ) / (cfg.Window : ℚ)| ≤
        16 * (cfg.Rate : ℚ) * unitRoundoff ∧
      0 ≤ F64.tokensLeaked cfg d ∧ F64.tokensLeaked cfg d ≤ 3 * (cfg.Rate : ℚ) := by
  have hx := rate_share_nonneg d cfg.Rate cfg.Window h0 (le_of_lt hR) hW
  have hxle := rate_share_le d cfg.Rate cfg.Window hd (le_of_lt hR) hW
  obtain ⟨r1, r2⟩ := relErr_bound
    (tokensLeaked_relErr cfg h0 (by omega) hR hW (by omega)) hx
  have hRq : (0 : ℚ) ≤ (cfg.Rate : ℚ) := by exact_mod_cast (le_of_lt hR)
  unfold unitRoundoff
  refine ⟨?_, ?_, ?_⟩
  · rw [abs_le]
    constructor <;> linarith
  · exact tokensLeaked_nonneg cfg h0 (le_of_lt hR) (le_of_lt hW)
  · linarith

theorem leakLevel_f64_initialised (cfg : Config) (b : bucketData) (now : Int)
    (hz : b.LastRefill ≠ 0) :
    F64.leakLevel cfg b now =
      max 0 (fsub b.Tokens (F64.tokensLeaked cfg (Time.Sub now b.LastRefill))) := by
  unfold F64.leakLevel Time.IsZero
  rw [if_neg (by simpa using hz)]

/-- The refreshed `float64` level of a bucket updated at most two windows ago,
against the exact refill of a reference level `e`. -/
theorem tokenLevel_f64_near (cfg : Config) (x e : ℚ) (s now : Int) (hs : s ≠ 0)
    (hsn : s ≤ now) (hn : now ≤ s + 2 * cfg.Window) (hR : 0 < cfg.Rate) (hW : 0 < cfg.Window)
    (hW2 : cfg.Window * 2 ≤ maxInt64) (hx0 : 0 ≤ x) (hxB : x ≤ float64 cfg.BurstSize) :
    (0 ≤ F64.tokenLevel cfg { Tokens := x, LastRefill := s } now ∧
      F64.tokenLevel cfg { Tokens := x, LastRefill := s } now ≤ float64 cfg.BurstSize) ∧
    |F64.tokenLevel cfg { Tokens := x, LastRefill := s } now -
        min (float64 cfg.BurstSize)
          (e + ((now - s : Int) : ℚ) * (cfg.Rate : ℚ) / (cfg.Window : ℚ))| ≤
      |x - e| + (float64 cfg.BurstSize + 32 * (cfg.Rate : ℚ)) * unitRoundoff := by
  have hmax : maxInt64 = 9223372036854775807 := rfl
  rw [tokenLevel_f64_initialised cfg _ now hs]
  show (0 ≤ min _ (fadd x (F64.tokensToAdd cfg (Time.Sub now s))) ∧
    min _ (fadd x (F64.tokensToAdd cfg (Time.Sub now s))) ≤ _) ∧
    |min _ (fadd x (F64.tokensToAdd cfg (Time.Sub now s))) - _| ≤ _
  rw [Time.Sub_of_range now s (by omega) (by omega)]
  obtain ⟨ha, ha0, ha3⟩ := tokensToAdd_near cfg (now - s) (by omega) (by omega) hR hW hW2
  have hRq : (1 : ℚ) ≤ (cfg.Rate : ℚ) := by exact_mod_cast hR
  have hu := unitRoundoff_pos
  have herr := f64_abs_err (x + F64.tokensToAdd cfg (now - s))
    (float64 cfg.BurstSize + 3 * (cfg.Rate : ℚ))
    (by rw [abs_of_nonneg (by linarith)]; linarith) (by linarith)
  have hslack : 0 ≤ (float64 cfg.BurstSize + 32 * (cfg.Rate : ℚ)) * unitRoundoff :=
    mul_nonneg (by linarith) (le_of_lt hu)
  refine ⟨⟨le_min (le_trans hx0 hxB) (f64_nonneg (add_nonneg hx0 ha0)), min_le_left _ _⟩, ?_⟩
  refine le_trans (abs_min_sub_min_le_max _ _ _ _) ?_
  rw [sub_self, abs_zero]
  refine max_le (add_nonneg (abs_nonneg _) hslack) ?_
  unfold fadd
  have hsplit : f64 (x + F64.tokensToAdd cfg (now - s)) -
        (e + ((now - s : Int) : ℚ) * (cfg.Rate : ℚ) / (cfg.Window : ℚ)) =
      (f64 (x + F64.tokensToAdd cfg (now - s)) - (x + F64.tokensToAdd cfg (now - s))) +
        (F64.tokensToAdd cfg (now - s) -
          ((now - s : Int) : ℚ) * (cfg.Rate : ℚ) / (cfg.Window : ℚ)) + (x - e) := by ring
  rw [hsplit]
  refine le_trans (abs_add_three _ _ _) ?_
  have hRu : 0 ≤ (cfg.Rate : ℚ) * unitRoundoff := mul_nonneg (by linarith) (le_of_lt hu)
  linarith

/-- The decayed `float64` occupancy of a bucket updated at most two windows
ago, against the exact decay of a reference occupancy `e`. -/
theorem leakLevel_f64_near (cfg : Config) (x e : ℚ) (s now : Int) (hs : s ≠ 0)
    (hsn : s ≤ now) (hn : now ≤ s + 2 * cfg.Window) (hR : 0 < cfg.Rate) (hW : 0 < cfg.Window)
    (hW2 : cfg.Window * 2 ≤ maxInt64) (hx0 : 0 ≤ x) (hxB : x ≤ float64 cfg.BurstSize) :
    (0 ≤ F64.leakLevel cfg { Tokens := x, LastRefill := s } now ∧
      F64.leakLevel cfg { Tokens := x, LastRefill := s } now ≤ float64 cfg.BurstSize) ∧
    |F64.leakLevel cfg { Tokens := x, LastRefill := s } now -
        max 0 (e - ((now - s : Int) : ℚ) * (cfg.Rate : ℚ) / (cfg.Window : ℚ))| ≤
      |x - e| + (float64 cfg.BurstSize + 32 * (cfg.Rate : ℚ)) * unitRoundoff := by
  have hmax : maxInt64 = 9223372036854775807 := rfl
  have hb := leakLevel_f64_bounds cfg { Tokens := x, LastRefill := s } now
    (float64 cfg.BurstSize) (le_of_lt hR) (le_of_lt hW) hx0 hxB (float64_idem _) hsn
  refine ⟨hb, ?_⟩
  rw [leakLevel_f64_initialised cfg _ now hs]
  show |max 0 (fsub x (F64.tokensLeaked cfg (Time.Sub now s))) - _| ≤ _
  rw [Time.Sub_of_range now s (by omega) (by omega)]
  obtain ⟨ha, ha0, ha3⟩ := tokensLeaked_near cfg (now - s) (by omega) (by omega) hR hW hW2
  have hRq : (1 : ℚ) ≤ (cfg.Rate : ℚ) := by exact_mod_cast hR
  have hu := unitRoundoff_pos
  have herr := f64_abs_err (x - F64.tokensLeaked cfg (now - s))
    (float64 cfg.BurstSize + 3 * (cfg.Rate : ℚ))
    (by rw [abs_le]; constructor <;> linarith) (by linarith)
  have hslack : 0 ≤ (float64 cfg.BurstSize + 32 * (cfg.Rate : ℚ)) * unitRoundoff :=
    mul_nonneg (by linarith) (le_of_lt hu)
  refine le_trans (abs_max_sub_max_le_max _ _ _ _) ?_
  rw [sub_self, abs_zero]
  refine max_le (add_nonneg (abs_nonneg _) hslack) ?_
  unfold fsub
  have hsplit : f64 (x - F64.tokensLeaked cfg (now - s)) -
        (e - ((now - s : Int) : ℚ) * (cfg.Rate : ℚ) / (cfg.Window : ℚ)) =
      (f64 (x - F64.tokensLeaked cfg (now - s)) - (x - F64.tokensLeaked cfg (now - s))) +
        (((now - s : Int) : ℚ) * (cfg.Rate : ℚ) / (cfg.Window : ℚ) -
          F64.tokensLeaked cfg (now - s)) + (x - e) := by ring
  rw [hsplit]
  refine le_trans (abs_add_three _ _ _) ?_
  rw [abs_sub_comm (((now - s : Int) : ℚ) * (cfg.Rate : ℚ) / (cfg.Window : ℚ))]
  have hRu : 0 ≤ (cfg.Rate : ℚ) * unitRoundoff := mul_nonneg (by linarith) (le_of_lt hu)
  linarith

theorem tokenBucket_f64_denied_run (t2 : Int) (cs : List Call) :
    ∀ (rl0 rl : rateLimiter) (key : String) (x e : ℚ) (s : Int),
    rl0.config.Algorithm = TokenBucket → 0 < rl0.config.Rate → 0 < rl0.config.Window →
    rl0.config.Window * 2 ≤ maxInt64 →
    Stored rl0 rl key (Bytes.bucketJSON { Tokens := x, LastRefill := s }) s → 0 < s →
    0 ≤ x → x ≤ float64 rl0.config.BurstSize →
    (∀ c ∈ cs, c.key = key ∧ c.now ≤ t2) →
    List.Chain (fun a b => a ≤ b) s (cs.map Call.now) →
    s ≤ t2 → t2 ≤ s + 2 * rl0.config.Window →
    (∀ v ∈ F64.callVerdicts rl cs, v = false) →
    ∃ (x1 : ℚ) (s1 : Int),
      Stored rl0 (F64.runCalls rl cs) key
          (Bytes.bucketJSON { Tokens := x1, LastRefill := s1 }) s1 ∧
        s ≤ s1 ∧ s1 ≤ t2 ∧ 0 ≤ x1 ∧ x1 ≤ float64 rl0.config.BurstSize ∧
        |x1 - min (float64 rl0.config.BurstSize)
            (e + ((s1 - s : Int) : ℚ) * (rl0.config.Rate : ℚ) / (rl0.config.Window : ℚ))| ≤
          |x - e| + (cs.length : ℚ) *
            ((float64 rl0.config.BurstSize + 32 * (rl0.config.Rate : ℚ)) * unitRoundoff) := by
  induction cs with
  | nil =>
    intro rl0 rl key x e s _ _ _ _ hst _ hx0 hxB _ _ hs2 _ _
    refine ⟨x, s, hst, le_refl _, hs2, hx0, hxB, ?_⟩
    simp only [sub_self, Int.cast_zero, zero_mul, zero_div, add_zero, List.length_nil,
      Nat.cast_zero]
    have h1 : x = min (float64 rl0.config.BurstSize) x := (min_eq_right hxB).symm
    nth_rewrite 1 [h1]
    refine le_trans (abs_min_sub_min_le_max _ _ _ _) ?_
    rw [sub_self, abs_zero]
    exact max_le (abs_nonneg _) (le_refl _)
  | cons c cs ih =>
    intro rl0 rl key x e s halg hR hW hW2 hst hs hx0 hxB hcs hch hs2 hexp hden
    obtain ⟨hck, hct⟩ := hcs c (List.mem_cons_self _ _)
    have hcfg : rl.config = rl0.config := hst.1
    rw [List.map_cons, List.chain_cons] at hch
    rw [callVerdicts_f64_cons] at hden
    have hv := hden _ (List.mem_cons_self _ _)
    rw [runCalls_f64_cons, hck]
    rw [hck] at hv hden
    have hlive : (memoryItem.mk (Bytes.bucketJSON { Tokens := x, LastRefill := s })
        (expiryAt rl.config s)).isExpired c.now = false := by
      rw [hcfg]
      exact isExpired_expiryAt_le _ _ _ _ hW (by omega) (by omega)
    have hl := hst.loadBucket c.now hlive
    obtain ⟨q1, q2⟩ := AllowN_f64_tokenBucket_stored rl key c.n c.now _ hst.2.1
      (by rw [hcfg]; exact halg) hst.2.2.1 hl
    rw [q1, decide_eq_false_iff_not] at hv
    rw [if_neg hv, hcfg] at q2
    obtain ⟨⟨n0, n1⟩, n2⟩ := tokenLevel_f64_near rl0.config x e s c.now (by omega) hch.1
      (by omega) hR hW hW2 hx0 hxB
    obtain ⟨x1, s1, r1, r2, r3, r4, r5, r6⟩ := ih rl0 _ key _
      (min (float64 rl0.config.BurstSize)
        (e + ((c.now - s : Int) : ℚ) * (rl0.config.Rate : ℚ) / (rl0.config.Window : ℚ)))
      c.now halg hR hW hW2 (hst.rebase q2) (by omega) n0 n1
      (fun d hd => hcs d (List.mem_cons_of_mem _ hd)) hch.2 hct (by omega)
      (fun v hv1 => hden v (List.mem_cons_of_mem _ hv1))
    refine ⟨x1, s1, r1, by omega, r3, r4, r5, ?_⟩
    have hq := rate_share_nonneg (s1 - c.now) rl0.config.Rate rl0.config.Window (by omega)
      (le_of_lt hR) hW
    rw [min_refill_compose _ _ _ _ hq] at r6
    have hsum : ((c.now - s : Int) : ℚ) * (rl0.config.Rate : ℚ) / (rl0.config.Window : ℚ) +
        ((s1 - c.now : Int) : ℚ) * (rl0.config.Rate : ℚ) / (rl0.config.Window : ℚ) =
        ((s1 - s : Int) : ℚ) * (rl0.config.Rate : ℚ) / (rl0.config.Window : ℚ) := by
      push_cast
      ring
    rw [hsum] at r6
    have hlen : (((c :: cs).length : Nat) : ℚ) = (cs.length : ℚ) + 1 := by
      rw [List.length_cons]
      push_cast
      ring
    rw [hlen]
    linarith

theorem leakyBucket_f64_denied_run (t2 : Int) (cs : List Call) :
    ∀ (rl0 rl : rateLimiter) (key : String) (x e : ℚ) (s : Int),
    rl0.config.Algorithm = LeakyBucket → 0 < rl0.config.Rate → 0 < rl0.config.Window →
    rl0.config.Window * 2 ≤ maxInt64 →
    Stored rl0 rl key (Bytes.bucketJSON { Tokens := x, LastRefill := s }) s → 0 < s →
    0 ≤ x → x ≤ float64 rl0.config.BurstSize →
    (∀ c ∈ cs, c.key = key ∧ c.now ≤ t2) →
    List.Chain (fun a b => a ≤ b) s (cs.map Call.now) →
    s ≤ t2 → t2 ≤ s + 2 * rl0.config.Window →
    (∀ v ∈ F64.callVerdicts rl cs, v = false) →
    ∃ (x1 : ℚ) (s1 : Int),
      Stored rl0 (F64.runCalls rl cs) key
          (Bytes.bucketJSON { Tokens := x1, LastRefill := s1 }) s1 ∧
        s ≤ s1 ∧ s1 ≤ t2 ∧ 0 ≤ x1 ∧ x1 ≤ float64 rl0.config.BurstSize ∧
        |x1 - max 0
            (e - ((s1 - s : Int) : ℚ) * (rl0.config.Rate : ℚ) / (rl0.config.Window : ℚ))| ≤
          |x - e| + (cs.length : ℚ) *
            ((float64 rl0.config.BurstSize + 32 * (rl0.config.Rate : ℚ)) * unitRoundoff) := by
  induction cs with
  | nil =>
    intro rl0 rl key x e s _ _ _ _ hst _ hx0 hxB _ _ hs2 _ _
    refine ⟨x, s, hst, le_refl _, hs2, hx0, hxB, ?_⟩
    simp only [sub_self, Int.cast_zero, zero_mul, zero_div, sub_zero, add_zero,
      List.length_nil, Nat.cast_zero]
    have h1 : x = max 0 x := (max_eq_right hx0).symm
    nth_rewrite 1 [h1]
    refine le_trans (abs_max_sub_max_le_max _ _ _ _) ?_
    rw [sub_self, abs_zero]
    exact max_le (abs_nonneg _) (le_refl _)
  | cons c cs ih =>
    intro rl0 rl key x e s halg hR hW hW2 hst hs hx0 hxB hcs hch hs2 hexp hden
    obtain ⟨hck, hct⟩ := hcs c (List.mem_cons_self _ _)
    have hcfg : rl.config = rl0.config := hst.1
    rw [List.map_cons, List.chain_cons] at hch
    rw [callVerdicts_f64_cons] at hden
    have hv := hden _ (List.mem_cons_self _ _)
    rw [runCalls_f64_cons, hck]
    rw [hck] at hv hden
    have hlive : (memoryItem.mk (Bytes.bucketJSON { Tokens := x, LastRefill := s })
        (expiryAt rl.config s)).isExpired c.now = false := by
      rw [hcfg]
      exact isExpired_expiryAt_le _ _ _ _ hW (by omega) (by omega)
    have hl := hst.loadBucket c.now hlive
    obtain ⟨q1, q2⟩ := AllowN_f64_leakyBucket_stored rl key c.n c.now _ hst.2.1
      (by rw [hcfg]; exact halg) hst.2.2.1 hl
    rw [q1, decide_eq_false_iff_not] at hv
    rw [if_neg hv, hcfg] at q2
    obtain ⟨⟨n0, n1⟩, n2⟩ := leakLevel_f64_near rl0.config x e s c.now (by omega) hch.1
      (by omega) hR hW hW2 hx0 hxB
    obtain ⟨x1, s1, r1, r2, r3, r4, r5, r6⟩ := ih rl0 _ key _
      (max 0
        (e - ((c.now - s : Int) : ℚ) * (rl0.config.Rate : ℚ) / (rl0.config.Window : ℚ)))
      c.now halg hR hW hW2 (hst.rebase q2) (by omega) n0 n1
      (fun d hd => hcs d (List.mem_cons_of_mem _ hd)) hch.2 hct (by omega)
      (fun v hv1 => hden v (List.mem_cons_of_mem _ hv1))
    refine ⟨x1, s1, r1, by omega, r3, r4, r5, ?_⟩
    have hq := rate_share_nonneg (s1 - c.now) rl0.config.Rate rl0.config.Window (by omega)
      (le_of_lt hR) hW
    rw [max_leak_compose _ _ _ hq] at r6
    have hsum : ((c.now - s : Int) : ℚ) * (rl0.config.Rate : ℚ) / (rl0.config.Window : ℚ) +
        ((s1 - c.now : Int) : ℚ) * (rl0.config.Rate : ℚ) / (rl0.config.Window : ℚ) =
        ((s1 - s : Int) : ℚ) * (rl0.config.Rate : ℚ) / (rl0.config.Window : ℚ) := by
      push_cast
      ring
    rw [hsum] at r6
    have hlen : (((c :: cs).length : Nat) : ℚ) = (cs.length : ℚ) + 1 := by
      rw [List.length_cons]
      push_cast
      ring
    rw [hlen]
    linarith

/-- C36 (counterexample). On the drained bucket of `TestTokenBucket` (10 per
minute, emptied at 5 s) `Allow` at 11 s is admitted when it is the next call,
and denied when a denied `Allow` was made at 5.012 s: the `float64` level is
then `0.002 + 0.998 = 0.9999999999999999`. -/
theorem denied_calls_keep_progress_counterexample :
    F64.callVerdicts exhaustedLimiter deniedOnce = [false] ∧
      (F64.AllowN exhaustedLimiter "test-user" 1 11000000000).1 = true ∧
      (F64.AllowN (F64.runCalls exhaustedLimiter deniedOnce) "test-user" 1 11000000000).1 =
        false ∧
      F64.tokenLevel exhaustedLimiter.config { Tokens := 0, LastRefill := 5000000000 }
        11000000000 = 1 ∧
      F64.tokenLevel exhaustedLimiter.config
        { Tokens :=
            F64.tokenLevel exhaustedLimiter.config { Tokens := 0, LastRefill := 5000000000 }
              5012000000,
          LastRefill := 5012000000 } 11000000000 = 1 - 1 / 9007199254740992 := by
  refine ⟨by decide!, by decide!, by decide!, by decide!, by decide!⟩

/-- C36 (amended). Denied calls lose no refill or decay progress beyond the
rounding of `float64`: for Token Bucket and for Leaky Bucket, from a bucket
persisted at a time `s` with a level between 0 and `float64(burstSize)`, when
`t2` is at most `2 * window` after `s` (no TTL expiry) and `k` denied `AllowN`
calls were made on the key at times between `s` and `t2` that never go back, the
level seen by a call at `t2` after them differs from the level seen without
them by at most `(k + 2) * (float64(burstSize) + 32 * rate) * 2^(-53)`, the
level seen without them is within `(float64(burstSize) + 32 * rate) * 2^(-53)`
of `min(B, x + r * (t2 - s))`, respectively `max(0, x - r * (t2 - s))`, with
`r = rate / window`, and the two verdicts agree whenever the comparison that
decides the call is not within that distance of its threshold. -/
theorem denied_calls_keep_progress_f64 (rl0 rl : rateLimiter) (key : String) (b : bucketData)
    (s : Int) (cs : List Call) (n t2 : Int)
    (halg : rl0.config.Algorithm = TokenBucket ∨ rl0.config.Algorithm = LeakyBucket)
    (hR : 0 < rl0.config.Rate) (hW : 0 < rl0.config.Window)
    (hW2 : rl0.config.Window * 2 ≤ maxInt64)
    (hst : Stored rl0 rl key (Bytes.bucketJSON b) s) (hLR : b.LastRefill = s) (hs : 0 < s)
    (htok : 0 ≤ b.Tokens) (htop : b.Tokens ≤ float64 rl0.config.BurstSize)
    (hcs : ∀ c ∈ cs, c.key = key ∧ c.now ≤ t2)
    (hch : List.Chain (fun a b => a ≤ b) s (cs.map Call.now))
    (hs2 : s ≤ t2) (hexp : t2 ≤ s + 2 * rl0.config.Window)
    (hden : ∀ v ∈ F64.callVerdicts rl cs, v = false) :
    ∃ b1 : bucketData,
      ((F64.runCalls rl cs).getBucketData ((F64.runCalls rl cs).extractKey key) t2).1 =
          Except.ok b1 ∧
        (rl.getBucketData (rl.extractKey key) t2).1 = Except.ok b ∧
        (rl0.config.Algorithm = TokenBucket →
          (F64.AllowN (F64.runCalls rl cs) key n t2).1 =
              decide (float64 n ≤ F64.tokenLevel rl0.config b1 t2) ∧
            (F64.AllowN rl key n t2).1 = decide (float64 n ≤ F64.tokenLevel rl0.config b t2) ∧
            |F64.tokenLevel rl0.config b1 t2 - F64.tokenLevel rl0.config b t2| ≤
              ((cs.length : ℚ) + 2) *
                ((float64 rl0.config.BurstSize + 32 * (rl0.config.Rate : ℚ)) * unitRoundoff) ∧
            |F64.tokenLevel rl0.config b t2 -
                min (float64 rl0.config.BurstSize)
                  (b.Tokens + ((t2 - s : Int) : ℚ) * (rl0.config.Rate : ℚ) /
                    (rl0.config.Window : ℚ))| ≤
              (float64 rl0.config.BurstSize + 32 * (rl0.config.Rate : ℚ)) * unitRoundoff ∧
            ((float64 n + ((cs.length : ℚ) + 2) *
                  ((float64 rl0.config.BurstSize + 32 * (rl0.config.Rate : ℚ)) *
                    unitRoundoff) ≤ F64.tokenLevel rl0.config b t2 ∨
                F64.tokenLevel rl0.config b t2 + ((cs.length : ℚ) + 2) *
                  ((float64 rl0.config.BurstSize + 32 * (rl0.config.Rate : ℚ)) *
                    unitRoundoff) < float64 n) →
              (F64.AllowN (F64.runCalls rl cs) key n t2).1 = (F64.AllowN rl key n t2).1)) ∧
        (rl0.config.Algorithm = LeakyBucket →
          (F64.AllowN (F64.runCalls rl cs) key n t2).1 =
              decide (fadd (F64.leakLevel rl0.config b1 t2) (float64 n) ≤
                float64 rl0.config.BurstSize) ∧
            (F64.AllowN rl key n t2).1 =
              decide (fadd (F64.leakLevel rl0.config b t2) (float64 n) ≤
                float64 rl0.config.BurstSize) ∧
            |F64.leakLevel rl0.config b1 t2 - F64.leakLevel rl0.config b t2| ≤
              ((cs.length : ℚ) + 2) *
                ((float64 rl0.config.BurstSize + 32 * (rl0.config.Rate : ℚ)) * unitRoundoff) ∧
            |F64.leakLevel rl0.config b t2 -
                max 0
                  (b.Tokens - ((t2 - s : Int) : ℚ) * (rl0.config.Rate : ℚ) /
                    (rl0.config.Window : ℚ))| ≤
              (float64 rl0.config.BurstSize + 32 * (rl0.config.Rate : ℚ)) * unitRoundoff ∧
            ((fadd (F64.leakLevel rl0.config b t2 + ((cs.length : ℚ) + 2) *
                  ((float64 rl0.config.BurstSize + 32 * (rl0.config.Rate : ℚ)) *
                    unitRoundoff)) (float64 n) ≤ float64 rl0.config.BurstSize ∨
                float64 rl0.config.BurstSize <
                  fadd (F64.leakLevel rl0.config b t2 - ((cs.length : ℚ) + 2) *
                    ((float64 rl0.config.BurstSize + 32 * (rl0.config.Rate : ℚ)) *
                      unitRoundoff)) (float64 n)) →
              (F64.AllowN (F64.runCalls rl cs) key n t2).1 = (F64.AllowN rl key n t2).1)) := by
  have hcfg : rl.config = rl0.config := hst.1
  have hb : b = { Tokens := b.Tokens, LastRefill := s } := by
    cases b
    simp only at hLR
    rw [hLR]
  have hlive : (memoryItem.mk (Bytes.bucketJSON b) (expiryAt rl.config s)).isExpired t2 =
      false := by
    rw [hcfg]
    exact isExpired_expiryAt_le _ _ _ _ hW (by omega) (by omega)
  have hl := hst.loadBucket t2 hlive
  have hu := unitRoundoff_pos
  have hRq : (1 : ℚ) ≤ (rl0.config.Rate : ℚ) := by exact_mod_cast hR
  have hslack : 0 ≤ (float64 rl0.config.BurstSize + 32 * (rl0.config.Rate : ℚ)) *
      unitRoundoff := mul_nonneg (by linarith) (le_of_lt hu)
  have hk : (0 : ℚ) ≤ (cs.length : ℚ) := Nat.cast_nonneg _
  have hK : 0 ≤ ((cs.length : ℚ) + 2) *
      ((float64 rl0.config.BurstSize + 32 * (rl0.config.Rate : ℚ)) * unitRoundoff) :=
    mul_nonneg (by linarith) hslack
  rcases halg with halg | halg
  · rw [hb] at hst
    obtain ⟨x1, s1, r1, r2, r3, r4, r5, r6⟩ := tokenBucket_f64_denied_run t2 cs rl0 rl key
      b.Tokens b.Tokens s halg hR hW hW2 hst hs htok htop hcs hch hs2 hexp hden
    have hlive1 : (memoryItem.mk (Bytes.bucketJSON { Tokens := x1, LastRefill := s1 })
        (expiryAt (F64.runCalls rl cs).config s1)).isExpired t2 = false := by
      rw [r1.1]
      exact isExpired_expiryAt_le _ _ _ _ hW (by omega) (by omega)
    have hl1 := r1.loadBucket t2 hlive1
    have v1 := (AllowN_f64_tokenBucket_stored _ key n t2 _ r1.2.1 (by rw [r1.1]; exact halg)
      r1.2.2.1 hl1).1
    have v0 := (AllowN_f64_tokenBucket_stored rl key n t2 b hst.2.1 (by rw [hcfg]; exact halg)
      hst.2.2.1 hl).1
    rw [r1.1] at v1
    rw [hcfg] at v0
    -- the level after the denied calls, and the level without them
    have e1 := (tokenLevel_f64_near rl0.config x1
      (min (float64 rl0.config.BurstSize)
        (b.Tokens + ((s1 - s : Int) : ℚ) * (rl0.config.Rate : ℚ) / (rl0.config.Window : ℚ)))
      s1 t2 (by omega) r3 (by omega) hR hW hW2 r4 r5).2
    have hq := rate_share_nonneg (t2 - s1) rl0.config.Rate rl0.config.Window (by omega)
      (le_of_lt hR) hW
    rw [min_refill_compose _ _ _ _ hq] at e1
    have hsum : ((s1 - s : Int) : ℚ) * (rl0.config.Rate : ℚ) / (rl0.config.Window : ℚ) +
        ((t2 - s1 : Int) : ℚ) * (rl0.config.Rate : ℚ) / (rl0.config.Window : ℚ) =
        ((t2 - s : Int) : ℚ) * (rl0.config.Rate : ℚ) / (rl0.config.Window : ℚ) := by
      push_cast
      ring
    rw [hsum] at e1
    have e0 := (tokenLevel_f64_near rl0.config b.Tokens b.Tokens s t2 (by omega) hs2 hexp hR hW
      hW2 htok htop).2
    rw [← hb] at e0
    rw [sub_self, abs_zero] at r6 e0
    rw [zero_add] at r6 e0
    have hdiff : |F64.tokenLevel rl0.config { Tokens := x1, LastRefill := s1 } t2 -
        F64.tokenLevel rl0.config b t2| ≤ ((cs.length : ℚ) + 2) *
          ((float64 rl0.config.BurstSize + 32 * (rl0.config.Rate : ℚ)) * unitRoundoff) := by
      have e2 := le_trans e1 (add_le_add_right r6 _)
      rw [abs_le] at e2 e0 ⊢
      constructor <;> linarith [e2.1, e2.2, e0.1, e0.2]
    refine ⟨_, hl1, hl, fun _ => ⟨v1, v0, hdiff, e0, ?_⟩, fun h => ?_⟩
    · intro hm
      rw [v1, v0]
      rw [abs_le] at hdiff
      rcases hm with hm | hm
      · rw [decide_eq_true (by linarith [hdiff.1] :
            float64 n ≤ F64.tokenLevel rl0.config { Tokens := x1, LastRefill := s1 } t2),
          decide_eq_true (by linarith : float64 n ≤ F64.tokenLevel rl0.config b t2)]
      · rw [decide_eq_false (by linarith [hdiff.2] :
            ¬ float64 n ≤ F64.tokenLevel rl0.config { Tokens := x1, LastRefill := s1 } t2),
          decide_eq_false (by linarith : ¬ float64 n ≤ F64.tokenLevel rl0.config b t2)]
    · rw [halg] at h
      exact absurd h (by decide)
  · rw [hb] at hst
    obtain ⟨x1, s1, r1, r2, r3, r4, r5, r6⟩ := leakyBucket_f64_denied_run t2 cs rl0 rl key
      b.Tokens b.Tokens s halg hR hW hW2 hst hs htok htop hcs hch hs2 hexp hden
    have hlive1 : (memoryItem.mk (Bytes.bucketJSON { Tokens := x1, LastRefill := s1 })
        (expiryAt (F64.runCalls rl cs).config s1)).isExpired t2 = false := by
      rw [r1.1]
      exact isExpired_expiryAt_le _ _ _ _ hW (by omega) (by omega)
    have hl1 := r1.loadBucket t2 hlive1
    have v1 := (AllowN_f64_leakyBucket_stored _ key n t2 _ r1.2.1 (by rw [r1.1]; exact halg)
      r1.2.2.1 hl1).1
    have v0 := (AllowN_f64_leakyBucket_stored rl key n t2 b hst.2.1 (by rw [hcfg]; exact halg)
      hst.2.2.1 hl).1
    rw [r1.1] at v1
    rw [hcfg] at v0
    have e1 := (leakLevel_f64_near rl0.config x1
      (max 0
        (b.Tokens - ((s1 - s : Int) : ℚ) * (rl0.config.Rate : ℚ) / (rl0.config.Window : ℚ)))
      s1 t2 (by omega) r3 (by omega) hR hW hW2 r4 r5).2
    have hq := rate_share_nonneg (t2 - s1) rl0.config.Rate rl0.config.Window (by omega)
      (le_of_lt hR) hW
    rw [max_leak_compose _ _ _ hq] at e1
    have hsum : ((s1 - s : Int) : ℚ) * (rl0.config.Rate : ℚ) / (rl0.config.Window : ℚ) +
        ((t2 - s1 : Int) : ℚ) * (rl0.config.Rate : ℚ) / (rl0.config.Window : ℚ) =
        ((t2 - s : Int) : ℚ) * (rl0.config.Rate : ℚ) / (rl0.config.Window : ℚ) := by
      push_cast
      ring
    rw [hsum] at e1
    have e0 := (leakLevel_f64_near rl0.config b.Tokens b.Tokens s t2 (by omega) hs2 hexp hR hW
      hW2 htok htop).2
    rw [← hb] at e0
    rw [sub_self, abs_zero] at r6 e0
    rw [zero_add] at r6 e0
    have hdiff : |F64.leakLevel rl0.config { Tokens := x1, LastRefill := s1 } t2 -
        F64.leakLevel rl0.config b t2| ≤ ((cs.length : ℚ) + 2) *
          ((float64 rl0.config.BurstSize + 32 * (rl0.config.Rate : ℚ)) * unitRoundoff) := by
      have e2 := le_trans e1 (add_le_add_right r6 _)
      rw [abs_le] at e2 e0 ⊢
      constructor <;> linarith [e2.1, e2.2, e0.1, e0.2]
    refine ⟨_, hl1, hl, fun h => ?_, fun _ => ⟨v1, v0, hdiff, e0, ?_⟩⟩
    · rw [halg] at h
      exact absurd h (by decide)
    · intro hm
      rw [v1, v0]
      rw [abs_le] at hdiff
      unfold fadd at hm ⊢
      rcases hm with hm | hm
      · have h1 := f64_mono (show F64.leakLevel rl0.config { Tokens := x1, LastRefill := s1 } t2 +
            float64 n ≤ F64.leakLevel rl0.config b t2 + ((cs.length : ℚ) + 2) *
              ((float64 rl0.config.BurstSize + 32 * (rl0.config.Rate : ℚ)) * unitRoundoff) +
              float64 n by linarith [hdiff.2])
        have h0 := f64_mono (show F64.leakLevel rl0.config b t2 + float64 n ≤
            F64.leakLevel rl0.config b t2 + ((cs.length : ℚ) + 2) *
              ((float64 rl0.config.BurstSize + 32 * (rl0.config.Rate : ℚ)) * unitRoundoff) +
              float64 n by linarith)
        rw [decide_eq_true (le_trans h1 hm), decide_eq_true (le_trans h0 hm)]
      · have h1 := f64_mono (show F64.leakLevel rl0.config b t2 - ((cs.length : ℚ) + 2) *
              ((float64 rl0.config.BurstSize + 32 * (rl0.config.Rate : ℚ)) * unitRoundoff) +
              float64 n ≤
            F64.leakLevel rl0.config { Tokens := x1, LastRefill := s1 } t2 + float64 n by
          linarith [hdiff.1])
        have h0 := f64_mono (show F64.leakLevel rl0.config b t2 - ((cs.length : ℚ) + 2) *
              ((float64 rl0.config.BurstSize + 32 * (rl0.config.Rate : ℚ)) * unitRoundoff) +
              float64 n ≤ F64.leakLevel rl0.config b t2 + float64 n by linarith)
        rw [decide_eq_false (not_le.mpr (lt_of_lt_of_le hm h1)),
          decide_eq_false (not_le.mpr (lt_of_lt_of_le hm h0))]

theorem denied_calls_keep_progress_f64_witness :
    (∀ v ∈ F64.callVerdicts exhaustedLimiter deniedCalls, v = false) ∧
      ∃ b1 : bucketData,
        ((F64.runCalls exhaustedLimiter deniedCalls).getBucketData
            ((F64.runCalls exhaustedLimiter deniedCalls).extractKey "test-user")
            11000000000).1 = Except.ok b1 ∧
          |F64.tokenLevel exhaustedLimiter.config b1 11000000000 -
              F64.tokenLevel exhaustedLimiter.config { Tokens := 0, LastRefill := 5000000000 }
                11000000000| ≤
            ((deniedCalls.length : ℚ) + 2) *
              ((float64 exhaustedLimiter.config.BurstSize +
                32 * (exhaustedLimiter.config.Rate : ℚ)) * unitRoundoff) :=
  ⟨by decide!,
    (denied_calls_keep_progress_f64 exhaustedLimiter exhaustedLimiter "test-user"
      { Tokens := 0, LastRefill := 5000000000 } 5000000000 deniedCalls 1 11000000000
      (Or.inl rfl) (by decide) (by decide) (by decide) ⟨rfl, rfl, rfl, rfl⟩ rfl (by decide)
      (by decide) (by decide!) (by simp [deniedCalls]) (by simp [deniedCalls, Call.now])
      (by decide) (by decide) (by decide!)).imp (fun _ h => ⟨h.1, (h.2.2.1 rfl).2.2.1⟩)⟩

/-! ## binary64: explicit margins for the refill, the leak and the reported wait -/

/-- A `float64` below 1 is at most `1 - 2 ^ (-53)`. -/
theorem one_sub_float_ge (c : ℚ) (hf : f64 c = c) (hc : c < 1) :
    (1 : ℚ) / 9007199254740992 ≤ 1 - c := by
  by_cases hhalf : c < 1 / 2
  · linarith
  · push_neg at hhalf
    have hc0 : c ≠ 0 := by
      intro h
      rw [h] at hhalf
      norm_num at hhalf
    have habs : |c| = c := abs_of_nonneg (by linarith)
    have he : binaryExponent c = -1 := by
      apply binaryExponent_unique
      · rw [habs, pow2_eq]
        norm_num
        linarith
      · rw [habs, pow2_eq]
        norm_num
        exact hc
    have hulp : ulp c = 1 / 9007199254740992 := by
      unfold ulp
      rw [he, pow2_eq]
      norm_num
    have h1 := f64_of_ne c hc0
    rw [hf, hulp] at h1
    generalize roundHalfEven (c / (1 / 9007199254740992)) = n at h1
    have h2 : (n : ℚ) < 9007199254740992 := by
      have : (n : ℚ) = c * 9007199254740992 := by
        rw [h1]
        ring
      rw [this]
      linarith
    have h3 : n < 9007199254740992 := by exact_mod_cast h2
    have h4 : n ≤ 9007199254740991 := by omega
    have h5 : (n : ℚ) ≤ 9007199254740991 := by exact_mod_cast h4
    rw [h1]
    linarith

theorem tiny_le_wide :
    pow2 (-1022) ≤ 1 / 1000000000000000000000000000000000000000000000000000000000000 := by
  refine le_trans (pow2_le_pow2 (show (-1022 : Int) ≤ -200 by norm_num)) ?_
  rw [pow2_eq]
  norm_num

/-- The `float64` leak rate `float64(rate) / window.Seconds()` is the exact
rate per second up to two roundings in the numerator and two in the
denominator. -/
theorem leakRate_relErr (cfg : Config) (hR : 0 < cfg.Rate) (hW : 0 < cfg.Window)
    (hWb : cfg.Window ≤ maxInt64) :
    RelErr 2 2 (fdiv (float64 cfg.Rate) (F64.Seconds cfg.Window))
      ((cfg.Rate : ℚ) / ((cfg.Window : ℚ) / 1000000000)) ∧
    (1000000000 : ℚ) / 9223372036854775807 ≤
      (cfg.Rate : ℚ) / ((cfg.Window : ℚ) / 1000000000) := by
  have hmax : maxInt64 = 9223372036854775807 := rfl
  have hRq : (1 : ℚ) ≤ (cfg.Rate : ℚ) := by exact_mod_cast hR
  have hWq : (1 : ℚ) ≤ (cfg.Window : ℚ) := by exact_mod_cast hW
  have hWq2 : (cfg.Window : ℚ) ≤ 9223372036854775807 := by
    have : cfg.Window ≤ 9223372036854775807 := by omega
    exact_mod_cast this
  have hSW := Seconds_f64_relErr (le_of_lt hW) hWb
  have hfR := float64_relErr (le_of_lt hR)
  have m1 := relErr_div hfR hSW (by positivity) (by positivity)
  have hx1 : (1000000000 : ℚ) / 9223372036854775807 ≤
      (cfg.Rate : ℚ) / ((cfg.Window : ℚ) / 1000000000) := by
    rw [le_div_iff₀ (by positivity)]
    have : (1000000000 : ℚ) / 9223372036854775807 * ((cfg.Window : ℚ) / 1000000000) ≤ 1 := by
      rw [div_mul_div_comm, div_le_one (by norm_num)]
      linarith
    linarith
  refine ⟨?_, hx1⟩
  unfold fdiv
  exact relErr_f64 m1 (by positivity) (Or.inr (by
    have hhalf := relErr_half m1 (by positivity) (by norm_num) (by norm_num)
    have := tiny_le
    linarith))

/-- The wait computed by `checkTokenBucket` for a `float64` level `c` below
1: the exact wait `(1 - c) * window / rate` in nanoseconds up to a
relative error of `2 ^ (-50)`. -/
theorem retryAfter_f64_relErr (cfg : Config) (c : ℚ) (hf : f64 c = c) (hc : c < 1)
    (hR : 0 < cfg.Rate) (hR2 : cfg.Rate ≤ maxInt64) (hW : 0 < cfg.Window)
    (hWb : cfg.Window ≤ maxInt64) :
    RelErr 5 2
      (fmul (fdiv (fsub 1 c) (fdiv (float64 cfg.Rate) (F64.Seconds cfg.Window))) 1000000000)
      ((1 - c) * (cfg.Window : ℚ) / (cfg.Rate : ℚ)) := by
  have hmax : maxInt64 = 9223372036854775807 := rfl
  have hRq : (1 : ℚ) ≤ (cfg.Rate : ℚ) := by exact_mod_cast hR
  have hRq2 : (cfg.Rate : ℚ) ≤ 9223372036854775807 := by
    have : cfg.Rate ≤ 9223372036854775807 := by omega
    exact_mod_cast this
  have hWq : (1 : ℚ) ≤ (cfg.Window : ℚ) := by exact_mod_cast hW
  have hgap := one_sub_float_ge c hf hc
  obtain ⟨hlr, hlrx⟩ := leakRate_relErr cfg hR hW hWb
  have a1 : RelErr 1 0 (fsub 1 c) (1 - c) := by
    unfold fsub
    exact relErr_f64 (relErr_refl _) (by linarith) (Or.inr (by
      have := tiny_le
      linarith))
  have hlrpos : (0 : ℚ) < (cfg.Rate : ℚ) / ((cfg.Window : ℚ) / 1000000000) := by positivity
  have hlrle : (cfg.Rate : ℚ) / ((cfg.Window : ℚ) / 1000000000) ≤
      9223372036854775807 * 1000000000 := by
    rw [div_le_iff₀ (by positivity)]
    have : (1 : ℚ) / 1000000000 ≤ (cfg.Window : ℚ) / 1000000000 :=
      div_le_div_of_nonneg_right hWq (by norm_num)
    nlinarith
  have a2 := relErr_div a1 hlr (by linarith) hlrpos
  have hx2 : (1 : ℚ) / 9007199254740992 / (9223372036854775807 * 1000000000) ≤
      (1 - c) / ((cfg.Rate : ℚ) / ((cfg.Window : ℚ) / 1000000000)) :=
    div_le_div₀ (by linarith) hgap hlrpos hlrle
  have a3 : RelErr 4 2 (fdiv (fsub 1 c) (fdiv (float64 cfg.Rate) (F64.Seconds cfg.Window)))
      ((1 - c) / ((cfg.Rate : ℚ) / ((cfg.Window : ℚ) / 1000000000))) := by
    unfold fdiv at a2 ⊢
    exact relErr_f64 a2 (le_trans (by norm_num) hx2) (Or.inr (by
      have hhalf := relErr_half a2 (le_trans (by norm_num) hx2) (by norm_num) (by norm_num)
      have := tiny_le_wide
      have h3 : (1 : ℚ) / 1000000000000000000000000000000000000000000000000000000000000 ≤
          1 / 9007199254740992 / (9223372036854775807 * 1000000000) / 2 := by norm_num
      linarith))
  have a4 := relErr_mul a3 (relErr_refl (1000000000 : ℚ)) (le_trans (by norm_num) hx2)
    (by norm_num)
  have hx4 : (1 : ℚ) / 9007199254740992 / (9223372036854775807 * 1000000000) ≤
      (1 - c) / ((cfg.Rate : ℚ) / ((cfg.Window : ℚ) / 1000000000)) * 1000000000 := by
    have h0 : (0 : ℚ) ≤ (1 - c) / ((cfg.Rate : ℚ) / ((cfg.Window : ℚ) / 1000000000)) :=
      le_trans (by norm_num) hx2
    nlinarith
  have a5 : RelErr 5 2
      (fmul (fdiv (fsub 1 c) (fdiv (float64 cfg.Rate) (F64.Seconds cfg.Window))) 1000000000)
      ((1 - c) / ((cfg.Rate : ℚ) / ((cfg.Window : ℚ) / 1000000000)) * 1000000000) := by
    unfold fmul
    exact relErr_f64 a4 (le_trans (by norm_num) hx4) (Or.inr (by
      have hhalf := relErr_half a4 (le_trans (by norm_num) hx4) (by norm_num) (by norm_num)
      have := tiny_le_wide
      have h3 : (1 : ℚ) / 1000000000000000000000000000000000000000000000000000000000000 ≤
          1 / 9007199254740992 / (9223372036854775807 * 1000000000) / 2 := by norm_num
      linarith))
  have hx : (1 - c) / ((cfg.Rate : ℚ) / ((cfg.Window : ℚ) / 1000000000)) * 1000000000 =
      (1 - c) * (cfg.Window : ℚ) / (cfg.Rate : ℚ) := by
    field_simp
    ring
  rw [hx] at a5
  exact a5

/-- C8 (amended). Refill monotonicity: on an open Token Bucket limiter with
`burstSize >= 1`, `rate > 0` and `0 < window <= MaxInt64` whose refreshed level
for the key at `t1` is not negative, if `Allow(key)` is denied at `t1` then,
with no call in between, `Allow(key)` at `t1 + d` (`0 <= d <= MaxInt64`) is
admitted whenever the refill that the code computes in `float64` for the
elapsed time, `timePassed * float64(rate) / window.Seconds()`, is at least 1;
that is the case whenever `d * rate / window >= 1 + 2^(-49)`, and whenever
`d >= window`. -/
theorem tokenBucket_refill_f64 (rl : rateLimiter) (key : String) (t1 d : Int) (b : bucketData)
    (hcl : rl.closed = false) (halg : rl.config.Algorithm = TokenBucket)
    (hopen : rl.storage.closed = false) (hB : 1 ≤ rl.config.BurstSize)
    (hR : 0 < rl.config.Rate) (hW : 0 < rl.config.Window)
    (hW2 : rl.config.Window ≤ maxInt64) (hd0 : 0 ≤ d) (hd2 : d ≤ maxInt64)
    (hload : (rl.getBucketData (rl.extractKey key) t1).1 = Except.ok b)
    (hlevel : 0 ≤ F64.tokenLevel rl.config b t1)
    (hdenied : (F64.Allow rl key t1).1 = false) :
    (1 ≤ F64.tokensToAdd rl.config d →
        (F64.Allow (F64.Allow rl key t1).2 key (t1 + d)).1 = true) ∧
      ((1 + 1 / 562949953421312 : ℚ) ≤
          (d : ℚ) * (rl.config.Rate : ℚ) / (rl.config.Window : ℚ) →
        (F64.Allow (F64.Allow rl key t1).2 key (t1 + d)).1 = true) ∧
      (rl.config.Window ≤ d →
        (F64.Allow (F64.Allow rl key t1).2 key (t1 + d)).1 = true) := by
  have hsub : Time.Sub (t1 + d) t1 = d := by
    rw [Time.Sub_of_range _ _ (by omega) (by omega)]
    omega
  have key1 : 1 ≤ F64.tokensToAdd rl.config d →
      (F64.Allow (F64.Allow rl key t1).2 key (t1 + d)).1 = true := fun h =>
    tokenBucket_refill_of_computed rl key t1 d b hcl halg hopen hB hload hlevel hdenied
      (by rw [hsub]; exact h)
  refine ⟨key1, fun h => key1 ?_, fun h => key1 ?_⟩
  · have hx := rate_share_nonneg d rl.config.Rate rl.config.Window hd0 (le_of_lt hR) hW
    have := (relErr_bound (tokensToAdd_relErr rl.config hd0 hd2 hR hW hW2) hx).1
    linarith
  · exact tokensToAdd_ge_one rl.config d hR hW h hd2

theorem tokenBucket_refill_f64_witness :
    (F64.Allow (F64.Allow exhaustedLimiter "test-user" 5000000000).2 "test-user"
        (5000000000 + 6000000000)).1 = true ∧
      (F64.Allow (F64.Allow exhaustedLimiter "test-user" 5000000000).2 "test-user"
        (5000000000 + 7000000000)).1 = true :=
  ⟨(tokenBucket_refill_f64 exhaustedLimiter "test-user" 5000000000 6000000000
      { Tokens := 0, LastRefill := 5000000000 } rfl rfl rfl (by decide) (by decide) (by decide)
      (by decide) (by decide) (by decide) rfl (by decide!) (by decide!)).1 (by decide!),
    (tokenBucket_refill_f64 exhaustedLimiter "test-user" 5000000000 7000000000
      { Tokens := 0, LastRefill := 5000000000 } rfl rfl rfl (by decide) (by decide) (by decide)
      (by decide) (by decide) (by decide) rfl (by decide!) (by decide!)).2.1 (by decide!)⟩

/-- C7 (amended). Leaky Bucket saturation: on a limiter built by `New` with
`1 <= burstSize < 2 ^ 53`, for a key with no stored state and calls all made
at the instant `now` (after the zero time), the first `burstSize` calls
`Allow(key)` are admitted and the next one is denied; after that, with no call
in between, a call at `now + d` is admitted if and only if the entry has
expired (`d > 2 * window`, for a window of at most `MaxInt64 / 2` ns) or the
occupancy recomputed in `float64`,
`max(0, burstSize - timePassed * (float64(rate) / window.Seconds()))`, plus 1 is
at most `burstSize` in `float64`.  It is admitted whenever the `float64` leak
is at least 1, and so whenever `d * rate / window >= 1 + 2^(-49)`; and before
the entry expires it is admitted only if
`d * rate / window >= 1 - (2 * burstSize + 9) * 2^(-53)`. -/
theorem leakyBucket_saturation_f64 (cfg : Config) (rl : rateLimiter) (key : String)
    (now d : Int)
    (hnew : New cfg = Except.ok rl) (halg : cfg.Algorithm = LeakyBucket)
    (hB : 1 ≤ cfg.BurstSize) (hB2 : cfg.BurstSize < 9007199254740992)
    (hW2 : cfg.Window * 2 ≤ maxInt64)
    (hopen : rl.storage.closed = false)
    (hfresh : rl.storage.items.lookup (rl.extractKey key) = none) (hnow : 0 < now) :
    (F64.allowAt rl key (List.replicate (cfg.BurstSize.toNat + 1) now)).1 =
        List.replicate cfg.BurstSize.toNat true ++ [false] ∧
      ((F64.Allow (F64.allowAt rl key (List.replicate (cfg.BurstSize.toNat + 1) now)).2 key
          (now + d)).1 = true ↔
        2 * cfg.Window < d ∨
          fadd (max 0 (fsub (cfg.BurstSize : ℚ)
            (F64.tokensLeaked cfg (Time.Sub (now + d) now)))) 1 ≤ (cfg.BurstSize : ℚ)) ∧
      (1 ≤ F64.tokensLeaked cfg (Time.Sub (now + d) now) →
        (F64.Allow (F64.allowAt rl key (List.replicate (cfg.BurstSize.toNat + 1) now)).2 key
          (now + d)).1 = true) ∧
      ((1 + 1 / 562949953421312 : ℚ) ≤ (d : ℚ) * (cfg.Rate : ℚ) / (cfg.Window : ℚ) →
        (F64.Allow (F64.allowAt rl key (List.replicate (cfg.BurstSize.toNat + 1) now)).2 key
          (now + d)).1 = true) ∧
      (0 ≤ d → d ≤ 2 * cfg.Window →
        (F64.Allow (F64.allowAt rl key (List.replicate (cfg.BurstSize.toNat + 1) now)).2 key
          (now + d)).1 = true →
        1 - (2 * (cfg.BurstSize : ℚ) + 9) / 9007199254740992 ≤
          (d : ℚ) * (cfg.Rate : ℚ) / (cfg.Window : ℚ)) := by
  obtain ⟨hR, hW, _⟩ := New_ok hnew
  obtain ⟨h1, h2, h3⟩ := leakyBucket_saturation_computed cfg rl key now d hnew halg hB hB2 hW2
    hopen hfresh hnow
  have hmax : maxInt64 = 9223372036854775807 := rfl
  have hRq : (1 : ℚ) ≤ (cfg.Rate : ℚ) := by exact_mod_cast hR
  have hWq : (0 : ℚ) < (cfg.Window : ℚ) := by exact_mod_cast hW
  have hBq : (1 : ℚ) ≤ (cfg.BurstSize : ℚ) := by exact_mod_cast hB
  refine ⟨h1, h2, h3, ?_, ?_⟩
  · intro hx
    by_cases hexp : 2 * cfg.Window < d
    · exact h2.mpr (Or.inl hexp)
    · have hd0 : 0 ≤ d := by
        by_contra hneg
        have hdq : (d : ℚ) ≤ 0 := by
          have : d ≤ 0 := by omega
          exact_mod_cast this
        have : (d : ℚ) * (cfg.Rate : ℚ) / (cfg.Window : ℚ) ≤ 0 :=
          div_nonpos_of_nonpos_of_nonneg (mul_nonpos_of_nonpos_of_nonneg hdq (by linarith))
            (le_of_lt hWq)
        linarith
      have hsub : Time.Sub (now + d) now = d := by
        rw [Time.Sub_of_range _ _ (by omega) (by omega)]
        omega
      apply h3
      rw [hsub]
      have hx0 := rate_share_nonneg d cfg.Rate cfg.Window hd0 (le_of_lt hR) hW
      have := (relErr_bound (tokensLeaked_relErr cfg hd0 (by omega) hR hW (by omega)) hx0).1
      linarith
  · intro hd0 hd2 hv
    have hsub : Time.Sub (now + d) now = d := by
      rw [Time.Sub_of_range _ _ (by omega) (by omega)]
      omega
    rcases h2.mp hv with hexp | htest
    · omega
    rw [hsub] at htest
    have hx0 := rate_share_nonneg d cfg.Rate cfg.Window hd0 (le_of_lt hR) hW
    have hle := (relErr_bound (tokensLeaked_relErr cfg hd0 (by omega) hR hW (by omega)) hx0).2
    have hl0 := tokensLeaked_nonneg cfg hd0 (le_of_lt hR) (le_of_lt hW)
    by_cases hone : 1 ≤ F64.tokensLeaked cfg d
    · linarith
    · push_neg at hone
      have hBf : f64 (cfg.BurstSize : ℚ) = (cfg.BurstSize : ℚ) :=
        f64_int _ (by rw [abs_le]; omega)
      have e1 := f64_abs_err ((cfg.BurstSize : ℚ) - F64.tokensLeaked cfg d)
        (cfg.BurstSize : ℚ) (by rw [abs_of_nonneg (by linarith)]; linarith) hBq
      rw [abs_le] at e1
      have hlow : fsub (cfg.BurstSize : ℚ) (F64.tokensLeaked cfg d) ≤
          max 0 (fsub (cfg.BurstSize : ℚ) (F64.tokensLeaked cfg d)) := le_max_right _ _
      have hup : max 0 (fsub (cfg.BurstSize : ℚ) (F64.tokensLeaked cfg d)) ≤
          (cfg.BurstSize : ℚ) := by
        refine max_le (by linarith) ?_
        unfold fsub
        have := f64_mono (show (cfg.BurstSize : ℚ) - F64.tokensLeaked cfg d ≤
          (cfg.BurstSize : ℚ) by linarith)
        rwa [hBf] at this
      have hlv0 : 0 ≤ max 0 (fsub (cfg.BurstSize : ℚ) (F64.tokensLeaked cfg d)) :=
        le_max_left _ _
      have e2 := f64_abs_err (max 0 (fsub (cfg.BurstSize : ℚ) (F64.tokensLeaked cfg d)) + 1)
        ((cfg.BurstSize : ℚ) + 1) (by rw [abs_of_nonneg (by linarith)]; linarith)
        (by linarith)
      rw [abs_le] at e2
      unfold fadd at htest
      unfold unitRoundoff at e1 e2
      have e3 : -((cfg.BurstSize : ℚ) * (1 / 9007199254740992)) ≤
          fsub (cfg.BurstSize : ℚ) (F64.tokensLeaked cfg d) -
            ((cfg.BurstSize : ℚ) - F64.tokensLeaked cfg d) := e1.1
      have := e2.1
      linarith

theorem leakyBucket_saturation_f64_witness :
    (F64.allowAt (limiterOf leakyBucketConfig) "test-user"
        (List.replicate (5 + 1) 5000000000)).1 = List.replicate 5 true ++ [false] ∧
      (F64.Allow (F64.allowAt (limiterOf leakyBucketConfig) "test-user"
          (List.replicate (5 + 1) 5000000000)).2 "test-user"
          (5000000000 + 100000000)).1 = true :=
  ⟨(leakyBucket_saturation_f64 leakyBucketConfig (limiterOf leakyBucketConfig) "test-user"
      5000000000 100000000 rfl rfl (by decide) (by decide) (by decide) rfl rfl (by decide)).1,
    (leakyBucket_saturation_f64 leakyBucketConfig (limiterOf leakyBucketConfig) "test-user"
      5000000000 100000000 rfl rfl (by decide) (by decide) (by decide) rfl rfl
      (by decide)).2.2.1 (by decide!)⟩

/-- C17 (amended). Token Bucket retryAfter: on an open limiter, whenever the
refreshed level `c = min(float64(burstSize), tokens + timePassed *
float64(rate) / window.Seconds())` of the loaded bucket, computed in `float64`,
is below 1, `Check` returns `Allowed = false`, `Remaining = floor(c)` (when
that is an `int64`) and `RetryAfter` equal to the `float64` value of
`(1 - c) / (float64(rate) / window.Seconds()) * 1e9`, truncated to whole
nanoseconds.  When moreover `c >= 0` and the window is at most `MaxInt64 / 2`
ns, `Remaining` is 0 and `RetryAfter` lies between
`(1 - c) * window / rate * (1 - 2^(-50)) - 1` and
`(1 - c) * window / rate * (1 + 2^(-50))` nanoseconds.  With 10 per minute and
a burst of 5, at one instant, calls 1 to 5 are admitted, call 6 is denied, and
`Check` after the fifth call reports `Remaining = 0` and `RetryAfter = 6 s`. -/
theorem tokenBucket_retryAfter_f64 (rl : rateLimiter) (key : String) (now : Int)
    (b : bucketData)
    (hcl : rl.closed = false) (halg : rl.config.Algorithm = TokenBucket)
    (hload : (rl.getBucketData (rl.extractKey key) now).1 = Except.ok b)
    (hc : min (float64 rl.config.BurstSize)
        (fadd b.Tokens (F64.tokensToAdd rl.config (Time.Sub now b.LastRefill))) < 1) :
    ((F64.Check rl key now).1.Allowed = false ∧
      (F64.Check rl key now).1.Remaining =
        toInt64 ((⌊min (float64 rl.config.BurstSize)
          (fadd b.Tokens (F64.tokensToAdd rl.config (Time.Sub now b.LastRefill)))⌋ : Int) : ℚ) ∧
      (minInt64 ≤ ⌊min (float64 rl.config.BurstSize)
          (fadd b.Tokens (F64.tokensToAdd rl.config (Time.Sub now b.LastRefill)))⌋ →
        (F64.Check rl key now).1.Remaining =
          ⌊min (float64 rl.config.BurstSize)
            (fadd b.Tokens (F64.tokensToAdd rl.config (Time.Sub now b.LastRefill)))⌋) ∧
      (F64.Check rl key now).1.RetryAfter =
        toInt64
          (fmul
            (fdiv
              (fsub 1 (min (float64 rl.config.BurstSize)
                (fadd b.Tokens (F64.tokensToAdd rl.config (Time.Sub now b.LastRefill)))))
              (fdiv (float64 rl.config.Rate) (F64.Seconds rl.config.Window)))
            1000000000)) ∧
      (0 ≤ min (float64 rl.config.BurstSize)
          (fadd b.Tokens (F64.tokensToAdd rl.config (Time.Sub now b.LastRefill))) →
        0 < rl.config.Rate → rl.config.Rate ≤ maxInt64 → 0 < rl.config.Window →
        rl.config.Window * 2 ≤ maxInt64 →
        (F64.Check rl key now).1.Remaining = 0 ∧
          (1 - min (float64 rl.config.BurstSize)
              (fadd b.Tokens (F64.tokensToAdd rl.config (Time.Sub now b.LastRefill)))) *
              (rl.config.Window : ℚ) / (rl.config.Rate : ℚ) * (1 - 1 / 1125899906842624) - 1 <
            ((F64.Check rl key now).1.RetryAfter : ℚ) ∧
          ((F64.Check rl key now).1.RetryAfter : ℚ) ≤
            (1 - min (float64 rl.config.BurstSize)
              (fadd b.Tokens (F64.tokensToAdd rl.config (Time.Sub now b.LastRefill)))) *
              (rl.config.Window : ℚ) / (rl.config.Rate : ℚ) * (1 + 1 / 1125899906842624)) ∧
      ((F64.allowAt (limiterOf tokenBucketConfig) "k" (List.replicate 6 clock2026)).1 =
          [true, true, true, true, true, false] ∧
        (F64.Check (F64.allowAt (limiterOf tokenBucketConfig) "k"
          (List.replicate 5 clock2026)).2 "k" clock2026).1.Remaining = 0 ∧
        (F64.Check (F64.allowAt (limiterOf tokenBucketConfig) "k"
          (List.replicate 5 clock2026)).2 "k" clock2026).1.RetryAfter = 6000000000) := by
  obtain ⟨hA, hE⟩ := tokenBucket_retryAfter_computed rl key now b hcl halg hload hc
  refine ⟨hA, ?_, hE⟩
  intro hc0 hR hR2 hW hW2
  have hmax : maxInt64 = 9223372036854775807 := rfl
  have hmin : minInt64 = -9223372036854775808 := rfl
  obtain ⟨_, _, hrem, hretry⟩ := hA
  generalize hcdef : min (float64 rl.config.BurstSize)
    (fadd b.Tokens (F64.tokensToAdd rl.config (Time.Sub now b.LastRefill))) = c
    at hc hc0 hrem hretry ⊢
  have hfc : f64 c = c := by
    rw [← hcdef]
    rcases min_choice (float64 rl.config.BurstSize)
        (fadd b.Tokens (F64.tokensToAdd rl.config (Time.Sub now b.LastRefill))) with h | h
    · rw [h]
      exact float64_idem _
    · rw [h]
      exact fadd_idem _ _
  have hfloor : ⌊c⌋ = 0 := Int.floor_eq_zero_iff.mpr ⟨hc0, hc⟩
  have hRq : (1 : ℚ) ≤ (rl.config.Rate : ℚ) := by exact_mod_cast hR
  have hWq : (1 : ℚ) ≤ (rl.config.Window : ℚ) := by exact_mod_cast hW
  have hWq2 : (rl.config.Window : ℚ) * 2 ≤ 9223372036854775807 := by
    have : rl.config.Window * 2 ≤ 9223372036854775807 := by omega
    exact_mod_cast this
  have hx0 : 0 ≤ (1 - c) * (rl.config.Window : ℚ) / (rl.config.Rate : ℚ) :=
    div_nonneg (mul_nonneg (by linarith) (by linarith)) (by linarith)
  have hxW : (1 - c) * (rl.config.Window : ℚ) / (rl.config.Rate : ℚ) ≤
      (rl.config.Window : ℚ) := by
    rw [div_le_iff₀ (by linarith)]
    nlinarith
  obtain ⟨r1, r2⟩ := relErr_bound
    (retryAfter_f64_relErr rl.config c hfc hc hR hR2 hW (by omega)) hx0
  generalize fmul (fdiv (fsub 1 c) (fdiv (float64 rl.config.Rate)
    (F64.Seconds rl.config.Window))) 1000000000 = a at hretry r1 r2
  have ha0 : 0 ≤ a := by
    have h5 : 0 ≤ (1 - c) * (rl.config.Window : ℚ) / (rl.config.Rate : ℚ) *
        (1 - 1 / 1125899906842624) := mul_nonneg hx0 (by norm_num)
    linarith
  have ht : truncDuration a = ⌊a⌋ := by
    unfold truncDuration
    rw [if_pos ha0]
  have hfl0 : 0 ≤ ⌊a⌋ := Int.floor_nonneg.mpr ha0
  have hfle : (⌊a⌋ : ℚ) ≤ a := Int.floor_le a
  have hflt : a - 1 < (⌊a⌋ : ℚ) := Int.sub_one_lt_floor a
  have hfmax : ⌊a⌋ ≤ 9223372036854775807 := by
    have : (⌊a⌋ : ℚ) ≤ ((9223372036854775807 : Int) : ℚ) := by
      push_cast
      linarith
    exact_mod_cast this
  have hto : toInt64 a = ⌊a⌋ := by
    unfold toInt64
    rw [ht, if_pos ⟨by omega, by omega⟩]
  rw [hretry, hto]
  refine ⟨?_, by linarith, by linarith⟩
  rw [hrem (by rw [hfloor]; omega), hfloor]

theorem tokenBucket_retryAfter_f64_witness :
    (F64.Check exhaustedLimiter "test-user" 5000000000).1.Allowed = false ∧
      (F64.Check exhaustedLimiter "test-user" 5000000000).1.RetryAfter =
        toInt64
          (fmul
            (fdiv
              (fsub 1 (min (float64 exhaustedLimiter.config.BurstSize)
                (fadd 0 (F64.tokensToAdd exhaustedLimiter.config
                  (Time.Sub 5000000000 5000000000)))))
              (fdiv (float64 exhaustedLimiter.config.Rate)
                (F64.Seconds exhaustedLimiter.config.Window)))
            1000000000) :=
  ⟨(tokenBucket_retryAfter_f64 exhaustedLimiter "test-user" 5000000000
      { Tokens := 0, LastRefill := 5000000000 } rfl rfl rfl (by decide!)).1.1,
    (tokenBucket_retryAfter_f64 exhaustedLimiter "test-user" 5000000000
      { Tokens := 0, LastRefill := 5000000000 } rfl rfl rfl (by decide!)).1.2.2.2⟩

/-- A sum that reaches `float64(burstSize) * (1 + 2^(-52))` rounds to more than
`float64(burstSize)`. -/
theorem fadd_gt_of_margin (B y : ℚ) (hB : 1 ≤ B) (hy : B * (1 + 1 / 4503599627370496) ≤ y) :
    B < f64 y := by
  have hpos : pow2 (-1022) ≤ B * (1 + 1 / 4503599627370496) := by
    have := tiny_le_one
    nlinarith
  have h1 := (f64_rel _ hpos).1
  have h2 := f64_mono hy
  unfold unitRoundoff at h1
  nlinarith

/-- C12 (amended). Leaky Bucket level invariant: on a limiter built by `New`
with `burstSize >= 0`, starting from a key with no stored state, after any
sequence of `AllowN(key, n)` calls with `n >= 0` made at non-decreasing times
the persisted occupancy satisfies `0 <= tokens <= float64(burstSize)`, which is
`burstSize` when `burstSize <= 2 ^ 53`; and a further such call at a time `t`
is admitted exactly when the `float64` sum of the decayed occupancy and `n` is
at most `float64(burstSize)`: a call whose `float64` sum exceeds it is denied,
and so is, for `burstSize >= 1`, every call for which the decayed occupancy
plus `float64(n)` reaches `float64(burstSize) * (1 + 2^(-52))`. -/
theorem leakyBucket_level_invariant_f64 (cfg : Config) (rl : rateLimiter) (key : String)
    (cs : List Call) (n t : Int)
    (hnew : New cfg = Except.ok rl) (halg : cfg.Algorithm = LeakyBucket)
    (hB : 0 ≤ cfg.BurstSize) (hopen : rl.storage.closed = false)
    (hfresh : rl.storage.items.lookup (rl.extractKey key) = none)
    (hcs : ∀ c ∈ cs, c.key = key ∧ 0 ≤ c.n)
    (hsorted : cs.Pairwise (fun a b => a.now ≤ b.now))
    (hn : 0 ≤ n) (ht : ∀ c ∈ cs, c.now ≤ t) :
    ((cs = [] ∧ storedBucket (F64.runCalls rl cs) (rl.extractKey key) = none) ∨
      ∃ b, storedBucket (F64.runCalls rl cs) (rl.extractKey key) = some b ∧
        0 ≤ b.Tokens ∧ b.Tokens ≤ float64 cfg.BurstSize ∧
        (cfg.BurstSize ≤ 9007199254740992 → b.Tokens ≤ (cfg.BurstSize : ℚ))) ∧
      ∃ b0, ((F64.runCalls rl cs).getBucketData (rl.extractKey key) t).1 = Except.ok b0 ∧
        0 ≤ F64.leakLevel cfg b0 t ∧ F64.leakLevel cfg b0 t ≤ float64 cfg.BurstSize ∧
        ((F64.AllowN (F64.runCalls rl cs) key n t).1 = true ↔
          fadd (F64.leakLevel cfg b0 t) (float64 n) ≤ float64 cfg.BurstSize) ∧
        (1 ≤ cfg.BurstSize →
          float64 cfg.BurstSize * (1 + 1 / 4503599627370496) ≤
            F64.leakLevel cfg b0 t + float64 n →
          (F64.AllowN (F64.runCalls rl cs) key n t).1 = false) := by
  obtain ⟨hinv, b0, hl, h0, hle, hiff⟩ := leakyBucket_level_invariant_computed cfg rl key cs n t
    hnew halg hB hopen hfresh hcs hsorted hn ht
  refine ⟨hinv, b0, hl, h0, hle, hiff, ?_⟩
  intro hB1 hy
  have hgt := fadd_gt_of_margin (float64 cfg.BurstSize)
    (F64.leakLevel cfg b0 t + float64 n) (one_le_float64 hB1) hy
  cases hv : (F64.AllowN (F64.runCalls rl cs) key n t).1 with
  | false => rfl
  | true =>
    have := hiff.mp hv
    unfold fadd at this
    linarith

theorem leakyBucket_level_invariant_f64_witness :
    ((sampleCalls = [] ∧
        storedBucket (F64.runCalls (limiterOf leakyBucketConfig) sampleCalls)
          ((limiterOf leakyBucketConfig).extractKey "test-user") = none) ∨
      ∃ b, storedBucket (F64.runCalls (limiterOf leakyBucketConfig) sampleCalls)
          ((limiterOf leakyBucketConfig).extractKey "test-user") = some b ∧
        0 ≤ b.Tokens ∧ b.Tokens ≤ float64 leakyBucketConfig.BurstSize ∧
        (leakyBucketConfig.BurstSize ≤ 9007199254740992 →
          b.Tokens ≤ (leakyBucketConfig.BurstSize : ℚ))) ∧
      ∃ b0, ((F64.runCalls (limiterOf leakyBucketConfig) sampleCalls).getBucketData
          ((limiterOf leakyBucketConfig).extractKey "test-user") 5600000000).1 = Except.ok b0 ∧
        0 ≤ F64.leakLevel leakyBucketConfig b0 5600000000 ∧
        F64.leakLevel leakyBucketConfig b0 5600000000 ≤ float64 leakyBucketConfig.BurstSize ∧
        ((F64.AllowN (F64.runCalls (limiterOf leakyBucketConfig) sampleCalls) "test-user" 2
            5600000000).1 = true ↔
          fadd (F64.leakLevel leakyBucketConfig b0 5600000000) (float64 2) ≤
            float64 leakyBucketConfig.BurstSize) ∧
        (1 ≤ leakyBucketConfig.BurstSize →
          float64 leakyBucketConfig.BurstSize * (1 + 1 / 4503599627370496) ≤
            F64.leakLevel leakyBucketConfig b0 5600000000 + float64 2 →
          (F64.AllowN (F64.runCalls (limiterOf leakyBucketConfig) sampleCalls) "test-user" 2
            5600000000).1 = false) :=
  leakyBucket_level_invariant_f64 leakyBucketConfig (limiterOf leakyBucketConfig) "test-user"
    sampleCalls 2 5600000000 rfl rfl (by decide) rfl rfl (by decide) (by decide) (by decide)
    (by decide)

/-- C10 (amended). Token Bucket `AllowN` is all-or-nothing in `float64`.  On an
open limiter whose bucket for the key is initialised, `AllowN(key, n)` returns
true exactly when the refreshed level
`min(float64(burstSize), tokens + timePassed * float64(rate) / window.Seconds())`,
computed in `float64`, is at least `float64(n)`; the level persisted is the
refreshed level less `float64(n)`, rounded to `float64`, on true, and the
refreshed level itself on false.  For a bucket updated at most `2 * window`
ago with a level between 0 and `float64(burstSize)`, and `|n| <= 2^53`, the
call is admitted when `n` is at most
`min(float64(burstSize), tokens + elapsed * rate / window)` less
`(float64(burstSize) + 32 * rate) * 2^(-53)`, and denied when `n` exceeds it by
more than that.  From a fresh bucket with `burstSize < 2 ^ 53` and no time
elapsing, after an admitted `AllowN(a)` a call `AllowN(m)` is admitted exactly
when `m <= burstSize - a`, and a denied `AllowN(m)` does not change the verdict
of a later call. -/
theorem tokenBucket_allowN_f64
    (rlA : rateLimiter) (keyA : String) (n nowA : Int) (b : bucketData)
    (hclA : rlA.closed = false) (halgA : rlA.config.Algorithm = TokenBucket)
    (hopenA : rlA.storage.closed = false)
    (hload : (rlA.getBucketData (rlA.extractKey keyA) nowA).1 = Except.ok b)
    (hinit : b.LastRefill ≠ 0)
    (cfg : Config) (rl : rateLimiter) (key : String) (a m m1 now : Int)
    (hnew : New cfg = Except.ok rl) (halg : cfg.Algorithm = TokenBucket)
    (hsmall : cfg.BurstSize < 9007199254740992)
    (hopen : rl.storage.closed = false)
    (hfresh : rl.storage.items.lookup (rl.extractKey key) = none) (hnow : now ≠ 0)
    (ha : 0 ≤ a) (hadm : (F64.AllowN rl key a now).1 = true) :
    ((F64.AllowN rlA keyA n nowA).1 = true ↔
        float64 n ≤ min (float64 rlA.config.BurstSize)
          (fadd b.Tokens (F64.tokensToAdd rlA.config (Time.Sub nowA b.LastRefill)))) ∧
      storedBucket (F64.AllowN rlA keyA n nowA).2 (rlA.extractKey keyA) =
        some
          { Tokens :=
              if float64 n ≤ min (float64 rlA.config.BurstSize)
                  (fadd b.Tokens
                    (F64.tokensToAdd rlA.config (Time.Sub nowA b.LastRefill))) then
                fsub
                  (min (float64 rlA.config.BurstSize)
                    (fadd b.Tokens
                      (F64.tokensToAdd rlA.config (Time.Sub nowA b.LastRefill))))
                  (float64 n)
              else
                min (float64 rlA.config.BurstSize)
                  (fadd b.Tokens (F64.tokensToAdd rlA.config (Time.Sub nowA b.LastRefill))),
            LastRefill := nowA } ∧
      ((F64.AllowN (F64.AllowN rl key a now).2 key m now).1 = true ↔
        m ≤ cfg.BurstSize - a) ∧
      ((F64.AllowN (F64.AllowN rl key a now).2 key m now).1 = false →
        (F64.AllowN (F64.AllowN (F64.AllowN rl key a now).2 key m now).2 key m1 now).1 =
          (F64.AllowN (F64.AllowN rl key a now).2 key m1 now).1) ∧
      (b.LastRefill ≤ nowA → nowA ≤ b.LastRefill + 2 * rlA.config.Window →
        0 < rlA.config.Rate → 0 < rlA.config.Window → rlA.config.Window * 2 ≤ maxInt64 →
        0 ≤ b.Tokens → b.Tokens ≤ float64 rlA.config.BurstSize →
        |n| ≤ 9007199254740992 →
        ((n : ℚ) + (float64 rlA.config.BurstSize + 32 * (rlA.config.Rate : ℚ)) /
              9007199254740992 ≤
            min (float64 rlA.config.BurstSize)
              (b.Tokens + ((nowA - b.LastRefill : Int) : ℚ) * (rlA.config.Rate : ℚ) /
                (rlA.config.Window : ℚ)) →
          (F64.AllowN rlA keyA n nowA).1 = true) ∧
        (min (float64 rlA.config.BurstSize)
              (b.Tokens + ((nowA - b.LastRefill : Int) : ℚ) * (rlA.config.Rate : ℚ) /
                (rlA.config.Window : ℚ)) +
              (float64 rlA.config.BurstSize + 32 * (rlA.config.Rate : ℚ)) /
                9007199254740992 < (n : ℚ) →
          (F64.AllowN rlA keyA n nowA).1 = false)) := by
  obtain ⟨h1, h2, h3, h4⟩ := tokenBucket_allowN_computed rlA keyA n nowA b hclA halgA hopenA
    hload hinit cfg rl key a m m1 now hnew halg hsmall hopen hfresh hnow ha hadm
  refine ⟨h1, h2, h3, h4, ?_⟩
  intro hmono hlive hR hW hW2 htok htop hn
  have hfn : float64 n = (n : ℚ) := float64_of_small n hn
  have hnear := (tokenLevel_f64_near rlA.config b.Tokens b.Tokens b.LastRefill nowA hinit hmono
    hlive hR hW hW2 htok htop).2
  rw [sub_self, abs_zero, zero_add, tokenLevel_f64_initialised _ _ _ hinit] at hnear
  unfold unitRoundoff at hnear
  rw [abs_le] at hnear
  rw [hfn] at h1
  constructor
  · intro hle
    apply h1.mpr
    linarith [hnear.1]
  · intro hlt
    cases hv : (F64.AllowN rlA keyA n nowA).1 with
    | false => rfl
    | true =>
      have := h1.mp hv
      linarith [hnear.2]

theorem tokenBucket_allowN_f64_witness :
    ((F64.AllowN exhaustedLimiter "test-user" 1 8000000000).1 = true ↔
        float64 1 ≤ min (float64 exhaustedLimiter.config.BurstSize)
          (fadd 0 (F64.tokensToAdd exhaustedLimiter.config
            (Time.Sub 8000000000 5000000000)))) ∧
      ((F64.AllowN (F64.AllowN (limiterOf tokenBucketConfig) "allowN-test" 3 5000000000).2
          "allowN-test" 5 5000000000).1 = true ↔ (5 : Int) ≤ tokenBucketConfig.BurstSize - 3) :=
  ⟨(tokenBucket_allowN_f64 exhaustedLimiter "test-user" 1 8000000000
      { Tokens := 0, LastRefill := 5000000000 } rfl rfl rfl rfl (by decide)
      tokenBucketConfig (limiterOf tokenBucketConfig) "allowN-test" 3 5 2 5000000000
      rfl rfl (by decide) rfl rfl (by decide) (by decide) (by decide!)).1,
    (tokenBucket_allowN_f64 exhaustedLimiter "test-user" 1 8000000000
      { Tokens := 0, LastRefill := 5000000000 } rfl rfl rfl rfl (by decide)
      tokenBucketConfig (limiterOf tokenBucketConfig) "allowN-test" 3 5 2 5000000000
      rfl rfl (by decide) rfl rfl (by decide) (by decide) (by decide!)).2.2.1⟩

end RateLimiter
